import Mathlib

/-! # OS/161 thread and process core: registry, sleep/wakeup, fork, exit, wait

A shallow embedding of `kern/thread/thread.c`, `kern/userprog/sys_process.c` and
`kern/thread/synch.c`.

Conventions of the embedding.

* A pointer to a `struct thread` (and any sleep address) is an `Addr`; the thread
  structures live in `Kernel.mem`, so that a change made through one pointer is seen
  through every list that holds the same pointer.  `NULL` is `none`.
* The C arrays `thread_array`, `sleepers`, `zombies` and the scheduler's run queue are
  lists of pointers; `array_add` appends, `array_remove` erases an index.
* `int` and `pid_t` are `Int`.  The pid counter is incremented as the processor does
  it: `nextpid++` wraps from `2^31 - 1` to `-2^31` (`wrap32`).  The counter `numthreads`
  of the threads that can run stays far below that, and `numthreads++` and
  `numthreads--` are plain integer arithmetic; the unsigned program counter `tf_epc`
  wraps modulo `2^32`.
* `panic`, a failing `assert` and a `NULL` dereference are the `none` / `panic` results.
* Results of allocations that the source checks are inputs (the oracles); allocations
  whose result the source never inspects are taken on their non-failing path, and the
  interrupt priority level (`splhigh`/`splx`, `curspl`) is not represented.  A kernel
  stack is a flag (allocated or not); its guard bytes are not represented.
* Memory that has been freed keeps its contents until it is handed out again.
* A call that blocks is cut at the context switch: the part up to `md_switch` is one
  function, the part that runs after the thread is switched back in is another.
* `Reachable` are the states the thread system gets into from `thread_bootstrap` in the
  runs of `Step`, in which an address stands for one thread for good (a new thread
  structure is taken at an address that is neither in the registry nor among the
  zombies) and the pid counter has not wrapped; what holds in all of them is proved once
  (`Reachable.inv`, `Reachable.counted`, `Reachable.buried`, `Reachable.steps`) and used
  by the theorems about the calls.  `CallReachable` are those of them in which the
  callers of `thread_sleep` and of the wakeups are those of the source (`Call`).
  `ExecReachable` are the states of all runs, also those in which the block of a freed
  thread structure is handed out again or the pid counter wraps (`Exec`).
-/

namespace OS161

/-- An address: of a thread structure, of a synchronisation object, of user memory. -/
abbrev Addr := Nat

/-- The record `struct exitted_thread` a child leaves in its parent's `child_exit_codes`. -/
structure exitted_thread where
  pid : Int
  exitcode : Int
deriving DecidableEq, Repr

/-- The MIPS trap frame (37 words).  The registers the sources name are fields; the
remaining 31 words are kept together in `tf_others`. -/
structure trapframe where
  tf_v0 : Nat
  tf_a0 : Nat
  tf_a1 : Nat
  tf_a2 : Nat
  tf_a3 : Nat
  tf_epc : Nat
  tf_others : List Nat
deriving DecidableEq, Repr

/-- The functions a new thread can be started in (`func` of `thread_fork`). -/
inductive entry_func where
  | md_forkentry
  | other (id : Nat)
deriving DecidableEq, Repr

/-- What `md_initpcb` records in a new thread's `t_pcb`: the start function and its
two arguments. -/
structure pcb where
  data1 : Addr
  data2 : Addr
  func : entry_func
deriving DecidableEq, Repr

/-- The fields of `struct thread` used by the sources. -/
structure thread where
  pid : Int
  ppid : Int
  t_sleepaddr : Option Addr
  t_stack : Bool
  t_vmspace : Option Addr
  t_cwd : Option Addr
  child_exit_codes : Option (List exitted_thread)
  t_pcb : Option pcb
deriving DecidableEq, Repr

/-- States a thread can be in (`threadstate_t`). -/
inductive threadstate_t where
  | S_RUN
  | S_READY
  | S_SLEEP
  | S_ZOMB
deriving DecidableEq, Repr

/-- The global state of the thread system: the heap of thread structures, the globals
of `thread.c`, the scheduler's run queue, the kernel-heap trap frames made by
`sys_fork`, and the user memory `copyout` writes to. -/
structure Kernel where
  mem : Addr → thread
  thread_array : List Addr
  sleepers : List Addr
  zombies : List Addr
  runqueue : List Addr
  curthread : Option Addr
  numthreads : Int
  nextpid : Int
  tfmem : Addr → trapframe
  usermem : Addr → Int

/-- Constants of headers that are not among the sources (`MAX_THREADS`, the `errno`
values) and the verdict of the user-memory collaborator: `copyout_err dst` is the
error `copyout` reports for destination `dst`, `0` when the copy succeeds. -/
structure Extern where
  MAX_THREADS : Int
  EINVAL : Int
  ENOMEM : Int
  EAGAIN : Int
  copyout_err : Addr → Int

/-- Outcome of a system call that may block. -/
inductive SysRet where
  | ret (s : Kernel) (retval : Int) (err : Option Int)
  | blocked (s : Kernel)
  | panic

/-- The state a system call leaves behind, when it does not panic. -/
def SysRet.state : SysRet → Option Kernel
  | .ret s _ _ => some s
  | .blocked s => some s
  | .panic => none

/-- The value a system call returns, when it returns. -/
def SysRet.retval : SysRet → Option Int
  | .ret _ r _ => some r
  | _ => none

/-- The error a system call stores through `err`, when it stores one. -/
def SysRet.err : SysRet → Option Int
  | .ret _ _ e => e
  | _ => none

/-- Store through a thread pointer: `a->field = ...`. -/
def Kernel.setThread (s : Kernel) (a : Addr) (t : thread) : Kernel :=
  { s with mem := Function.update s.mem a t }

/-- The value of an `int` computed by the processor: it wraps into the range
`-2^31 .. 2^31 - 1`. -/
def wrap32 (x : Int) : Int := (x + 2 ^ 31) % 2 ^ 32 - 2 ^ 31

/-! ## Thread registry -/

/-- The counter `numthreads`, `thread_count()`. -/
def thread_count (s : Kernel) : Int := s.numthreads

/-- The loop of `get_thread_from_array` over the entries from some index on. -/
def get_thread_loop (mem : Addr → thread) (pid : Int) : List Addr → Option Addr
  | [] => none
  | t :: rest => if (mem t).pid = pid then some t else get_thread_loop mem pid rest

/-- The first registered thread with the given pid, `get_thread_from_array`. -/
def get_thread_from_array (s : Kernel) (pid : Int) : Option Addr :=
  get_thread_loop s.mem pid s.thread_array

/-- Registration, `add_thread_to_array`: `prealloc_ok` is whether `array_preallocate`
succeeded; the result is the C return value (`0` or `-1`). -/
def add_thread_to_array (s : Kernel) (t : Addr) (prealloc_ok : Bool) : Kernel × Int :=
  if prealloc_ok then ({ s with thread_array := s.thread_array ++ [t] }, 0) else (s, -1)

/-- The loop of `remove_thread_from_array`: the list without its first entry whose pid
matches, or `none` when there is none. -/
def remove_thread_loop (mem : Addr → thread) (pid : Int) : List Addr → Option (List Addr)
  | [] => none
  | t :: rest =>
    if (mem t).pid = pid then some rest
    else (remove_thread_loop mem pid rest).map (fun r => t :: r)

/-- Unregistration, `remove_thread_from_array`, with the C return value. -/
def remove_thread_from_array (s : Kernel) (pid : Int) : Kernel × Int :=
  match remove_thread_loop s.mem pid s.thread_array with
  | some l => ({ s with thread_array := l }, 0)
  | none => (s, -1)

/-! ## Scheduler interface and context switch -/

/-- Modelled from the spec: `make_runnable` of `scheduler.c`, which is not among the
sources ("FIFO over the ready queue is the reference policy"): the thread is added at
the tail of the run queue. -/
def make_runnable (s : Kernel) (t : Addr) : Kernel :=
  { s with runqueue := s.runqueue ++ [t] }

/-- Modelled from the spec: `scheduler()` of `scheduler.c`, which is not among the
sources: the head of the run queue is the next thread; with an empty queue the
processor idles and no thread is current. -/
def scheduler (s : Kernel) : Option Addr × Kernel :=
  match s.runqueue with
  | [] => (none, s)
  | next :: rest => (some next, { s with runqueue := rest })

/-- The first half of `mi_switch`, up to `md_switch`: the running thread is stashed on
the list of its next state and the scheduler's choice becomes `curthread`.  With no
current thread the call returns at once; `none` is the failing
`assert(nextstate==S_ZOMB)`. -/
def mi_switch (s : Kernel) (nextstate : threadstate_t) : Option Kernel :=
  match s.curthread with
  | none => some s
  | some cur =>
    let s1 := { s with curthread := none }
    let stashed : Option Kernel :=
      match nextstate with
      | .S_READY => some (make_runnable s1 cur)
      | .S_SLEEP => some { s1 with sleepers := s1.sleepers ++ [cur] }
      | .S_ZOMB => some { s1 with zombies := s1.zombies ++ [cur] }
      | .S_RUN => none
    stashed.map (fun s2 => { (scheduler s2).2 with curthread := (scheduler s2).1 })

/-- The assertions `thread_destroy` makes about one zombie. -/
def destroy_ok (s : Kernel) (z : Addr) : Bool :=
  decide (some z ≠ s.curthread) && (s.mem z).t_vmspace.isNone && (s.mem z).t_cwd.isNone

/-- Zombie reclamation, `exorcise`: every zombie is destroyed and the list emptied;
`none` when an assertion of `exorcise` or `thread_destroy` fails. -/
def exorcise (s : Kernel) : Option Kernel :=
  if s.zombies.all (destroy_ok s) then some { s with zombies := [] } else none

/-- The second half of `mi_switch`: what a thread does when it is switched back in. -/
def mi_switch_return (s : Kernel) : Option Kernel := exorcise s

/-- The first half of `thread_sleep(addr)`: record the sleep address and switch away. -/
def thread_sleep (s : Kernel) (addr : Addr) : Option Kernel :=
  match s.curthread with
  | none => none
  | some cur =>
    mi_switch (s.setThread cur { s.mem cur with t_sleepaddr := some addr }) .S_SLEEP

/-- The second half of `thread_sleep`: back from the switch, the sleep address is
cleared. -/
def thread_sleep_return (s : Kernel) : Option Kernel :=
  match mi_switch_return s with
  | none => none
  | some s1 =>
    match s1.curthread with
    | none => none
    | some cur => some (s1.setThread cur { s1.mem cur with t_sleepaddr := none })

/-- Yield the processor and stay runnable, `thread_yield` (first half). -/
def thread_yield (s : Kernel) : Option Kernel := mi_switch s .S_READY

/-- The loop of `thread_wakeup`: the sleepers that stay and those that are woken, both
in their original order. -/
def wakeup_loop (mem : Addr → thread) (addr : Addr) : List Addr → List Addr × List Addr
  | [] => ([], [])
  | t :: rest =>
    let r := wakeup_loop mem addr rest
    if (mem t).t_sleepaddr = some addr then (r.1, t :: r.2) else (t :: r.1, r.2)

/-- Wake every thread sleeping on `addr`, `thread_wakeup`. -/
def thread_wakeup (s : Kernel) (addr : Addr) : Kernel :=
  let r := wakeup_loop s.mem addr s.sleepers
  { s with sleepers := r.1, runqueue := s.runqueue ++ r.2 }

/-- The loop of `thread_single_wakeup`: the first sleeper on `addr` and the list
without it. -/
def single_wakeup_loop (mem : Addr → thread) (addr : Addr) :
    List Addr → Option (Addr × List Addr)
  | [] => none
  | t :: rest =>
    if (mem t).t_sleepaddr = some addr then some (t, rest)
    else (single_wakeup_loop mem addr rest).map (fun r => (r.1, t :: r.2))

/-- Wake strictly one thread sleeping on `addr`, `thread_single_wakeup`. -/
def thread_single_wakeup (s : Kernel) (addr : Addr) : Kernel :=
  match single_wakeup_loop s.mem addr s.sleepers with
  | none => s
  | some (t, rest) => make_runnable { s with sleepers := rest } t

/-- Whether some thread sleeps on `addr`, `thread_hassleepers`. -/
def thread_hassleepers (s : Kernel) (addr : Addr) : Bool :=
  s.sleepers.any (fun t => decide ((s.mem t).t_sleepaddr = some addr))

/-! ## Thread creation -/

/-- Results of the allocations `thread_create` and `thread_fork` check, and the
address `kmalloc` returns for the new thread structure. -/
structure fork_oracle where
  newguy : Addr
  thread_ok : Bool
  name_ok : Bool
  codes_ok : Bool
  stack_ok : Bool
  array_ok : Bool
  sleepers_err : Int
  zombies_err : Int
  scheduler_err : Int
  runnable_err : Int

/-- Allocate and initialise a thread structure, `thread_create`.  The result is the new
state and the pointer returned (`none` for `NULL`); the outer `none` is a `NULL`
dereference of `curthread`.  `nextpid++` is the processor's increment of a 32-bit
`pid_t`: after the largest value it wraps to the smallest. -/
def thread_create (s : Kernel) (name : String) (o : fork_oracle) :
    Option (Kernel × Option Addr) :=
  if !o.thread_ok then some (s, none)
  else if !o.name_ok then some (s, none)
  else
    let ppid? : Option Int :=
      if name ≠ "<boot/menu>" then s.curthread.map (fun c => (s.mem c).pid) else some (-1)
    match ppid? with
    | none => none
    | some ppid =>
      let t : thread :=
        { pid := s.nextpid, ppid := ppid, t_sleepaddr := none, t_stack := false,
          t_vmspace := none, t_cwd := none,
          child_exit_codes := if o.codes_ok then some [] else none,
          t_pcb := (s.mem o.newguy).t_pcb }
      let s1 := { s.setThread o.newguy t with nextpid := wrap32 (s.nextpid + 1) }
      if o.codes_ok then some (s1, some o.newguy) else some (s1, none)

/-- The section of `thread_fork` that runs with interrupts off (from `splhigh` to
`splx`, the label `fail` included): registration, the three preallocations,
`make_runnable` and the increment of `numthreads`.  The result is the state, the C
return value and the pointer stored through `ret` (`none` when nothing is stored). -/
def thread_fork_atomic (s : Kernel) (newguy : Addr) (o : fork_oracle) :
    Kernel × Int × Option Addr :=
  let r := add_thread_to_array s newguy o.array_ok
  if r.2 ≠ 0 then (s, r.2, none)
  else
    let s3 := r.1
    if o.sleepers_err ≠ 0 then
      ((remove_thread_from_array s3 (s3.mem newguy).pid).1, o.sleepers_err, none)
    else if o.zombies_err ≠ 0 then
      ((remove_thread_from_array s3 (s3.mem newguy).pid).1, o.zombies_err, none)
    else if o.scheduler_err ≠ 0 then
      ((remove_thread_from_array s3 (s3.mem newguy).pid).1, o.scheduler_err, none)
    else if o.runnable_err ≠ 0 then
      ((remove_thread_from_array s3 (s3.mem newguy).pid).1, o.runnable_err, none)
    else
      let s4 := make_runnable s3 newguy
      ({ s4 with numthreads := s4.numthreads + 1 }, 0, some newguy)

/-- Create a thread that starts in `func data1 data2`, `thread_fork`: the
thread structure, the stack, the inherited working directory, the pcb, and then the
section with interrupts off.  The outer `none` is a `NULL` dereference of `curthread`. -/
def thread_fork (E : Extern) (s : Kernel) (name : String) (data1 data2 : Addr)
    (func : entry_func) (o : fork_oracle) : Option (Kernel × Int × Option Addr) :=
  match thread_create s name o with
  | none => none
  | some (s1, none) => some (s1, E.ENOMEM, none)
  | some (s1, some newguy) =>
    if !o.stack_ok then some (s1, E.ENOMEM, none)
    else
      match s1.curthread with
      | none => none
      | some cur =>
        let t := s1.mem newguy
        let t1 : thread :=
          { t with t_stack := true,
                   t_cwd := if (s1.mem cur).t_cwd.isSome then (s1.mem cur).t_cwd else t.t_cwd,
                   t_pcb := some { data1 := data1, data2 := data2, func := func } }
        some (thread_fork_atomic (s1.setThread newguy t1) newguy o)

/-! ## Exit -/

/-- The block of `thread_exit_with_code` guarded by `curthread->ppid > 0`: hand the exit
record to a registered parent, unregister, drop the own records, wake the waiter. -/
def exit_handoff (s : Kernel) (cur : Addr) (exitcode : Int) : Option Kernel :=
  if 0 < (s.mem cur).ppid then
    match get_thread_from_array s (s.mem cur).ppid with
    | none => some s
    | some parent =>
      match (s.mem parent).child_exit_codes with
      | none => none
      | some codes =>
        let my_exit_code : exitted_thread := { pid := (s.mem cur).pid, exitcode := exitcode }
        let s1 := s.setThread parent
          { s.mem parent with child_exit_codes := some (codes ++ [my_exit_code]) }
        let s2 := (remove_thread_from_array s1 (s1.mem cur).pid).1
        match (s2.mem cur).child_exit_codes with
        | none => none
        | some _ =>
          let s3 := s2.setThread cur { s2.mem cur with child_exit_codes := none }
          some (thread_single_wakeup s3 cur)
  else some s

/-- The part of `thread_exit_with_code` before the final switch: the hand-off, the
release of the address space and working directory, and the decrement of `numthreads`
(`none` when a pointer it dereferences is `NULL` or `assert(numthreads>0)` fails). -/
def thread_exit_cleanup (s : Kernel) (exitcode : Int) : Option Kernel :=
  match s.curthread with
  | none => none
  | some cur =>
    match exit_handoff s cur exitcode with
    | none => none
    | some s1 =>
      let s2 := s1.setThread cur { s1.mem cur with t_vmspace := none }
      let s3 := s2.setThread cur { s2.mem cur with t_cwd := none }
      if 0 < s3.numthreads then some { s3 with numthreads := s3.numthreads - 1 } else none

/-- Cause the current thread to exit, `thread_exit_with_code`: the state in which the
next thread runs (the exiting thread never does again). -/
def thread_exit_with_code (s : Kernel) (exitcode : Int) : Option Kernel :=
  (thread_exit_cleanup s exitcode).bind (fun s1 => mi_switch s1 .S_ZOMB)

/-- Exit with code 0, `thread_exit`. -/
def thread_exit (s : Kernel) : Option Kernel := thread_exit_with_code s 0

/-- The system call `_exit`, `sys__exit`. -/
def sys__exit (s : Kernel) (exitcode : Int) : Option Kernel := thread_exit_with_code s exitcode

/-- The effect of the tail of `thread_exit_with_code` on the state `s1` left by the
hand-off block: address space and working directory released, one live thread less. -/
def exit_cleanup_state (s1 : Kernel) (cur : Addr) : Kernel :=
  { s1.setThread cur { s1.mem cur with t_vmspace := none, t_cwd := none } with
    numthreads := s1.numthreads - 1 }

/-- The thread structures after the hand-off block of `thread_exit_with_code`, when the
parent `parent` is registered with record list `codes`: the record of the exiting thread
`cur` is at the end of the parent's list, and the list of `cur` itself is gone. -/
def handoff_mem (s : Kernel) (cur parent : Addr) (codes : List exitted_thread) (k : Int) :
    Addr → thread :=
  let m1 := Function.update s.mem parent
    { s.mem parent with
      child_exit_codes := some (codes ++ [{ pid := (s.mem cur).pid, exitcode := k }]) }
  Function.update m1 cur { m1 cur with child_exit_codes := none }

/-- The state after the hand-off block and before its `thread_single_wakeup`. -/
def handoff_state (s : Kernel) (cur parent : Addr) (codes : List exitted_thread) (k : Int) :
    Kernel :=
  { s with mem := handoff_mem s cur parent codes k,
           thread_array := (remove_thread_from_array s (s.mem cur).pid).1.thread_array }

/-! ## Wait -/

/-- Modelled from the spec: `copyout` of one `int` to user address `dst` (the
user-memory copy collaborator, not among the sources): on success the word is stored,
otherwise the error is returned and nothing is written. -/
def copyout (E : Extern) (s : Kernel) (val : Int) (dst : Addr) : Int × Kernel :=
  if E.copyout_err dst = 0 then (0, { s with usermem := Function.update s.usermem dst val })
  else (E.copyout_err dst, s)

/-- The scan loops of `sys_waitpid`: index and record of the first entry for `pid`,
starting the count at `i`. -/
def find_exit_code (pid : Int) : List exitted_thread → Nat → Option (Nat × exitted_thread)
  | [], _ => none
  | e :: rest, i => if e.pid = pid then some (i, e) else find_exit_code pid rest (i + 1)

/-- The system call `waitpid` up to the point where it returns or goes to sleep,
`sys_waitpid` (first half). -/
def sys_waitpid (E : Extern) (s : Kernel) (pid : Int) (status : Addr) (options : Int) :
    SysRet :=
  match s.curthread with
  | none => .panic
  | some cur =>
    let child := get_thread_from_array s pid
    if pid ≤ 0 then .ret s (-1) (some E.EINVAL)
    else if child.any (fun c => decide ((s.mem c).ppid ≠ (s.mem cur).pid)) then
      .ret s (-1) (some E.EINVAL)
    else if options ≠ 0 then .ret s (-1) (some E.EINVAL)
    else
      match (s.mem cur).child_exit_codes with
      | none => .panic
      | some codes =>
        match find_exit_code pid codes 0 with
        | some (i, e) =>
          let s1 := s.setThread cur { s.mem cur with child_exit_codes := some (codes.eraseIdx i) }
          let r := copyout E s1 e.exitcode status
          if r.1 ≠ 0 then .ret r.2 (-1) (some r.1) else .ret r.2 pid none
        | none =>
          match child with
          | none => .ret s (-1) (some E.EINVAL)
          | some c =>
            match thread_sleep s c with
            | none => .panic
            | some s1 => .blocked s1

/-- The rest of `sys_waitpid`, run when the caller is switched back in after
`thread_sleep(child)`: one scan of the record list, then `panic` if nothing matched. -/
def sys_waitpid_wakeup (E : Extern) (s : Kernel) (pid : Int) (status : Addr) : SysRet :=
  match thread_sleep_return s with
  | none => .panic
  | some s0 =>
    match s0.curthread with
    | none => .panic
    | some cur =>
      match (s0.mem cur).child_exit_codes with
      | none => .panic
      | some codes =>
        match find_exit_code pid codes 0 with
        | some (i, e) =>
          let r := copyout E s0 e.exitcode status
          let s1 := r.2.setThread cur
            { r.2.mem cur with child_exit_codes := some (codes.eraseIdx i) }
          if r.1 ≠ 0 then .ret s1 (-1) (some r.1) else .ret s1 pid none
        | none => .panic

/-- The system call `getpid`, `sys_getpid`. -/
def sys_getpid (s : Kernel) : Option Int := s.curthread.map (fun c => (s.mem c).pid)

/-! ## Fork -/

/-- The child's start function, `md_forkentry(tf, addrspace)`: install the address
space, copy the heap trap frame to the own stack, set `v0`, `a3` and `epc`.  The result
is the state and the trap frame handed to `mips_usermode`. -/
def md_forkentry (s : Kernel) (tf : Addr) (addrspace : Addr) : Option (Kernel × trapframe) :=
  match s.curthread with
  | none => none
  | some cur =>
    let s1 := s.setThread cur { s.mem cur with t_vmspace := some addrspace }
    let tf_child_stack := s1.tfmem tf
    some (s1, { tf_child_stack with
                  tf_v0 := 0, tf_a3 := 0, tf_epc := (tf_child_stack.tf_epc + 4) % 2 ^ 32 })

/-- What `sys_fork` gets from its collaborators: the two `kmalloc` results, the value of
`addr_child` after `as_copy`, the indeterminate initial value of the local
`thread_child`, and the oracle of `thread_fork`. -/
structure sys_fork_oracle where
  tf_child : Option Addr
  addr_alloc : Option Addr
  as_copy_ret : Option Addr
  thread_child : Option Addr
  fork : fork_oracle

/-- The system call `fork` as seen by the parent, `sys_fork(tf, err)`. -/
def sys_fork (E : Extern) (s : Kernel) (tf : trapframe) (o : sys_fork_oracle) : SysRet :=
  if thread_count s > E.MAX_THREADS then .ret s (-1) (some E.EAGAIN)
  else
    match o.tf_child with
    | none => .ret s (-1) (some E.ENOMEM)
    | some tf_child =>
      let s1 := { s with tfmem := Function.update s.tfmem tf_child tf }
      match o.addr_alloc with
      | none => .ret s1 (-1) (some E.ENOMEM)
      | some _ =>
        match s1.curthread with
        | none => .panic
        | some _ =>
          match o.as_copy_ret with
          | none => .ret s1 (-1) (some E.ENOMEM)
          | some addr_child =>
            match thread_fork E s1 "User Thread Fork" tf_child addr_child .md_forkentry o.fork with
            | none => .panic
            | some (s2, _, ret) =>
              let thread_child := if ret.isSome then ret else o.thread_child
              match thread_child with
              | none => .ret s2 (-1) (some E.ENOMEM)
              | some c => .ret s2 (s2.mem c).pid none

/-! ## Bootstrap -/

/-- Thread initialisation, `thread_bootstrap`, from the memory contents at boot: empty
lists, `nextpid = 1`, the first thread created, registered and made current (`none` when
it panics). -/
def thread_bootstrap (mem : Addr → thread) (tfmem : Addr → trapframe) (usermem : Addr → Int)
    (o : fork_oracle) : Option Kernel :=
  let s0 : Kernel :=
    { mem := mem, thread_array := [], sleepers := [], zombies := [], runqueue := [],
      curthread := none, numthreads := 0, nextpid := 1, tfmem := tfmem, usermem := usermem }
  match thread_create s0 "<boot/menu>" o with
  | some (s1, some me) =>
    let s2 := (add_thread_to_array s1 me o.array_ok).1
    some { s2 with curthread := some me, numthreads := 1 }
  | _ => none

/-! ## Reachable states and the registry invariant -/

/-- One atomic action of the thread system: a call of one of the functions above by the
current thread (each runs with interrupts off, or is cut at the context switch), a
wakeup (also from an interrupt while the processor idles), the dispatch of the next
thread after idling, or a change the rest of the kernel makes to the current thread's
address space, working directory or user memory.

`Step` is the step of the runs in which an address stands for one thread for good and
a pid for one thread for good: for a new thread structure `kmalloc` returns an address
that no registered thread structure and no zombie (a structure not yet freed) occupies,
and a pid is handed out while the counter is below the largest `pid_t`, so that
`nextpid++` does not wrap.  What the code does without these two provisos is the
subject of `Exec`. -/
inductive Step (E : Extern) : Kernel → Kernel → Prop where
  | thread_fork {s s' : Kernel} (name : String) (data1 data2 : Addr) (func : entry_func)
      (o : fork_oracle) (rv : Int) (r : Option Addr) :
      o.newguy ∉ s.thread_array → o.newguy ∉ s.zombies →
      thread_fork E s name data1 data2 func o = some (s', rv, r) →
      s.nextpid < 2 ^ 31 - 1 → Step E s s'
  | sys_fork {s s' : Kernel} (tf : trapframe) (o : sys_fork_oracle) :
      o.fork.newguy ∉ s.thread_array → o.fork.newguy ∉ s.zombies →
      (sys_fork E s tf o).state = some s' → s.nextpid < 2 ^ 31 - 1 → Step E s s'
  | sys_waitpid {s s' : Kernel} (pid : Int) (status : Addr) (options : Int) :
      (sys_waitpid E s pid status options).state = some s' → Step E s s'
  | sys_waitpid_wakeup {s s' : Kernel} (pid : Int) (status : Addr) :
      (sys_waitpid_wakeup E s pid status).state = some s' → Step E s s'
  | thread_exit_with_code {s s' : Kernel} (exitcode : Int) :
      thread_exit_with_code s exitcode = some s' → Step E s s'
  | thread_yield {s s' : Kernel} : thread_yield s = some s' → Step E s s'
  | mi_switch_return {s s' : Kernel} : mi_switch_return s = some s' → Step E s s'
  | thread_sleep {s s' : Kernel} (addr : Addr) : thread_sleep s addr = some s' → Step E s s'
  | thread_sleep_return {s s' : Kernel} : thread_sleep_return s = some s' → Step E s s'
  | thread_wakeup {s : Kernel} (addr : Addr) : Step E s (thread_wakeup s addr)
  | thread_single_wakeup {s : Kernel} (addr : Addr) : Step E s (thread_single_wakeup s addr)
  | dispatch {s : Kernel} :
      s.curthread = none → Step E s { (scheduler s).2 with curthread := (scheduler s).1 }
  | md_forkentry {s s' : Kernel} (tf addrspace : Addr) (tf' : trapframe) :
      md_forkentry s tf addrspace = some (s', tf') → Step E s s'
  | set_vmspace {s : Kernel} (cur : Addr) (v : Option Addr) :
      s.curthread = some cur → Step E s (s.setThread cur { s.mem cur with t_vmspace := v })
  | set_cwd {s : Kernel} (cur : Addr) (v : Option Addr) :
      s.curthread = some cur → Step E s (s.setThread cur { s.mem cur with t_cwd := v })
  | user_store {s : Kernel} (m : Addr → Int) : Step E s { s with usermem := m }

/-- The states the thread system gets into in such a run: those reached from a boot in
which the first thread was registered by finitely many steps. -/
inductive Reachable (E : Extern) : Kernel → Prop where
  | boot {s : Kernel} (mem : Addr → thread) (tfmem : Addr → trapframe) (usermem : Addr → Int)
      (o : fork_oracle) :
      o.array_ok = true → thread_bootstrap mem tfmem usermem o = some s → Reachable E s
  | step {s s' : Kernel} : Reachable E s → Step E s s' → Reachable E s'

/-- The threads that can still run: the current one, the run queue and the sleepers. -/
def live (s : Kernel) : List Addr := s.curthread.toList ++ (s.runqueue ++ s.sleepers)

/-- The invariant of the registry and the exit records.  Registered pids are positive,
below `nextpid`, above the thread's `ppid` and pairwise different; every registered
thread has a record list; every record in it names a pid that is below `nextpid`, is no
longer registered, and occurs once in that list; the threads that can still run are
registered and pairwise different. -/
structure Inv (s : Kernel) : Prop where
  nextpid_pos : 0 < s.nextpid
  pid_bound : ∀ a ∈ s.thread_array, 0 < (s.mem a).pid ∧ (s.mem a).pid < s.nextpid
  ppid_lt : ∀ a ∈ s.thread_array, (s.mem a).ppid < (s.mem a).pid
  pid_nodup : (s.thread_array.map (fun a => (s.mem a).pid)).Nodup
  reg_codes : ∀ a ∈ s.thread_array, ∃ l, (s.mem a).child_exit_codes = some l
  rec_dead : ∀ a ∈ s.thread_array, ∀ l, (s.mem a).child_exit_codes = some l →
    ∀ e ∈ l, e.pid < s.nextpid ∧ ∀ b ∈ s.thread_array, (s.mem b).pid ≠ e.pid
  rec_nodup : ∀ a ∈ s.thread_array, ∀ l, (s.mem a).child_exit_codes = some l →
    (l.map (fun e => e.pid)).Nodup
  live_reg : ∀ a ∈ live s, a ∈ s.thread_array
  live_nodup : (live s).Nodup

/-- How a later state relates to an earlier one: `nextpid` has not decreased; a
registered pid was registered before or is a new one (not below the old `nextpid`);
and a record in a thread's list was in that list before, or names a thread that was
registered before, or a new pid. -/
structure Mono (s s' : Kernel) : Prop where
  nextpid_le : s.nextpid ≤ s'.nextpid
  reg : ∀ b ∈ s'.thread_array,
    (∃ b0 ∈ s.thread_array, (s.mem b0).pid = (s'.mem b).pid) ∨ s.nextpid ≤ (s'.mem b).pid
  recs : ∀ a l', (s'.mem a).child_exit_codes = some l' → ∀ e ∈ l',
    (∃ l, (s.mem a).child_exit_codes = some l ∧ e ∈ l) ∨
    (∃ b0 ∈ s.thread_array, (s.mem b0).pid = e.pid) ∨ s.nextpid ≤ e.pid

/-- The pid `pid` has been handed out, no registered thread has it, and the
thread structure `p` holds no exit record for it. -/
def Spent (s : Kernel) (p : Addr) (pid : Int) : Prop :=
  pid < s.nextpid ∧ (∀ b ∈ s.thread_array, (s.mem b).pid ≠ pid) ∧
  ∀ l, (s.mem p).child_exit_codes = some l → ∀ e ∈ l, e.pid ≠ pid

/-- The live-thread counter agrees with the number of threads that can still run. -/
def Counted (s : Kernel) : Prop := s.numthreads = ((live s).length : Int)

/-- The live-thread counter and the number of threads that can still run are the same
in both states. -/
def SameCount (s s' : Kernel) : Prop :=
  s'.numthreads = s.numthreads ∧ (live s').length = (live s).length

/-- Zombies are done with: a thread that waits to be reclaimed can no longer run and
has given up its address space and its working directory. -/
def Buried (s : Kernel) : Prop :=
  ∀ z ∈ s.zombies, z ∉ live s ∧ (s.mem z).t_vmspace = none ∧ (s.mem z).t_cwd = none

/-! ## The wakeup loop as written -/

/-- The `for` loop of `thread_wakeup` as written, one test of `i<array_getnum(sleepers)`
per unit of fuel.  `i` is the loop index, an `int`: after a removal `i--` and the `i++`
of the loop leave it where it is (also at 0, by way of `-1`).  `array_getguy(sleepers, i)`
is the entry at `i`, `array_remove(sleepers, i)` erases it and `make_runnable` adds
the thread at the tail of the run queue.  The result is the final sleepers and run
queue; `none` when the fuel runs out before the loop ends. -/
def thread_wakeup_for (mem : Addr → thread) (addr : Addr) :
    Nat → Int → List Addr → List Addr → Option (List Addr × List Addr)
  | 0, _, _, _ => none
  | fuel + 1, i, sleepers, runqueue =>
    if i < sleepers.length then
      match sleepers[i.toNat]? with
      | none => none
      | some t =>
        if (mem t).t_sleepaddr = some addr then
          thread_wakeup_for mem addr fuel (i - 1 + 1) (sleepers.eraseIdx i.toNat)
            (runqueue ++ [t])
        else thread_wakeup_for mem addr fuel (i + 1) sleepers runqueue
    else some (sleepers, runqueue)

/-- The function `thread_wakeup` with its loop run as written, from `i = 0`, for at most
`fuel` loop tests. -/
def thread_wakeup_indexed (s : Kernel) (addr : Addr) (fuel : Nat) : Option Kernel :=
  (thread_wakeup_for s.mem addr fuel 0 s.sleepers s.runqueue).map
    (fun r => { s with sleepers := r.1, runqueue := r.2 })

/-! ## Synchronisation primitives

`synch.c`.  A pointer to a semaphore, lock or condition variable is an `Addr` (the
functions assert that it is not `NULL`), and it is also the address its waiters sleep
on.  The flag `in_interrupt` is not represented.  A function that can sleep is cut at
the context switch like `sys_waitpid`: `P`, `lock_acquire` and `cv_wait` run up to the
return or the switch, `P_wakeup`, `lock_acquire_wakeup` and `cv_wait_wakeup` run from
the return of `thread_sleep` on. -/

/-- The fields of `struct semaphore` that `synch.c` uses (`synch.h` is not among the
sources; `count` is taken to be an `int`, as the `initial_count` it is set from). -/
structure semaphore where
  name : String
  count : Int

/-- The fields of `struct lock` that `synch.c` uses (`synch.h` is not among the
sources); `holding_thread` is `none` for `NULL`. -/
structure lock where
  name : String
  holding_thread : Option Addr

/-- The kernel state together with the semaphores and locks in memory. -/
structure Synch where
  kern : Kernel
  sems : Addr → semaphore
  locks : Addr → lock

/-- Outcome of a call of a synchronisation function: it returned; it went to sleep (the
state is the one in which the next thread runs); or an assertion failed or a `NULL`
pointer was dereferenced (the state is the one in which that happened). -/
inductive SynchRet where
  | ret (S : Synch)
  | blocked (S : Synch)
  | panic (S : Synch)

/-- The state in which the system goes on after the call, when it does. -/
def SynchRet.state : SynchRet → Option Synch
  | .ret S => some S
  | .blocked S => some S
  | .panic _ => none

/-- Results of the two allocations of a `..._create`: the object (`kmalloc`) and the
copy of its name (`kstrdup`). -/
structure create_oracle where
  obj : Option Addr
  name_ok : Bool

/-- Create a semaphore, `sem_create`: the new state and the pointer returned (`none` for
`NULL`); the outer `none` is the failing `assert(initial_count >= 0)`. -/
def sem_create (S : Synch) (namearg : String) (initial_count : Int) (o : create_oracle) :
    Option (Synch × Option Addr) :=
  if initial_count < 0 then none
  else
    match o.obj with
    | none => some (S, none)
    | some sem =>
      if !o.name_ok then some (S, none)
      else
        some ({ S with sems := Function.update S.sems sem ⟨namearg, initial_count⟩ },
          some sem)

/-- Destroy a semaphore, `sem_destroy`. -/
def sem_destroy (S : Synch) (sem : Addr) : SynchRet :=
  if thread_hassleepers S.kern sem then .panic S else .ret S

/-- The semaphore operation `P`, up to its return or its sleep.  The decrement cannot
overflow: it is made when `count > 0`. -/
def P (S : Synch) (sem : Addr) : SynchRet :=
  if (S.sems sem).count = 0 then
    match thread_sleep S.kern sem with
    | none => .panic S
    | some k => .blocked { S with kern := k }
  else if 0 < (S.sems sem).count then
    .ret { S with
      sems := Function.update S.sems sem ⟨(S.sems sem).name, (S.sems sem).count - 1⟩ }
  else .panic S

/-- The rest of `P`, run when the caller is switched back in after `thread_sleep(sem)`:
the loop test again. -/
def P_wakeup (S : Synch) (sem : Addr) : SynchRet :=
  match thread_sleep_return S.kern with
  | none => .panic S
  | some k => P { S with kern := k } sem

/-- The semaphore operation `V`.  The increment is the processor's: at the largest `int`
it wraps to the smallest, and `assert(sem->count>0)` fails. -/
def V (S : Synch) (sem : Addr) : SynchRet :=
  let S1 := { S with
    sems := Function.update S.sems sem ⟨(S.sems sem).name, wrap32 ((S.sems sem).count + 1)⟩ }
  if 0 < (S1.sems sem).count then .ret { S1 with kern := thread_wakeup S1.kern sem }
  else .panic S1

/-- Create a lock, `lock_create`: the new state and the pointer returned. -/
def lock_create (S : Synch) (name : String) (o : create_oracle) : Synch × Option Addr :=
  match o.obj with
  | none => (S, none)
  | some lock =>
    if !o.name_ok then (S, none)
    else
      ({ S with locks := Function.update S.locks lock ⟨name, none⟩ }, some lock)

/-- Destroy a lock, `lock_destroy`. -/
def lock_destroy (S : Synch) (lock : Addr) : SynchRet :=
  if (S.locks lock).holding_thread ≠ none then .panic S
  else if thread_hassleepers S.kern lock then .panic S
  else .ret S

/-- Acquire a lock, `lock_acquire`, up to its return or its sleep. -/
def lock_acquire (S : Synch) (lock : Addr) : SynchRet :=
  if (S.locks lock).holding_thread ≠ none then
    match thread_sleep S.kern lock with
    | none => .panic S
    | some k => .blocked { S with kern := k }
  else
    .ret { S with
      locks := Function.update S.locks lock ⟨(S.locks lock).name, S.kern.curthread⟩ }

/-- The rest of `lock_acquire`, run when the caller is switched back in after
`thread_sleep(lock)`: the loop test again. -/
def lock_acquire_wakeup (S : Synch) (lock : Addr) : SynchRet :=
  match thread_sleep_return S.kern with
  | none => .panic S
  | some k => lock_acquire { S with kern := k } lock

/-- Release a lock, `lock_release`. -/
def lock_release (S : Synch) (lock : Addr) : SynchRet :=
  if S.kern.curthread = (S.locks lock).holding_thread then
    .ret { S with
      locks := Function.update S.locks lock ⟨(S.locks lock).name, none⟩,
      kern := thread_wakeup S.kern lock }
  else .panic S

/-- Whether the current thread holds the lock, `lock_do_i_hold`. -/
def lock_do_i_hold (S : Synch) (lock : Addr) : Int :=
  if S.kern.curthread = (S.locks lock).holding_thread then 1 else 0

/-- Destroy a condition variable, `cv_destroy`. -/
def cv_destroy (S : Synch) (cv : Addr) : SynchRet :=
  if thread_hassleepers S.kern cv then .panic S else .ret S

/-- Wait on a condition variable, `cv_wait`, up to its sleep: the lock is released and
the caller sleeps on `cv`. -/
def cv_wait (S : Synch) (cv lock : Addr) : SynchRet :=
  if S.kern.curthread = (S.locks lock).holding_thread then
    match lock_release S lock with
    | .ret S1 =>
      match thread_sleep S1.kern cv with
      | none => .panic S1
      | some k => .blocked { S1 with kern := k }
    | r => r
  else .panic S

/-- The rest of `cv_wait`, run when the caller is switched back in after
`thread_sleep(cv)`: `lock_acquire(lock)`, which returns or sleeps on the lock (and then
goes on as `lock_acquire_wakeup`). -/
def cv_wait_wakeup (S : Synch) (lock : Addr) : SynchRet :=
  match thread_sleep_return S.kern with
  | none => .panic S
  | some k => lock_acquire { S with kern := k } lock

/-- Wake one waiter, `cv_signal`. -/
def cv_signal (S : Synch) (cv lock : Addr) : SynchRet :=
  if S.kern.curthread = (S.locks lock).holding_thread then
    .ret { S with kern := thread_single_wakeup S.kern cv }
  else .panic S

/-- Wake all waiters, `cv_broadcast`. -/
def cv_broadcast (S : Synch) (cv lock : Addr) : SynchRet :=
  if S.kern.curthread = (S.locks lock).holding_thread then
    .ret { S with kern := thread_wakeup S.kern cv }
  else .panic S

/-- What an observer of the calls sees of a step: the creation of a semaphore or lock, a
`P` or `lock_acquire` that returns, a `V`, a `lock_release` (also the one `cv_wait`
makes), or nothing of these (`tau`). -/
inductive synch_event where
  | tau
  | sem_create (sem : Addr)
  | P (sem : Addr)
  | V (sem : Addr)
  | lock_create (lock : Addr)
  | lock_acquire (lock : Addr)
  | lock_release (lock : Addr)
deriving DecidableEq

/-- One atomic action of the system with its synchronisation primitives: a step of the
thread system, or a call of a function of `synch.c` by the current thread up to its
return or its sleep, or the rest of such a call after the sleep.  A `..._destroy` and a
`..._create` that fails change nothing and are not steps. -/
inductive SynchStep (E : Extern) : Synch → synch_event → Synch → Prop where
  | kernel {S : Synch} {k : Kernel} : Step E S.kern k → SynchStep E S .tau { S with kern := k }
  | sem_create {S S' : Synch} (namearg : String) (initial_count : Int) (o : create_oracle)
      (sem : Addr) :
      sem_create S namearg initial_count o = some (S', some sem) →
      SynchStep E S (.sem_create sem) S'
  | P_returns {S S' : Synch} (sem : Addr) : P S sem = .ret S' → SynchStep E S (.P sem) S'
  | P_blocks {S S' : Synch} (sem : Addr) : P S sem = .blocked S' → SynchStep E S .tau S'
  | P_wakeup_returns {S S' : Synch} (sem : Addr) :
      P_wakeup S sem = .ret S' → SynchStep E S (.P sem) S'
  | P_wakeup_blocks {S S' : Synch} (sem : Addr) :
      P_wakeup S sem = .blocked S' → SynchStep E S .tau S'
  | V {S S' : Synch} (sem : Addr) : V S sem = .ret S' → SynchStep E S (.V sem) S'
  | lock_create {S S' : Synch} (name : String) (o : create_oracle) (lock : Addr) :
      lock_create S name o = (S', some lock) → SynchStep E S (.lock_create lock) S'
  | lock_acquire_returns {S S' : Synch} (lock : Addr) :
      lock_acquire S lock = .ret S' → SynchStep E S (.lock_acquire lock) S'
  | lock_acquire_blocks {S S' : Synch} (lock : Addr) :
      lock_acquire S lock = .blocked S' → SynchStep E S .tau S'
  | lock_acquire_wakeup_returns {S S' : Synch} (lock : Addr) :
      lock_acquire_wakeup S lock = .ret S' → SynchStep E S (.lock_acquire lock) S'
  | lock_acquire_wakeup_blocks {S S' : Synch} (lock : Addr) :
      lock_acquire_wakeup S lock = .blocked S' → SynchStep E S .tau S'
  | lock_release {S S' : Synch} (lock : Addr) :
      lock_release S lock = .ret S' → SynchStep E S (.lock_release lock) S'
  | cv_wait {S S' : Synch} (cv lock : Addr) :
      cv_wait S cv lock = .blocked S' → SynchStep E S (.lock_release lock) S'
  | cv_wait_wakeup_returns {S S' : Synch} (lock : Addr) :
      cv_wait_wakeup S lock = .ret S' → SynchStep E S (.lock_acquire lock) S'
  | cv_wait_wakeup_blocks {S S' : Synch} (lock : Addr) :
      cv_wait_wakeup S lock = .blocked S' → SynchStep E S .tau S'
  | cv_signal {S S' : Synch} (cv lock : Addr) :
      cv_signal S cv lock = .ret S' → SynchStep E S .tau S'
  | cv_broadcast {S S' : Synch} (cv lock : Addr) :
      cv_broadcast S cv lock = .ret S' → SynchStep E S .tau S'

/-- A run: finitely many steps, with what was seen of them, in order. -/
inductive SynchRun (E : Extern) : Synch → List synch_event → Synch → Prop where
  | nil (S : Synch) : SynchRun E S [] S
  | cons {S S' S'' : Synch} {ev : synch_event} {evs : List synch_event} :
      SynchStep E S ev S' → SynchRun E S' evs S'' → SynchRun E S (ev :: evs) S''

/-! ## The system call dispatcher -/

/-- The call numbers of `kern/callno.h` and the two `errno` values that `mips_syscall`
names; the headers are not among the sources. -/
structure syscall_consts where
  SYS_reboot : Int
  SYS_write : Int
  SYS_read : Int
  SYS___time : Int
  SYS_sleep : Int
  SYS_fork : Int
  SYS_getpid : Int
  SYS_waitpid : Int
  SYS__exit : Int
  SYS_execv : Int
  ENOSYS : Int
  EFAULT : Int

/-- What the calls dispatched by `mips_syscall` hand back, as functions of the argument
registers.  A call with an output parameter gives its return value and the value it
stored through the pointer (`none` when it stored nothing); `sys_execv` gives `none`
when it does not return. -/
structure syscalls where
  sys_reboot : Nat → Int
  sys_write : Nat → Nat → Nat → Int × Option Int
  sys_read : Nat → Nat → Nat → Int
  sys_time : Nat → Nat → Int
  sys_sleep : Nat → Int
  sys_fork : trapframe → Int × Option Int
  sys_getpid : Int
  sys_waitpid : Nat → Nat → Nat → Int × Option Int
  sys_execv : Nat → Nat → Option (Int × Option Int)

/-- The `switch (callno)` of `mips_syscall`: the values of `retval` and `err` after it,
both 0 before.  `callno` is the `int` read from `v0`.  `none` when the call does not
come back (`sys__exit`, a successful `sys_execv`). -/
def syscall_switch (C : syscall_consts) (K : syscalls) (tf : trapframe) : Option (Int × Int) :=
  let callno : Int := wrap32 tf.tf_v0
  if callno = C.SYS_reboot then some (0, K.sys_reboot tf.tf_a0)
  else if callno = C.SYS_write then
    let r := K.sys_write tf.tf_a0 tf.tf_a1 tf.tf_a2
    let retval : Int := r.2.getD 0
    if r.1 ≠ 0 then some (-1, r.1) else some (retval, r.1)
  else if callno = C.SYS_read then
    let err := K.sys_read tf.tf_a0 tf.tf_a1 tf.tf_a2
    if err = 0 then some (1, err) else if err ≠ 0 then some (-1, err) else some (0, err)
  else if callno = C.SYS___time then
    let retval := K.sys_time tf.tf_a0 tf.tf_a1
    if retval = -1 then some (retval, C.EFAULT) else some (retval, 0)
  else if callno = C.SYS_sleep then some (0, K.sys_sleep tf.tf_a0)
  else if callno = C.SYS_fork then
    let r := K.sys_fork tf
    some (r.1, r.2.getD 0)
  else if callno = C.SYS_getpid then some (K.sys_getpid, 0)
  else if callno = C.SYS_waitpid then
    let r := K.sys_waitpid tf.tf_a0 tf.tf_a1 tf.tf_a2
    some (r.1, r.2.getD 0)
  else if callno = C.SYS__exit then none
  else if callno = C.SYS_execv then
    (K.sys_execv tf.tf_a0 tf.tf_a1).map (fun r => (r.1, r.2.getD 0))
  else some (0, C.ENOSYS)

/-- The tail of `mips_syscall`: `v0` and `a3` are set from `err` and `retval`, then
`tf_epc += 4`.  The registers are unsigned 32-bit words. -/
def syscall_return (tf : trapframe) (retval err : Int) : trapframe :=
  let tf1 : trapframe :=
    if err ≠ 0 then { tf with tf_v0 := (err % 2 ^ 32).toNat, tf_a3 := 1 }
    else { tf with tf_v0 := (retval % 2 ^ 32).toNat, tf_a3 := 0 }
  { tf1 with tf_epc := (tf1.tf_epc + 4) % 2 ^ 32 }

/-- The system call dispatcher, `mips_syscall(tf)`: the trap frame it leaves, `none`
when the dispatched call does not come back. -/
def mips_syscall (C : syscall_consts) (K : syscalls) (tf : trapframe) : Option trapframe :=
  (syscall_switch C K tf).map (fun r => syscall_return tf r.1 r.2)

/-- Whether the call number is none of those `mips_syscall` has a case for. -/
def unknown_callno (C : syscall_consts) (callno : Int) : Bool :=
  callno != C.SYS_reboot && callno != C.SYS_write && callno != C.SYS_read &&
  callno != C.SYS___time && callno != C.SYS_sleep && callno != C.SYS_fork &&
  callno != C.SYS_getpid && callno != C.SYS_waitpid && callno != C.SYS__exit &&
  callno != C.SYS_execv

/-! ## Program arguments on the user stack -/

/-- The `while (1)` loop of `next_multiple_of_4`, one test of `num <= counter` per unit
of fuel.  `counter` is an `int`: `counter += 4` is taken in 32-bit two's complement
(`wrap32`), so that a run that would leave the range of `int` is seen as such.  `none`
when the fuel runs out before the loop returns. -/
def next_multiple_of_4_loop (num : Int) : Nat → Int → Option Int
  | 0, _ => none
  | fuel + 1, counter =>
    if num ≤ counter then some counter
    else next_multiple_of_4_loop num fuel (wrap32 (counter + 4))

/-- The function `next_multiple_of_4(num)`: the loop started with `counter = 0`. -/
def next_multiple_of_4 (num : Int) (fuel : Nat) : Option Int :=
  next_multiple_of_4_loop num fuel 0

/-- The padded length of one argument as `sys_execv` and `runprogram_with_args` compute
it: `padding = next_multiple_of_4(arg_len) - arg_len; assert(padding < 4);` and
`arg_total_len = arg_len + padding; assert(arg_total_len % 4 == 0);`.  `none` when an
assertion fails (or the fuel of the loop runs out). -/
def arg_total_len (arg_len : Int) (fuel : Nat) : Option Int :=
  match next_multiple_of_4 arg_len fuel with
  | none => none
  | some r =>
    let padding := r - arg_len
    if padding < 4 then
      let arg_total_len := arg_len + padding
      if arg_total_len % 4 = 0 then some arg_total_len else none
    else none

/-- What a `copyout` of the stack set-up copies: the padded string of argument `i`
(`array_getguy(args_kernel, i)`) or a pointer value. -/
inductive copy_src where
  | arg (i : Nat)
  | ptr (value : Int)
deriving DecidableEq, Repr

/-- One `copyout(src, dst, len)` to the user stack. -/
structure copyout_call where
  src : copy_src
  dst : Int
  len : Int
deriving DecidableEq, Repr

/-- The user stack as `sys_execv` and `runprogram_with_args` leave it: the local array
`argv` (`NULL` is 0), the final `stackptr`, and the `copyout` calls made, in order. -/
structure user_stack where
  argv : Nat → Int
  stackptr : Int
  copied : List copyout_call

/-- The loop `for (i = num - 1; i >= 0; i--) { stackptr_copy -= arglens[i];
argv[i] = stackptr_copy; }`, entered with `i + 1` equal to the first argument.
`vaddr_t` is an unsigned 32-bit integer; `none` is an index outside `arglens`. -/
def argv_loop (arglens : List Int) : Nat → Int → (Nat → Int) → Option (Nat → Int)
  | 0, _, argv => some argv
  | i + 1, stackptr_copy, argv =>
    match arglens[i]? with
    | none => none
    | some decrement =>
      argv_loop arglens i ((stackptr_copy - decrement) % 2 ^ 32)
        (Function.update argv i ((stackptr_copy - decrement) % 2 ^ 32))

/-- The loop that copies the padded strings onto the stack, from the last argument to
the first; `ok dst` is whether the `copyout` to `dst` succeeds, and `none` is the
`panic` after a failed one. -/
def copy_args_loop (ok : Int → Bool) (arglens : List Int) :
    Nat → Int → List copyout_call → Option (Int × List copyout_call)
  | 0, stackptr, out => some (stackptr, out)
  | i + 1, stackptr, out =>
    match arglens[i]? with
    | none => none
    | some arg_len =>
      if ok ((stackptr - arg_len) % 2 ^ 32) then
        copy_args_loop ok arglens i ((stackptr - arg_len) % 2 ^ 32)
          (out ++ [⟨.arg i, (stackptr - arg_len) % 2 ^ 32, arg_len⟩])
      else none

/-- The loop `for (i = argc; i >= 0; i--)` that copies the entries of `argv` onto the
stack, four bytes each, with its two branches (`address == NULL` or not). -/
def copy_argv_loop (ok : Int → Bool) (argv : Nat → Int) :
    Nat → Int → List copyout_call → Option (Int × List copyout_call)
  | 0, stackptr, out => some (stackptr, out)
  | i + 1, stackptr, out =>
    if argv i = 0 then
      if ok ((stackptr - 4) % 2 ^ 32) then
        copy_argv_loop ok argv i ((stackptr - 4) % 2 ^ 32)
          (out ++ [⟨.ptr (argv i), (stackptr - 4) % 2 ^ 32, 4⟩])
      else none
    else
      if ok ((stackptr - 4) % 2 ^ 32) then
        copy_argv_loop ok argv i ((stackptr - 4) % 2 ^ 32)
          (out ++ [⟨.ptr (argv i), (stackptr - 4) % 2 ^ 32, 4⟩])
      else none

/-- The stack set-up at the end of `sys_execv` (and of `runprogram_with_args`, which has
the same three loops), from the padded lengths `arglens` (one per argument, so
`argc` is their number), the `stackptr` of `as_define_stack` and the indeterminate
initial contents `junk` of the local array `argv`. -/
def execv_stack (ok : Int → Bool) (junk : Nat → Int) (arglens : List Int) (stackptr : Int) :
    Option user_stack :=
  let argc := arglens.length
  match argv_loop arglens argc stackptr (Function.update junk argc 0) with
  | none => none
  | some argv =>
    match copy_args_loop ok arglens argc stackptr [] with
    | none => none
    | some (stackptr1, out1) =>
      match copy_argv_loop ok argv (argc + 1) stackptr1 out1 with
      | none => none
      | some (stackptr2, out2) => some ⟨argv, stackptr2, out2⟩

/-- The sum of the lengths of the arguments `i .. n-1`. -/
def lens_from (arglens : List Int) (n i : Nat) : Int := ((arglens.take n).drop i).sum

/-- The lists of threads besides the registry: no zombie is listed twice; every sleeper
has a sleep address; and a zombie is still registered or has lost its record list. -/
structure Queued (s : Kernel) : Prop where
  zombies_nodup : s.zombies.Nodup
  sleep_token : ∀ a ∈ s.sleepers, ∃ addr, (s.mem a).t_sleepaddr = some addr
  zombie_codes : ∀ z ∈ s.zombies, z ∈ s.thread_array ∨ (s.mem z).child_exit_codes = none

/-! ## Room reserved by `thread_fork` -/

/-- The room `thread_fork` has reserved so far in the sleepers array, in the zombies
array and in the scheduler's run queue (numbers of entries). -/
structure reserved where
  sleepers : Int
  zombies : Int
  runqueue : Int
deriving DecidableEq, Repr

/-- Modelled from the spec: `array_preallocate(a, n)` and `scheduler_preallocate(n)`
(`array.c` and `scheduler.c` are not among the sources), by which callers "pre-reserve
capacity": room is reserved for `n` entries, and room once reserved stays. -/
def array_preallocate (max nguys : Int) : Int := if max < nguys then nguys else max

/-- Modelled from the spec: whether an insertion (`array_add`, `make_runnable`) into a
list that holds `num` entries finds room reserved, so that it "is guaranteed not to
fail"; without room it has to allocate. -/
def has_room (max : Int) (num : Nat) : Bool := decide ((num : Int) < max)

/-- The three reservations in the interrupts-off section of `thread_fork`, each for
`numthreads+1` entries and each made only when the steps before it succeeded. -/
def thread_fork_preallocate (numthreads : Int) (o : fork_oracle) (c : reserved) : reserved :=
  if o.array_ok = false then c
  else if o.sleepers_err ≠ 0 then c
  else
    let c1 : reserved := { c with sleepers := array_preallocate c.sleepers (numthreads + 1) }
    if o.zombies_err ≠ 0 then c1
    else
      let c2 : reserved := { c1 with zombies := array_preallocate c1.zombies (numthreads + 1) }
      if o.scheduler_err ≠ 0 then c2
      else { c2 with runqueue := array_preallocate c2.runqueue (numthreads + 1) }

/-- The room reserved after a call of `thread_fork` in state `s`: the interrupts-off
section is reached when `thread_create` and the allocation of the stack succeed. -/
def thread_fork_reserve (s : Kernel) (o : fork_oracle) (c : reserved) : reserved :=
  if o.thread_ok && o.name_ok && o.codes_ok && o.stack_ok then
    thread_fork_preallocate s.numthreads o c
  else c

/-- The room reserved after a call of `sys_fork` in state `s`: `thread_fork` is reached
below the thread ceiling when the three allocations before it succeed. -/
def sys_fork_reserve (E : Extern) (s : Kernel) (o : sys_fork_oracle) (c : reserved) :
    reserved :=
  if thread_count s > E.MAX_THREADS then c
  else if o.tf_child.isSome && o.addr_alloc.isSome && o.as_copy_ret.isSome then
    thread_fork_reserve s o.fork c
  else c

/-- A step of the thread system together with the room `thread_fork` has reserved: a
`thread_fork` or `sys_fork` makes its reservations, and a step that creates no thread
structure (it leaves `nextpid` alone) reserves nothing. -/
inductive ReservedStep (E : Extern) : Kernel × reserved → Kernel × reserved → Prop where
  | thread_fork {s s' : Kernel} {c : reserved} (name : String) (data1 data2 : Addr)
      (func : entry_func) (o : fork_oracle) (rv : Int) (r : Option Addr) :
      o.newguy ∉ s.thread_array → o.newguy ∉ s.zombies →
      thread_fork E s name data1 data2 func o = some (s', rv, r) →
      s.nextpid < 2 ^ 31 - 1 →
      ReservedStep E (s, c) (s', thread_fork_reserve s o c)
  | sys_fork {s s' : Kernel} {c : reserved} (tf : trapframe) (o : sys_fork_oracle) :
      o.fork.newguy ∉ s.thread_array → o.fork.newguy ∉ s.zombies →
      (sys_fork E s tf o).state = some s' →
      s.nextpid < 2 ^ 31 - 1 →
      ReservedStep E (s, c) (s', sys_fork_reserve E s o c)
  | other {s s' : Kernel} {c : reserved} :
      Step E s s' → s'.nextpid = s.nextpid → ReservedStep E (s, c) (s', c)

/-- The states of the thread system with the room reserved by `thread_fork`: at boot
`thread_fork` has reserved nothing. -/
inductive ReservedReachable (E : Extern) : Kernel × reserved → Prop where
  | boot {s : Kernel} (mem : Addr → thread) (tfmem : Addr → trapframe) (usermem : Addr → Int)
      (o : fork_oracle) :
      o.array_ok = true → thread_bootstrap mem tfmem usermem o = some s →
      ReservedReachable E (s, ⟨0, 0, 0⟩)
  | step {p p' : Kernel × reserved} :
      ReservedReachable E p → ReservedStep E p p' → ReservedReachable E p'

/-- The room reserved covers the live threads: in each of the three lists `thread_fork`
has reserved room for `numthreads` entries at least (for one thread at boot, before
`thread_fork` has reserved anything). -/
def Covered (p : Kernel × reserved) : Prop :=
  p.1.numthreads ≤ max p.2.sleepers 1 ∧ p.1.numthreads ≤ max p.2.zombies 1 ∧
  p.1.numthreads ≤ max p.2.runqueue 1

/-! ## Calls of the kernel, and who waits for whom -/

/-- What one call of the kernel (`Call`) does to the lists and to the fields of the thread structures that
waiting depends on.  Pids and parent pids of registered threads are kept; the sleep
address of a registered thread that is not running is kept and its record list only
grows; a runnable thread stays runnable or is switched in; a thread that joins the
sleep set is the running one, and if it sleeps on a registered thread structure it is
that thread's parent; a thread that leaves the sleep set becomes runnable or current,
and if it slept on a registered thread structure that thread was running and is now a
zombie; a thread structure that joins the registry had no sleepers; and a thread that
leaves the registry was running and is now a zombie. -/
structure Moves (s s' : Kernel) : Prop where
  ids : ∀ a ∈ s.thread_array,
    (s'.mem a).pid = (s.mem a).pid ∧ (s'.mem a).ppid = (s.mem a).ppid
  idle : ∀ a ∈ s.thread_array, s.curthread ≠ some a →
    (s'.mem a).t_sleepaddr = (s.mem a).t_sleepaddr ∧
    ∀ l, (s.mem a).child_exit_codes = some l →
      ∃ l', (s'.mem a).child_exit_codes = some (l ++ l')
  ready : ∀ x ∈ s.runqueue, x ∈ s'.runqueue ∨ s'.curthread = some x
  slept : ∀ x ∈ s'.sleepers, x ∈ s.sleepers ∨
    (s.curthread = some x ∧ ∃ addr, (s'.mem x).t_sleepaddr = some addr ∧
      (addr ∈ s.thread_array → (s.mem addr).ppid = (s.mem x).pid))
  woken : ∀ x ∈ s.sleepers, x ∈ s'.sleepers ∨
    ((x ∈ s'.runqueue ∨ s'.curthread = some x) ∧
      ∃ addr, (s.mem x).t_sleepaddr = some addr ∧
        (addr ∈ s.thread_array → s.curthread = some addr ∧ addr ∈ s'.zombies))
  registered : ∀ c ∈ s'.thread_array, c ∈ s.thread_array ∨
    (thread_hassleepers s c = false ∧ s'.sleepers = s.sleepers)
  unregistered : ∀ c ∈ s.thread_array, c ∈ s'.thread_array ∨
    (s.curthread = some c ∧ c ∈ s'.zombies)

/-- One atomic action of the thread system without the provisos of `Step` on `kmalloc`
and on the pid counter: every step of `Step`, and in addition a `thread_fork` or
`sys_fork` whose new thread structure is at any address that no thread in use (current,
runnable, asleep or zombie) occupies and that nobody sleeps on, also the address of a
thread structure that has been freed and is still in the registry, and whose
`nextpid++` may wrap. -/
inductive Exec (E : Extern) : Kernel → Kernel → Prop where
  | step {s s' : Kernel} : Step E s s' → Exec E s s'
  | thread_fork {s s' : Kernel} (name : String) (data1 data2 : Addr) (func : entry_func)
      (o : fork_oracle) (rv : Int) (r : Option Addr) :
      o.newguy ∉ live s → o.newguy ∉ s.zombies → thread_hassleepers s o.newguy = false →
      thread_fork E s name data1 data2 func o = some (s', rv, r) → Exec E s s'
  | sys_fork {s s' : Kernel} (tf : trapframe) (o : sys_fork_oracle) :
      o.fork.newguy ∉ live s → o.fork.newguy ∉ s.zombies →
      thread_hassleepers s o.fork.newguy = false →
      (sys_fork E s tf o).state = some s' → Exec E s s'

/-- The states the thread system gets into from a boot by finitely many such actions. -/
inductive ExecReachable (E : Extern) : Kernel → Prop where
  | boot {s : Kernel} (mem : Addr → thread) (tfmem : Addr → trapframe) (usermem : Addr → Int)
      (o : fork_oracle) :
      o.array_ok = true → thread_bootstrap mem tfmem usermem o = some s → ExecReachable E s
  | step {s s' : Kernel} : ExecReachable E s → Exec E s s' → ExecReachable E s'

/-! ## Concrete states used to evaluate the code -/

/-- Errno values and thread ceiling used in the examples; every copy-out succeeds. -/
def exE : Extern :=
  { MAX_THREADS := 2, EINVAL := 22, ENOMEM := 12, EAGAIN := 11, copyout_err := fun _ => 0 }

/-- A thread structure with no parent, no records and nothing allocated. -/
def blank_thread : thread :=
  { pid := 0, ppid := 0, t_sleepaddr := none, t_stack := false, t_vmspace := none,
    t_cwd := none, child_exit_codes := none, t_pcb := none }

/-- An oracle under which every allocation succeeds; the new thread lands at `a`. -/
def ok_oracle (a : Addr) : fork_oracle :=
  { newguy := a, thread_ok := true, name_ok := true, codes_ok := true, stack_ok := true,
    array_ok := true, sleepers_err := 0, zombies_err := 0, scheduler_err := 0,
    runnable_err := 0 }

/-- A trap frame of a `fork` system call. -/
def ex_tf : trapframe :=
  { tf_v0 := 0, tf_a0 := 0, tf_a1 := 0, tf_a2 := 0, tf_a3 := 0, tf_epc := 4096,
    tf_others := List.replicate 31 0 }

/-- The state after boot: one thread, pid 1, at address 100. -/
def ex_boot : Option Kernel :=
  thread_bootstrap (fun _ => blank_thread) (fun _ => ex_tf) (fun _ => 0) (ok_oracle 100)

/-- The boot state written out. -/
def ex_s0 : Kernel :=
  { mem := Function.update (fun _ => blank_thread) 100
      { blank_thread with pid := 1, ppid := -1, child_exit_codes := some [] },
    thread_array := [100], sleepers := [], zombies := [], runqueue := [],
    curthread := some 100, numthreads := 1, nextpid := 2,
    tfmem := fun _ => ex_tf, usermem := fun _ => 0 }

/-- A parent (pid 1, at 100) switched back in after sleeping on its child (pid 2, at
101), while the child is still registered and runnable and has left no exit record. -/
def ex_woken_early : Kernel :=
  { mem := Function.update (Function.update (fun _ => blank_thread) 100
        { blank_thread with pid := 1, ppid := -1, t_sleepaddr := some 101,
                            child_exit_codes := some [] })
      101 { blank_thread with pid := 2, ppid := 1, child_exit_codes := some [] },
    thread_array := [100, 101], sleepers := [], zombies := [], runqueue := [101],
    curthread := some 100, numthreads := 2, nextpid := 3,
    tfmem := fun _ => ex_tf, usermem := fun _ => 0 }

/-- A parent (pid 1, at 100) switched back in after its child (pid 2) exited with code 3
and left its record behind another child's record. -/
def ex_woken : Kernel :=
  { mem := Function.update (fun _ => blank_thread) 100
      { blank_thread with pid := 1, ppid := -1, t_sleepaddr := some 101,
                          child_exit_codes := some [⟨5, 9⟩, ⟨2, 3⟩] },
    thread_array := [100], sleepers := [], zombies := [], runqueue := [],
    curthread := some 100, numthreads := 1, nextpid := 6,
    tfmem := fun _ => ex_tf, usermem := fun _ => 0 }

/-- Collaborator results of a `sys_fork` in which every allocation succeeds and the new
thread structure lands at `a`. -/
def ok_fork (a : Addr) : sys_fork_oracle :=
  { tf_child := some (a + 400), addr_alloc := some (a + 500), as_copy_ret := some (a + 500),
    thread_child := none, fork := ok_oracle a }

/-- The boot thread (pid 1, at 100) has forked a child (pid 2, at 101): two live
threads, which is the ceiling `MAX_THREADS` of `exE`. -/
def ex_s1 : Option Kernel := (sys_fork exE ex_s0 ex_tf (ok_fork 101)).state

/-- A grandchild about to become an orphan: the child (pid 2) runs, forks a grandchild
(pid 3, at 102) and exits with code 7 while its parent (pid 1) is registered; the
parent yields, so the grandchild runs while its parent is gone from the registry. -/
def ex_orphan : Option Kernel :=
  ((ex_s1.bind thread_yield).bind
      (fun s => (sys_fork { exE with MAX_THREADS := 5 } s ex_tf (ok_fork 102)).state)).bind
    (fun s => (thread_exit_with_code s 7).bind thread_yield)

/-- The child of `ex_s1` (pid 2, at 101) is switched in and exits with code 7; its
parent (pid 1, at 100) runs again, with the child's record in its list. -/
def ex_after_child_exit : Option Kernel :=
  (ex_s1.bind thread_yield).bind (fun s => thread_exit_with_code s 7)

/-- The state of `ex_after_child_exit`. -/
def ex_parent : Kernel := ex_after_child_exit.getD ex_s0

/-- The state after the parent of `ex_parent` has waited for pid 2 (status at user
address 7). -/
def ex_waited : Kernel := (sys_waitpid exE ex_parent 2 7 0).state.getD ex_s0

/-- The parent of `ex_s1` waits for its child (pid 2) before the child has exited: the
parent sleeps and the child runs. -/
def ex_blocked : Kernel :=
  (ex_s1.bind (fun s => (sys_waitpid exE s 2 7 0).state)).getD ex_s0

/-- The child of `ex_blocked` exits with code 3; the parent is current again, about to
return from `thread_sleep`. -/
def ex_child_exited : Kernel := (thread_exit_with_code ex_blocked 3).getD ex_s0

/-- The state after the parent of `ex_child_exited` has finished its wait. -/
def ex_resumed : Kernel := (sys_waitpid_wakeup exE ex_child_exited 2 7).state.getD ex_s0

/-- The state after the fork of `ex_s1`. -/
def ex_forked : Kernel := ex_s1.getD ex_s0

/-- The parent of `ex_waited` forks another child (pid 3, at 102) after its wait. -/
def ex_waited_forked : Kernel :=
  (sys_fork exE ex_waited ex_tf (ok_fork 102)).state.getD ex_s0

/-- Collaborator results of a `sys_fork` in which the stack of the new thread cannot be
allocated, so that `thread_fork` fails with `ENOMEM`, while the local `thread_child`,
which `sys_fork` never initialises and `thread_fork` does not store to when it fails,
happens to hold the address 100 (of the boot thread). -/
def ex_fork_no_stack : sys_fork_oracle :=
  { ok_fork 101 with thread_child := some 100,
                     fork := { ok_oracle 101 with stack_ok := false } }

/-- Sleepers with adjacent entries on the same address: the threads at 101 and 102 sleep
on 900, the thread at 103 on 901, the thread at 104 on 900 again; the thread at 100
runs. -/
def ex_sleepers : Kernel :=
  { mem := fun a =>
      if a = 101 ∨ a = 102 ∨ a = 104 then { blank_thread with t_sleepaddr := some 900 }
      else if a = 103 then { blank_thread with t_sleepaddr := some 901 }
      else blank_thread,
    thread_array := [100, 101, 102, 103, 104], sleepers := [101, 102, 103, 104],
    zombies := [], runqueue := [], curthread := some 100, numthreads := 5, nextpid := 6,
    tfmem := fun _ => ex_tf, usermem := fun _ => 0 }

/-- The boot state of the thread system, with no semaphore and no lock set up yet. -/
def ex_synch : Synch :=
  { kern := ex_s0, sems := fun _ => ⟨"", 0⟩, locks := fun _ => ⟨"", none⟩ }

/-- A semaphore with count 0 has been created at address 700. -/
def ex_sem : Synch :=
  ((sem_create ex_synch "sem" 0 ⟨some 700, true⟩).map Prod.fst).getD ex_synch

/-- The boot thread (at 100) has called `P` on the semaphore of `ex_sem` and sleeps. -/
def ex_sem_waiting : Synch := (P ex_sem 700).state.getD ex_synch

/-- A `V` on the semaphore of `ex_sem_waiting` (from an interrupt, the processor being
idle). -/
def ex_sem_posted : Synch := (V ex_sem_waiting 700).state.getD ex_synch

/-- The woken thread of `ex_sem_posted` has been dispatched. -/
def ex_sem_dispatched : Synch :=
  { ex_sem_posted with
    kern := { (scheduler ex_sem_posted.kern).2 with
              curthread := (scheduler ex_sem_posted.kern).1 } }

/-- The thread of `ex_sem_dispatched` has finished its `P`. -/
def ex_sem_taken : Synch := (P_wakeup ex_sem_dispatched 700).state.getD ex_synch

/-- The state after the fork of `ex_forked` (thread 100 runs, thread 101 is runnable),
with a lock created at address 800. -/
def ex_lock : Synch := (lock_create { ex_synch with kern := ex_forked } "lock" ⟨some 800, true⟩).1

/-- The thread at 100 has acquired the lock of `ex_lock`. -/
def ex_lock_held : Synch := (lock_acquire ex_lock 800).state.getD ex_synch

/-- The holder of `ex_lock_held` has yielded: the thread at 101 runs. -/
def ex_lock_other : Synch :=
  { ex_lock_held with kern := (thread_yield ex_lock_held.kern).getD ex_s0 }

/-- The thread at 101 has called `lock_acquire` on the held lock and sleeps; the holder
(at 100) runs again. -/
def ex_lock_contended : Synch := (lock_acquire ex_lock_other 800).state.getD ex_synch

/-- The holder of `ex_lock_held` has called `cv_wait` on the condition variable at 900:
it sleeps on 900, the lock is free and the thread at 101 runs. -/
def ex_cv_waiting : Synch := (cv_wait ex_lock_held 900 800).state.getD ex_synch

/-- The thread at 101 has acquired the lock of `ex_cv_waiting`. -/
def ex_cv_other_holds : Synch := (lock_acquire ex_cv_waiting 800).state.getD ex_synch

/-- The thread at 101, holding the lock of `ex_cv_other_holds`, has called `cv_signal`
on the condition variable at 900: the thread at 100 is runnable. -/
def ex_cv_signalled : Synch := (cv_signal ex_cv_other_holds 900 800).state.getD ex_synch

/-- The thread at 101 has released the lock of `ex_cv_signalled`. -/
def ex_cv_released : Synch := (lock_release ex_cv_signalled 800).state.getD ex_synch

/-- The thread at 101 has yielded: the thread at 100 is switched back in, about to
return from the `thread_sleep` of its `cv_wait`. -/
def ex_cv_back : Synch :=
  { ex_cv_released with kern := (thread_yield ex_cv_released.kern).getD ex_s0 }

/-- Call numbers and error values used in the examples. -/
def ex_consts : syscall_consts :=
  { SYS_reboot := 8, SYS_write := 6, SYS_read := 5, SYS___time := 113, SYS_sleep := 114,
    SYS_fork := 2, SYS_getpid := 11, SYS_waitpid := 3, SYS__exit := 0, SYS_execv := 1,
    ENOSYS := 1, EFAULT := 6 }

/-- The calls as they come out in the boot state `ex_s0`: `fork`, `getpid` and `waitpid`
are those of the thread system, a `write` reports its byte count, a `read` fails with
error 9 and `execv` does not return. -/
def ex_calls : syscalls :=
  { sys_reboot := fun _ => 0,
    sys_write := fun _ _ nbytes => (0, some (nbytes : Int)),
    sys_read := fun _ _ _ => 9,
    sys_time := fun _ _ => 1000,
    sys_sleep := fun _ => 0,
    sys_fork := fun tf =>
      ((sys_fork exE ex_s0 tf (ok_fork 101)).retval.getD 0,
       (sys_fork exE ex_s0 tf (ok_fork 101)).err),
    sys_getpid := (sys_getpid ex_s0).getD 0,
    sys_waitpid := fun pid status options =>
      ((sys_waitpid exE ex_s0 pid status options).retval.getD 0,
       (sys_waitpid exE ex_s0 pid status options).err),
    sys_execv := fun _ _ => none }

/-- An oracle under which the new thread structure lands at `a` and gets its pid, but
the kernel stack cannot be allocated, so that `thread_fork` fails with `ENOMEM`. -/
def no_stack_oracle (a : Addr) : fork_oracle :=
  { ok_oracle a with stack_ok := false }

/-- The boot thread of `ex_s0` has called `thread_fork` and failed for lack of a stack:
no thread was added, but the pid 2 is used up. -/
def ex_fork_failed : Kernel :=
  ((thread_fork exE ex_s0 "worker" 0 0 (.other 0) (no_stack_oracle 101)).map
    (fun p => p.1)).getD ex_s0

/-- The boot thread of `ex_fork_failed` forks again, this time with success: the new
thread (at 102) has pid 3. -/
def ex_fork_again : Kernel :=
  ((thread_fork exE ex_fork_failed "worker" 0 0 (.other 0) (ok_oracle 102)).map
    (fun p => p.1)).getD ex_s0

/-- The collaborators of `exE`, except that a copy-out to user address 7 fails with
error 6. -/
def ex_fault : Extern :=
  { exE with copyout_err := fun dst => if dst = 7 then 6 else 0 }

/-- The state of `ex_parent` under `ex_fault`: the boot thread (pid 1, at 100) has
forked a child (pid 2, at 101), the child has run and exited with code 7, and the
parent runs again with the child's record in its list. -/
def ex_fault_parent : Kernel :=
  (((sys_fork ex_fault ex_s0 ex_tf (ok_fork 101)).state.bind thread_yield).bind
    (fun s => thread_exit_with_code s 7)).getD ex_s0

/-- The state of `ex_child_exited` under `ex_fault`: the parent has gone to sleep in
`sys_waitpid` for pid 2, the child has exited with code 3 and the parent is current
again, about to return from `thread_sleep`. -/
def ex_fault_child_exited : Kernel :=
  (((sys_fork ex_fault ex_s0 ex_tf (ok_fork 101)).state.bind
      (fun s => (sys_waitpid ex_fault s 2 7 0).state)).bind
    (fun s => thread_exit_with_code s 3)).getD ex_s0

/-- A thread forks a thread at address `a` and exits at once, before it is preempted:
the state in which the new thread starts, and the room reserved. -/
def fork_and_exit (E : Extern) (a : Addr) (p : Kernel × reserved) : Option (Kernel × reserved) :=
  match thread_fork E p.1 "worker" 0 0 (.other 0) (ok_oracle a) with
  | none => none
  | some (s1, _, _) =>
    (thread_exit_with_code s1 0).map (fun s2 => (s2, thread_fork_reserve p.1 (ok_oracle a) p.2))

/-- The boot thread of `ex_s0` (at 100) has forked a first worker (at 101). -/
def ex_chain_forked : Kernel :=
  ((thread_fork exE ex_s0 "worker" 0 0 (.other 0) (ok_oracle 101)).map (fun p => p.1)).getD ex_s0

/-- The boot thread has gone to sleep on the address 700 (a semaphore, say) and the
first worker runs; `thread_fork` has reserved room for two entries. -/
def ex_chain_0 : Kernel × reserved :=
  ((thread_sleep ex_chain_forked 700).getD ex_s0,
    thread_fork_reserve ex_s0 (ok_oracle 101) ⟨0, 0, 0⟩)

/-- The first worker has forked a second one (at 102) and exited. -/
def ex_chain_1 : Kernel × reserved := (fork_and_exit exE 102 ex_chain_0).getD ex_chain_0

/-- The second worker has forked a third one (at 103) and exited. -/
def ex_chain_2 : Kernel × reserved := (fork_and_exit exE 103 ex_chain_1).getD ex_chain_0

/-- The third worker has forked a fourth one (at 104) and exited: three zombies, and the
fourth worker runs. -/
def ex_chain_3 : Kernel × reserved := (fork_and_exit exE 104 ex_chain_2).getD ex_chain_0

/-- The boot thread of `ex_chain_forked` has forked a second worker (pid 3, at 102). -/
def ex_family_2 : Kernel :=
  ((thread_fork exE ex_chain_forked "worker" 0 0 (.other 0) (ok_oracle 102)).map
    (fun p => p.1)).getD ex_s0

/-- It has forked a third worker (pid 4, at 103). -/
def ex_family_3 : Kernel :=
  ((thread_fork exE ex_family_2 "worker" 0 0 (.other 0) (ok_oracle 103)).map
    (fun p => p.1)).getD ex_s0

/-- It has forked a fourth worker (pid 5, at 104). -/
def ex_family_4 : Kernel :=
  ((thread_fork exE ex_family_3 "worker" 0 0 (.other 0) (ok_oracle 104)).map
    (fun p => p.1)).getD ex_s0

/-- The boot thread has gone to sleep on the address 700; the first worker runs. -/
def ex_family_asleep : Kernel := (thread_sleep ex_family_4 700).getD ex_s0

/-- The first worker has exited with code 7; the second worker runs. -/
def ex_family_5 : Kernel := (thread_exit_with_code ex_family_asleep 7).getD ex_s0

/-- The second worker has exited with code 9: the third worker runs, the fourth is
runnable, the boot thread sleeps with the records of two children in its list, and the
first two workers are zombies. -/
def ex_family : Kernel := (thread_exit_with_code ex_family_5 9).getD ex_s0

/-- An oracle under which `thread_create` hands out a pid and then finds no memory for
the record list of the new thread (at `a`): the `thread_fork` fails with `ENOMEM`. -/
def lost_oracle (a : Addr) : fork_oracle :=
  { ok_oracle a with codes_ok := false }

/-- The state after `n + 1` calls of `thread_fork` by the running thread `cur` that fail
under `lost_oracle a`: the structure at `a` holds the pid handed out last, and the pid
counter has been incremented `n + 1` times. -/
def pids_lost (s : Kernel) (cur a : Addr) (n : Nat) : Kernel :=
  { s.setThread a
      { pid := wrap32 (s.nextpid + n), ppid := (s.mem cur).pid, t_sleepaddr := none,
        t_stack := false, t_vmspace := none, t_cwd := none, child_exit_codes := none,
        t_pcb := (s.mem a).t_pcb } with
    nextpid := wrap32 (s.nextpid + n + 1) }

/-- The boot thread of `ex_s0` has called `thread_fork` `2^31 - 2` times, each call
failing under `lost_oracle 105`: the pid counter has wrapped to the smallest `pid_t`. -/
def ex_pid_wrapped : Kernel := pids_lost ex_s0 100 105 (2 ^ 31 - 3)

/-- The boot thread of `ex_s0` has called `thread_fork` `2^32 - 1` times, each call
failing under `lost_oracle 105`: the pid counter has come round to 1. -/
def ex_pid_round : Kernel := pids_lost ex_s0 100 105 (2 ^ 32 - 2)

/-- The boot thread of `ex_pid_round` forks a worker (at 101). -/
def ex_pid_reused : Kernel :=
  ((thread_fork exE ex_pid_round "worker" 0 0 (.other 0) (ok_oracle 101)).map
    (fun p => p.1)).getD ex_s0

/-- The parent of `ex_parent`, which holds the record of its child with pid 2, has
called `thread_fork` `2^32 - 1` times, each call failing under `lost_oracle 105`: the
pid counter has come round to 2. -/
def ex_record_round : Kernel := pids_lost ex_parent 100 105 (2 ^ 32 - 2)

/-- The parent of `ex_record_round` forks a worker (at 102). -/
def ex_record_forked : Kernel :=
  ((thread_fork exE ex_record_round "worker" 0 0 (.other 0) (ok_oracle 102)).map
    (fun p => p.1)).getD ex_s0

/-- The parent yields and the worker runs. -/
def ex_record_yielded : Kernel := (thread_yield ex_record_forked).getD ex_s0

/-- The worker exits with code 9. -/
def ex_record_twice : Kernel := (thread_exit_with_code ex_record_yielded 9).getD ex_s0

/-- Under `ex_fault`: the boot thread (pid 1, at 100) has forked a first child (pid 2, at
101). -/
def ex_fault_two_1 : Kernel :=
  (sys_fork ex_fault ex_s0 ex_tf (ok_fork 101)).state.getD ex_s0

/-- It has forked a second child (pid 3, at 102). -/
def ex_fault_two_2 : Kernel :=
  (sys_fork ex_fault ex_fault_two_1 ex_tf (ok_fork 102)).state.getD ex_s0

/-- The parent yields; the first child runs. -/
def ex_fault_two_3 : Kernel := (thread_yield ex_fault_two_2).getD ex_s0

/-- The first child exits with code 7; the second child runs. -/
def ex_fault_two_4 : Kernel := (thread_exit_with_code ex_fault_two_3 7).getD ex_s0

/-- The second child exits with code 9: the parent runs again, with the records of both
children in its list. -/
def ex_fault_two : Kernel := (thread_exit_with_code ex_fault_two_4 9).getD ex_s0

/-- The second child of `ex_fault_two_4` yields instead: the parent runs, with the
record of the first child in its list. -/
def ex_fault_wait_1 : Kernel := (thread_yield ex_fault_two_4).getD ex_s0

/-- The parent waits for the second child (pid 3) and goes to sleep; the child runs. -/
def ex_fault_wait_2 : Kernel := (sys_waitpid ex_fault ex_fault_wait_1 3 7 0).state.getD ex_s0

/-- The second child exits with code 9: the parent is current again, about to return
from `thread_sleep`, with the records of both children in its list. -/
def ex_fault_woken : Kernel := (thread_exit_with_code ex_fault_wait_2 9).getD ex_s0

/-- The boot thread of `ex_fork_again` forks once more: the new thread (at 103) has
pid 4. -/
def ex_fork_third : Kernel :=
  ((thread_fork exE ex_fork_again "worker" 0 0 (.other 0) (ok_oracle 103)).map
    (fun p => p.1)).getD ex_s0

/-! # Theorems -/

/-! ## Stores through thread pointers -/

@[simp] theorem setThread_mem_same (s : Kernel) (a : Addr) (t : thread) :
    (s.setThread a t).mem a = t := by
  simp [Kernel.setThread]

theorem setThread_mem_other (s : Kernel) (a b : Addr) (t : thread) (h : b ≠ a) :
    (s.setThread a t).mem b = s.mem b := by
  simp [Kernel.setThread, Function.update_noteq h]

@[simp] theorem setThread_thread_array (s : Kernel) (a : Addr) (t : thread) :
    (s.setThread a t).thread_array = s.thread_array := rfl

@[simp] theorem setThread_sleepers (s : Kernel) (a : Addr) (t : thread) :
    (s.setThread a t).sleepers = s.sleepers := rfl

@[simp] theorem setThread_zombies (s : Kernel) (a : Addr) (t : thread) :
    (s.setThread a t).zombies = s.zombies := rfl

@[simp] theorem setThread_runqueue (s : Kernel) (a : Addr) (t : thread) :
    (s.setThread a t).runqueue = s.runqueue := rfl

@[simp] theorem setThread_curthread (s : Kernel) (a : Addr) (t : thread) :
    (s.setThread a t).curthread = s.curthread := rfl

@[simp] theorem setThread_numthreads (s : Kernel) (a : Addr) (t : thread) :
    (s.setThread a t).numthreads = s.numthreads := rfl

@[simp] theorem setThread_nextpid (s : Kernel) (a : Addr) (t : thread) :
    (s.setThread a t).nextpid = s.nextpid := rfl

@[simp] theorem setThread_tfmem (s : Kernel) (a : Addr) (t : thread) :
    (s.setThread a t).tfmem = s.tfmem := rfl

@[simp] theorem setThread_usermem (s : Kernel) (a : Addr) (t : thread) :
    (s.setThread a t).usermem = s.usermem := rfl

/-! ## The registry loops -/

theorem get_thread_loop_none {mem : Addr → thread} {pid : Int} {l : List Addr} :
    get_thread_loop mem pid l = none ↔ ∀ a ∈ l, (mem a).pid ≠ pid := by
  induction l with
  | nil => simp [get_thread_loop]
  | cons t rest ih =>
    by_cases h : (mem t).pid = pid
    · simp [get_thread_loop, h]
    · simp [get_thread_loop, h, ih]

theorem get_thread_loop_some {mem : Addr → thread} {pid : Int} {l : List Addr} {a : Addr}
    (h : get_thread_loop mem pid l = some a) : a ∈ l ∧ (mem a).pid = pid := by
  induction l with
  | nil => simp [get_thread_loop] at h
  | cons t rest ih =>
    by_cases ht : (mem t).pid = pid
    · simp [get_thread_loop, ht] at h
      subst h
      exact ⟨List.mem_cons_self _ _, ht⟩
    · simp [get_thread_loop, ht] at h
      exact ⟨List.mem_cons_of_mem _ (ih h).1, (ih h).2⟩

/-- Lookups depend on the pids of the registered threads only. -/
theorem get_thread_loop_congr {m1 m2 : Addr → thread} {pid : Int} {l : List Addr}
    (h : ∀ a ∈ l, (m1 a).pid = (m2 a).pid) :
    get_thread_loop m1 pid l = get_thread_loop m2 pid l := by
  induction l with
  | nil => rfl
  | cons t rest ih =>
    have ht := h t (List.mem_cons_self _ _)
    have ih' := ih (fun a ha => h a (List.mem_cons_of_mem _ ha))
    simp [get_thread_loop, ht, ih']

/-! ## The scan of the exit records -/

theorem find_exit_code_none {pid : Int} {l : List exitted_thread} {i : Nat} :
    find_exit_code pid l i = none ↔ ∀ e ∈ l, e.pid ≠ pid := by
  induction l generalizing i with
  | nil => simp [find_exit_code]
  | cons e rest ih =>
    by_cases h : e.pid = pid
    · simp [find_exit_code, h]
    · simp [find_exit_code, h, ih]

/-- What a successful scan returns: the first record for `pid`, with its position. -/
theorem find_exit_code_some {pid : Int} {l : List exitted_thread} {i j : Nat}
    {e : exitted_thread} (h : find_exit_code pid l i = some (j, e)) :
    ∃ pre post, l = pre ++ e :: post ∧ (∀ x ∈ pre, x.pid ≠ pid) ∧ e.pid = pid ∧
      j = i + pre.length := by
  induction l generalizing i with
  | nil => simp [find_exit_code] at h
  | cons x rest ih =>
    by_cases hx : x.pid = pid
    · simp [find_exit_code, hx] at h
      obtain ⟨rfl, rfl⟩ := h
      exact ⟨[], rest, rfl, by simp, hx, by simp⟩
    · simp [find_exit_code, hx] at h
      obtain ⟨pre, post, hl, hpre, he, hj⟩ := ih h
      refine ⟨x :: pre, post, by simp [hl], ?_, he, by simp [hj]; omega⟩
      intro y hy
      rcases List.mem_cons.mp hy with rfl | hy
      · exact hx
      · exact hpre y hy

theorem find_exit_code_first {pid : Int} {pre post : List exitted_thread}
    {e : exitted_thread} (i : Nat) (hpre : ∀ x ∈ pre, x.pid ≠ pid) (he : e.pid = pid) :
    find_exit_code pid (pre ++ e :: post) i = some (i + pre.length, e) := by
  induction pre generalizing i with
  | nil => simp [find_exit_code, he]
  | cons x pre ih =>
    have hx : x.pid ≠ pid := hpre x (List.mem_cons_self _ _)
    have := ih (i + 1) (fun y hy => hpre y (List.mem_cons_of_mem _ hy))
    simp [find_exit_code, hx, this]
    omega

theorem eraseIdx_append_cons {α : Type} (pre post : List α) (e : α) :
    (pre ++ e :: post).eraseIdx pre.length = pre ++ post := by
  induction pre with
  | nil => rfl
  | cons x pre ih => simp [List.eraseIdx, ih]

/-! ## Wait: argument errors -/

/-- C3: `sys_waitpid` returns `-1` with `EINVAL` whenever `pid <= 0`, or `options != 0`,
or a registered thread with that pid exists whose `ppid` is not the caller's pid; the
state returned is the state it was called in (so the caller's record list, the registry
and the sleep set are unchanged) and the call returns instead of blocking. -/
theorem sys_waitpid_invalid_argument (E : Extern) (s : Kernel) (cur : Addr) (pid : Int)
    (status : Addr) (options : Int) (hcur : s.curthread = some cur)
    (h : pid ≤ 0 ∨ options ≠ 0 ∨
      ∃ c, get_thread_from_array s pid = some c ∧ (s.mem c).ppid ≠ (s.mem cur).pid) :
    sys_waitpid E s pid status options = .ret s (-1) (some E.EINVAL) := by
  unfold sys_waitpid
  simp only [hcur]
  by_cases h1 : pid ≤ 0
  · rw [if_pos h1]
  · rw [if_neg h1]
    by_cases h2 : (get_thread_from_array s pid).any
        (fun c => decide ((s.mem c).ppid ≠ (s.mem cur).pid)) = true
    · rw [if_pos h2]
    · rw [if_neg h2]
      by_cases h3 : options ≠ 0
      · rw [if_pos h3]
      · exfalso
        rcases h with h | h | ⟨c, hc, hne⟩
        · exact h1 h
        · exact h3 h
        · apply h2
          rw [hc]
          simpa using hne

theorem sys_waitpid_invalid_argument_witness :
    sys_waitpid exE ex_s0 0 7 0 = .ret ex_s0 (-1) (some exE.EINVAL) ∧
    sys_waitpid exE ex_s0 5 7 1 = .ret ex_s0 (-1) (some exE.EINVAL) ∧
    sys_waitpid exE { ex_s0 with curthread := some 3 } 1 7 0 =
      .ret { ex_s0 with curthread := some 3 } (-1) (some exE.EINVAL) :=
  ⟨sys_waitpid_invalid_argument exE ex_s0 100 0 7 0 rfl (Or.inl (by decide)),
   sys_waitpid_invalid_argument exE ex_s0 100 5 7 1 rfl (Or.inr (Or.inl (by decide))),
   sys_waitpid_invalid_argument exE { ex_s0 with curthread := some 3 } 3 1 7 0 rfl
     (Or.inr (Or.inr ⟨100, by decide, by decide⟩))⟩

/-! ## Wait: after the wakeup -/

/-- C5 (as stated, refuted): a caller that is switched back in while no record for the
awaited pid is in its list does not go back to sleep; `sys_waitpid` panics. -/
theorem sys_waitpid_wakeup_no_record_panics :
    (∃ s0, thread_sleep_return ex_woken_early = some s0 ∧ s0.curthread = some 100 ∧
      (s0.mem 100).child_exit_codes = some []) ∧
    sys_waitpid_wakeup exE ex_woken_early 2 7 = .panic ∧
    ¬ ∃ s', sys_waitpid_wakeup exE ex_woken_early 2 7 = .blocked s' := by
  refine ⟨⟨_, rfl, rfl, ?_⟩, ?_, ?_⟩
  · simp [ex_woken_early, exorcise, Kernel.setThread]
  · rfl
  · rintro ⟨s', h⟩
    have hp : sys_waitpid_wakeup exE ex_woken_early 2 7 = .panic := rfl
    rw [hp] at h
    cases h

/-- C5 (amended): after the wakeup `sys_waitpid` scans the caller's record list exactly
once.  If no record for `pid` is there it panics; it never sleeps a second time.  If
one is there, the first such record is copied out and removed and `pid` is returned. -/
theorem sys_waitpid_wakeup_scans_once (E : Extern) (s s0 : Kernel) (cur : Addr)
    (codes : List exitted_thread) (pid : Int) (status : Addr)
    (hret : thread_sleep_return s = some s0) (hcur : s0.curthread = some cur)
    (hcodes : (s0.mem cur).child_exit_codes = some codes) :
    ((∀ e ∈ codes, e.pid ≠ pid) → sys_waitpid_wakeup E s pid status = .panic) ∧
    (∀ s', sys_waitpid_wakeup E s pid status ≠ .blocked s') ∧
    (∀ pre e post, codes = pre ++ e :: post → (∀ x ∈ pre, x.pid ≠ pid) → e.pid = pid →
      E.copyout_err status = 0 →
      ∃ s', sys_waitpid_wakeup E s pid status = .ret s' pid none ∧
        (s'.mem cur).child_exit_codes = some (pre ++ post) ∧
        s'.usermem status = e.exitcode) := by
  refine ⟨?_, ?_, ?_⟩
  · intro hno
    have hf : find_exit_code pid codes 0 = none := find_exit_code_none.mpr hno
    simp [sys_waitpid_wakeup, hret, hcur, hcodes, hf]
  · intro s' h
    unfold sys_waitpid_wakeup at h
    simp only [hret, hcur, hcodes] at h
    cases hf : find_exit_code pid codes 0 with
    | none => simp [hf] at h
    | some r =>
      obtain ⟨i, e⟩ := r
      simp only [hf] at h
      split at h <;> cases h
  · intro pre e post hl hpre he hok
    subst hl
    have hf : find_exit_code pid (pre ++ e :: post) 0 = some (pre.length, e) := by
      simpa using @find_exit_code_first pid pre post e 0 hpre he
    refine ⟨({ s0 with usermem := Function.update s0.usermem status e.exitcode }).setThread cur
      { s0.mem cur with child_exit_codes := some (pre ++ post) }, ?_, ?_, ?_⟩
    · simp [sys_waitpid_wakeup, hret, hcur, hcodes, hf, copyout, hok,
        eraseIdx_append_cons]
    · simp
    · simp [Kernel.setThread]

theorem sys_waitpid_wakeup_scans_once_witness :
    sys_waitpid_wakeup exE ex_woken 4 7 = .panic ∧
    ∃ s', sys_waitpid_wakeup exE ex_woken 2 7 = .ret s' 2 none ∧
      (s'.mem 100).child_exit_codes = some ([⟨5, 9⟩] ++ []) ∧
      s'.usermem 7 = (⟨2, 3⟩ : exitted_thread).exitcode :=
  ⟨(sys_waitpid_wakeup_scans_once exE ex_woken
      ((ex_woken.setThread 100 { ex_woken.mem 100 with t_sleepaddr := none })) 100
      [⟨5, 9⟩, ⟨2, 3⟩] 4 7 rfl rfl (by simp [ex_woken])).1 (by decide),
   (sys_waitpid_wakeup_scans_once exE ex_woken
      ((ex_woken.setThread 100 { ex_woken.mem 100 with t_sleepaddr := none })) 100
      [⟨5, 9⟩, ⟨2, 3⟩] 2 7 rfl rfl (by simp [ex_woken])).2.2 [⟨5, 9⟩] ⟨2, 3⟩ [] rfl
      (by decide) rfl rfl⟩

/-! ## Exit -/

/-- What the first half of `mi_switch` does to a state with a current thread. -/
theorem mi_switch_some {s s' : Kernel} {st : threadstate_t} {cur : Addr}
    (hcur : s.curthread = some cur) (h : mi_switch s st = some s') :
    s'.mem = s.mem ∧ s'.thread_array = s.thread_array ∧ s'.numthreads = s.numthreads ∧
    s'.nextpid = s.nextpid ∧ s'.tfmem = s.tfmem ∧ s'.usermem = s.usermem ∧
    s'.zombies = (if st = .S_ZOMB then s.zombies ++ [cur] else s.zombies) ∧
    s'.curthread =
      (if st = .S_READY then s.runqueue ++ [cur] else s.runqueue).head? ∧
    s'.runqueue =
      (if st = .S_READY then s.runqueue ++ [cur] else s.runqueue).tail ∧
    s'.sleepers = (if st = .S_SLEEP then s.sleepers ++ [cur] else s.sleepers) := by
  unfold mi_switch at h
  rw [hcur] at h
  cases st
  · simp at h
  all_goals
    simp only [Option.map_some', Option.some.injEq, make_runnable] at h
    subst h
    simp only [scheduler]
    split <;> rename_i heq <;> simp_all

theorem mi_switch_none {s : Kernel} {st : threadstate_t} (hcur : s.curthread = none) :
    mi_switch s st = some s := by
  unfold mi_switch
  rw [hcur]

/-- Any of the three switches a caller asks for goes through. -/
theorem mi_switch_isSome (s : Kernel) (st : threadstate_t) (h : st ≠ .S_RUN) :
    ∃ s', mi_switch s st = some s' := by
  unfold mi_switch
  cases s.curthread with
  | none => exact ⟨_, rfl⟩
  | some cur => cases st <;> simp at h ⊢

/-- Without a registered parent the hand-off block of `thread_exit_with_code` does
nothing. -/
theorem exit_handoff_no_parent (s : Kernel) (cur : Addr) (k : Int)
    (hnp : get_thread_from_array s (s.mem cur).ppid = none) : exit_handoff s cur k = some s := by
  unfold exit_handoff
  split
  · simp [hnp]
  · rfl

/-- The state `thread_exit_with_code` reaches before its final switch, given the result
of the hand-off block. -/
theorem thread_exit_cleanup_eq {s s1 : Kernel} {cur : Addr} {k : Int}
    (hcur : s.curthread = some cur) (hh : exit_handoff s cur k = some s1)
    (hn : 0 < s1.numthreads) :
    thread_exit_cleanup s k = some (exit_cleanup_state s1 cur) := by
  simp [thread_exit_cleanup, hcur, hh, hn, Kernel.setThread, exit_cleanup_state]

theorem exit_cleanup_state_codes (s1 : Kernel) (cur a : Addr) :
    ((exit_cleanup_state s1 cur).mem a).child_exit_codes = (s1.mem a).child_exit_codes := by
  by_cases ha : a = cur
  · subst ha
    simp [exit_cleanup_state, Kernel.setThread]
  · simp [exit_cleanup_state, Kernel.setThread, Function.update_noteq ha]

theorem exit_cleanup_state_pid (s1 : Kernel) (cur a : Addr) :
    ((exit_cleanup_state s1 cur).mem a).pid = (s1.mem a).pid ∧
    ((exit_cleanup_state s1 cur).mem a).ppid = (s1.mem a).ppid ∧
    ((exit_cleanup_state s1 cur).mem a).t_sleepaddr = (s1.mem a).t_sleepaddr := by
  by_cases ha : a = cur
  · subst ha
    simp [exit_cleanup_state, Kernel.setThread]
  · simp [exit_cleanup_state, Kernel.setThread, Function.update_noteq ha]

/-- C7 (the code at the failing input): an orphan (pid 3, at 102) whose parent has
exited calls `thread_exit_with_code(9)`.  It becomes a zombie and the live-thread count
drops by one, but `get_thread_from_array(3)` still returns it: only the branch with a
registered parent calls `remove_thread_from_array`.  The same happens to the root
thread (pid 1, `ppid = -1`). -/
theorem thread_exit_orphan_stays_registered :
    (ex_orphan.map (fun s =>
        (s.curthread, (s.mem 102).pid, get_thread_from_array s (s.mem 102).ppid, s.numthreads)))
      = some (some 102, 3, none, 2) ∧
    ((ex_orphan.bind (fun s => thread_exit_with_code s 9)).map (fun s' =>
        (get_thread_from_array s' 3, decide (102 ∈ s'.zombies), s'.numthreads)))
      = some (some 102, true, 1) ∧
    ((thread_exit_with_code ex_s0 0).map (fun s' =>
        (get_thread_from_array s' 1, decide (100 ∈ s'.zombies), s'.numthreads)))
      = some (some 100, true, 0) := by
  refine ⟨?_, ?_, ?_⟩ <;> decide

/-- The branch of `thread_exit_with_code` with a registered parent does unregister the
exiting thread: the child of `ex_s1` (pid 2), once running, exits and is gone from the
registry. -/
theorem thread_exit_child_unregistered :
    (((ex_s1.bind thread_yield).bind (fun s => thread_exit_with_code s 7)).map (fun s' =>
        (get_thread_from_array s' 2, decide (101 ∈ s'.zombies), s'.numthreads)))
      = some (none, true, 1) := by
  decide

/-! ## Fork: the thread ceiling -/

/-- Above the ceiling `sys_fork` fails with `EAGAIN` and changes nothing. -/
theorem sys_fork_above_ceiling (E : Extern) (s : Kernel) (tf : trapframe) (o : sys_fork_oracle)
    (h : E.MAX_THREADS < thread_count s) : sys_fork E s tf o = .ret s (-1) (some E.EAGAIN) := by
  unfold sys_fork
  rw [if_pos h]

/-- C9 (the code at the failing input): with `thread_count() == MAX_THREADS` (two live
threads, ceiling 2) `sys_fork` does not fail with `EAGAIN`: the test is
`thread_count() > MAX_THREADS`, so the fork goes through, returns the new pid 3 and
leaves three live threads and a third registered thread. -/
theorem sys_fork_at_ceiling_succeeds :
    ex_s1.map thread_count = some exE.MAX_THREADS ∧
    (ex_s1.map (fun s =>
        ((sys_fork exE s ex_tf (ok_fork 102)).retval, (sys_fork exE s ex_tf (ok_fork 102)).err,
         ((sys_fork exE s ex_tf (ok_fork 102)).state.map
            (fun s' => (thread_count s', s'.thread_array))))))
      = some (some 3, none, some (3, [100, 101, 102])) := by
  refine ⟨?_, ?_⟩ <;> decide

/-! ## The removal loops -/

/-- What `remove_thread_loop` removes: the first entry with the pid. -/
theorem remove_thread_loop_some {mem : Addr → thread} {pid : Int} {l l' : List Addr}
    (h : remove_thread_loop mem pid l = some l') :
    ∃ pre t post, l = pre ++ t :: post ∧ l' = pre ++ post ∧ (mem t).pid = pid ∧
      ∀ x ∈ pre, (mem x).pid ≠ pid := by
  induction l generalizing l' with
  | nil => simp [remove_thread_loop] at h
  | cons x rest ih =>
    by_cases hx : (mem x).pid = pid
    · simp [remove_thread_loop, hx] at h
      subst h
      exact ⟨[], x, rest, rfl, rfl, hx, by simp⟩
    · simp [remove_thread_loop, hx] at h
      obtain ⟨r, hr, rfl⟩ := h
      obtain ⟨pre, t, post, hl, hl', ht, hpre⟩ := ih hr
      refine ⟨x :: pre, t, post, by simp [hl], by simp [hl'], ht, ?_⟩
      intro y hy
      rcases List.mem_cons.mp hy with rfl | hy
      · exact hx
      · exact hpre y hy

theorem remove_thread_loop_none {mem : Addr → thread} {pid : Int} {l : List Addr} :
    remove_thread_loop mem pid l = none ↔ ∀ a ∈ l, (mem a).pid ≠ pid := by
  induction l with
  | nil => simp [remove_thread_loop]
  | cons t rest ih =>
    by_cases h : (mem t).pid = pid
    · simp [remove_thread_loop, h]
    · simp [remove_thread_loop, h, ih]

theorem remove_thread_loop_congr {m1 m2 : Addr → thread} {pid : Int} {l : List Addr}
    (h : ∀ a ∈ l, (m1 a).pid = (m2 a).pid) :
    remove_thread_loop m1 pid l = remove_thread_loop m2 pid l := by
  induction l with
  | nil => rfl
  | cons t rest ih =>
    have ht := h t (List.mem_cons_self _ _)
    have ih' := ih (fun a ha => h a (List.mem_cons_of_mem _ ha))
    simp [remove_thread_loop, ht, ih']

/-- What `single_wakeup_loop` picks: the first sleeper on the address. -/
theorem single_wakeup_loop_some {mem : Addr → thread} {addr : Addr} {l rest : List Addr}
    {t : Addr} (h : single_wakeup_loop mem addr l = some (t, rest)) :
    ∃ pre post, l = pre ++ t :: post ∧ rest = pre ++ post ∧
      (mem t).t_sleepaddr = some addr ∧ ∀ x ∈ pre, (mem x).t_sleepaddr ≠ some addr := by
  induction l generalizing rest with
  | nil => simp [single_wakeup_loop] at h
  | cons x xs ih =>
    by_cases hx : (mem x).t_sleepaddr = some addr
    · simp [single_wakeup_loop, hx] at h
      obtain ⟨rfl, rfl⟩ := h
      exact ⟨[], xs, rfl, rfl, hx, by simp⟩
    · simp [single_wakeup_loop, hx] at h
      obtain ⟨a, b, hr, rfl, rfl⟩ := h
      obtain ⟨pre, post, hl, hl', ht, hpre⟩ := ih hr
      refine ⟨x :: pre, post, by simp [hl], by simp [hl'], ht, ?_⟩
      intro y hy
      rcases List.mem_cons.mp hy with rfl | hy
      · exact hx
      · exact hpre y hy

theorem single_wakeup_loop_none {mem : Addr → thread} {addr : Addr} {l : List Addr} :
    single_wakeup_loop mem addr l = none ↔ ∀ a ∈ l, (mem a).t_sleepaddr ≠ some addr := by
  induction l with
  | nil => simp [single_wakeup_loop]
  | cons t rest ih =>
    by_cases h : (mem t).t_sleepaddr = some addr
    · simp [single_wakeup_loop, h]
    · simp [single_wakeup_loop, h, ih]

/-- The loop of `thread_wakeup` splits the sleepers by their sleep address. -/
theorem wakeup_loop_eq (mem : Addr → thread) (addr : Addr) (l : List Addr) :
    wakeup_loop mem addr l =
      (l.filter (fun t => !decide ((mem t).t_sleepaddr = some addr)),
       l.filter (fun t => decide ((mem t).t_sleepaddr = some addr))) := by
  induction l with
  | nil => rfl
  | cons t rest ih =>
    by_cases h : (mem t).t_sleepaddr = some addr
    · simp [wakeup_loop, ih, h]
    · simp [wakeup_loop, ih, h]

/-! ## The invariant is kept by every step -/

theorem nodup_of_subperm {l₁ l₂ : List Addr} (h : l₁.Subperm l₂) (hn : l₂.Nodup) : l₁.Nodup := by
  obtain ⟨l, hp, hs⟩ := h
  exact hp.nodup_iff.mp (hn.sublist hs)

theorem head_toList_append_tail (l : List Addr) : l.head?.toList ++ l.tail = l := by
  cases l <;> rfl

/-- A step that leaves the registry and `nextpid` alone, keeps the pids of the
registered threads, only shortens record lists, and neither invents nor duplicates a
thread that can run, keeps the invariant. -/
theorem Inv_frame {s s' : Kernel} (hI : Inv s)
    (hta : s'.thread_array = s.thread_array) (hnp : s'.nextpid = s.nextpid)
    (hpid : ∀ a ∈ s.thread_array,
      (s'.mem a).pid = (s.mem a).pid ∧ (s'.mem a).ppid = (s.mem a).ppid)
    (hcodes : ∀ a ∈ s.thread_array, ∀ l, (s.mem a).child_exit_codes = some l →
      ∃ l', (s'.mem a).child_exit_codes = some l' ∧ l'.Sublist l)
    (hlive : (live s').Subperm (live s)) : Inv s' where
  nextpid_pos := by rw [hnp]; exact hI.nextpid_pos
  pid_bound := by
    intro a ha
    rw [hta] at ha
    rw [(hpid a ha).1, hnp]
    exact hI.pid_bound a ha
  ppid_lt := by
    intro a ha
    rw [hta] at ha
    rw [(hpid a ha).1, (hpid a ha).2]
    exact hI.ppid_lt a ha
  pid_nodup := by
    rw [hta]
    have : s.thread_array.map (fun a => (s'.mem a).pid)
        = s.thread_array.map (fun a => (s.mem a).pid) :=
      List.map_congr_left (fun a ha => (hpid a ha).1)
    rw [this]
    exact hI.pid_nodup
  reg_codes := by
    intro a ha
    rw [hta] at ha
    obtain ⟨l, hl⟩ := hI.reg_codes a ha
    obtain ⟨l', hl', -⟩ := hcodes a ha l hl
    exact ⟨l', hl'⟩
  rec_dead := by
    intro a ha l'' hl'' e he
    rw [hta] at ha
    obtain ⟨l, hl⟩ := hI.reg_codes a ha
    obtain ⟨l', hl', hsub⟩ := hcodes a ha l hl
    rw [hl'] at hl''
    cases hl''
    obtain ⟨h1, h2⟩ := hI.rec_dead a ha l hl e (hsub.subset he)
    refine ⟨by rw [hnp]; exact h1, ?_⟩
    intro b hb
    rw [hta] at hb
    rw [(hpid b hb).1]
    exact h2 b hb
  rec_nodup := by
    intro a ha l'' hl''
    rw [hta] at ha
    obtain ⟨l, hl⟩ := hI.reg_codes a ha
    obtain ⟨l', hl', hsub⟩ := hcodes a ha l hl
    rw [hl'] at hl''
    cases hl''
    exact (hI.rec_nodup a ha l hl).sublist (hsub.map _)
  live_reg := by
    intro a ha
    rw [hta]
    exact hI.live_reg a (hlive.subset ha)
  live_nodup := nodup_of_subperm hlive hI.live_nodup

/-- The first half of `mi_switch` only moves the current thread among the lists. -/
theorem live_mi_switch {s s' : Kernel} {st : threadstate_t} (h : mi_switch s st = some s') :
    (live s').Subperm (live s) := by
  cases hcur : s.curthread with
  | none =>
    rw [mi_switch_none hcur] at h
    cases h
    exact List.Subperm.refl _
  | some cur =>
    obtain ⟨-, -, -, -, -, -, -, hc, hr, hs⟩ := mi_switch_some hcur h
    have hl : live s' = (if st = .S_READY then s.runqueue ++ [cur] else s.runqueue) ++
        (if st = .S_SLEEP then s.sleepers ++ [cur] else s.sleepers) := by
      unfold live
      rw [hc, hr, hs, ← List.append_assoc, head_toList_append_tail]
    rw [hl]
    unfold live
    rw [hcur]
    cases st
    · exact (List.sublist_cons_self _ _).subperm
    · refine List.Perm.subperm ?_
      simp
    · refine List.Perm.subperm ?_
      have := @List.perm_append_comm _ (s.runqueue ++ s.sleepers) [cur]
      simpa using this
    · exact (List.sublist_cons_self _ _).subperm

/-- A step that changes neither registry, `nextpid`, pids nor record lists keeps the
invariant, provided it neither invents nor duplicates a thread that can run. -/
theorem Inv_same {s s' : Kernel} (hI : Inv s)
    (hta : s'.thread_array = s.thread_array) (hnp : s'.nextpid = s.nextpid)
    (hmem : ∀ a, (s'.mem a).pid = (s.mem a).pid ∧ (s'.mem a).ppid = (s.mem a).ppid ∧
      (s'.mem a).child_exit_codes = (s.mem a).child_exit_codes)
    (hlive : (live s').Subperm (live s)) : Inv s' :=
  Inv_frame hI hta hnp (fun a _ => ⟨(hmem a).1, (hmem a).2.1⟩)
    (fun a _ l hl => ⟨l, by rw [(hmem a).2.2]; exact hl, List.Sublist.refl _⟩) hlive

theorem Inv_mi_switch {s s' : Kernel} {st : threadstate_t} (hI : Inv s)
    (h : mi_switch s st = some s') : Inv s' := by
  cases hcur : s.curthread with
  | none =>
    rw [mi_switch_none hcur] at h
    cases h
    exact hI
  | some cur =>
    obtain ⟨hm, hta, -, hnp, -⟩ := mi_switch_some hcur h
    exact Inv_same hI hta hnp (fun a => by rw [hm]; exact ⟨rfl, rfl, rfl⟩) (live_mi_switch h)

/-- Storing fields other than the pid and the record list through a thread pointer
keeps the invariant. -/
theorem Inv_setThread {s : Kernel} (hI : Inv s) (a : Addr) (t : thread)
    (hpid : t.pid = (s.mem a).pid) (hppid : t.ppid = (s.mem a).ppid)
    (hcodes : t.child_exit_codes = (s.mem a).child_exit_codes) : Inv (s.setThread a t) := by
  refine Inv_same hI rfl rfl ?_ (List.Subperm.refl _)
  intro b
  by_cases hb : b = a
  · subst hb
    simp [hpid, hppid, hcodes]
  · rw [setThread_mem_other s a b t hb]
    exact ⟨rfl, rfl, rfl⟩

theorem Inv_thread_sleep {s s' : Kernel} {addr : Addr} (hI : Inv s)
    (h : thread_sleep s addr = some s') : Inv s' := by
  unfold thread_sleep at h
  cases hcur : s.curthread with
  | none => simp [hcur] at h
  | some cur =>
    simp only [hcur] at h
    exact Inv_mi_switch
      (Inv_setThread hI cur { s.mem cur with t_sleepaddr := some addr } rfl rfl rfl) h

theorem Inv_exorcise {s s' : Kernel} (hI : Inv s) (h : exorcise s = some s') : Inv s' := by
  unfold exorcise at h
  split at h
  · cases h
    exact Inv_same hI rfl rfl (fun a => ⟨rfl, rfl, rfl⟩) (List.Subperm.refl _)
  · cases h

theorem Inv_thread_sleep_return {s s' : Kernel} (hI : Inv s)
    (h : thread_sleep_return s = some s') : Inv s' := by
  unfold thread_sleep_return mi_switch_return at h
  cases hx : exorcise s with
  | none => simp [hx] at h
  | some s1 =>
    simp only [hx] at h
    cases hcur : s1.curthread with
    | none => simp [hcur] at h
    | some cur =>
      simp only [hcur, Option.some.injEq] at h
      subst h
      exact Inv_setThread (Inv_exorcise hI hx) cur _ rfl rfl rfl

theorem live_thread_wakeup (s : Kernel) (addr : Addr) :
    (live (thread_wakeup s addr)).Perm (live s) := by
  unfold thread_wakeup live
  simp only [wakeup_loop_eq]
  refine List.Perm.append_left _ ?_
  rw [List.append_assoc]
  refine List.Perm.append_left _ ?_
  have h1 := List.filter_append_perm (fun t => decide ((s.mem t).t_sleepaddr = some addr))
    s.sleepers
  simpa using h1

theorem live_thread_single_wakeup (s : Kernel) (addr : Addr) :
    (live (thread_single_wakeup s addr)).Perm (live s) := by
  unfold thread_single_wakeup
  cases h : single_wakeup_loop s.mem addr s.sleepers with
  | none => exact List.Perm.refl _
  | some r =>
    obtain ⟨t, rest⟩ := r
    obtain ⟨pre, post, hl, hrest, -, -⟩ := single_wakeup_loop_some h
    simp only [live, make_runnable]
    refine List.Perm.append_left _ ?_
    rw [hl, hrest, List.append_assoc]
    refine List.Perm.append_left _ ?_
    have := @List.perm_middle _ t pre post
    simpa using this.symm

theorem Inv_thread_wakeup {s : Kernel} (hI : Inv s) (addr : Addr) :
    Inv (thread_wakeup s addr) :=
  Inv_same hI rfl rfl (fun _ => ⟨rfl, rfl, rfl⟩) (live_thread_wakeup s addr).subperm

theorem thread_single_wakeup_frame (s : Kernel) (addr : Addr) :
    (thread_single_wakeup s addr).mem = s.mem ∧
    (thread_single_wakeup s addr).thread_array = s.thread_array ∧
    (thread_single_wakeup s addr).nextpid = s.nextpid ∧
    (thread_single_wakeup s addr).curthread = s.curthread ∧
    (thread_single_wakeup s addr).numthreads = s.numthreads ∧
    (thread_single_wakeup s addr).zombies = s.zombies := by
  unfold thread_single_wakeup
  split <;> simp [make_runnable]

theorem Inv_thread_single_wakeup {s : Kernel} (hI : Inv s) (addr : Addr) :
    Inv (thread_single_wakeup s addr) := by
  obtain ⟨hm, hta, hnp, -⟩ := thread_single_wakeup_frame s addr
  exact Inv_same hI hta hnp (fun a => by rw [hm]; exact ⟨rfl, rfl, rfl⟩)
    (live_thread_single_wakeup s addr).subperm

theorem Inv_dispatch {s : Kernel} (hI : Inv s) (hcur : s.curthread = none) :
    Inv { (scheduler s).2 with curthread := (scheduler s).1 } := by
  refine Inv_same hI ?_ ?_ ?_ ?_
  · unfold scheduler
    split <;> rfl
  · unfold scheduler
    split <;> rfl
  · intro a
    unfold scheduler
    split <;> exact ⟨rfl, rfl, rfl⟩
  · refine List.Perm.subperm ?_
    unfold live scheduler
    rw [hcur]
    split <;> rename_i heq <;> simp [heq]

theorem Inv_md_forkentry {s s' : Kernel} {tf addrspace : Addr} {tf' : trapframe} (hI : Inv s)
    (h : md_forkentry s tf addrspace = some (s', tf')) : Inv s' := by
  unfold md_forkentry at h
  cases hcur : s.curthread with
  | none => simp [hcur] at h
  | some cur =>
    simp only [hcur, Option.some.injEq, Prod.mk.injEq] at h
    obtain ⟨rfl, -⟩ := h
    exact Inv_setThread hI cur _ rfl rfl rfl

theorem Inv_usermem {s : Kernel} (hI : Inv s) (m : Addr → Int) : Inv { s with usermem := m } :=
  Inv_same hI rfl rfl (fun _ => ⟨rfl, rfl, rfl⟩) (List.Subperm.refl _)

theorem Inv_copyout {s : Kernel} (hI : Inv s) (E : Extern) (val : Int) (dst : Addr) :
    Inv (copyout E s val dst).2 := by
  unfold copyout
  split
  · exact Inv_usermem hI _
  · exact hI

/-- Removing a record from a thread's list keeps the invariant. -/
theorem Inv_erase_record {s : Kernel} (hI : Inv s) (cur : Addr) (codes : List exitted_thread)
    (i : Nat) (hcodes : (s.mem cur).child_exit_codes = some codes) :
    Inv (s.setThread cur { s.mem cur with child_exit_codes := some (codes.eraseIdx i) }) := by
  refine Inv_frame hI rfl rfl ?_ ?_ (List.Subperm.refl _)
  · intro a _
    by_cases ha : a = cur
    · subst ha
      simp
    · rw [setThread_mem_other _ _ _ _ ha]
      exact ⟨rfl, rfl⟩
  · intro a _ l hl
    by_cases ha : a = cur
    · subst ha
      rw [hcodes] at hl
      cases hl
      exact ⟨codes.eraseIdx i, by simp, List.eraseIdx_sublist _ _⟩
    · rw [setThread_mem_other _ _ _ _ ha]
      exact ⟨l, hl, List.Sublist.refl _⟩

theorem Inv_sys_waitpid {E : Extern} {s s' : Kernel} {pid : Int} {status : Addr}
    {options : Int} (hI : Inv s) (h : (sys_waitpid E s pid status options).state = some s') :
    Inv s' := by
  unfold sys_waitpid at h
  cases hcur : s.curthread with
  | none => simp [hcur, SysRet.state] at h
  | some cur =>
    simp only [hcur] at h
    split at h
    · simp only [SysRet.state, Option.some.injEq] at h
      subst h
      exact hI
    split at h
    · simp only [SysRet.state, Option.some.injEq] at h
      subst h
      exact hI
    split at h
    · simp only [SysRet.state, Option.some.injEq] at h
      subst h
      exact hI
    cases hcodes : (s.mem cur).child_exit_codes with
    | none => simp [hcodes, SysRet.state] at h
    | some codes =>
      simp only [hcodes] at h
      cases hf : find_exit_code pid codes 0 with
      | some r =>
        obtain ⟨i, e⟩ := r
        simp only [hf] at h
        have hI1 := Inv_copyout (Inv_erase_record hI cur codes i hcodes) E e.exitcode status
        split at h <;>
          · simp only [SysRet.state, Option.some.injEq] at h
            subst h
            exact hI1
      | none =>
        simp only [hf] at h
        cases hchild : get_thread_from_array s pid with
        | none =>
          simp only [hchild, SysRet.state, Option.some.injEq] at h
          subst h
          exact hI
        | some c =>
          simp only [hchild] at h
          cases hsl : thread_sleep s c with
          | none => simp [hsl, SysRet.state] at h
          | some s1 =>
            simp only [hsl, SysRet.state, Option.some.injEq] at h
            subst h
            exact Inv_thread_sleep hI hsl

theorem Inv_sys_waitpid_wakeup {E : Extern} {s s' : Kernel} {pid : Int} {status : Addr}
    (hI : Inv s) (h : (sys_waitpid_wakeup E s pid status).state = some s') : Inv s' := by
  unfold sys_waitpid_wakeup at h
  cases hr : thread_sleep_return s with
  | none => simp [hr, SysRet.state] at h
  | some s0 =>
    have hI0 := Inv_thread_sleep_return hI hr
    simp only [hr] at h
    cases hcur : s0.curthread with
    | none => simp [hcur, SysRet.state] at h
    | some cur =>
      simp only [hcur] at h
      cases hcodes : (s0.mem cur).child_exit_codes with
      | none => simp [hcodes, SysRet.state] at h
      | some codes =>
        simp only [hcodes] at h
        cases hf : find_exit_code pid codes 0 with
        | none => simp [hf, SysRet.state] at h
        | some r =>
          obtain ⟨i, e⟩ := r
          simp only [hf] at h
          have hI1 := Inv_copyout hI0 E e.exitcode status
          have hc1 : ((copyout E s0 e.exitcode status).2.mem cur).child_exit_codes = some codes := by
            unfold copyout
            split <;> exact hcodes
          have hI2 := Inv_erase_record hI1 cur codes i hc1
          split at h <;>
            · simp only [SysRet.state, Option.some.injEq] at h
              subst h
              exact hI2

/-- A step that only writes to an unregistered thread structure and may use up pids
keeps the invariant. -/
theorem Inv_consume {s s' : Kernel} (hI : Inv s) (a : Addr) (ha : a ∉ s.thread_array)
    (hta : s'.thread_array = s.thread_array) (hnp : s.nextpid ≤ s'.nextpid)
    (hmem : ∀ b, b ≠ a → s'.mem b = s.mem b)
    (hlive : (live s').Subperm (live s)) : Inv s' where
  nextpid_pos := lt_of_lt_of_le hI.nextpid_pos hnp
  pid_bound := by
    intro b hb
    rw [hta] at hb
    have hba : b ≠ a := fun h => ha (h ▸ hb)
    rw [hmem b hba]
    exact ⟨(hI.pid_bound b hb).1, lt_of_lt_of_le (hI.pid_bound b hb).2 hnp⟩
  ppid_lt := by
    intro b hb
    rw [hta] at hb
    rw [hmem b (fun h => ha (h ▸ hb))]
    exact hI.ppid_lt b hb
  pid_nodup := by
    rw [hta]
    have : s.thread_array.map (fun b => (s'.mem b).pid)
        = s.thread_array.map (fun b => (s.mem b).pid) :=
      List.map_congr_left (fun b hb => by rw [hmem b (fun h => ha (h ▸ hb))])
    rw [this]
    exact hI.pid_nodup
  reg_codes := by
    intro b hb
    rw [hta] at hb
    rw [hmem b (fun h => ha (h ▸ hb))]
    exact hI.reg_codes b hb
  rec_dead := by
    intro b hb l hl e he
    rw [hta] at hb
    rw [hmem b (fun h => ha (h ▸ hb))] at hl
    obtain ⟨h1, h2⟩ := hI.rec_dead b hb l hl e he
    refine ⟨lt_of_lt_of_le h1 hnp, ?_⟩
    intro c hc
    rw [hta] at hc
    rw [hmem c (fun h => ha (h ▸ hc))]
    exact h2 c hc
  rec_nodup := by
    intro b hb l hl
    rw [hta] at hb
    rw [hmem b (fun h => ha (h ▸ hb))] at hl
    exact hI.rec_nodup b hb l hl
  live_reg := by
    intro b hb
    rw [hta]
    exact hI.live_reg b (hlive.subset hb)
  live_nodup := nodup_of_subperm hlive hI.live_nodup

/-- Registering a new thread structure under the pid `nextpid`, with an empty record
list, keeps the invariant. -/
theorem Inv_register {s s' : Kernel} (hI : Inv s) (a : Addr) (ha : a ∉ s.thread_array)
    (hta : s'.thread_array = s.thread_array ++ [a]) (hnp : s'.nextpid = s.nextpid + 1)
    (hmem : ∀ b, b ≠ a → s'.mem b = s.mem b)
    (hpid : (s'.mem a).pid = s.nextpid) (hppid : (s'.mem a).ppid < s.nextpid)
    (hcodes : (s'.mem a).child_exit_codes = some [])
    (hlive : (live s').Subperm (a :: live s)) : Inv s' where
  nextpid_pos := by rw [hnp]; have := hI.nextpid_pos; omega
  pid_bound := by
    intro b hb
    rw [hta] at hb
    rcases List.mem_append.mp hb with hb | hb
    · rw [hmem b (fun h => ha (h ▸ hb)), hnp]
      have := hI.pid_bound b hb
      exact ⟨this.1, by omega⟩
    · rw [List.mem_singleton.mp hb, hpid, hnp]
      have := hI.nextpid_pos
      exact ⟨this, by omega⟩
  ppid_lt := by
    intro b hb
    rw [hta] at hb
    rcases List.mem_append.mp hb with hb | hb
    · rw [hmem b (fun h => ha (h ▸ hb))]
      exact hI.ppid_lt b hb
    · rw [List.mem_singleton.mp hb, hpid]
      exact hppid
  reg_codes := by
    intro b hb
    rw [hta] at hb
    rcases List.mem_append.mp hb with hb | hb
    · rw [hmem b (fun h => ha (h ▸ hb))]
      exact hI.reg_codes b hb
    · rw [List.mem_singleton.mp hb]
      exact ⟨[], hcodes⟩
  pid_nodup := by
    rw [hta, List.map_append, List.nodup_append]
    have : s.thread_array.map (fun b => (s'.mem b).pid)
        = s.thread_array.map (fun b => (s.mem b).pid) :=
      List.map_congr_left (fun b hb => by rw [hmem b (fun h => ha (h ▸ hb))])
    rw [this]
    refine ⟨hI.pid_nodup, by simp, ?_⟩
    intro x hx hx'
    simp only [List.map_cons, List.map_nil, List.mem_singleton] at hx'
    obtain ⟨b, hb, rfl⟩ := List.mem_map.mp hx
    have := (hI.pid_bound b hb).2
    rw [hpid] at hx'
    omega
  rec_dead := by
    intro b hb l hl e he
    rw [hta] at hb
    rcases List.mem_append.mp hb with hb | hb
    · rw [hmem b (fun h => ha (h ▸ hb))] at hl
      obtain ⟨h1, h2⟩ := hI.rec_dead b hb l hl e he
      refine ⟨by rw [hnp]; omega, ?_⟩
      intro c hc
      rw [hta] at hc
      rcases List.mem_append.mp hc with hc | hc
      · rw [hmem c (fun h => ha (h ▸ hc))]
        exact h2 c hc
      · rw [List.mem_singleton.mp hc, hpid]
        omega
    · rw [List.mem_singleton.mp hb, hcodes] at hl
      cases hl
      simp at he
  rec_nodup := by
    intro b hb l hl
    rw [hta] at hb
    rcases List.mem_append.mp hb with hb | hb
    · rw [hmem b (fun h => ha (h ▸ hb))] at hl
      exact hI.rec_nodup b hb l hl
    · rw [List.mem_singleton.mp hb, hcodes] at hl
      cases hl
      simp
  live_reg := by
    intro b hb
    rw [hta]
    rcases List.mem_cons.mp (hlive.subset hb) with rfl | hb
    · simp
    · exact List.mem_append_left _ (hI.live_reg b hb)
  live_nodup := by
    refine nodup_of_subperm hlive ?_
    exact List.nodup_cons.mpr ⟨fun h => ha (hI.live_reg a h), hI.live_nodup⟩

theorem remove_thread_loop_append_last {mem : Addr → thread} {pid : Int} {l : List Addr}
    {a : Addr} (hl : ∀ x ∈ l, (mem x).pid ≠ pid) (ha : (mem a).pid = pid) :
    remove_thread_loop mem pid (l ++ [a]) = some l := by
  induction l with
  | nil => simp [remove_thread_loop, ha]
  | cons x xs ih =>
    have hx := hl x (List.mem_cons_self _ _)
    have := ih (fun y hy => hl y (List.mem_cons_of_mem _ hy))
    simp [remove_thread_loop, hx, this]

/-! ## Thread creation -/

/-- The outcomes of `thread_create`: nothing happened, or a thread structure was
written at `o.newguy` with the pid `nextpid`, which is used up. -/
theorem thread_create_effect {s s1 : Kernel} {name : String} {o : fork_oracle}
    {r : Option Addr} (h : thread_create s name o = some (s1, r)) :
    (s1 = s ∧ r = none) ∨
    (∃ t : thread, s1 = { s.setThread o.newguy t with nextpid := wrap32 (s.nextpid + 1) } ∧
      t.pid = s.nextpid ∧ t.t_cwd = none ∧
      ((name ≠ "<boot/menu>" → ∃ c, s.curthread = some c ∧ t.ppid = (s.mem c).pid) ∧
       (name = "<boot/menu>" → t.ppid = -1)) ∧
      ((r = some o.newguy ∧ t.child_exit_codes = some []) ∨
       (r = none ∧ t.child_exit_codes = none))) := by
  unfold thread_create at h
  split at h
  · simp only [Option.some.injEq, Prod.mk.injEq] at h
    exact Or.inl ⟨h.1.symm, h.2.symm⟩
  split at h
  · simp only [Option.some.injEq, Prod.mk.injEq] at h
    exact Or.inl ⟨h.1.symm, h.2.symm⟩
  right
  dsimp only at h
  generalize hp : (if name ≠ "<boot/menu>" then s.curthread.map (fun c => (s.mem c).pid)
    else some (-1)) = ppid? at h
  cases ppid? with
  | none => cases h
  | some ppid =>
    have hpp : (name ≠ "<boot/menu>" → ∃ c, s.curthread = some c ∧ ppid = (s.mem c).pid) ∧
        (name = "<boot/menu>" → ppid = -1) := by
      refine ⟨fun hn => ?_, fun hn => ?_⟩
      · rw [if_pos hn] at hp
        obtain ⟨c, hc, hpc⟩ := Option.map_eq_some'.mp hp
        exact ⟨c, hc, hpc.symm⟩
      · rw [if_neg (by simp [hn])] at hp
        simpa using hp.symm
    dsimp only at h
    by_cases hok : o.codes_ok = true
    · rw [if_pos hok] at h
      simp only [Option.some.injEq, Prod.mk.injEq] at h
      exact ⟨_, h.1.symm, rfl, rfl, hpp, Or.inl ⟨h.2.symm, by simp [hok]⟩⟩
    · rw [if_neg hok] at h
      simp only [Option.some.injEq, Prod.mk.injEq] at h
      exact ⟨_, h.1.symm, rfl, rfl, hpp, Or.inr ⟨h.2.symm, by simp [hok]⟩⟩

/-- Unregistering the thread that was registered last, by its pid, restores the
registry when no other registered thread has that pid. -/
theorem remove_after_add (s : Kernel) (a : Addr)
    (hl : ∀ x ∈ s.thread_array, (s.mem x).pid ≠ (s.mem a).pid) :
    (remove_thread_from_array { s with thread_array := s.thread_array ++ [a] } (s.mem a).pid).1
      = s := by
  unfold remove_thread_from_array
  simp only [remove_thread_loop_append_last hl rfl]

/-- The two outcomes of the interrupts-off section of `thread_fork`: the state is put
back and nothing is stored through `ret`, or the thread is registered, runnable and
counted and the result is `0`. -/
theorem thread_fork_atomic_effect (s : Kernel) (newguy : Addr) (o : fork_oracle)
    (hl : ∀ x ∈ s.thread_array, (s.mem x).pid ≠ (s.mem newguy).pid) :
    ((thread_fork_atomic s newguy o).1 = s ∧ (thread_fork_atomic s newguy o).2.2 = none ∧
      (o.array_ok = false ∨ o.sleepers_err ≠ 0 ∨ o.zombies_err ≠ 0 ∨ o.scheduler_err ≠ 0 ∨
        o.runnable_err ≠ 0)) ∨
    (thread_fork_atomic s newguy o =
      ({ s with thread_array := s.thread_array ++ [newguy],
                runqueue := s.runqueue ++ [newguy],
                numthreads := s.numthreads + 1 }, 0, some newguy) ∧
      o.array_ok = true ∧ o.sleepers_err = 0 ∧ o.zombies_err = 0 ∧ o.scheduler_err = 0 ∧
        o.runnable_err = 0) := by
  have hrem := remove_after_add s newguy hl
  unfold thread_fork_atomic
  by_cases hok : o.array_ok = true
  · simp only [add_thread_to_array, hok, if_true, ne_eq, not_true_eq_false, if_false, hrem]
    by_cases h1 : o.sleepers_err = 0
    · by_cases h2 : o.zombies_err = 0
      · by_cases h3 : o.scheduler_err = 0
        · by_cases h4 : o.runnable_err = 0
          · right
            simp [h1, h2, h3, h4, make_runnable]
          · left
            simp [h1, h2, h3, h4]
        · left
          simp [h1, h2, h3]
      · left
        simp [h1, h2]
    · left
      simp [h1]
  · left
    simp [add_thread_to_array, hok]

/-- The outcomes of `thread_fork`.  It writes to the new thread structure only and
leaves sleepers, zombies and the current thread alone.  Either nothing is stored
through `ret`, and registry, run queue and live-thread count are as before; or the
new thread is stored, the result is `0`, and the thread is registered under the pid
`nextpid`, runnable, counted, without exit records and set to start in `func`. -/
theorem thread_fork_effect {E : Extern} {s s' : Kernel} {name : String} {data1 data2 : Addr}
    {func : entry_func} {o : fork_oracle} {rv : Int} {r : Option Addr}
    (hpids : ∀ x ∈ s.thread_array, (s.mem x).pid ≠ s.nextpid)
    (hfresh : o.newguy ∉ s.thread_array)
    (h : thread_fork E s name data1 data2 func o = some (s', rv, r)) :
    (∀ b, b ≠ o.newguy → s'.mem b = s.mem b) ∧ s'.sleepers = s.sleepers ∧
    s'.zombies = s.zombies ∧ s'.curthread = s.curthread ∧ s'.tfmem = s.tfmem ∧
    s'.usermem = s.usermem ∧
    ((r = none ∧ s'.thread_array = s.thread_array ∧ s'.runqueue = s.runqueue ∧
        s'.numthreads = s.numthreads ∧
        (s'.nextpid = s.nextpid ∨ s'.nextpid = wrap32 (s.nextpid + 1))) ∨
     (r = some o.newguy ∧ rv = 0 ∧ s'.thread_array = s.thread_array ++ [o.newguy] ∧
        s'.runqueue = s.runqueue ++ [o.newguy] ∧ s'.numthreads = s.numthreads + 1 ∧
        s'.nextpid = wrap32 (s.nextpid + 1) ∧ (s'.mem o.newguy).pid = s.nextpid ∧
        (s'.mem o.newguy).child_exit_codes = some [] ∧
        (s'.mem o.newguy).t_pcb = some ⟨data1, data2, func⟩ ∧
        (name ≠ "<boot/menu>" →
          ∃ c, s.curthread = some c ∧ (s'.mem o.newguy).ppid = (s.mem c).pid) ∧
        (name = "<boot/menu>" → (s'.mem o.newguy).ppid = -1))) := by
  unfold thread_fork at h
  cases hc : thread_create s name o with
  | none => simp [hc] at h
  | some p =>
    obtain ⟨s1, rc⟩ := p
    rcases thread_create_effect hc with ⟨rfl, rfl⟩ | ⟨t, rfl, hpid, hcwd, hppid, hr⟩
    · simp only [hc, Option.some.injEq, Prod.mk.injEq] at h
      obtain ⟨rfl, -, rfl⟩ := h
      exact ⟨fun _ _ => rfl, rfl, rfl, rfl, rfl, rfl,
        Or.inl ⟨rfl, rfl, rfl, rfl, Or.inl rfl⟩⟩
    · rcases hr with ⟨rfl, hcodes⟩ | ⟨rfl, hcodes⟩
      · simp only [hc] at h
        split at h
        · simp only [Option.some.injEq, Prod.mk.injEq] at h
          obtain ⟨rfl, -, rfl⟩ := h
          refine ⟨fun b hb => ?_, rfl, rfl, rfl, rfl, rfl,
            Or.inl ⟨rfl, rfl, rfl, rfl, Or.inr rfl⟩⟩
          simp [Kernel.setThread, Function.update_noteq hb]
        · rcases Option.eq_none_or_eq_some s.curthread with hcur | ⟨cur, hcur⟩
          · simp [hcur] at h
          · simp only [setThread_curthread, hcur, Option.some.injEq] at h
            generalize hs2 : Kernel.setThread _ o.newguy _ = s2 at h
            have hm2 : ∀ b, b ≠ o.newguy → s2.mem b = s.mem b := by
              intro b hb
              rw [← hs2]
              simp [Kernel.setThread, Function.update_noteq hb]
            have hn2 : (s2.mem o.newguy).pid = s.nextpid ∧
                (s2.mem o.newguy).child_exit_codes = some [] ∧
                (s2.mem o.newguy).t_pcb = some ⟨data1, data2, func⟩ ∧
                (s2.mem o.newguy).ppid = t.ppid := by
              rw [← hs2]
              simp [Kernel.setThread, hpid, hcodes]
            have hf2 : s2.thread_array = s.thread_array ∧ s2.sleepers = s.sleepers ∧
                s2.zombies = s.zombies ∧ s2.curthread = s.curthread ∧ s2.tfmem = s.tfmem ∧
                s2.usermem = s.usermem ∧ s2.runqueue = s.runqueue ∧
                s2.numthreads = s.numthreads ∧ s2.nextpid = wrap32 (s.nextpid + 1) := by
              rw [← hs2]
              simp [Kernel.setThread, hcur]
            obtain ⟨f1, f2, f3, f4, f5, f6, f7, f8, f9⟩ := hf2
            have hl : ∀ x ∈ s2.thread_array, (s2.mem x).pid ≠ (s2.mem o.newguy).pid := by
              intro x hx
              rw [f1] at hx
              rw [hm2 x (fun hxe => hfresh (hxe ▸ hx)), hn2.1]
              exact hpids x hx
            rcases thread_fork_atomic_effect s2 o.newguy o hl with ⟨e1, e2, -⟩ | ⟨e, -⟩
            · have hs' : s' = s2 := by rw [← e1, h]
              have hr : r = none := by rw [← e2, h]
              subst hs'
              exact ⟨hm2, f2, f3, f4, f5, f6, Or.inl ⟨hr, f1, f7, f8, Or.inr f9⟩⟩
            · rw [e] at h
              simp only [Prod.mk.injEq] at h
              obtain ⟨rfl, rfl, rfl⟩ := h
              refine ⟨hm2, f2, f3, f4, f5, f6, Or.inr ⟨rfl, rfl, ?_, ?_, ?_, f9, hn2.1,
                hn2.2.1, hn2.2.2.1, ?_, ?_⟩⟩
              · simp [f1]
              · simp [f7]
              · simp [f8]
              · intro hn
                obtain ⟨c, hc1, hc2⟩ := hppid.1 hn
                exact ⟨c, hc1, by rw [← hc2]; exact hn2.2.2.2⟩
              · intro hn
                rw [← hppid.2 hn]
                exact hn2.2.2.2
      · simp only [hc, Option.some.injEq, Prod.mk.injEq] at h
        obtain ⟨rfl, -, rfl⟩ := h
        refine ⟨fun b hb => ?_, rfl, rfl, rfl, rfl, rfl,
          Or.inl ⟨rfl, rfl, rfl, rfl, Or.inr rfl⟩⟩
        simp [Kernel.setThread, Function.update_noteq hb]

/-- Below the largest `pid_t` the increment of the pid counter does not wrap. -/
theorem wrap32_nextpid {s : Kernel} (hpos : 0 < s.nextpid) (hroom : s.nextpid < 2 ^ 31 - 1) :
    wrap32 (s.nextpid + 1) = s.nextpid + 1 := by
  unfold wrap32
  omega

/-- The outcomes of `thread_fork` while the pid counter is below the largest `pid_t`:
as `thread_fork_effect`, with the counter not decreased, and increased by one when the
thread is created. -/
theorem thread_fork_room {E : Extern} {s s' : Kernel} {name : String} {data1 data2 : Addr}
    {func : entry_func} {o : fork_oracle} {rv : Int} {r : Option Addr}
    (hpids : ∀ x ∈ s.thread_array, (s.mem x).pid ≠ s.nextpid)
    (hfresh : o.newguy ∉ s.thread_array)
    (h : thread_fork E s name data1 data2 func o = some (s', rv, r))
    (hw : wrap32 (s.nextpid + 1) = s.nextpid + 1) :
    (∀ b, b ≠ o.newguy → s'.mem b = s.mem b) ∧ s'.sleepers = s.sleepers ∧
    s'.zombies = s.zombies ∧ s'.curthread = s.curthread ∧ s'.tfmem = s.tfmem ∧
    s'.usermem = s.usermem ∧
    ((r = none ∧ s'.thread_array = s.thread_array ∧ s'.runqueue = s.runqueue ∧
        s'.numthreads = s.numthreads ∧ s.nextpid ≤ s'.nextpid) ∨
     (r = some o.newguy ∧ rv = 0 ∧ s'.thread_array = s.thread_array ++ [o.newguy] ∧
        s'.runqueue = s.runqueue ++ [o.newguy] ∧ s'.numthreads = s.numthreads + 1 ∧
        s'.nextpid = s.nextpid + 1 ∧ (s'.mem o.newguy).pid = s.nextpid ∧
        (s'.mem o.newguy).child_exit_codes = some [] ∧
        (s'.mem o.newguy).t_pcb = some ⟨data1, data2, func⟩ ∧
        (name ≠ "<boot/menu>" →
          ∃ c, s.curthread = some c ∧ (s'.mem o.newguy).ppid = (s.mem c).pid) ∧
        (name = "<boot/menu>" → (s'.mem o.newguy).ppid = -1))) := by
  obtain ⟨a1, a2, a3, a4, a5, a6, hcase⟩ := thread_fork_effect hpids hfresh h
  refine ⟨a1, a2, a3, a4, a5, a6, ?_⟩
  rcases hcase with ⟨b1, b2, b3, b4, b5⟩ | ⟨b1, b2, b3, b4, b5, b6, b7⟩
  · left
    refine ⟨b1, b2, b3, b4, ?_⟩
    rcases b5 with b5 | b5
    · exact le_of_eq b5.symm
    · rw [b5, hw]
      omega
  · right
    exact ⟨b1, b2, b3, b4, b5, by rw [b6, hw], b7⟩

theorem Inv.pid_ne_nextpid {s : Kernel} (hI : Inv s) :
    ∀ x ∈ s.thread_array, (s.mem x).pid ≠ s.nextpid := by
  intro x hx
  have := (hI.pid_bound x hx).2
  omega

theorem Inv_thread_fork {E : Extern} {s s' : Kernel} {name : String} {data1 data2 : Addr}
    {func : entry_func} {o : fork_oracle} {rv : Int} {r : Option Addr} (hI : Inv s)
    (hfresh : o.newguy ∉ s.thread_array)
    (h : thread_fork E s name data1 data2 func o = some (s', rv, r))
    (hroom : s.nextpid < 2 ^ 31 - 1) : Inv s' := by
  obtain ⟨hm, hsl, -, hcur, -, -, hcase⟩ :=
    thread_fork_room hI.pid_ne_nextpid hfresh h (wrap32_nextpid hI.nextpid_pos hroom)
  rcases hcase with ⟨-, hta, hrq, -, hnp⟩ |
    ⟨-, -, hta, hrq, -, hnp, hpid, hcodes, -, hpp1, hpp2⟩
  · refine Inv_consume hI o.newguy hfresh hta hnp hm ?_
    have hl : live s' = live s := by
      unfold live
      rw [hcur, hrq, hsl]
    rw [hl]
  · have hppid : (s'.mem o.newguy).ppid < s.nextpid := by
      by_cases hn : name = "<boot/menu>"
      · rw [hpp2 hn]
        have := hI.nextpid_pos
        omega
      · obtain ⟨c, hc, hcp⟩ := hpp1 hn
        rw [hcp]
        exact (hI.pid_bound c (hI.live_reg c (by simp [live, hc]))).2
    refine Inv_register hI o.newguy hfresh hta hnp hm hpid hppid hcodes ?_
    unfold live
    rw [hcur, hrq, hsl]
    refine List.Perm.subperm ?_
    have := @List.perm_middle _ o.newguy (s.curthread.toList ++ s.runqueue) s.sleepers
    simpa using this

theorem Inv_tfmem {s : Kernel} (hI : Inv s) (m : Addr → trapframe) : Inv { s with tfmem := m } :=
  Inv_same hI rfl rfl (fun _ => ⟨rfl, rfl, rfl⟩) (List.Subperm.refl _)

theorem Inv_sys_fork {E : Extern} {s s' : Kernel} {tf : trapframe} {o : sys_fork_oracle}
    (hI : Inv s) (hfresh : o.fork.newguy ∉ s.thread_array)
    (h : (sys_fork E s tf o).state = some s') (hroom : s.nextpid < 2 ^ 31 - 1) : Inv s' := by
  unfold sys_fork at h
  split at h
  · simp only [SysRet.state, Option.some.injEq] at h
    subst h
    exact hI
  cases htf : o.tf_child with
  | none =>
    simp only [htf, SysRet.state, Option.some.injEq] at h
    subst h
    exact hI
  | some tf_child =>
    simp only [htf] at h
    have hI1 := Inv_tfmem hI (Function.update s.tfmem tf_child tf)
    generalize hs1 : ({ s with tfmem := Function.update s.tfmem tf_child tf } : Kernel) = s1
      at h hI1
    have hfresh1 : o.fork.newguy ∉ s1.thread_array := by rw [← hs1]; exact hfresh
    have hroom1 : s1.nextpid < 2 ^ 31 - 1 := by rw [← hs1]; exact hroom
    cases hal : o.addr_alloc with
    | none =>
      simp only [hal, SysRet.state, Option.some.injEq] at h
      subst h
      exact hI1
    | some x =>
      simp only [hal] at h
      rcases Option.eq_none_or_eq_some s.curthread with hcur | ⟨cur, hcur⟩
      · simp [hcur, SysRet.state] at h
      · simp only [hcur] at h
        cases hac : o.as_copy_ret with
        | none =>
          simp only [hac, SysRet.state, Option.some.injEq] at h
          subst h
          exact hI1
        | some addr_child =>
          simp only [hac] at h
          cases hf : thread_fork E s1 "User Thread Fork" tf_child addr_child .md_forkentry
              o.fork with
          | none => simp [hf, SysRet.state] at h
          | some p =>
            obtain ⟨s2, rv, r⟩ := p
            have hI2 := Inv_thread_fork hI1 hfresh1 hf hroom1
            simp only [hf] at h
            split at h <;>
              · simp only [SysRet.state, Option.some.injEq] at h
                subst h
                exact hI2

theorem Inv_thread_bootstrap {s : Kernel} {mem : Addr → thread} {tfmem : Addr → trapframe}
    {usermem : Addr → Int} {o : fork_oracle} (hok : o.array_ok = true)
    (h : thread_bootstrap mem tfmem usermem o = some s) : Inv s := by
  unfold thread_bootstrap at h
  dsimp only at h
  split at h
  · rename_i s1 me hc
    simp only [add_thread_to_array, hok, if_true, Option.some.injEq] at h
    subst h
    rcases thread_create_effect hc with ⟨-, hr⟩ | ⟨t, rfl, hpid, -, hpp, hr⟩
    · cases hr
    · rcases hr with ⟨hme, hcodes⟩ | ⟨hme, -⟩
      · simp only [Option.some.injEq] at hme
        subst hme
        have hppid := hpp.2 rfl
        have hw : wrap32 2 = 2 := by decide
        constructor
        · simp [hw]
        · intro a ha
          simp only [Kernel.setThread, List.nil_append, List.mem_singleton] at ha
          subst ha
          simp [Kernel.setThread, hpid, hw]
        · intro a ha
          simp only [Kernel.setThread, List.nil_append, List.mem_singleton] at ha
          subst ha
          simp [Kernel.setThread, hpid, hppid]
        · simp
        · intro a ha
          simp only [Kernel.setThread, List.nil_append, List.mem_singleton] at ha
          subst ha
          exact ⟨[], by simp [Kernel.setThread, hcodes]⟩
        · intro a ha l hl e he
          simp only [Kernel.setThread, List.nil_append, List.mem_singleton] at ha
          subst ha
          simp only [Kernel.setThread, Function.update_same, hcodes, Option.some.injEq] at hl
          subst hl
          simp at he
        · intro a ha l hl
          simp only [Kernel.setThread, List.nil_append, List.mem_singleton] at ha
          subst ha
          simp only [Kernel.setThread, Function.update_same, hcodes, Option.some.injEq] at hl
          subst hl
          simp
        · intro a ha
          simpa [live, Kernel.setThread] using ha
        · simp [live, Kernel.setThread]
      · cases hme
  · cases h

/-! ## Exit: the hand-off to a registered parent -/

/-- The hand-off block of `thread_exit_with_code` with a registered parent, as one
equation. -/
theorem exit_handoff_parent_eq {s : Kernel} {cur parent : Addr} {codes : List exitted_thread}
    (k : Int) (hp : 0 < (s.mem cur).ppid)
    (hget : get_thread_from_array s (s.mem cur).ppid = some parent)
    (hcodes : (s.mem parent).child_exit_codes = some codes)
    (hown : parent ≠ cur → (s.mem cur).child_exit_codes ≠ none) :
    exit_handoff s cur k =
      some (thread_single_wakeup (handoff_state s cur parent codes k) cur) := by
  unfold exit_handoff
  rw [if_pos hp]
  simp only [hget, hcodes]
  have hpid1 : ∀ a, ((s.setThread parent { s.mem parent with
      child_exit_codes := some (codes ++ [{ pid := (s.mem cur).pid, exitcode := k }]) }).mem a).pid
        = (s.mem a).pid := by
    intro a
    by_cases ha : a = parent
    · subst ha
      simp
    · rw [setThread_mem_other _ _ _ _ ha]
  have hrem : (remove_thread_from_array (s.setThread parent { s.mem parent with
      child_exit_codes := some (codes ++ [{ pid := (s.mem cur).pid, exitcode := k }]) })
        (s.mem cur).pid).1 =
      { s.setThread parent { s.mem parent with
          child_exit_codes := some (codes ++ [{ pid := (s.mem cur).pid, exitcode := k }]) } with
        thread_array := (remove_thread_from_array s (s.mem cur).pid).1.thread_array } := by
    unfold remove_thread_from_array
    rw [setThread_thread_array,
      @remove_thread_loop_congr _ s.mem _ _ (fun a _ => hpid1 a)]
    cases remove_thread_loop s.mem (s.mem cur).pid s.thread_array <;> rfl
  rw [hpid1 cur, hrem]
  by_cases hpc : parent = cur
  · subst hpc
    simp [Kernel.setThread, handoff_state, handoff_mem]
  · have hne : cur ≠ parent := fun h => hpc h.symm
    cases hc : (s.mem cur).child_exit_codes with
    | none => exact absurd hc (hown hpc)
    | some own =>
      simp [Kernel.setThread, handoff_state, handoff_mem, Function.update_noteq hne, hc]

@[simp] theorem remove_thread_from_array_mem (s : Kernel) (pid : Int) :
    (remove_thread_from_array s pid).1.mem = s.mem := by
  unfold remove_thread_from_array
  split <;> rfl

/-- The two ways the hand-off block of `thread_exit_with_code` can complete. -/
theorem exit_handoff_cases {s s1 : Kernel} {cur : Addr} {k : Int}
    (h : exit_handoff s cur k = some s1) :
    s1 = s ∨ ∃ parent codes, 0 < (s.mem cur).ppid ∧
      get_thread_from_array s (s.mem cur).ppid = some parent ∧
      (s.mem parent).child_exit_codes = some codes ∧
      s1 = thread_single_wakeup (handoff_state s cur parent codes k) cur := by
  by_cases hp : 0 < (s.mem cur).ppid
  · rcases Option.eq_none_or_eq_some (get_thread_from_array s (s.mem cur).ppid) with
      hget | ⟨parent, hget⟩
    · rw [exit_handoff_no_parent s cur k hget] at h
      cases h
      exact Or.inl rfl
    · rcases Option.eq_none_or_eq_some (s.mem parent).child_exit_codes with
        hcodes | ⟨codes, hcodes⟩
      · unfold exit_handoff at h
        simp [hp, hget, hcodes] at h
      · by_cases hown : parent ≠ cur → (s.mem cur).child_exit_codes ≠ none
        · rw [exit_handoff_parent_eq k hp hget hcodes hown] at h
          cases h
          exact Or.inr ⟨parent, codes, hp, hget, hcodes, rfl⟩
        · exfalso
          simp only [ne_eq, not_forall, Decidable.not_not] at hown
          obtain ⟨hpc, hnone⟩ := hown
          have hne : cur ≠ parent := fun h => hpc h.symm
          unfold exit_handoff at h
          simp only [hp, if_true, hget, hcodes, remove_thread_from_array_mem] at h
          rw [setThread_mem_other _ _ _ _ hne, hnone] at h
          cases h
  · unfold exit_handoff at h
    rw [if_neg hp] at h
    cases h
    exact Or.inl rfl

/-- Under the invariant, unregistering a registered thread by its pid removes exactly
that thread. -/
theorem Inv.remove_thread_of_mem {s : Kernel} (hI : Inv s) {a : Addr}
    (ha : a ∈ s.thread_array) :
    ∃ pre post, s.thread_array = pre ++ a :: post ∧
      (remove_thread_from_array s (s.mem a).pid).1.thread_array = pre ++ post := by
  unfold remove_thread_from_array
  cases hr : remove_thread_loop s.mem (s.mem a).pid s.thread_array with
  | none => exact absurd rfl (remove_thread_loop_none.mp hr a ha)
  | some l =>
    obtain ⟨pre, t, post, hl, hl', ht, -⟩ := remove_thread_loop_some hr
    have htm : t ∈ s.thread_array := by rw [hl]; simp
    have hta : t = a := List.inj_on_of_nodup_map hI.pid_nodup htm ha ht
    subst hta
    exact ⟨pre, post, hl, hl'⟩

/-- The invariant after an exit that handed a record to the registered parent. -/
theorem Inv_exit {s s' : Kernel} {cur parent : Addr} {codes : List exitted_thread} {k : Int}
    (hI : Inv s) (hcur : s.curthread = some cur)
    (hpc : (s.mem parent).child_exit_codes = some codes)
    (hta : ∃ pre post, s.thread_array = pre ++ cur :: post ∧ s'.thread_array = pre ++ post)
    (hnp : s'.nextpid = s.nextpid)
    (hpid : ∀ a, (s'.mem a).pid = (s.mem a).pid ∧ (s'.mem a).ppid = (s.mem a).ppid)
    (hcodes : ∀ a, a ≠ cur → (s'.mem a).child_exit_codes =
      if a = parent then some (codes ++ [{ pid := (s.mem cur).pid, exitcode := k }])
      else (s.mem a).child_exit_codes)
    (hlive : (live s').Subperm (s.runqueue ++ s.sleepers)) : Inv s' := by
  obtain ⟨pre, post, hreg, hreg'⟩ := hta
  have hnd : s.thread_array.Nodup := List.Nodup.of_map _ hI.pid_nodup
  have hcurreg : cur ∈ s.thread_array := by rw [hreg]; simp
  have hmem' : ∀ a, a ∈ s'.thread_array → a ∈ s.thread_array ∧ a ≠ cur := by
    intro a ha
    rw [hreg'] at ha
    rw [hreg] at hnd ⊢
    have hnd' := List.nodup_middle.mp hnd
    refine ⟨?_, ?_⟩
    · rcases List.mem_append.mp ha with h | h
      · simp [h]
      · simp [h]
    · rintro rfl
      exact (List.nodup_cons.mp hnd').1 ha
  have hgone : ∀ b ∈ s'.thread_array, (s.mem b).pid ≠ (s.mem cur).pid := by
    intro b hb hpb
    exact (hmem' b hb).2 (List.inj_on_of_nodup_map hI.pid_nodup (hmem' b hb).1 hcurreg hpb)
  have hsub : s'.thread_array.Sublist s.thread_array := by
    rw [hreg, hreg']
    exact List.Sublist.append_left (List.sublist_cons_self _ _) _
  have hlive_s : live s = cur :: (s.runqueue ++ s.sleepers) := by
    unfold live
    rw [hcur]
    rfl
  have hnd_live := hI.live_nodup
  rw [hlive_s] at hnd_live
  constructor
  · rw [hnp]; exact hI.nextpid_pos
  · intro a ha
    rw [(hpid a).1, hnp]
    exact hI.pid_bound a (hmem' a ha).1
  · intro a ha
    rw [(hpid a).1, (hpid a).2]
    exact hI.ppid_lt a (hmem' a ha).1
  · have : s'.thread_array.map (fun a => (s'.mem a).pid)
        = s'.thread_array.map (fun a => (s.mem a).pid) :=
      List.map_congr_left (fun a _ => (hpid a).1)
    rw [this]
    exact hI.pid_nodup.sublist (hsub.map _)
  · intro a ha
    obtain ⟨hareg, hac⟩ := hmem' a ha
    rw [hcodes a hac]
    by_cases hap : a = parent
    · rw [if_pos hap]
      exact ⟨_, rfl⟩
    · rw [if_neg hap]
      exact hI.reg_codes a hareg
  · intro a ha l' hl' e he
    obtain ⟨hareg, hac⟩ := hmem' a ha
    rw [hcodes a hac] at hl'
    have hold : ∀ l, (s.mem a).child_exit_codes = some l → e ∈ l →
        e.pid < s'.nextpid ∧ ∀ b ∈ s'.thread_array, (s'.mem b).pid ≠ e.pid := by
      intro l hl hel
      obtain ⟨h1, h2⟩ := hI.rec_dead a hareg l hl e hel
      refine ⟨by rw [hnp]; exact h1, fun b hb => ?_⟩
      rw [(hpid b).1]
      exact h2 b (hmem' b hb).1
    by_cases hap : a = parent
    · rw [if_pos hap] at hl'
      simp only [Option.some.injEq] at hl'
      subst hl'
      rcases List.mem_append.mp he with he | he
      · exact hold codes (hap ▸ hpc) he
      · rw [List.mem_singleton.mp he]
        refine ⟨by rw [hnp]; exact (hI.pid_bound cur hcurreg).2, fun b hb => ?_⟩
        rw [(hpid b).1]
        exact hgone b hb
    · rw [if_neg hap] at hl'
      exact hold l' hl' he
  · intro a ha l' hl'
    obtain ⟨hareg, hac⟩ := hmem' a ha
    rw [hcodes a hac] at hl'
    by_cases hap : a = parent
    · rw [if_pos hap] at hl'
      simp only [Option.some.injEq] at hl'
      subst hl'
      subst hap
      rw [List.map_append, List.nodup_append]
      refine ⟨hI.rec_nodup a hareg codes hpc, by simp, ?_⟩
      intro x hx hx'
      simp only [List.map_cons, List.map_nil, List.mem_singleton] at hx'
      obtain ⟨e, he, rfl⟩ := List.mem_map.mp hx
      exact (hI.rec_dead a hareg codes hpc e he).2 cur hcurreg hx'.symm
    · rw [if_neg hap] at hl'
      exact hI.rec_nodup a hareg l' hl'
  · intro a ha
    have h1 : a ∈ s.runqueue ++ s.sleepers := hlive.subset ha
    have h2 : a ∈ s.thread_array := hI.live_reg a (by rw [hlive_s]; exact List.mem_cons_of_mem _ h1)
    have h3 : a ≠ cur := by
      rintro rfl
      exact (List.nodup_cons.mp hnd_live).1 h1
    rw [hreg'] 
    rw [hreg] at h2
    rcases List.mem_append.mp h2 with h | h
    · exact List.mem_append_left _ h
    · rcases List.mem_cons.mp h with h | h
      · exact absurd h h3
      · exact List.mem_append_right _ h
  · exact nodup_of_subperm hlive (List.nodup_cons.mp hnd_live).2

/-- The hand-off changes record lists only. -/
theorem handoff_mem_pid (s : Kernel) (cur parent : Addr) (codes : List exitted_thread)
    (k : Int) (a : Addr) :
    (handoff_mem s cur parent codes k a).pid = (s.mem a).pid ∧
    (handoff_mem s cur parent codes k a).ppid = (s.mem a).ppid ∧
    (handoff_mem s cur parent codes k a).t_sleepaddr = (s.mem a).t_sleepaddr := by
  unfold handoff_mem
  by_cases ha : a = cur
  · subst ha
    by_cases hp : a = parent
    · subst hp
      simp
    · simp [Function.update_noteq hp]
  · by_cases hp : a = parent
    · subst hp
      simp [Function.update_noteq ha]
    · simp [Function.update_noteq ha, Function.update_noteq hp]

/-- The stages of `thread_exit_with_code`. -/
theorem thread_exit_with_code_some {s s' : Kernel} {k : Int}
    (h : thread_exit_with_code s k = some s') :
    ∃ cur s1, s.curthread = some cur ∧ exit_handoff s cur k = some s1 ∧ 0 < s1.numthreads ∧
      mi_switch (exit_cleanup_state s1 cur) .S_ZOMB = some s' := by
  unfold thread_exit_with_code thread_exit_cleanup at h
  rcases Option.eq_none_or_eq_some s.curthread with hcur | ⟨cur, hcur⟩
  · simp [hcur] at h
  · rcases Option.eq_none_or_eq_some (exit_handoff s cur k) with hh | ⟨s1, hh⟩
    · simp [hcur, hh] at h
    · by_cases hn : 0 < s1.numthreads
      · refine ⟨cur, s1, hcur, hh, hn, ?_⟩
        simpa [hcur, hh, hn, exit_cleanup_state, Kernel.setThread] using h
      · simp [hcur, hh, hn] at h

/-- The threads that can run after `thread_exit_with_code`: those of the run queue and
the sleepers of the state before its final switch. -/
theorem live_after_exit_switch {s2 s' : Kernel} {cur : Addr} (hcur : s2.curthread = some cur)
    (h : mi_switch s2 .S_ZOMB = some s') : live s' = s2.runqueue ++ s2.sleepers := by
  obtain ⟨-, -, -, -, -, -, -, hc, hr, hs⟩ := mi_switch_some hcur h
  unfold live
  rw [hc, hr, hs]
  simp only [reduceCtorEq, if_false]
  rw [← List.append_assoc, head_toList_append_tail]

theorem Inv_thread_exit_with_code {s s' : Kernel} {k : Int} (hI : Inv s)
    (h : thread_exit_with_code s k = some s') : Inv s' := by
  obtain ⟨cur, s1, hcur, hh, -, hsw⟩ := thread_exit_with_code_some h
  have hcurreg : cur ∈ s.thread_array := hI.live_reg cur (by simp [live, hcur])
  rcases exit_handoff_cases hh with rfl | ⟨parent, codes, -, hget, hcodes, rfl⟩
  · have hIc : Inv (exit_cleanup_state s1 cur) :=
      Inv_same hI rfl rfl
        (fun a => ⟨(exit_cleanup_state_pid _ cur a).1, (exit_cleanup_state_pid _ cur a).2.1,
          exit_cleanup_state_codes _ cur a⟩)
        (List.Subperm.refl _)
    exact Inv_mi_switch hIc hsw
  · obtain ⟨hwm, hwta, hwnp, hwcur, -, -⟩ :=
      thread_single_wakeup_frame (handoff_state s cur parent codes k) cur
    have hcur2 : (exit_cleanup_state
        (thread_single_wakeup (handoff_state s cur parent codes k) cur) cur).curthread
          = some cur := by
      simp only [exit_cleanup_state, setThread_curthread, hwcur]
      exact hcur
    obtain ⟨hm, hta, -, hnp, -⟩ := mi_switch_some hcur2 hsw
    have hmem : ∀ a, (s'.mem a).pid = (handoff_mem s cur parent codes k a).pid ∧
        (s'.mem a).ppid = (handoff_mem s cur parent codes k a).ppid ∧
        (s'.mem a).child_exit_codes = (handoff_mem s cur parent codes k a).child_exit_codes := by
      intro a
      rw [hm]
      refine ⟨?_, ?_, ?_⟩
      · rw [(exit_cleanup_state_pid _ _ _).1, hwm]
        rfl
      · rw [(exit_cleanup_state_pid _ _ _).2.1, hwm]
        rfl
      · rw [exit_cleanup_state_codes, hwm]
        rfl
    refine Inv_exit (k := k) hI hcur hcodes ?_ ?_ ?_ ?_ ?_
    · obtain ⟨pre, post, h1, h2⟩ := hI.remove_thread_of_mem hcurreg
      refine ⟨pre, post, h1, ?_⟩
      rw [hta]
      simp only [exit_cleanup_state, setThread_thread_array, hwta]
      exact h2
    · rw [hnp]
      simp only [exit_cleanup_state, setThread_nextpid, hwnp]
      rfl
    · intro a
      rw [(hmem a).1, (hmem a).2.1]
      exact ⟨(handoff_mem_pid s cur parent codes k a).1,
        (handoff_mem_pid s cur parent codes k a).2.1⟩
    · intro a ha
      rw [(hmem a).2.2]
      unfold handoff_mem
      by_cases hp : a = parent
      · subst hp
        simp [Function.update_noteq ha]
      · simp [Function.update_noteq ha, Function.update_noteq hp, hp]
    · rw [live_after_exit_switch hcur2 hsw]
      have hperm := live_thread_single_wakeup (handoff_state s cur parent codes k) cur
      unfold live at hperm
      rw [hwcur] at hperm
      have hc' : (handoff_state s cur parent codes k).curthread = some cur := hcur
      rw [hc'] at hperm
      simp only [Option.toList, List.singleton_append] at hperm
      exact (List.Perm.cons_inv hperm).subperm

/-- Every step keeps the invariant. -/
theorem Inv_step {E : Extern} {s s' : Kernel} (hI : Inv s) (h : Step E s s') : Inv s' := by
  cases h with
  | thread_fork name data1 data2 func o rv r hfresh hz h hroom =>
    exact Inv_thread_fork hI hfresh h hroom
  | sys_fork tf o hfresh hz h hroom => exact Inv_sys_fork hI hfresh h hroom
  | sys_waitpid pid status options h => exact Inv_sys_waitpid hI h
  | sys_waitpid_wakeup pid status h => exact Inv_sys_waitpid_wakeup hI h
  | thread_exit_with_code exitcode h => exact Inv_thread_exit_with_code hI h
  | thread_yield h => exact Inv_mi_switch hI h
  | mi_switch_return h => exact Inv_exorcise hI h
  | thread_sleep addr h => exact Inv_thread_sleep hI h
  | thread_sleep_return h => exact Inv_thread_sleep_return hI h
  | thread_wakeup addr => exact Inv_thread_wakeup hI addr
  | thread_single_wakeup addr => exact Inv_thread_single_wakeup hI addr
  | dispatch hcur => exact Inv_dispatch hI hcur
  | md_forkentry tf addrspace tf' h => exact Inv_md_forkentry hI h
  | set_vmspace cur v _ => exact Inv_setThread hI cur _ rfl rfl rfl
  | set_cwd cur v _ => exact Inv_setThread hI cur _ rfl rfl rfl
  | user_store m => exact Inv_usermem hI m

/-- The invariant holds in every reachable state. -/
theorem Reachable.inv {E : Extern} {s : Kernel} (h : Reachable E s) : Inv s := by
  induction h with
  | boot mem tfmem usermem o hok hb => exact Inv_thread_bootstrap hok hb
  | step _ hstep ih => exact Inv_step ih hstep

/-! ## The live-thread counter -/

theorem SameCount_refl (s : Kernel) : SameCount s s := ⟨rfl, rfl⟩

theorem SameCount_trans {s1 s2 s3 : Kernel} (h1 : SameCount s1 s2) (h2 : SameCount s2 s3) :
    SameCount s1 s3 :=
  ⟨h2.1.trans h1.1, h2.2.trans h1.2⟩

theorem Counted.same {s s' : Kernel} (hC : Counted s) (h : SameCount s s') : Counted s' := by
  unfold Counted at *
  rw [h.1, h.2]
  exact hC

theorem SameCount_setThread (s : Kernel) (a : Addr) (t : thread) :
    SameCount s (s.setThread a t) := ⟨rfl, rfl⟩

/-- A switch that leaves the current thread runnable or asleep changes no count. -/
theorem SameCount_mi_switch {s s' : Kernel} {st : threadstate_t} (hst : st ≠ .S_ZOMB)
    (h : mi_switch s st = some s') : SameCount s s' := by
  rcases Option.eq_none_or_eq_some s.curthread with hcur | ⟨cur, hcur⟩
  · rw [mi_switch_none hcur] at h
    cases h
    exact SameCount_refl _
  · obtain ⟨-, -, hn, -, -, -, -, hc, hr, hs⟩ := mi_switch_some hcur h
    refine ⟨hn, ?_⟩
    have hl : live s' = (if st = .S_READY then s.runqueue ++ [cur] else s.runqueue) ++
        (if st = .S_SLEEP then s.sleepers ++ [cur] else s.sleepers) := by
      unfold live
      rw [hc, hr, hs, ← List.append_assoc, head_toList_append_tail]
    rw [hl]
    unfold live
    rw [hcur]
    cases st
    · simp [mi_switch, hcur] at h
    · simp
      omega
    · simp
      omega
    · exact absurd rfl hst

theorem SameCount_thread_sleep {s s' : Kernel} {addr : Addr}
    (h : thread_sleep s addr = some s') : SameCount s s' := by
  unfold thread_sleep at h
  rcases Option.eq_none_or_eq_some s.curthread with hcur | ⟨cur, hcur⟩
  · simp [hcur] at h
  · simp only [hcur] at h
    exact SameCount_trans (SameCount_setThread s cur { s.mem cur with t_sleepaddr := some addr })
      (SameCount_mi_switch (by decide) h)

theorem SameCount_exorcise {s s' : Kernel} (h : exorcise s = some s') : SameCount s s' := by
  unfold exorcise at h
  split at h
  · cases h
    exact ⟨rfl, rfl⟩
  · cases h

theorem SameCount_thread_sleep_return {s s' : Kernel} (h : thread_sleep_return s = some s') :
    SameCount s s' := by
  unfold thread_sleep_return mi_switch_return at h
  rcases Option.eq_none_or_eq_some (exorcise s) with hx | ⟨s1, hx⟩
  · simp [hx] at h
  · simp only [hx] at h
    rcases Option.eq_none_or_eq_some s1.curthread with hcur | ⟨cur, hcur⟩
    · simp [hcur] at h
    · simp only [hcur, Option.some.injEq] at h
      subst h
      exact SameCount_trans (SameCount_exorcise hx) (SameCount_setThread s1 cur _)

theorem SameCount_copyout (E : Extern) (s : Kernel) (val : Int) (dst : Addr) :
    SameCount s (copyout E s val dst).2 := by
  unfold copyout
  split
  · exact ⟨rfl, rfl⟩
  · exact SameCount_refl _

theorem SameCount_sys_waitpid {E : Extern} {s s' : Kernel} {pid : Int} {status : Addr}
    {options : Int} (h : (sys_waitpid E s pid status options).state = some s') :
    SameCount s s' := by
  unfold sys_waitpid at h
  rcases Option.eq_none_or_eq_some s.curthread with hcur | ⟨cur, hcur⟩
  · simp [hcur, SysRet.state] at h
  simp only [hcur] at h
  split at h
  · simp only [SysRet.state, Option.some.injEq] at h
    subst h
    exact SameCount_refl _
  split at h
  · simp only [SysRet.state, Option.some.injEq] at h
    subst h
    exact SameCount_refl _
  split at h
  · simp only [SysRet.state, Option.some.injEq] at h
    subst h
    exact SameCount_refl _
  rcases Option.eq_none_or_eq_some (s.mem cur).child_exit_codes with hc | ⟨codes, hc⟩
  · simp [hc, SysRet.state] at h
  simp only [hc] at h
  rcases Option.eq_none_or_eq_some (find_exit_code pid codes 0) with hf | ⟨⟨i, e⟩, hf⟩
  · simp only [hf] at h
    rcases Option.eq_none_or_eq_some (get_thread_from_array s pid) with hch | ⟨c, hch⟩
    · simp only [hch, SysRet.state, Option.some.injEq] at h
      subst h
      exact SameCount_refl _
    · simp only [hch] at h
      rcases Option.eq_none_or_eq_some (thread_sleep s c) with hsl | ⟨s1, hsl⟩
      · simp [hsl, SysRet.state] at h
      · simp only [hsl, SysRet.state, Option.some.injEq] at h
        subst h
        exact SameCount_thread_sleep hsl
  · simp only [hf] at h
    have hm := SameCount_trans (SameCount_setThread s cur
      { s.mem cur with child_exit_codes := some (codes.eraseIdx i) })
        (SameCount_copyout E _ e.exitcode status)
    split at h <;>
      · simp only [SysRet.state, Option.some.injEq] at h
        subst h
        exact hm

theorem SameCount_sys_waitpid_wakeup {E : Extern} {s s' : Kernel} {pid : Int} {status : Addr}
    (h : (sys_waitpid_wakeup E s pid status).state = some s') : SameCount s s' := by
  unfold sys_waitpid_wakeup at h
  rcases Option.eq_none_or_eq_some (thread_sleep_return s) with hr | ⟨s0, hr⟩
  · simp [hr, SysRet.state] at h
  simp only [hr] at h
  rcases Option.eq_none_or_eq_some s0.curthread with hcur | ⟨cur, hcur⟩
  · simp [hcur, SysRet.state] at h
  simp only [hcur] at h
  rcases Option.eq_none_or_eq_some (s0.mem cur).child_exit_codes with hc | ⟨codes, hc⟩
  · simp [hc, SysRet.state] at h
  simp only [hc] at h
  rcases Option.eq_none_or_eq_some (find_exit_code pid codes 0) with hf | ⟨⟨i, e⟩, hf⟩
  · simp [hf, SysRet.state] at h
  · simp only [hf] at h
    have hm := SameCount_trans (SameCount_trans (SameCount_thread_sleep_return hr)
      (SameCount_copyout E s0 e.exitcode status))
        (SameCount_setThread _ cur { (copyout E s0 e.exitcode status).2.mem cur with
          child_exit_codes := some (codes.eraseIdx i) })
    split at h <;>
      · simp only [SysRet.state, Option.some.injEq] at h
        subst h
        exact hm

theorem Counted_thread_fork {E : Extern} {s s' : Kernel} {name : String} {data1 data2 : Addr}
    {func : entry_func} {o : fork_oracle} {rv : Int} {r : Option Addr} (hI : Inv s)
    (hC : Counted s) (hfresh : o.newguy ∉ s.thread_array)
    (h : thread_fork E s name data1 data2 func o = some (s', rv, r)) : Counted s' := by
  obtain ⟨-, hsl, -, hcur, -, -, hcase⟩ := thread_fork_effect hI.pid_ne_nextpid hfresh h
  unfold Counted live at *
  rcases hcase with ⟨-, -, hrq, hn, -⟩ | ⟨-, -, -, hrq, hn, -⟩
  · rw [hn, hcur, hrq, hsl]
    exact hC
  · rw [hn, hcur, hrq, hsl, hC]
    simp only [List.length_append, List.length_singleton]
    push_cast
    omega

theorem Counted_sys_fork {E : Extern} {s s' : Kernel} {tf : trapframe} {o : sys_fork_oracle}
    (hI : Inv s) (hC : Counted s) (hfresh : o.fork.newguy ∉ s.thread_array)
    (h : (sys_fork E s tf o).state = some s') : Counted s' := by
  unfold sys_fork at h
  split at h
  · simp only [SysRet.state, Option.some.injEq] at h
    subst h
    exact hC
  rcases Option.eq_none_or_eq_some o.tf_child with htf | ⟨tf_child, htf⟩
  · simp only [htf, SysRet.state, Option.some.injEq] at h
    subst h
    exact hC
  simp only [htf] at h
  have hI1 := Inv_tfmem hI (Function.update s.tfmem tf_child tf)
  have hC1 : Counted { s with tfmem := Function.update s.tfmem tf_child tf } := hC
  generalize hs1 : ({ s with tfmem := Function.update s.tfmem tf_child tf } : Kernel) = s1
    at h hI1 hC1
  have hfresh1 : o.fork.newguy ∉ s1.thread_array := by rw [← hs1]; exact hfresh
  rcases Option.eq_none_or_eq_some o.addr_alloc with hal | ⟨x, hal⟩
  · simp only [hal, SysRet.state, Option.some.injEq] at h
    subst h
    exact hC1
  simp only [hal] at h
  rcases Option.eq_none_or_eq_some s.curthread with hcur | ⟨cur, hcur⟩
  · simp [hcur, SysRet.state] at h
  simp only [hcur] at h
  rcases Option.eq_none_or_eq_some o.as_copy_ret with hac | ⟨addr_child, hac⟩
  · simp only [hac, SysRet.state, Option.some.injEq] at h
    subst h
    exact hC1
  simp only [hac] at h
  rcases Option.eq_none_or_eq_some (thread_fork E s1 "User Thread Fork" tf_child addr_child
      .md_forkentry o.fork) with hf | ⟨⟨s2, rv, r⟩, hf⟩
  · simp [hf, SysRet.state] at h
  · have hC2 := Counted_thread_fork hI1 hC1 hfresh1 hf
    simp only [hf] at h
    split at h <;>
      · simp only [SysRet.state, Option.some.injEq] at h
        subst h
        exact hC2

/-- The hand-off block of `thread_exit_with_code` keeps the current thread and both
counts. -/
theorem exit_handoff_count {s s1 : Kernel} {cur : Addr} {k : Int}
    (hcur : s.curthread = some cur) (h : exit_handoff s cur k = some s1) :
    s1.curthread = some cur ∧ SameCount s s1 := by
  rcases exit_handoff_cases h with rfl | ⟨parent, codes, -, -, -, rfl⟩
  · exact ⟨hcur, SameCount_refl _⟩
  · obtain ⟨-, -, -, hwcur, hwn, -⟩ :=
      thread_single_wakeup_frame (handoff_state s cur parent codes k) cur
    refine ⟨hwcur.trans hcur, hwn, ?_⟩
    exact (live_thread_single_wakeup (handoff_state s cur parent codes k) cur).length_eq

theorem Counted_thread_exit_with_code {s s' : Kernel} {k : Int} (hC : Counted s)
    (h : thread_exit_with_code s k = some s') : Counted s' := by
  obtain ⟨cur, s1, hcur, hh, -, hsw⟩ := thread_exit_with_code_some h
  obtain ⟨hcur1, hn1, hl1⟩ := exit_handoff_count hcur hh
  have hcur2 : (exit_cleanup_state s1 cur).curthread = some cur := hcur1
  obtain ⟨-, -, hn, -⟩ := mi_switch_some hcur2 hsw
  have hlive := live_after_exit_switch hcur2 hsw
  have hl2 : (live s1).length = (s1.runqueue ++ s1.sleepers).length + 1 := by
    unfold live
    rw [hcur1]
    simp only [Option.toList, List.length_append, List.length_cons, List.length_nil]
    omega
  unfold Counted at *
  rw [hn, hlive]
  show s1.numthreads - 1 = ((s1.runqueue ++ s1.sleepers).length : Int)
  rw [hn1, hC, ← hl1, hl2]
  push_cast
  omega

theorem Counted_thread_bootstrap {s : Kernel} {mem : Addr → thread} {tfmem : Addr → trapframe}
    {usermem : Addr → Int} {o : fork_oracle}
    (h : thread_bootstrap mem tfmem usermem o = some s) : Counted s := by
  unfold thread_bootstrap at h
  dsimp only at h
  split at h
  · rename_i s1 me hc
    simp only [Option.some.injEq] at h
    subst h
    rcases thread_create_effect hc with ⟨rfl, -⟩ | ⟨t, rfl, -⟩
    · simp [Counted, live, add_thread_to_array]
      split <;> rfl
    · simp [Counted, live, add_thread_to_array, Kernel.setThread]
      split <;> rfl
  · cases h

/-- Every step keeps the live-thread counter in step with the threads that can run. -/
theorem Counted_step {E : Extern} {s s' : Kernel} (hI : Inv s) (hC : Counted s)
    (h : Step E s s') : Counted s' := by
  cases h with
  | thread_fork name data1 data2 func o rv r hfresh hz h => exact Counted_thread_fork hI hC hfresh h
  | sys_fork tf o hfresh hz h => exact Counted_sys_fork hI hC hfresh h
  | sys_waitpid pid status options h => exact hC.same (SameCount_sys_waitpid h)
  | sys_waitpid_wakeup pid status h => exact hC.same (SameCount_sys_waitpid_wakeup h)
  | thread_exit_with_code exitcode h => exact Counted_thread_exit_with_code hC h
  | thread_yield h => exact hC.same (SameCount_mi_switch (by decide) h)
  | mi_switch_return h => exact hC.same (SameCount_exorcise h)
  | thread_sleep addr h => exact hC.same (SameCount_thread_sleep h)
  | thread_sleep_return h => exact hC.same (SameCount_thread_sleep_return h)
  | thread_wakeup addr => exact hC.same ⟨rfl, (live_thread_wakeup s addr).length_eq⟩
  | thread_single_wakeup addr =>
    exact hC.same ⟨(thread_single_wakeup_frame s addr).2.2.2.2.1,
      (live_thread_single_wakeup s addr).length_eq⟩
  | dispatch hcur =>
    refine hC.same ⟨?_, ?_⟩
    · unfold scheduler
      split <;> rfl
    · unfold live scheduler
      rw [hcur]
      split <;> rename_i heq <;> simp [heq]
  | md_forkentry tf addrspace tf' h =>
    unfold md_forkentry at h
    rcases Option.eq_none_or_eq_some s.curthread with hcur | ⟨cur, hcur⟩
    · simp [hcur] at h
    · simp only [hcur, Option.some.injEq, Prod.mk.injEq] at h
      obtain ⟨rfl, -⟩ := h
      exact hC.same (SameCount_setThread s cur _)
  | set_vmspace cur v _ => exact hC.same (SameCount_setThread s cur _)
  | set_cwd cur v _ => exact hC.same (SameCount_setThread s cur _)
  | user_store m => exact hC

/-- In every reachable state `numthreads` is the number of threads that can still run:
the current one, the run queue and the sleepers. -/
theorem Reachable.counted {E : Extern} {s : Kernel} (h : Reachable E s) : Counted s := by
  induction h with
  | boot mem tfmem usermem o hok hb => exact Counted_thread_bootstrap hb
  | step hr hstep ih => exact Counted_step hr.inv ih hstep

/-- In a reachable state with a current thread `assert(numthreads>0)` holds. -/
theorem Reachable.numthreads_pos {E : Extern} {s : Kernel} {cur : Addr} (h : Reachable E s)
    (hcur : s.curthread = some cur) : 0 < s.numthreads := by
  have hC := h.counted
  unfold Counted live at hC
  rw [hC, hcur]
  simp only [Option.toList, List.length_append, List.length_cons, List.length_nil]
  push_cast
  omega

/-! ## Zombies -/

/-- A step that adds no zombie, makes no further thread able to run and keeps the
address space and working directory of the zombies. -/
theorem Buried_frame {s s' : Kernel} (hB : Buried s) (hz : s'.zombies = s.zombies)
    (hlive : ∀ a ∈ live s', a ∈ live s)
    (hmem : ∀ a ∈ s.zombies, (s'.mem a).t_vmspace = (s.mem a).t_vmspace ∧
      (s'.mem a).t_cwd = (s.mem a).t_cwd) : Buried s' := by
  intro z hzm
  rw [hz] at hzm
  obtain ⟨h1, h2, h3⟩ := hB z hzm
  exact ⟨fun h => h1 (hlive z h), by rw [(hmem z hzm).1]; exact h2,
    by rw [(hmem z hzm).2]; exact h3⟩

/-- A store through the pointer of the current thread does not touch a zombie. -/
theorem Buried_setThread_cur {s : Kernel} (hB : Buried s) {cur : Addr}
    (hcur : s.curthread = some cur) (t : thread) : Buried (s.setThread cur t) := by
  refine Buried_frame hB rfl (fun a h => h) ?_
  intro a ha
  have hne : a ≠ cur := by
    rintro rfl
    exact (hB a ha).1 (by simp [live, hcur])
  rw [setThread_mem_other s cur a t hne]
  exact ⟨rfl, rfl⟩

theorem Buried_mi_switch {s s' : Kernel} {st : threadstate_t} (hB : Buried s)
    (hst : st ≠ .S_ZOMB) (h : mi_switch s st = some s') : Buried s' := by
  rcases Option.eq_none_or_eq_some s.curthread with hcur | ⟨cur, hcur⟩
  · rw [mi_switch_none hcur] at h
    cases h
    exact hB
  · obtain ⟨hm, -, -, -, -, -, hz, -⟩ := mi_switch_some hcur h
    rw [if_neg hst] at hz
    exact Buried_frame hB hz (fun a ha => (live_mi_switch h).subset ha)
      (fun a _ => by rw [hm]; exact ⟨rfl, rfl⟩)

theorem Buried_thread_sleep {s s' : Kernel} {addr : Addr} (hB : Buried s)
    (h : thread_sleep s addr = some s') : Buried s' := by
  unfold thread_sleep at h
  rcases Option.eq_none_or_eq_some s.curthread with hcur | ⟨cur, hcur⟩
  · simp [hcur] at h
  · simp only [hcur] at h
    exact Buried_mi_switch (Buried_setThread_cur hB hcur _) (by decide) h

theorem Buried_exorcise {s s' : Kernel} (h : exorcise s = some s') : Buried s' := by
  unfold exorcise at h
  split at h
  · cases h
    intro z hz
    cases hz
  · cases h

theorem Buried_thread_sleep_return {s s' : Kernel} (h : thread_sleep_return s = some s') :
    Buried s' := by
  unfold thread_sleep_return mi_switch_return at h
  rcases Option.eq_none_or_eq_some (exorcise s) with hx | ⟨s1, hx⟩
  · simp [hx] at h
  · simp only [hx] at h
    rcases Option.eq_none_or_eq_some s1.curthread with hcur | ⟨cur, hcur⟩
    · simp [hcur] at h
    · simp only [hcur, Option.some.injEq] at h
      subst h
      exact Buried_setThread_cur (Buried_exorcise hx) hcur _

theorem Buried_copyout {E : Extern} {s : Kernel} (hB : Buried s) (val : Int) (dst : Addr) :
    Buried (copyout E s val dst).2 := by
  unfold copyout
  split
  · exact hB
  · exact hB

theorem Buried_sys_waitpid {E : Extern} {s s' : Kernel} {pid : Int} {status : Addr}
    {options : Int} (hB : Buried s)
    (h : (sys_waitpid E s pid status options).state = some s') : Buried s' := by
  unfold sys_waitpid at h
  rcases Option.eq_none_or_eq_some s.curthread with hcur | ⟨cur, hcur⟩
  · simp [hcur, SysRet.state] at h
  simp only [hcur] at h
  split at h
  · simp only [SysRet.state, Option.some.injEq] at h
    subst h
    exact hB
  split at h
  · simp only [SysRet.state, Option.some.injEq] at h
    subst h
    exact hB
  split at h
  · simp only [SysRet.state, Option.some.injEq] at h
    subst h
    exact hB
  rcases Option.eq_none_or_eq_some (s.mem cur).child_exit_codes with hc | ⟨codes, hc⟩
  · simp [hc, SysRet.state] at h
  simp only [hc] at h
  rcases Option.eq_none_or_eq_some (find_exit_code pid codes 0) with hf | ⟨⟨i, e⟩, hf⟩
  · simp only [hf] at h
    rcases Option.eq_none_or_eq_some (get_thread_from_array s pid) with hch | ⟨c, hch⟩
    · simp only [hch, SysRet.state, Option.some.injEq] at h
      subst h
      exact hB
    · simp only [hch] at h
      rcases Option.eq_none_or_eq_some (thread_sleep s c) with hsl | ⟨s1, hsl⟩
      · simp [hsl, SysRet.state] at h
      · simp only [hsl, SysRet.state, Option.some.injEq] at h
        subst h
        exact Buried_thread_sleep hB hsl
  · simp only [hf] at h
    have hm := @Buried_copyout E _ (Buried_setThread_cur hB hcur
      { s.mem cur with child_exit_codes := some (codes.eraseIdx i) }) e.exitcode status
    split at h <;>
      · simp only [SysRet.state, Option.some.injEq] at h
        subst h
        exact hm

theorem Buried_sys_waitpid_wakeup {E : Extern} {s s' : Kernel} {pid : Int} {status : Addr}
    (h : (sys_waitpid_wakeup E s pid status).state = some s') : Buried s' := by
  unfold sys_waitpid_wakeup at h
  rcases Option.eq_none_or_eq_some (thread_sleep_return s) with hr | ⟨s0, hr⟩
  · simp [hr, SysRet.state] at h
  simp only [hr] at h
  rcases Option.eq_none_or_eq_some s0.curthread with hcur | ⟨cur, hcur⟩
  · simp [hcur, SysRet.state] at h
  simp only [hcur] at h
  rcases Option.eq_none_or_eq_some (s0.mem cur).child_exit_codes with hc | ⟨codes, hc⟩
  · simp [hc, SysRet.state] at h
  simp only [hc] at h
  rcases Option.eq_none_or_eq_some (find_exit_code pid codes 0) with hf | ⟨⟨i, e⟩, hf⟩
  · simp [hf, SysRet.state] at h
  · simp only [hf] at h
    have hcur1 : (copyout E s0 e.exitcode status).2.curthread = some cur := by
      unfold copyout
      split <;> exact hcur
    have hm := Buried_setThread_cur
      (@Buried_copyout E _ (Buried_thread_sleep_return hr) e.exitcode status) hcur1
      { (copyout E s0 e.exitcode status).2.mem cur with
        child_exit_codes := some (codes.eraseIdx i) }
    split at h <;>
      · simp only [SysRet.state, Option.some.injEq] at h
        subst h
        exact hm

theorem Buried_thread_fork {E : Extern} {s s' : Kernel} {name : String} {data1 data2 : Addr}
    {func : entry_func} {o : fork_oracle} {rv : Int} {r : Option Addr} (hI : Inv s)
    (hB : Buried s) (hfresh : o.newguy ∉ s.thread_array) (hz : o.newguy ∉ s.zombies)
    (h : thread_fork E s name data1 data2 func o = some (s', rv, r)) : Buried s' := by
  obtain ⟨hm, hsl, hzom, hcur, -, -, hcase⟩ := thread_fork_effect hI.pid_ne_nextpid hfresh h
  intro z hzm
  rw [hzom] at hzm
  have hne : z ≠ o.newguy := fun he => hz (he ▸ hzm)
  obtain ⟨h1, h2, h3⟩ := hB z hzm
  rw [hm z hne]
  refine ⟨?_, h2, h3⟩
  intro hl
  apply h1
  unfold live at hl ⊢
  rw [hcur, hsl] at hl
  rcases hcase with ⟨-, -, hrq, -⟩ | ⟨-, -, -, hrq, -⟩
  · rw [hrq] at hl
    exact hl
  · rw [hrq] at hl
    simp only [List.mem_append, List.mem_singleton] at hl ⊢
    rcases hl with hl | (hl | hl) | hl
    · exact Or.inl hl
    · exact Or.inr (Or.inl hl)
    · exact absurd hl hne
    · exact Or.inr (Or.inr hl)

theorem Buried_sys_fork {E : Extern} {s s' : Kernel} {tf : trapframe} {o : sys_fork_oracle}
    (hI : Inv s) (hB : Buried s) (hfresh : o.fork.newguy ∉ s.thread_array)
    (hz : o.fork.newguy ∉ s.zombies)
    (h : (sys_fork E s tf o).state = some s') : Buried s' := by
  unfold sys_fork at h
  split at h
  · simp only [SysRet.state, Option.some.injEq] at h
    subst h
    exact hB
  rcases Option.eq_none_or_eq_some o.tf_child with htf | ⟨tf_child, htf⟩
  · simp only [htf, SysRet.state, Option.some.injEq] at h
    subst h
    exact hB
  simp only [htf] at h
  have hI1 := Inv_tfmem hI (Function.update s.tfmem tf_child tf)
  have hB1 : Buried { s with tfmem := Function.update s.tfmem tf_child tf } := hB
  generalize hs1 : ({ s with tfmem := Function.update s.tfmem tf_child tf } : Kernel) = s1
    at h hI1 hB1
  have hfresh1 : o.fork.newguy ∉ s1.thread_array := by rw [← hs1]; exact hfresh
  have hz1 : o.fork.newguy ∉ s1.zombies := by rw [← hs1]; exact hz
  rcases Option.eq_none_or_eq_some o.addr_alloc with hal | ⟨x, hal⟩
  · simp only [hal, SysRet.state, Option.some.injEq] at h
    subst h
    exact hB1
  simp only [hal] at h
  rcases Option.eq_none_or_eq_some s.curthread with hcur | ⟨cur, hcur⟩
  · simp [hcur, SysRet.state] at h
  simp only [hcur] at h
  rcases Option.eq_none_or_eq_some o.as_copy_ret with hac | ⟨addr_child, hac⟩
  · simp only [hac, SysRet.state, Option.some.injEq] at h
    subst h
    exact hB1
  simp only [hac] at h
  rcases Option.eq_none_or_eq_some (thread_fork E s1 "User Thread Fork" tf_child addr_child
      .md_forkentry o.fork) with hf | ⟨⟨s2, rv, r⟩, hf⟩
  · simp [hf, SysRet.state] at h
  · have hB2 := Buried_thread_fork hI1 hB1 hfresh1 hz1 hf
    simp only [hf] at h
    split at h <;>
      · simp only [SysRet.state, Option.some.injEq] at h
        subst h
        exact hB2

/-- The hand-off changes neither address space nor working directory. -/
theorem handoff_mem_space (s : Kernel) (cur parent : Addr) (codes : List exitted_thread)
    (k : Int) (a : Addr) :
    (handoff_mem s cur parent codes k a).t_vmspace = (s.mem a).t_vmspace ∧
    (handoff_mem s cur parent codes k a).t_cwd = (s.mem a).t_cwd := by
  unfold handoff_mem
  by_cases ha : a = cur
  · subst ha
    by_cases hp : a = parent
    · subst hp
      simp
    · simp [Function.update_noteq hp]
  · by_cases hp : a = parent
    · subst hp
      simp [Function.update_noteq ha]
    · simp [Function.update_noteq ha, Function.update_noteq hp]

/-- The hand-off block of `thread_exit_with_code` keeps the current thread, the zombies,
the threads that can run, and every address space and working directory. -/
theorem exit_handoff_space {s s1 : Kernel} {cur : Addr} {k : Int}
    (hcur : s.curthread = some cur) (h : exit_handoff s cur k = some s1) :
    s1.curthread = some cur ∧ s1.zombies = s.zombies ∧ (live s1).Perm (live s) ∧
    ∀ a, (s1.mem a).t_vmspace = (s.mem a).t_vmspace ∧ (s1.mem a).t_cwd = (s.mem a).t_cwd := by
  rcases exit_handoff_cases h with rfl | ⟨parent, codes, -, -, -, rfl⟩
  · exact ⟨hcur, rfl, List.Perm.refl _, fun _ => ⟨rfl, rfl⟩⟩
  · obtain ⟨hwm, -, -, hwcur, -, hwz⟩ :=
      thread_single_wakeup_frame (handoff_state s cur parent codes k) cur
    refine ⟨hwcur.trans hcur, hwz, ?_, ?_⟩
    · exact live_thread_single_wakeup (handoff_state s cur parent codes k) cur
    · intro a
      rw [hwm]
      exact handoff_mem_space s cur parent codes k a

theorem Buried_thread_exit_with_code {s s' : Kernel} {k : Int} (hI : Inv s) (hB : Buried s)
    (h : thread_exit_with_code s k = some s') : Buried s' := by
  obtain ⟨cur, s1, hcur, hh, -, hsw⟩ := thread_exit_with_code_some h
  obtain ⟨hcur1, hz1, hperm, hsp⟩ := exit_handoff_space hcur hh
  have hcur2 : (exit_cleanup_state s1 cur).curthread = some cur := hcur1
  obtain ⟨hm, -, -, -, -, -, hz, -⟩ := mi_switch_some hcur2 hsw
  have hlive := live_after_exit_switch hcur2 hsw
  have hl1 : live s1 = cur :: (s1.runqueue ++ s1.sleepers) := by
    unfold live
    rw [hcur1]
    rfl
  have hnd : (cur :: (s1.runqueue ++ s1.sleepers)).Nodup := by
    rw [← hl1]
    exact hperm.nodup_iff.mpr hI.live_nodup
  have hsub : ∀ a ∈ live s', a ∈ live s := by
    intro a ha
    rw [hlive] at ha
    refine hperm.subset ?_
    rw [hl1]
    exact List.mem_cons_of_mem _ ha
  have hcurlive : cur ∈ live s := by simp [live, hcur]
  intro z hzm
  rw [hz, if_pos rfl] at hzm
  have hzm' : z ∈ s.zombies ∨ z = cur := by
    rcases List.mem_append.mp hzm with h1 | h1
    · left
      rw [← hz1]
      exact h1
    · right
      exact List.mem_singleton.mp h1
  rcases hzm' with hzs | rfl
  · obtain ⟨h1, h2, h3⟩ := hB z hzs
    have hne : z ≠ cur := fun he => h1 (he ▸ hcurlive)
    refine ⟨fun hl => h1 (hsub z hl), ?_, ?_⟩
    · rw [hm]
      simp only [exit_cleanup_state, Kernel.setThread, Function.update_noteq hne]
      rw [(hsp z).1]
      exact h2
    · rw [hm]
      simp only [exit_cleanup_state, Kernel.setThread, Function.update_noteq hne]
      rw [(hsp z).2]
      exact h3
  · refine ⟨?_, ?_, ?_⟩
    · rw [hlive]
      exact (List.nodup_cons.mp hnd).1
    · rw [hm]
      simp [exit_cleanup_state, Kernel.setThread]
    · rw [hm]
      simp [exit_cleanup_state, Kernel.setThread]

theorem Buried_thread_bootstrap {s : Kernel} {mem : Addr → thread} {tfmem : Addr → trapframe}
    {usermem : Addr → Int} {o : fork_oracle}
    (h : thread_bootstrap mem tfmem usermem o = some s) : Buried s := by
  have hz : s.zombies = [] := by
    unfold thread_bootstrap at h
    dsimp only at h
    split at h
    · rename_i s1 me hc
      simp only [Option.some.injEq] at h
      subst h
      rcases thread_create_effect hc with ⟨rfl, -⟩ | ⟨t, rfl, -⟩
      · simp [add_thread_to_array]
        split <;> rfl
      · simp [add_thread_to_array, Kernel.setThread]
        split <;> rfl
    · cases h
  intro z hzm
  rw [hz] at hzm
  cases hzm

/-- Every step leaves the zombies buried. -/
theorem Buried_step {E : Extern} {s s' : Kernel} (hI : Inv s) (hB : Buried s)
    (h : Step E s s') : Buried s' := by
  cases h with
  | thread_fork name data1 data2 func o rv r hfresh hz h =>
    exact Buried_thread_fork hI hB hfresh hz h
  | sys_fork tf o hfresh hz h => exact Buried_sys_fork hI hB hfresh hz h
  | sys_waitpid pid status options h => exact Buried_sys_waitpid hB h
  | sys_waitpid_wakeup pid status h => exact Buried_sys_waitpid_wakeup h
  | thread_exit_with_code exitcode h => exact Buried_thread_exit_with_code hI hB h
  | thread_yield h => exact Buried_mi_switch hB (by decide) h
  | mi_switch_return h => exact Buried_exorcise h
  | thread_sleep addr h => exact Buried_thread_sleep hB h
  | thread_sleep_return h => exact Buried_thread_sleep_return h
  | thread_wakeup addr =>
    exact Buried_frame hB rfl (fun a ha => (live_thread_wakeup s addr).subset ha)
      (fun _ _ => ⟨rfl, rfl⟩)
  | thread_single_wakeup addr =>
    obtain ⟨hm, -, -, -, -, hz⟩ := thread_single_wakeup_frame s addr
    exact Buried_frame hB hz (fun a ha => (live_thread_single_wakeup s addr).subset ha)
      (fun a _ => by rw [hm]; exact ⟨rfl, rfl⟩)
  | dispatch hcur =>
    refine Buried_frame hB ?_ ?_ ?_
    · unfold scheduler
      split <;> rfl
    · intro a ha
      unfold live scheduler at ha
      unfold live
      rw [hcur]
      split at ha <;> rename_i heq <;> simp_all
    · intro a _
      unfold scheduler
      split <;> exact ⟨rfl, rfl⟩
  | md_forkentry tf addrspace tf' h =>
    unfold md_forkentry at h
    rcases Option.eq_none_or_eq_some s.curthread with hcur | ⟨cur, hcur⟩
    · simp [hcur] at h
    · simp only [hcur, Option.some.injEq, Prod.mk.injEq] at h
      obtain ⟨rfl, -⟩ := h
      exact Buried_setThread_cur hB hcur _
  | set_vmspace cur v hcur => exact Buried_setThread_cur hB hcur _
  | set_cwd cur v hcur => exact Buried_setThread_cur hB hcur _
  | user_store m => exact hB

/-- In every reachable state the zombies cannot run and hold neither an address space
nor a working directory. -/
theorem Reachable.buried {E : Extern} {s : Kernel} (h : Reachable E s) : Buried s := by
  induction h with
  | boot mem tfmem usermem o hok hb => exact Buried_thread_bootstrap hb
  | step hr hstep ih => exact Buried_step hr.inv ih hstep

/-- In a reachable state the reclamation of the zombies goes through: no assertion of
`exorcise` or `thread_destroy` fails. -/
theorem Reachable.exorcise_some {E : Extern} {s : Kernel} (h : Reachable E s) :
    exorcise s = some { s with zombies := [] } := by
  unfold exorcise
  rw [if_pos]
  rw [List.all_eq_true]
  intro z hz
  obtain ⟨h1, h2, h3⟩ := h.buried z hz
  have hne : some z ≠ s.curthread := by
    intro he
    apply h1
    unfold live
    rw [← he]
    simp
  simp [destroy_ok, hne, h2, h3]

/-- In a reachable state the return from `thread_sleep` goes through. -/
theorem Reachable.thread_sleep_return_some {E : Extern} {s : Kernel} {cur : Addr}
    (h : Reachable E s) (hcur : s.curthread = some cur) :
    ∃ s0, thread_sleep_return s = some s0 := by
  unfold thread_sleep_return mi_switch_return
  rw [h.exorcise_some]
  simp [hcur]

/-! ## Wait: the record is there -/

/-- The fast path of `sys_waitpid` as one equation: with valid arguments and a first
record `e` for `pid` in the caller's list, the record is removed and its code copied
out. -/
theorem sys_waitpid_found {E : Extern} {s : Kernel} {cur : Addr} {pid : Int} (status : Addr)
    {pre post : List exitted_thread} {e : exitted_thread}
    (hcur : s.curthread = some cur) (hpos : 0 < pid)
    (hchild : ∀ c, get_thread_from_array s pid = some c → (s.mem c).ppid = (s.mem cur).pid)
    (hcodes : (s.mem cur).child_exit_codes = some (pre ++ e :: post))
    (hpre : ∀ x ∈ pre, x.pid ≠ pid) (he : e.pid = pid) :
    sys_waitpid E s pid status 0 =
      if (copyout E (s.setThread cur { s.mem cur with child_exit_codes := some (pre ++ post) })
            e.exitcode status).1 ≠ 0 then
        .ret (copyout E (s.setThread cur { s.mem cur with child_exit_codes := some (pre ++ post) })
            e.exitcode status).2 (-1)
          (some (copyout E
            (s.setThread cur { s.mem cur with child_exit_codes := some (pre ++ post) })
            e.exitcode status).1)
      else
        .ret (copyout E (s.setThread cur { s.mem cur with child_exit_codes := some (pre ++ post) })
            e.exitcode status).2 pid none := by
  have hf : find_exit_code pid (pre ++ e :: post) 0 = some (pre.length, e) := by
    simpa using @find_exit_code_first pid pre post e 0 hpre he
  have h1 : ¬ pid ≤ 0 := by omega
  have h2 : ¬ ((get_thread_from_array s pid).any
      (fun c => decide ((s.mem c).ppid ≠ (s.mem cur).pid)) = true) := by
    rcases Option.eq_none_or_eq_some (get_thread_from_array s pid) with h | ⟨c, h⟩
    · simp [h]
    · rw [h]
      simpa using hchild c h
  unfold sys_waitpid
  simp only [hcur]
  rw [if_neg h1, if_neg h2, if_neg (by simp)]
  simp only [hcodes, hf, eraseIdx_append_cons]

/-- In a reachable state the threads named by the caller's exit records are gone from
the registry, and a record is the first and only one for its pid. -/
theorem Reachable.record_first {E : Extern} {s : Kernel} (hr : Reachable E s) {cur : Addr}
    {codes : List exitted_thread} {e : exitted_thread} (hcur : s.curthread = some cur)
    (hcodes : (s.mem cur).child_exit_codes = some codes) (he : e ∈ codes) :
    get_thread_from_array s e.pid = none ∧
    ∃ pre post, codes = pre ++ e :: post ∧ (∀ x ∈ pre, x.pid ≠ e.pid) ∧
      (∀ x ∈ post, x.pid ≠ e.pid) := by
  have hI := hr.inv
  have hreg : cur ∈ s.thread_array := hI.live_reg cur (by simp [live, hcur])
  refine ⟨get_thread_loop_none.mpr (fun a ha => (hI.rec_dead cur hreg codes hcodes e he).2 a ha), ?_⟩
  obtain ⟨pre, post, hl⟩ := List.append_of_mem he
  have hnd := hI.rec_nodup cur hreg codes hcodes
  rw [hl, List.map_append, List.map_cons] at hnd
  have hnd' := List.nodup_middle.mp hnd
  obtain ⟨hnot, -⟩ := List.nodup_cons.mp hnd'
  refine ⟨pre, post, hl, ?_, ?_⟩
  · intro x hx hxe
    exact hnot (List.mem_append_left _ (hxe ▸ List.mem_map_of_mem _ hx))
  · intro x hx hxe
    exact hnot (List.mem_append_right _ (hxe ▸ List.mem_map_of_mem _ hx))

theorem ex_s0_reachable : Reachable exE ex_s0 :=
  Reachable.boot (fun _ => blank_thread) (fun _ => ex_tf) (fun _ => 0) (ok_oracle 100) rfl rfl

theorem ex_parent_reachable : Reachable exE ex_parent :=
  Reachable.step
    (Reachable.step
      (Reachable.step ex_s0_reachable
        (Step.sys_fork ex_tf (ok_fork 101) (by decide) (by decide) rfl (by decide)))
      (Step.thread_yield rfl))
    (Step.thread_exit_with_code 7 rfl)

/-- A `sys_waitpid` that returns `pid` without an error went through its fast path. -/
theorem sys_waitpid_success_inv {E : Extern} {s s1 : Kernel} {pid : Int} {status : Addr}
    (h : sys_waitpid E s pid status 0 = .ret s1 pid none) :
    ∃ cur pre e post, s.curthread = some cur ∧
      (s.mem cur).child_exit_codes = some (pre ++ e :: post) ∧
      (∀ x ∈ pre, x.pid ≠ pid) ∧ e.pid = pid ∧
      s1 = ({ s with usermem := Function.update s.usermem status e.exitcode }).setThread cur
        { s.mem cur with child_exit_codes := some (pre ++ post) } := by
  unfold sys_waitpid at h
  rcases Option.eq_none_or_eq_some s.curthread with hcur | ⟨cur, hcur⟩
  · simp [hcur] at h
  simp only [hcur] at h
  split at h
  · cases h
  split at h
  · cases h
  split at h
  · cases h
  rcases Option.eq_none_or_eq_some (s.mem cur).child_exit_codes with hc | ⟨codes, hc⟩
  · simp [hc] at h
  simp only [hc] at h
  rcases Option.eq_none_or_eq_some (find_exit_code pid codes 0) with hf | ⟨⟨i, e⟩, hf⟩
  · simp only [hf] at h
    split at h
    · cases h
    · split at h <;> cases h
  · simp only [hf] at h
    obtain ⟨pre, post, hl, hpre, he, hi⟩ := find_exit_code_some hf
    subst hl
    simp only [Nat.zero_add] at hi
    subst hi
    rw [eraseIdx_append_cons] at h
    unfold copyout at h
    by_cases hok : E.copyout_err status = 0
    · simp only [hok, if_true, ne_eq, not_true_eq_false, if_false, SysRet.ret.injEq,
        and_true] at h
      exact ⟨cur, pre, e, post, hcur, hc, hpre, he, h.symm⟩
    · simp only [hok, if_false, ne_eq, not_false_eq_true, if_true] at h
      cases h

/-- A `sys_waitpid` that returns `pid` without an error after its sleep found the
record in the caller's list. -/
theorem sys_waitpid_wakeup_success_inv {E : Extern} {s s1 : Kernel} {pid : Int}
    {status : Addr} (h : sys_waitpid_wakeup E s pid status = .ret s1 pid none) :
    ∃ s0 cur pre e post, thread_sleep_return s = some s0 ∧ s0.curthread = some cur ∧
      (s0.mem cur).child_exit_codes = some (pre ++ e :: post) ∧
      (∀ x ∈ pre, x.pid ≠ pid) ∧ e.pid = pid ∧
      s1 = ({ s0 with usermem := Function.update s0.usermem status e.exitcode }).setThread cur
        { s0.mem cur with child_exit_codes := some (pre ++ post) } := by
  unfold sys_waitpid_wakeup at h
  rcases Option.eq_none_or_eq_some (thread_sleep_return s) with hr | ⟨s0, hr⟩
  · simp [hr] at h
  simp only [hr] at h
  rcases Option.eq_none_or_eq_some s0.curthread with hcur | ⟨cur, hcur⟩
  · simp [hcur] at h
  simp only [hcur] at h
  rcases Option.eq_none_or_eq_some (s0.mem cur).child_exit_codes with hc | ⟨codes, hc⟩
  · simp [hc] at h
  simp only [hc] at h
  rcases Option.eq_none_or_eq_some (find_exit_code pid codes 0) with hf | ⟨⟨i, e⟩, hf⟩
  · simp [hf] at h
  · simp only [hf] at h
    obtain ⟨pre, post, hl, hpre, he, hi⟩ := find_exit_code_some hf
    subst hl
    simp only [Nat.zero_add] at hi
    subst hi
    rw [eraseIdx_append_cons] at h
    unfold copyout at h
    by_cases hok : E.copyout_err status = 0
    · simp only [hok, if_true, ne_eq, not_true_eq_false, if_false, SysRet.ret.injEq,
        and_true] at h
      exact ⟨s0, cur, pre, e, post, hr, hcur, hc, hpre, he, h.symm⟩
    · simp only [hok, if_false, ne_eq, not_false_eq_true, if_true] at h
      cases h

/-- With no registered thread of that pid and no record for it, `sys_waitpid` fails with
`EINVAL` and changes nothing. -/
theorem sys_waitpid_no_such_child {E : Extern} {s : Kernel} {cur : Addr} {pid : Int}
    (status : Addr) {codes : List exitted_thread} (hcur : s.curthread = some cur)
    (hnone : get_thread_from_array s pid = none)
    (hcodes : (s.mem cur).child_exit_codes = some codes) (hno : ∀ x ∈ codes, x.pid ≠ pid) :
    sys_waitpid E s pid status 0 = .ret s (-1) (some E.EINVAL) := by
  unfold sys_waitpid
  simp only [hcur, hnone, hcodes, find_exit_code_none.mpr hno]
  split
  · rfl
  · simp

theorem ex_blocked_reachable : Reachable exE ex_blocked :=
  Reachable.step
    (Reachable.step ex_s0_reachable
      (Step.sys_fork ex_tf (ok_fork 101) (by decide) (by decide) rfl (by decide)))
    (Step.sys_waitpid 2 7 0 rfl)

theorem ex_child_exited_reachable : Reachable exE ex_child_exited :=
  Reachable.step ex_blocked_reachable (Step.thread_exit_with_code 3 rfl)

/-! ## Exit: without a registered parent -/

/-- C8: in a reachable state, a thread whose `ppid` names no registered thread exits
without creating an exit record: `thread_exit_with_code` completes and every thread's
`child_exit_codes` is as before. -/
theorem thread_exit_orphan_leaves_no_record (E : Extern) (s : Kernel) (cur : Addr) (k : Int)
    (hr : Reachable E s) (hcur : s.curthread = some cur)
    (hnp : get_thread_from_array s (s.mem cur).ppid = none) :
    ∃ s', thread_exit_with_code s k = some s' ∧
      ∀ a, (s'.mem a).child_exit_codes = (s.mem a).child_exit_codes := by
  have hc := thread_exit_cleanup_eq hcur (exit_handoff_no_parent s cur k hnp)
    (hr.numthreads_pos hcur)
  obtain ⟨s', hs'⟩ := mi_switch_isSome (exit_cleanup_state s cur) .S_ZOMB (by decide)
  refine ⟨s', by rw [thread_exit_with_code, hc]; exact hs', ?_⟩
  have hcur1 : (exit_cleanup_state s cur).curthread = some cur := hcur
  intro a
  rw [(mi_switch_some hcur1 hs').1, exit_cleanup_state_codes]

theorem thread_exit_orphan_leaves_no_record_witness :
    ∃ s', thread_exit_with_code ex_s0 4 = some s' ∧
      ∀ a, (s'.mem a).child_exit_codes = (ex_s0.mem a).child_exit_codes :=
  thread_exit_orphan_leaves_no_record exE ex_s0 100 4 ex_s0_reachable rfl (by decide)

/-! ## Fork: what parent and child see -/

/-- C10 (amended): a successful `sys_fork` in a reachable state (so before the pid
counter has wrapped), that is one that returns
without an error and has created a thread (the live-thread count grew), the new
thread structure at an address not in the registry, returns the pid of the new child,
which is the old `nextpid` and strictly positive.  The child is
registered under that pid with the caller as its parent and is set to start in
`md_forkentry` on a heap copy of the parent's trap frame; and whenever the child then
runs `md_forkentry` on that copy, the trap frame it enters user mode with is the
parent's trap frame except that `v0 = 0`, `a3 = 0` and `epc` is advanced by 4
(modulo `2^32`). -/
theorem sys_fork_success (E : Extern) (s s' : Kernel) (tf : trapframe) (o : sys_fork_oracle)
    (rv : Int) (hr : Reachable E s) (hfresh : o.fork.newguy ∉ s.thread_array)
    (h : sys_fork E s tf o = .ret s' rv none) (hnew : s'.numthreads = s.numthreads + 1) :
    0 < rv ∧ rv = s.nextpid ∧
    ∃ child data1 data2, get_thread_from_array s' rv = some child ∧
      (s'.mem child).pid = rv ∧
      (∃ cur, s.curthread = some cur ∧ (s'.mem child).ppid = (s.mem cur).pid) ∧
      (s'.mem child).t_pcb = some ⟨data1, data2, .md_forkentry⟩ ∧
      s'.tfmem data1 = tf ∧
      ∀ s'' : Kernel, s''.curthread = some child → s''.tfmem data1 = tf →
        md_forkentry s'' data1 data2 =
          some (s''.setThread child { s''.mem child with t_vmspace := some data2 },
            { tf with tf_v0 := 0, tf_a3 := 0, tf_epc := (tf.tf_epc + 4) % 2 ^ 32 }) := by
  have hI := hr.inv
  unfold sys_fork at h
  split at h
  · cases h
  rcases Option.eq_none_or_eq_some o.tf_child with htf | ⟨tf_child, htf⟩
  · simp [htf] at h
  simp only [htf] at h
  generalize hs1 : ({ s with tfmem := Function.update s.tfmem tf_child tf } : Kernel) = s1 at h
  have hs1f : s1.thread_array = s.thread_array ∧ s1.mem = s.mem ∧ s1.nextpid = s.nextpid ∧
      s1.numthreads = s.numthreads ∧ s1.curthread = s.curthread ∧
      s1.tfmem = Function.update s.tfmem tf_child tf := by
    rw [← hs1]
    exact ⟨rfl, rfl, rfl, rfl, rfl, rfl⟩
  obtain ⟨g1, g2, g3, g4, g5, g6⟩ := hs1f
  rcases Option.eq_none_or_eq_some o.addr_alloc with hal | ⟨x, hal⟩
  · simp [hal] at h
  simp only [hal] at h
  rcases Option.eq_none_or_eq_some s.curthread with hcur | ⟨cur, hcur⟩
  · simp [hcur] at h
  simp only [hcur] at h
  rcases Option.eq_none_or_eq_some o.as_copy_ret with hac | ⟨addr_child, hac⟩
  · simp [hac] at h
  simp only [hac] at h
  rcases Option.eq_none_or_eq_some (thread_fork E s1 "User Thread Fork" tf_child addr_child
      .md_forkentry o.fork) with hf | ⟨⟨s2, rvf, r⟩, hf⟩
  · simp [hf] at h
  simp only [hf] at h
  have hpids1 : ∀ x ∈ s1.thread_array, (s1.mem x).pid ≠ s1.nextpid := by
    rw [g1, g2, g3]
    exact hI.pid_ne_nextpid
  have hfresh1 : o.fork.newguy ∉ s1.thread_array := by rw [g1]; exact hfresh
  obtain ⟨hm2, -, -, -, htfm, -, hcase⟩ := thread_fork_effect hpids1 hfresh1 hf
  rcases hcase with ⟨rfl, -, -, hnum, -⟩ |
    ⟨rfl, -, hta, -, -, -, hpid, -, hpcb, hpp, -⟩
  · exfalso
    simp only [Option.isSome_none, Bool.false_eq_true, if_false] at h
    split at h
    · cases h
    · simp only [SysRet.ret.injEq, and_true] at h
      obtain ⟨rfl, -⟩ := h
      rw [hnum, g4] at hnew
      omega
  · simp only [Option.isSome_some, if_true, SysRet.ret.injEq, and_true] at h
    obtain ⟨rfl, rfl⟩ := h
    have hchild : o.fork.newguy ∈ s2.thread_array := by rw [hta]; simp
    have hlook : get_thread_from_array s2 (s2.mem o.fork.newguy).pid = some o.fork.newguy := by
      unfold get_thread_from_array
      rcases Option.eq_none_or_eq_some
        (get_thread_loop s2.mem (s2.mem o.fork.newguy).pid s2.thread_array) with hg | ⟨b, hg⟩
      · exact absurd rfl (get_thread_loop_none.mp hg _ hchild)
      · obtain ⟨hb, hbp⟩ := get_thread_loop_some hg
        rw [hg]
        rw [hta] at hb
        rcases List.mem_append.mp hb with h1 | h1
        · exfalso
          have hne : b ≠ o.fork.newguy := fun e => hfresh1 (e ▸ h1)
          rw [hm2 b hne, hpid] at hbp
          exact hpids1 b h1 hbp
        · rw [List.mem_singleton.mp h1]
    refine ⟨by rw [hpid, g3]; exact hI.nextpid_pos, by rw [hpid, g3], o.fork.newguy,
      tf_child, addr_child, hlook, rfl, ?_, hpcb, ?_, ?_⟩
    · obtain ⟨c, hc, hcp⟩ := hpp (by decide)
      rw [g5, hcur] at hc
      cases hc
      exact ⟨cur, hcur, by rw [hcp, g2]⟩
    · rw [htfm, g6]
      simp
    · intro s'' hc'' htf''
      simp [md_forkentry, hc'', htf'']

theorem sys_fork_success_witness :
    0 < (2 : Int) ∧ (2 : Int) = ex_s0.nextpid ∧
    ∃ child data1 data2, get_thread_from_array ex_forked 2 = some child ∧
      (ex_forked.mem child).pid = 2 ∧
      (∃ cur, ex_s0.curthread = some cur ∧ (ex_forked.mem child).ppid = (ex_s0.mem cur).pid) ∧
      (ex_forked.mem child).t_pcb = some ⟨data1, data2, .md_forkentry⟩ ∧
      ex_forked.tfmem data1 = ex_tf ∧
      ∀ s'' : Kernel, s''.curthread = some child → s''.tfmem data1 = ex_tf →
        md_forkentry s'' data1 data2 =
          some (s''.setThread child { s''.mem child with t_vmspace := some data2 },
            { ex_tf with tf_v0 := 0, tf_a3 := 0, tf_epc := (ex_tf.tf_epc + 4) % 2 ^ 32 }) :=
  sys_fork_success exE ex_s0 ex_forked ex_tf (ok_fork 101) 2 ex_s0_reachable (by decide)
    rfl (by decide)

/-! ## Exit: the record handed to the parent -/

/-- In a reachable state, the exit of a thread whose parent is registered, step by
step: the hand-off, the cleanup and the final switch all go through. -/
theorem thread_exit_with_parent {E : Extern} {s : Kernel} {cur parent : Addr} (k : Int)
    (hr : Reachable E s) (hcur : s.curthread = some cur)
    (hparent : get_thread_from_array s (s.mem cur).ppid = some parent) :
    ∃ codes s', (s.mem parent).child_exit_codes = some codes ∧ parent ≠ cur ∧
      parent ∈ s.thread_array ∧
      thread_exit_cleanup s k = some (exit_cleanup_state
        (thread_single_wakeup (handoff_state s cur parent codes k) cur) cur) ∧
      mi_switch (exit_cleanup_state
        (thread_single_wakeup (handoff_state s cur parent codes k) cur) cur) .S_ZOMB = some s' ∧
      thread_exit_with_code s k = some s' := by
  have hI := hr.inv
  have hcurreg : cur ∈ s.thread_array := hI.live_reg cur (by simp [live, hcur])
  obtain ⟨hpreg, hppid⟩ := get_thread_loop_some hparent
  have hne : parent ≠ cur := by
    rintro rfl
    have := hI.ppid_lt parent hpreg
    omega
  have hp : 0 < (s.mem cur).ppid := by
    rw [← hppid]
    exact (hI.pid_bound parent hpreg).1
  obtain ⟨codes, hcodes⟩ := hI.reg_codes parent hpreg
  obtain ⟨own, hown⟩ := hI.reg_codes cur hcurreg
  have hh := @exit_handoff_parent_eq s cur parent codes k hp hparent hcodes
    (fun _ => by rw [hown]; simp)
  have hn1 : 0 < (thread_single_wakeup (handoff_state s cur parent codes k) cur).numthreads := by
    rw [(thread_single_wakeup_frame _ cur).2.2.2.2.1]
    exact hr.numthreads_pos hcur
  have hc := thread_exit_cleanup_eq hcur hh hn1
  obtain ⟨s', hs'⟩ := mi_switch_isSome (exit_cleanup_state
    (thread_single_wakeup (handoff_state s cur parent codes k) cur) cur) .S_ZOMB (by decide)
  refine ⟨codes, s', hcodes, hne, hpreg, hc, hs', ?_⟩
  rw [thread_exit_with_code, hc]
  exact hs'

/-- The record lists after the hand-off. -/
theorem handoff_mem_codes (s : Kernel) (cur parent : Addr) (codes : List exitted_thread)
    (k : Int) (hne : parent ≠ cur) :
    (handoff_mem s cur parent codes k parent).child_exit_codes
      = some (codes ++ [{ pid := (s.mem cur).pid, exitcode := k }]) ∧
    (handoff_mem s cur parent codes k cur).child_exit_codes = none ∧
    ∀ a, a ≠ parent → a ≠ cur →
      (handoff_mem s cur parent codes k a).child_exit_codes = (s.mem a).child_exit_codes := by
  unfold handoff_mem
  refine ⟨?_, ?_, ?_⟩
  · simp [Function.update_noteq hne]
  · simp
  · intro a hap hac
    simp [Function.update_noteq hac, Function.update_noteq hap]

/-- What `thread_single_wakeup` does to the lists: nothing when nobody sleeps on the
address; otherwise the first sleeper on it moves to the tail of the run queue. -/
theorem thread_single_wakeup_effect (s : Kernel) (addr : Addr) :
    ((∀ x ∈ s.sleepers, (s.mem x).t_sleepaddr ≠ some addr) ∧
      thread_single_wakeup s addr = s) ∨
    ∃ t pre post, s.sleepers = pre ++ t :: post ∧ (s.mem t).t_sleepaddr = some addr ∧
      (∀ x ∈ pre, (s.mem x).t_sleepaddr ≠ some addr) ∧
      (thread_single_wakeup s addr).sleepers = pre ++ post ∧
      (thread_single_wakeup s addr).runqueue = s.runqueue ++ [t] := by
  unfold thread_single_wakeup
  rcases Option.eq_none_or_eq_some (single_wakeup_loop s.mem addr s.sleepers) with
    h | ⟨⟨t, rest⟩, h⟩
  · left
    rw [h]
    exact ⟨single_wakeup_loop_none.mp h, rfl⟩
  · right
    obtain ⟨pre, post, hl, hrest, ht, hpre⟩ := single_wakeup_loop_some h
    rw [h]
    exact ⟨t, pre, post, hl, ht, hpre, hrest, rfl⟩

/-- The state in which `thread_exit_with_code` makes its final switch, for a thread
with a registered parent: thread structures, sleep addresses and lists. -/
theorem exit_before_switch (s : Kernel) (cur parent : Addr) (codes : List exitted_thread)
    (k : Int) (hne : parent ≠ cur) :
    ((exit_cleanup_state (thread_single_wakeup (handoff_state s cur parent codes k) cur)
        cur).mem parent).child_exit_codes
      = some (codes ++ [{ pid := (s.mem cur).pid, exitcode := k }]) ∧
    ((exit_cleanup_state (thread_single_wakeup (handoff_state s cur parent codes k) cur)
        cur).mem cur).child_exit_codes = none ∧
    (∀ a, a ≠ parent → a ≠ cur →
      ((exit_cleanup_state (thread_single_wakeup (handoff_state s cur parent codes k) cur)
        cur).mem a).child_exit_codes = (s.mem a).child_exit_codes) ∧
    (∀ a, ((exit_cleanup_state (thread_single_wakeup (handoff_state s cur parent codes k) cur)
        cur).mem a).t_sleepaddr = (s.mem a).t_sleepaddr) ∧
    (exit_cleanup_state (thread_single_wakeup (handoff_state s cur parent codes k) cur)
        cur).curthread = s.curthread ∧
    (((∀ x ∈ s.sleepers, (s.mem x).t_sleepaddr ≠ some cur) ∧
        (exit_cleanup_state (thread_single_wakeup (handoff_state s cur parent codes k) cur)
          cur).sleepers = s.sleepers ∧
        (exit_cleanup_state (thread_single_wakeup (handoff_state s cur parent codes k) cur)
          cur).runqueue = s.runqueue) ∨
      ∃ t pre post, s.sleepers = pre ++ t :: post ∧ (s.mem t).t_sleepaddr = some cur ∧
        (∀ x ∈ pre, (s.mem x).t_sleepaddr ≠ some cur) ∧
        (exit_cleanup_state (thread_single_wakeup (handoff_state s cur parent codes k) cur)
          cur).sleepers = pre ++ post ∧
        (exit_cleanup_state (thread_single_wakeup (handoff_state s cur parent codes k) cur)
          cur).runqueue = s.runqueue ++ [t]) := by
  obtain ⟨hwm, -, -, hwcur, -, -⟩ :=
    thread_single_wakeup_frame (handoff_state s cur parent codes k) cur
  obtain ⟨c1, c2, c3⟩ := handoff_mem_codes s cur parent codes k hne
  have hsl : ∀ a, ((handoff_state s cur parent codes k).mem a).t_sleepaddr
      = (s.mem a).t_sleepaddr := fun a => (handoff_mem_pid s cur parent codes k a).2.2
  refine ⟨?_, ?_, ?_, ?_, ?_, ?_⟩
  · rw [exit_cleanup_state_codes, hwm]
    exact c1
  · rw [exit_cleanup_state_codes, hwm]
    exact c2
  · intro a h1 h2
    rw [exit_cleanup_state_codes, hwm]
    exact c3 a h1 h2
  · intro a
    rw [(exit_cleanup_state_pid _ cur a).2.2, hwm]
    exact hsl a
  · show (thread_single_wakeup (handoff_state s cur parent codes k) cur).curthread = _
    rw [hwcur]
    rfl
  · rcases thread_single_wakeup_effect (handoff_state s cur parent codes k) cur with
      ⟨hno, heq⟩ | ⟨t, pre, post, h1, h2, h3, h4, h5⟩
    · left
      refine ⟨fun x hx => ?_, ?_, ?_⟩
      · rw [← hsl x]
        exact hno x hx
      · show (thread_single_wakeup (handoff_state s cur parent codes k) cur).sleepers = _
        rw [heq]
        rfl
      · show (thread_single_wakeup (handoff_state s cur parent codes k) cur).runqueue = _
        rw [heq]
        rfl
    · right
      refine ⟨t, pre, post, h1, ?_, ?_, h4, h5⟩
      · rw [← hsl t]
        exact h2
      · intro x hx
        rw [← hsl x]
        exact h3 x hx

/-- The return from `thread_sleep` keeps the current thread and all record lists. -/
theorem thread_sleep_return_effect {s s0 : Kernel} (h : thread_sleep_return s = some s0) :
    s0.curthread = s.curthread ∧ s0.usermem = s.usermem ∧
    ∀ a, (s0.mem a).child_exit_codes = (s.mem a).child_exit_codes := by
  unfold thread_sleep_return mi_switch_return at h
  rcases Option.eq_none_or_eq_some (exorcise s) with hx | ⟨s1, hx⟩
  · simp [hx] at h
  · simp only [hx] at h
    have hs1 : s1 = { s with zombies := [] } := by
      unfold exorcise at hx
      split at hx
      · cases hx
        rfl
      · cases hx
    subst hs1
    rcases Option.eq_none_or_eq_some s.curthread with hcur | ⟨cur, hcur⟩
    · simp [hcur] at h
    · simp only [hcur, Option.some.injEq] at h
      subst h
      refine ⟨hcur.symm, rfl, fun a => ?_⟩
      by_cases ha : a = cur
      · subst ha
        simp [Kernel.setThread]
      · simp [Kernel.setThread, Function.update_noteq ha]

theorem ex_forked_reachable : Reachable exE ex_forked :=
  Reachable.step ex_s0_reachable
    (Step.sys_fork ex_tf (ok_fork 101) (by decide) (by decide) rfl (by decide))

/-! ## Pids and records over time -/

theorem Mono.refl (s : Kernel) : Mono s s where
  nextpid_le := le_refl _
  reg := fun b hb => Or.inl ⟨b, hb, rfl⟩
  recs := fun _ l' hl' _ he => Or.inl ⟨l', hl', he⟩

theorem Mono.trans {s s' s'' : Kernel} (h1 : Mono s s') (h2 : Mono s' s'') : Mono s s'' where
  nextpid_le := le_trans h1.nextpid_le h2.nextpid_le
  reg := by
    intro b hb
    rcases h2.reg b hb with ⟨b0, hb0, hp⟩ | hge
    · rw [← hp]
      exact h1.reg b0 hb0
    · exact Or.inr (le_trans h1.nextpid_le hge)
  recs := by
    intro a l'' hl'' e he
    rcases h2.recs a l'' hl'' e he with ⟨l', hl', he'⟩ | ⟨b0, hb0, hp⟩ | hge
    · exact h1.recs a l' hl' e he'
    · rcases h1.reg b0 hb0 with ⟨b1, hb1, hp1⟩ | hge
      · exact Or.inr (Or.inl ⟨b1, hb1, hp1.trans hp⟩)
      · exact Or.inr (Or.inr (hp ▸ hge))
    · exact Or.inr (Or.inr (le_trans h1.nextpid_le hge))

/-- A pid that is spent stays spent. -/
theorem Spent.mono {s s' : Kernel} {p : Addr} {pid : Int} (h : Spent s p pid)
    (hm : Mono s s') : Spent s' p pid := by
  obtain ⟨h1, h2, h3⟩ := h
  refine ⟨lt_of_lt_of_le h1 hm.nextpid_le, ?_, ?_⟩
  · intro b hb hpb
    rcases hm.reg b hb with ⟨b0, hb0, hp⟩ | hge
    · exact h2 b0 hb0 (hp.trans hpb)
    · omega
  · intro l' hl' e he hpe
    rcases hm.recs p l' hl' e he with ⟨l, hl, he'⟩ | ⟨b0, hb0, hp⟩ | hge
    · exact h3 l hl e he' hpe
    · exact h2 b0 hb0 (hp.trans hpe)
    · omega

/-- A step that leaves the registry and `nextpid` alone, keeps all pids and only
shortens record lists. -/
theorem Mono_frame {s s' : Kernel} (hta : s'.thread_array = s.thread_array)
    (hnp : s'.nextpid = s.nextpid) (hpid : ∀ a, (s'.mem a).pid = (s.mem a).pid)
    (hcodes : ∀ a l', (s'.mem a).child_exit_codes = some l' →
      ∃ l, (s.mem a).child_exit_codes = some l ∧ l'.Sublist l) : Mono s s' where
  nextpid_le := by rw [hnp]
  reg := by
    intro b hb
    rw [hta] at hb
    exact Or.inl ⟨b, hb, (hpid b).symm⟩
  recs := by
    intro a l' hl' e he
    obtain ⟨l, hl, hsub⟩ := hcodes a l' hl'
    exact Or.inl ⟨l, hl, hsub.subset he⟩

theorem Mono_same {s s' : Kernel} (hta : s'.thread_array = s.thread_array)
    (hnp : s'.nextpid = s.nextpid)
    (hmem : ∀ a, (s'.mem a).pid = (s.mem a).pid ∧
      (s'.mem a).child_exit_codes = (s.mem a).child_exit_codes) : Mono s s' :=
  Mono_frame hta hnp (fun a => (hmem a).1)
    (fun a l' hl' => ⟨l', by rw [← (hmem a).2]; exact hl', List.Sublist.refl _⟩)

theorem Mono_setThread (s : Kernel) (a : Addr) (t : thread) (hpid : t.pid = (s.mem a).pid)
    (hcodes : t.child_exit_codes = (s.mem a).child_exit_codes) : Mono s (s.setThread a t) := by
  refine Mono_same rfl rfl ?_
  intro b
  by_cases hb : b = a
  · subst hb
    simp [hpid, hcodes]
  · rw [setThread_mem_other s a b t hb]
    exact ⟨rfl, rfl⟩

theorem Mono_mi_switch {s s' : Kernel} {st : threadstate_t} (h : mi_switch s st = some s') :
    Mono s s' := by
  rcases Option.eq_none_or_eq_some s.curthread with hcur | ⟨cur, hcur⟩
  · rw [mi_switch_none hcur] at h
    cases h
    exact Mono.refl _
  · obtain ⟨hm, hta, -, hnp, -⟩ := mi_switch_some hcur h
    exact Mono_same hta hnp (fun a => by rw [hm]; exact ⟨rfl, rfl⟩)

theorem Mono_thread_sleep {s s' : Kernel} {addr : Addr} (h : thread_sleep s addr = some s') :
    Mono s s' := by
  unfold thread_sleep at h
  rcases Option.eq_none_or_eq_some s.curthread with hcur | ⟨cur, hcur⟩
  · simp [hcur] at h
  · simp only [hcur] at h
    exact (Mono_setThread s cur { s.mem cur with t_sleepaddr := some addr } rfl rfl).trans
      (Mono_mi_switch h)

theorem Mono_exorcise {s s' : Kernel} (h : exorcise s = some s') : Mono s s' := by
  unfold exorcise at h
  split at h
  · cases h
    exact Mono_same rfl rfl (fun a => ⟨rfl, rfl⟩)
  · cases h

theorem Mono_thread_sleep_return {s s' : Kernel} (h : thread_sleep_return s = some s') :
    Mono s s' := by
  unfold thread_sleep_return mi_switch_return at h
  rcases Option.eq_none_or_eq_some (exorcise s) with hx | ⟨s1, hx⟩
  · simp [hx] at h
  · simp only [hx] at h
    rcases Option.eq_none_or_eq_some s1.curthread with hcur | ⟨cur, hcur⟩
    · simp [hcur] at h
    · simp only [hcur, Option.some.injEq] at h
      subst h
      exact (Mono_exorcise hx).trans (Mono_setThread s1 cur _ rfl rfl)

theorem Mono_copyout (E : Extern) (s : Kernel) (val : Int) (dst : Addr) :
    Mono s (copyout E s val dst).2 := by
  unfold copyout
  split
  · exact Mono_same rfl rfl (fun a => ⟨rfl, rfl⟩)
  · exact Mono.refl _

theorem Mono_erase_record (s : Kernel) (cur : Addr) (codes : List exitted_thread) (i : Nat)
    (hcodes : (s.mem cur).child_exit_codes = some codes) :
    Mono s (s.setThread cur { s.mem cur with child_exit_codes := some (codes.eraseIdx i) }) := by
  refine Mono_frame rfl rfl ?_ ?_
  · intro a
    by_cases ha : a = cur
    · subst ha
      simp
    · rw [setThread_mem_other _ _ _ _ ha]
  · intro a l' hl'
    by_cases ha : a = cur
    · subst ha
      simp only [setThread_mem_same, Option.some.injEq] at hl'
      subst hl'
      exact ⟨codes, hcodes, List.eraseIdx_sublist _ _⟩
    · rw [setThread_mem_other _ _ _ _ ha] at hl'
      exact ⟨l', hl', List.Sublist.refl _⟩

theorem Mono_sys_waitpid {E : Extern} {s s' : Kernel} {pid : Int} {status : Addr}
    {options : Int} (h : (sys_waitpid E s pid status options).state = some s') : Mono s s' := by
  unfold sys_waitpid at h
  rcases Option.eq_none_or_eq_some s.curthread with hcur | ⟨cur, hcur⟩
  · simp [hcur, SysRet.state] at h
  simp only [hcur] at h
  split at h
  · simp only [SysRet.state, Option.some.injEq] at h
    subst h
    exact Mono.refl _
  split at h
  · simp only [SysRet.state, Option.some.injEq] at h
    subst h
    exact Mono.refl _
  split at h
  · simp only [SysRet.state, Option.some.injEq] at h
    subst h
    exact Mono.refl _
  rcases Option.eq_none_or_eq_some (s.mem cur).child_exit_codes with hc | ⟨codes, hc⟩
  · simp [hc, SysRet.state] at h
  simp only [hc] at h
  rcases Option.eq_none_or_eq_some (find_exit_code pid codes 0) with hf | ⟨⟨i, e⟩, hf⟩
  · simp only [hf] at h
    rcases Option.eq_none_or_eq_some (get_thread_from_array s pid) with hch | ⟨c, hch⟩
    · simp only [hch, SysRet.state, Option.some.injEq] at h
      subst h
      exact Mono.refl _
    · simp only [hch] at h
      rcases Option.eq_none_or_eq_some (thread_sleep s c) with hsl | ⟨s1, hsl⟩
      · simp [hsl, SysRet.state] at h
      · simp only [hsl, SysRet.state, Option.some.injEq] at h
        subst h
        exact Mono_thread_sleep hsl
  · simp only [hf] at h
    have hm := (Mono_erase_record s cur codes i hc).trans (Mono_copyout E _ e.exitcode status)
    split at h <;>
      · simp only [SysRet.state, Option.some.injEq] at h
        subst h
        exact hm

theorem Mono_sys_waitpid_wakeup {E : Extern} {s s' : Kernel} {pid : Int} {status : Addr}
    (h : (sys_waitpid_wakeup E s pid status).state = some s') : Mono s s' := by
  unfold sys_waitpid_wakeup at h
  rcases Option.eq_none_or_eq_some (thread_sleep_return s) with hr | ⟨s0, hr⟩
  · simp [hr, SysRet.state] at h
  simp only [hr] at h
  rcases Option.eq_none_or_eq_some s0.curthread with hcur | ⟨cur, hcur⟩
  · simp [hcur, SysRet.state] at h
  simp only [hcur] at h
  rcases Option.eq_none_or_eq_some (s0.mem cur).child_exit_codes with hc | ⟨codes, hc⟩
  · simp [hc, SysRet.state] at h
  simp only [hc] at h
  rcases Option.eq_none_or_eq_some (find_exit_code pid codes 0) with hf | ⟨⟨i, e⟩, hf⟩
  · simp [hf, SysRet.state] at h
  · simp only [hf] at h
    have hc1 : ((copyout E s0 e.exitcode status).2.mem cur).child_exit_codes = some codes := by
      unfold copyout
      split <;> exact hc
    have hm := ((Mono_thread_sleep_return hr).trans (Mono_copyout E s0 e.exitcode status)).trans
      (Mono_erase_record _ cur codes i hc1)
    split at h <;>
      · simp only [SysRet.state, Option.some.injEq] at h
        subst h
        exact hm

@[simp] theorem thread_fork_atomic_mem (s : Kernel) (newguy : Addr) (o : fork_oracle) :
    (thread_fork_atomic s newguy o).1.mem = s.mem := by
  unfold thread_fork_atomic add_thread_to_array
  by_cases hok : o.array_ok = true
  · simp only [hok, if_true, ne_eq, not_true_eq_false, if_false]
    split
    · simp
    split
    · simp
    split
    · simp
    split
    · simp
    · rfl
  · simp [hok]

/-- The thread structures after `thread_fork`: untouched, or with a new structure at
`o.newguy` that has the pid `nextpid` and an empty or no record list. -/
theorem thread_fork_mem {E : Extern} {s s' : Kernel} {name : String} {data1 data2 : Addr}
    {func : entry_func} {o : fork_oracle} {rv : Int} {r : Option Addr}
    (h : thread_fork E s name data1 data2 func o = some (s', rv, r)) :
    s'.mem = s.mem ∨ ∃ t : thread, s'.mem = Function.update s.mem o.newguy t ∧
      (t.child_exit_codes = some [] ∨ t.child_exit_codes = none) := by
  unfold thread_fork at h
  rcases Option.eq_none_or_eq_some (thread_create s name o) with hc | ⟨⟨s1, rc⟩, hc⟩
  · simp [hc] at h
  rcases thread_create_effect hc with ⟨rfl, rfl⟩ | ⟨t, rfl, -, -, -, hr⟩
  · simp only [hc, Option.some.injEq, Prod.mk.injEq] at h
    exact Or.inl (h.1 ▸ rfl)
  · have ht : t.child_exit_codes = some [] ∨ t.child_exit_codes = none := by
      rcases hr with ⟨-, h1⟩ | ⟨-, h1⟩
      · exact Or.inl h1
      · exact Or.inr h1
    right
    rcases hr with ⟨rfl, -⟩ | ⟨rfl, -⟩
    · simp only [hc] at h
      split at h
      · simp only [Option.some.injEq, Prod.mk.injEq] at h
        exact ⟨t, h.1 ▸ rfl, ht⟩
      · rcases Option.eq_none_or_eq_some s.curthread with hcur | ⟨cur, hcur⟩
        · simp [hcur] at h
        · simp only [setThread_curthread, hcur, Option.some.injEq] at h
          have hm := congrArg (fun x => x.1.mem) h
          simp only [thread_fork_atomic_mem] at hm
          refine ⟨s'.mem o.newguy, ?_, ?_⟩
          · funext b
            by_cases hb : b = o.newguy
            · subst hb
              simp
            · rw [Function.update_noteq hb, ← hm]
              simp [Kernel.setThread, Function.update_noteq hb]
          · rw [← hm]
            simpa [Kernel.setThread] using ht
    · simp only [hc, Option.some.injEq, Prod.mk.injEq] at h
      exact ⟨t, h.1 ▸ rfl, ht⟩

theorem Mono_thread_fork {E : Extern} {s s' : Kernel} {name : String} {data1 data2 : Addr}
    {func : entry_func} {o : fork_oracle} {rv : Int} {r : Option Addr} (hI : Inv s)
    (hfresh : o.newguy ∉ s.thread_array)
    (h : thread_fork E s name data1 data2 func o = some (s', rv, r))
    (hroom : s.nextpid < 2 ^ 31 - 1) : Mono s s' := by
  obtain ⟨hm, -, -, -, -, -, hcase⟩ :=
    thread_fork_room hI.pid_ne_nextpid hfresh h (wrap32_nextpid hI.nextpid_pos hroom)
  have hrecs : ∀ a l', (s'.mem a).child_exit_codes = some l' → ∀ e ∈ l',
      (∃ l, (s.mem a).child_exit_codes = some l ∧ e ∈ l) ∨
      (∃ b0 ∈ s.thread_array, (s.mem b0).pid = e.pid) ∨ s.nextpid ≤ e.pid := by
    intro a l' hl' e he
    by_cases ha : a = o.newguy
    · subst ha
      rcases thread_fork_mem h with hsame | ⟨t, ht, hc⟩
      · rw [hsame] at hl'
        exact Or.inl ⟨l', hl', he⟩
      · rw [ht, Function.update_same] at hl'
        rcases hc with hc | hc
        · rw [hc] at hl'
          cases hl'
          cases he
        · rw [hc] at hl'
          cases hl'
    · rw [hm a ha] at hl'
      exact Or.inl ⟨l', hl', he⟩
  rcases hcase with ⟨-, hta, -, -, hnp⟩ | ⟨-, -, hta, -, -, hnp, hpid, -⟩
  · refine ⟨hnp, ?_, hrecs⟩
    intro b hb
    rw [hta] at hb
    exact Or.inl ⟨b, hb, by rw [hm b (fun hbe => hfresh (hbe ▸ hb))]⟩
  · refine ⟨by rw [hnp]; omega, ?_, hrecs⟩
    intro b hb
    rw [hta] at hb
    rcases List.mem_append.mp hb with hb | hb
    · exact Or.inl ⟨b, hb, by rw [hm b (fun hbe => hfresh (hbe ▸ hb))]⟩
    · rw [List.mem_singleton.mp hb, hpid]
      exact Or.inr (le_refl _)

theorem Mono_sys_fork {E : Extern} {s s' : Kernel} {tf : trapframe} {o : sys_fork_oracle}
    (hI : Inv s) (hfresh : o.fork.newguy ∉ s.thread_array)
    (h : (sys_fork E s tf o).state = some s') (hroom : s.nextpid < 2 ^ 31 - 1) :
    Mono s s' := by
  unfold sys_fork at h
  split at h
  · simp only [SysRet.state, Option.some.injEq] at h
    subst h
    exact Mono.refl _
  rcases Option.eq_none_or_eq_some o.tf_child with htf | ⟨tf_child, htf⟩
  · simp only [htf, SysRet.state, Option.some.injEq] at h
    subst h
    exact Mono.refl _
  simp only [htf] at h
  have hI1 := Inv_tfmem hI (Function.update s.tfmem tf_child tf)
  have hM1 : Mono s { s with tfmem := Function.update s.tfmem tf_child tf } :=
    Mono_same rfl rfl (fun _ => ⟨rfl, rfl⟩)
  generalize hs1 : ({ s with tfmem := Function.update s.tfmem tf_child tf } : Kernel) = s1
    at h hI1 hM1
  have hfresh1 : o.fork.newguy ∉ s1.thread_array := by rw [← hs1]; exact hfresh
  rcases Option.eq_none_or_eq_some o.addr_alloc with hal | ⟨x, hal⟩
  · simp only [hal, SysRet.state, Option.some.injEq] at h
    subst h
    exact hM1
  simp only [hal] at h
  rcases Option.eq_none_or_eq_some s.curthread with hcur | ⟨cur, hcur⟩
  · simp [hcur, SysRet.state] at h
  simp only [hcur] at h
  rcases Option.eq_none_or_eq_some o.as_copy_ret with hac | ⟨addr_child, hac⟩
  · simp only [hac, SysRet.state, Option.some.injEq] at h
    subst h
    exact hM1
  simp only [hac] at h
  rcases Option.eq_none_or_eq_some (thread_fork E s1 "User Thread Fork" tf_child addr_child
      .md_forkentry o.fork) with hf | ⟨⟨s2, rv, r⟩, hf⟩
  · simp [hf, SysRet.state] at h
  · have hM2 := hM1.trans (Mono_thread_fork hI1 hfresh1 hf (by rw [← hs1]; exact hroom))
    simp only [hf] at h
    split at h <;>
      · simp only [SysRet.state, Option.some.injEq] at h
        subst h
        exact hM2

theorem remove_thread_from_array_subset (s : Kernel) (pid : Int) :
    ∀ b ∈ (remove_thread_from_array s pid).1.thread_array, b ∈ s.thread_array := by
  intro b hb
  unfold remove_thread_from_array at hb
  rcases Option.eq_none_or_eq_some (remove_thread_loop s.mem pid s.thread_array) with
    hr | ⟨l, hr⟩
  · rw [hr] at hb
    exact hb
  · rw [hr] at hb
    obtain ⟨pre, t, post, hl, hl', -, -⟩ := remove_thread_loop_some hr
    rw [hl]
    simp only [hl'] at hb
    rcases List.mem_append.mp hb with h | h
    · simp [h]
    · simp [h]

theorem Mono_thread_exit_with_code {s s' : Kernel} {k : Int} (hI : Inv s)
    (h : thread_exit_with_code s k = some s') : Mono s s' := by
  obtain ⟨cur, s1, hcur, hh, -, hsw⟩ := thread_exit_with_code_some h
  have hcurreg : cur ∈ s.thread_array := hI.live_reg cur (by simp [live, hcur])
  rcases exit_handoff_cases hh with rfl | ⟨parent, codes, -, -, hcodes, rfl⟩
  · have hMc : Mono s1 (exit_cleanup_state s1 cur) :=
      Mono_same rfl rfl
        (fun a => ⟨(exit_cleanup_state_pid _ cur a).1, exit_cleanup_state_codes _ cur a⟩)
    exact hMc.trans (Mono_mi_switch hsw)
  · refine Mono.trans ?_ (Mono_mi_switch hsw)
    obtain ⟨hwm, hwta, hwnp, -, -, -⟩ :=
      thread_single_wakeup_frame (handoff_state s cur parent codes k) cur
    refine ⟨?_, ?_, ?_⟩
    · show s.nextpid ≤ (thread_single_wakeup (handoff_state s cur parent codes k) cur).nextpid
      rw [hwnp]
      exact le_refl _
    · intro b hb
      have hb' : b ∈ (thread_single_wakeup (handoff_state s cur parent codes k) cur).thread_array :=
        hb
      rw [hwta] at hb'
      refine Or.inl ⟨b, remove_thread_from_array_subset s _ b hb', ?_⟩
      rw [(exit_cleanup_state_pid _ cur b).1, hwm]
      exact ((handoff_mem_pid s cur parent codes k b).1).symm
    · intro a l' hl' e he
      rw [exit_cleanup_state_codes, hwm] at hl'
      have hl'' : (handoff_mem s cur parent codes k a).child_exit_codes = some l' := hl'
      unfold handoff_mem at hl''
      by_cases hac : a = cur
      · subst hac
        simp at hl''
      · rw [Function.update_noteq hac] at hl''
        by_cases hap : a = parent
        · subst hap
          simp only [Function.update_same, Option.some.injEq] at hl''
          subst hl''
          rcases List.mem_append.mp he with he | he
          · exact Or.inl ⟨codes, hcodes, he⟩
          · rw [List.mem_singleton.mp he]
            exact Or.inr (Or.inl ⟨cur, hcurreg, rfl⟩)
        · rw [Function.update_noteq hap] at hl''
          exact Or.inl ⟨l', hl'', he⟩

/-- Every step is monotone in pids and records. -/
theorem Mono_step {E : Extern} {s s' : Kernel} (hI : Inv s) (h : Step E s s') : Mono s s' := by
  cases h with
  | thread_fork name data1 data2 func o rv r hfresh hz h hroom =>
    exact Mono_thread_fork hI hfresh h hroom
  | sys_fork tf o hfresh hz h hroom => exact Mono_sys_fork hI hfresh h hroom
  | sys_waitpid pid status options h => exact Mono_sys_waitpid h
  | sys_waitpid_wakeup pid status h => exact Mono_sys_waitpid_wakeup h
  | thread_exit_with_code exitcode h => exact Mono_thread_exit_with_code hI h
  | thread_yield h => exact Mono_mi_switch h
  | mi_switch_return h => exact Mono_exorcise h
  | thread_sleep addr h => exact Mono_thread_sleep h
  | thread_sleep_return h => exact Mono_thread_sleep_return h
  | thread_wakeup addr => exact Mono_same rfl rfl (fun _ => ⟨rfl, rfl⟩)
  | thread_single_wakeup addr =>
    obtain ⟨hm, hta, hnp, -⟩ := thread_single_wakeup_frame s addr
    exact Mono_same hta hnp (fun a => by rw [hm]; exact ⟨rfl, rfl⟩)
  | dispatch hcur =>
    refine Mono_same ?_ ?_ ?_
    · unfold scheduler
      split <;> rfl
    · unfold scheduler
      split <;> rfl
    · intro a
      unfold scheduler
      split <;> exact ⟨rfl, rfl⟩
  | md_forkentry tf addrspace tf' h =>
    unfold md_forkentry at h
    rcases Option.eq_none_or_eq_some s.curthread with hcur | ⟨cur, hcur⟩
    · simp [hcur] at h
    · simp only [hcur, Option.some.injEq, Prod.mk.injEq] at h
      obtain ⟨rfl, -⟩ := h
      exact Mono_setThread s cur _ rfl rfl
  | set_vmspace cur v _ => exact Mono_setThread s cur _ rfl rfl
  | set_cwd cur v _ => exact Mono_setThread s cur _ rfl rfl
  | user_store m => exact Mono_same rfl rfl (fun _ => ⟨rfl, rfl⟩)

/-- Over any number of steps from a reachable state: the state reached is reachable
and monotone in pids and records. -/
theorem Reachable.steps {E : Extern} {s s' : Kernel} (hr : Reachable E s)
    (h : Relation.ReflTransGen (Step E) s s') : Reachable E s' ∧ Mono s s' := by
  induction h with
  | refl => exact ⟨hr, Mono.refl _⟩
  | tail _ hstep ih => exact ⟨Reachable.step ih.1 hstep, ih.2.trans (Mono_step ih.1.inv hstep)⟩

/-! ## Wait: exactly once -/

/-- Right after a record for `pid` has been consumed in a state that satisfies the
invariant, the pid is spent for the caller. -/
theorem spent_after_consume {s0 : Kernel} {cur : Addr} {pid : Int}
    {pre post : List exitted_thread} {e : exitted_thread} (m : Addr → Int)
    (hI : Inv s0) (hcur : s0.curthread = some cur)
    (hcodes : (s0.mem cur).child_exit_codes = some (pre ++ e :: post)) (he : e.pid = pid) :
    Spent (({ s0 with usermem := m }).setThread cur
        { s0.mem cur with child_exit_codes := some (pre ++ post) }) cur pid := by
  have hreg : cur ∈ s0.thread_array := hI.live_reg cur (by simp [live, hcur])
  have hmem : e ∈ pre ++ e :: post := by simp
  obtain ⟨hlt, hdead⟩ := hI.rec_dead cur hreg _ hcodes e hmem
  have hnd := hI.rec_nodup cur hreg _ hcodes
  rw [List.map_append, List.map_cons] at hnd
  obtain ⟨hnot, -⟩ := List.nodup_cons.mp (List.nodup_middle.mp hnd)
  refine ⟨he ▸ hlt, ?_, ?_⟩
  · intro a ha
    have hp : (((({ s0 with usermem := m } : Kernel).setThread cur
        { s0.mem cur with child_exit_codes := some (pre ++ post) }).mem a).pid)
          = (s0.mem a).pid := by
      by_cases hac : a = cur
      · subst hac
        simp
      · rw [setThread_mem_other _ _ _ _ hac]
    rw [hp, ← he]
    exact hdead a ha
  · intro l hl x hx hxe
    simp only [setThread_mem_same, Option.some.injEq] at hl
    subst hl
    rw [← he] at hxe
    exact hnot (by
      rw [← List.map_append]
      exact hxe ▸ List.mem_map_of_mem _ hx)

/-- Exactly-once delivery in the runs of `Step`, in which no block of a freed thread
structure is handed out again and the pid counter does not wrap: once a wait for `pid`
has succeeded in a reachable state, on the fast path of `sys_waitpid` or after its
sleep, and so consumed the child's exit record, every later `sys_waitpid` for the same
pid by the same caller, after any number of such steps in between, returns `-1` with
`EINVAL`; it returns at once (it does not block) and leaves the state as it is. -/
theorem sys_waitpid_second_wait_fails (E : Extern) (s s1 s2 : Kernel) (pid : Int)
    (status status' : Addr) (hr : Reachable E s)
    (hfirst : sys_waitpid E s pid status 0 = .ret s1 pid none ∨
      sys_waitpid_wakeup E s pid status = .ret s1 pid none)
    (hlater : Relation.ReflTransGen (Step E) s1 s2)
    (hsame : s2.curthread = s1.curthread) :
    sys_waitpid E s2 pid status' 0 = .ret s2 (-1) (some E.EINVAL) := by
  have hr1 : Reachable E s1 := by
    rcases hfirst with h | h
    · exact Reachable.step hr (Step.sys_waitpid pid status 0 (by rw [h]; rfl))
    · exact Reachable.step hr (Step.sys_waitpid_wakeup pid status (by rw [h]; rfl))
  have hsp : ∃ cur, s1.curthread = some cur ∧ Spent s1 cur pid := by
    rcases hfirst with h | h
    · obtain ⟨cur, pre, e, post, hcur, hcodes, -, he, rfl⟩ := sys_waitpid_success_inv h
      exact ⟨cur, hcur, spent_after_consume _ hr.inv hcur hcodes he⟩
    · obtain ⟨s0, cur, pre, e, post, hret, hcur, hcodes, -, he, rfl⟩ :=
        sys_waitpid_wakeup_success_inv h
      exact ⟨cur, hcur,
        spent_after_consume _ (Inv_thread_sleep_return hr.inv hret) hcur hcodes he⟩
  obtain ⟨cur, hcur1, hspent1⟩ := hsp
  obtain ⟨hr2, hmono⟩ := hr1.steps hlater
  obtain ⟨-, hnoreg, hnorec⟩ := hspent1.mono hmono
  have hcur2 : s2.curthread = some cur := hsame.trans hcur1
  have hreg2 : cur ∈ s2.thread_array := hr2.inv.live_reg cur (by simp [live, hcur2])
  obtain ⟨codes2, hcodes2⟩ := hr2.inv.reg_codes cur hreg2
  exact sys_waitpid_no_such_child status' hcur2 (get_thread_loop_none.mpr hnoreg) hcodes2
    (hnorec codes2 hcodes2)

theorem sys_waitpid_second_wait_fails_witness :
    (sys_waitpid exE ex_parent 2 7 0 = .ret ex_waited 2 none ∧
      sys_waitpid exE ex_waited_forked 2 7 0 = .ret ex_waited_forked (-1) (some exE.EINVAL)) ∧
    (sys_waitpid_wakeup exE ex_child_exited 2 7 = .ret ex_resumed 2 none ∧
      sys_waitpid exE ex_resumed 2 7 0 = .ret ex_resumed (-1) (some exE.EINVAL)) :=
  ⟨⟨rfl, sys_waitpid_second_wait_fails exE ex_parent ex_waited ex_waited_forked 2 7 7
      ex_parent_reachable (Or.inl rfl)
      (Relation.ReflTransGen.single (Step.sys_fork ex_tf (ok_fork 102) (by decide) (by decide) rfl (by decide)))
      rfl⟩,
   ⟨rfl, sys_waitpid_second_wait_fails exE ex_child_exited ex_resumed ex_resumed 2 7 7
      ex_child_exited_reachable (Or.inr rfl) Relation.ReflTransGen.refl rfl⟩⟩

/-! ## Fork: failures -/

/-- The failures `sys_fork` detects: when the copy of the trap frame, the address-space
structure or the address-space copy cannot be had, it returns `-1` with `ENOMEM` and
neither registry, run queue nor live-thread count change. -/
theorem sys_fork_alloc_failure (E : Extern) (s : Kernel) (tf : trapframe) (o : sys_fork_oracle)
    (cur : Addr) (hceil : ¬ thread_count s > E.MAX_THREADS) (hcur : s.curthread = some cur)
    (h : o.tf_child = none ∨ o.addr_alloc = none ∨ o.as_copy_ret = none) :
    ∃ s', sys_fork E s tf o = .ret s' (-1) (some E.ENOMEM) ∧
      s'.thread_array = s.thread_array ∧ s'.runqueue = s.runqueue ∧
      s'.numthreads = s.numthreads ∧ s'.nextpid = s.nextpid ∧ s'.mem = s.mem := by
  unfold sys_fork
  rw [if_neg hceil]
  rcases Option.eq_none_or_eq_some o.tf_child with h1 | ⟨tfc, h1⟩
  · simp only [h1]
    exact ⟨s, rfl, rfl, rfl, rfl, rfl, rfl⟩
  · simp only [h1]
    rcases Option.eq_none_or_eq_some o.addr_alloc with h2 | ⟨x, h2⟩
    · simp only [h2]
      exact ⟨_, rfl, rfl, rfl, rfl, rfl, rfl⟩
    · simp only [h2, hcur]
      rcases Option.eq_none_or_eq_some o.as_copy_ret with h3 | ⟨y, h3⟩
      · simp only [h3]
        exact ⟨_, rfl, rfl, rfl, rfl, rfl, rfl⟩
      · rcases h with h | h | h
        · rw [h1] at h
          cases h
        · rw [h2] at h
          cases h
        · rw [h3] at h
          cases h

/-- What `sys_fork` does when `thread_fork` has failed, that is, has stored nothing
through `ret`: the test `thread_child == NULL` reads the indeterminate value of the
local.  Only if that value is `NULL` is the failure reported; otherwise the `pid` field
of whatever it points to is returned as if it were the child's pid. -/
theorem sys_fork_thread_fork_failure (E : Extern) (s s2 : Kernel) (tf : trapframe)
    (o : sys_fork_oracle) (cur tf_child x addr_child : Addr) (rv : Int)
    (hceil : ¬ thread_count s > E.MAX_THREADS) (hcur : s.curthread = some cur)
    (h1 : o.tf_child = some tf_child) (h2 : o.addr_alloc = some x)
    (h3 : o.as_copy_ret = some addr_child)
    (hf : thread_fork E { s with tfmem := Function.update s.tfmem tf_child tf }
      "User Thread Fork" tf_child addr_child .md_forkentry o.fork = some (s2, rv, none)) :
    sys_fork E s tf o =
      match o.thread_child with
      | none => .ret s2 (-1) (some E.ENOMEM)
      | some c => .ret s2 (s2.mem c).pid none := by
  unfold sys_fork
  rw [if_neg hceil]
  simp only [h1, h2, h3]
  generalize hs1 : ({ s with tfmem := Function.update s.tfmem tf_child tf } : Kernel) = s1
    at hf ⊢
  simp only [hcur, hf]
  cases o.thread_child <;> rfl

/-- C11 (the code at the failing input): the boot thread (pid 1, at 100) forks, the
stack of the new thread cannot be allocated, so `thread_fork` returns `ENOMEM` and
stores nothing through `ret`; the local `thread_child` of `sys_fork` holds what was in
its stack slot, here the address 100.  `sys_fork` then does not report `ENOMEM`: it
returns the `pid` field found there (1) with no error, although no thread was created
(registry and live-thread count are as before).  With `NULL` in the slot the same call
does return `-1` with `ENOMEM`. -/
theorem sys_fork_thread_fork_failure_returns_pid :
    (thread_fork exE { ex_s0 with tfmem := Function.update ex_s0.tfmem 501 ex_tf }
        "User Thread Fork" 501 601 .md_forkentry ex_fork_no_stack.fork).map
        (fun r => (r.2.1, r.2.2)) = some (exE.ENOMEM, none) ∧
    (sys_fork exE ex_s0 ex_tf ex_fork_no_stack).retval = some 1 ∧
    (sys_fork exE ex_s0 ex_tf ex_fork_no_stack).err = none ∧
    (sys_fork exE ex_s0 ex_tf ex_fork_no_stack).state.map
        (fun s => (s.thread_array, s.numthreads)) = some ([100], 1) ∧
    (sys_fork exE ex_s0 ex_tf { ex_fork_no_stack with thread_child := none }).retval
      = some (-1) ∧
    (sys_fork exE ex_s0 ex_tf { ex_fork_no_stack with thread_child := none }).err
      = some exE.ENOMEM := by
  refine ⟨?_, ?_, ?_, ?_, ?_, ?_⟩ <;> decide

/-- When a step of the interrupts-off section of `thread_fork` fails, the section
returns a nonzero value and stores nothing through `ret`. -/
theorem thread_fork_atomic_fail (s : Kernel) (newguy : Addr) (o : fork_oracle)
    (h : o.array_ok = false ∨ o.sleepers_err ≠ 0 ∨ o.zombies_err ≠ 0 ∨ o.scheduler_err ≠ 0 ∨
      o.runnable_err ≠ 0) :
    (thread_fork_atomic s newguy o).2.1 ≠ 0 ∧ (thread_fork_atomic s newguy o).2.2 = none := by
  unfold thread_fork_atomic add_thread_to_array
  by_cases hok : o.array_ok = true
  · simp only [hok, if_true, ne_eq, not_true_eq_false, if_false]
    have h' : o.sleepers_err ≠ 0 ∨ o.zombies_err ≠ 0 ∨ o.scheduler_err ≠ 0 ∨
        o.runnable_err ≠ 0 := by
      rcases h with h | h
      · rw [hok] at h
        cases h
      · exact h
    by_cases h1 : o.sleepers_err = 0
    · by_cases h2 : o.zombies_err = 0
      · by_cases h3 : o.scheduler_err = 0
        · by_cases h4 : o.runnable_err = 0
          · rcases h' with h | h | h | h
            · exact absurd h1 h
            · exact absurd h2 h
            · exact absurd h3 h
            · exact absurd h4 h
          · simp [h1, h2, h3, h4]
        · simp [h1, h2, h3]
      · simp [h1, h2]
    · simp [h1]
  · simp [hok]

/-- With a current thread and the thread structure, its name, its record list and its
stack allocated, `thread_fork` gets to its interrupts-off section. -/
theorem thread_fork_reaches_atomic (E : Extern) (s : Kernel) (name : String)
    (data1 data2 : Addr) (func : entry_func) (o : fork_oracle) (cur : Addr)
    (hcur : s.curthread = some cur) (h1 : o.thread_ok = true) (h2 : o.name_ok = true)
    (h3 : o.codes_ok = true) (h4 : o.stack_ok = true) :
    ∃ s2, thread_fork E s name data1 data2 func o = some (thread_fork_atomic s2 o.newguy o) := by
  unfold thread_fork thread_create
  by_cases hn : name = "<boot/menu>"
  · simp [h1, h2, h3, h4, hcur, hn]
    exact ⟨_, rfl⟩
  · simp [h1, h2, h3, h4, hcur, hn]
    exact ⟨_, rfl⟩

/-- The loop of `thread_wakeup` from index `pre.length` on, with enough fuel: the
entries before the index stay, the rest is split by sleep address. -/
theorem thread_wakeup_for_eq (mem : Addr → thread) (addr : Addr) (rest : List Addr) :
    ∀ (pre runqueue : List Addr) (fuel : Nat), rest.length < fuel →
      thread_wakeup_for mem addr fuel pre.length (pre ++ rest) runqueue =
        some (pre ++ rest.filter (fun t => !decide ((mem t).t_sleepaddr = some addr)),
          runqueue ++ rest.filter (fun t => decide ((mem t).t_sleepaddr = some addr))) := by
  induction rest with
  | nil =>
    intro pre runqueue fuel hf
    obtain ⟨f, rfl⟩ : ∃ f, fuel = f + 1 := ⟨fuel - 1, by omega⟩
    simp [thread_wakeup_for]
  | cons t rest ih =>
    intro pre runqueue fuel hf
    obtain ⟨f, rfl⟩ : ∃ f, fuel = f + 1 := ⟨fuel - 1, by omega⟩
    have hf' : rest.length < f := by
      simp only [List.length_cons] at hf
      omega
    have hlt : (pre.length : Int) < ((pre ++ t :: rest).length : Int) := by
      simp only [List.length_append, List.length_cons]
      push_cast
      omega
    have hget : (pre ++ t :: rest)[(pre.length : Int).toNat]? = some t := by
      rw [Int.toNat_ofNat, List.getElem?_append_right (le_refl _)]
      simp
    unfold thread_wakeup_for
    rw [if_pos hlt]
    simp only [hget]
    by_cases hm : (mem t).t_sleepaddr = some addr
    · rw [if_pos hm]
      have he : (pre ++ t :: rest).eraseIdx (pre.length : Int).toNat = pre ++ rest := by
        rw [Int.toNat_ofNat]
        exact eraseIdx_append_cons pre rest t
      have hi : (pre.length : Int) - 1 + 1 = pre.length := by omega
      rw [he, hi, ih pre (runqueue ++ [t]) f hf']
      simp [hm]
    · rw [if_neg hm]
      have h1 : pre ++ t :: rest = (pre ++ [t]) ++ rest := by simp
      have h2 : (pre.length : Int) + 1 = ((pre ++ [t]).length : Int) := by simp
      rw [h1, h2, ih (pre ++ [t]) runqueue f hf']
      simp [hm]

/-- C18: `thread_wakeup(addr)`, its loop run as written with more loop tests allowed
than there are sleepers, ends and gives the state of `thread_wakeup` (the function `V`,
`lock_release` and `cv_broadcast` call): the sleepers are the former sleepers whose
sleep address is not `addr`, in their original order; the run queue is the former run
queue followed by all former sleepers on `addr`, adjacent ones included, in their
original order; nothing else changes. -/
theorem thread_wakeup_moves_all (s : Kernel) (addr : Addr) (fuel : Nat)
    (hf : s.sleepers.length < fuel) :
    thread_wakeup_indexed s addr fuel = some (thread_wakeup s addr) ∧
    (thread_wakeup s addr).sleepers =
      s.sleepers.filter (fun t => !decide ((s.mem t).t_sleepaddr = some addr)) ∧
    (thread_wakeup s addr).runqueue =
      s.runqueue ++ s.sleepers.filter (fun t => decide ((s.mem t).t_sleepaddr = some addr)) ∧
    (thread_wakeup s addr).mem = s.mem ∧
    (thread_wakeup s addr).curthread = s.curthread ∧
    (thread_wakeup s addr).zombies = s.zombies ∧
    (thread_wakeup s addr).thread_array = s.thread_array ∧
    (thread_wakeup s addr).numthreads = s.numthreads := by
  have h := thread_wakeup_for_eq s.mem addr s.sleepers [] s.runqueue fuel hf
  simp only [List.length_nil, List.nil_append, Nat.cast_zero] at h
  refine ⟨?_, ?_, ?_, rfl, rfl, rfl, rfl, rfl⟩
  · unfold thread_wakeup_indexed thread_wakeup
    rw [h, wakeup_loop_eq]
    rfl
  · unfold thread_wakeup
    rw [wakeup_loop_eq]
  · unfold thread_wakeup
    rw [wakeup_loop_eq]

theorem thread_wakeup_moves_all_witness :
    thread_wakeup_indexed ex_sleepers 900 5 = some (thread_wakeup ex_sleepers 900) ∧
    (thread_wakeup ex_sleepers 900).sleepers = [103] ∧
    (thread_wakeup ex_sleepers 900).runqueue = [101, 102, 104] :=
  ⟨(thread_wakeup_moves_all ex_sleepers 900 5 (by decide)).1, by decide, by decide⟩

/-! ## Synchronisation primitives: what each call does -/

theorem wrap32_of_int {x : Int} (h1 : -2 ^ 31 ≤ x) (h2 : x < 2 ^ 31) : wrap32 x = x := by
  unfold wrap32
  omega

/-- An increment that leaves a positive `int` behind has not overflowed. -/
theorem wrap32_succ {c : Int} (h0 : 0 ≤ c) (h1 : c < 2 ^ 31) (hpos : 0 < wrap32 (c + 1)) :
    wrap32 (c + 1) = c + 1 ∧ c + 1 < 2 ^ 31 := by
  unfold wrap32 at *
  omega

theorem sem_create_some {S S' : Synch} {namearg : String} {initial_count : Int}
    {o : create_oracle} {sem : Addr}
    (h : sem_create S namearg initial_count o = some (S', some sem)) :
    0 ≤ initial_count ∧
    S' = { S with sems := Function.update S.sems sem ⟨namearg, initial_count⟩ } := by
  unfold sem_create at h
  split at h
  · cases h
  · rename_i hneg
    rcases Option.eq_none_or_eq_some o.obj with ho | ⟨x, ho⟩
    · simp [ho] at h
    · simp only [ho] at h
      split at h
      · simp at h
      · simp only [Option.some.injEq, Prod.mk.injEq] at h
        obtain ⟨rfl, rfl⟩ := h
        exact ⟨by omega, rfl⟩

theorem P_ret {S S' : Synch} {sem : Addr} (h : P S sem = .ret S') :
    0 < (S.sems sem).count ∧
    S' = { S with
      sems := Function.update S.sems sem ⟨(S.sems sem).name, (S.sems sem).count - 1⟩ } := by
  unfold P at h
  split at h
  · split at h <;> cases h
  · split at h
    · rename_i hpos
      cases h
      exact ⟨hpos, rfl⟩
    · cases h

theorem P_blocked {S S' : Synch} {sem : Addr} (h : P S sem = .blocked S') :
    (S.sems sem).count = 0 ∧
    ∃ k, thread_sleep S.kern sem = some k ∧ S' = { S with kern := k } := by
  unfold P at h
  split at h
  · rename_i h0
    rcases Option.eq_none_or_eq_some (thread_sleep S.kern sem) with hs | ⟨k, hs⟩
    · simp [hs] at h
    · simp only [hs] at h
      cases h
      exact ⟨h0, k, hs, rfl⟩
  · split at h <;> cases h

theorem P_wakeup_some {S S' : Synch} {sem : Addr}
    (h : (P_wakeup S sem).state = some S') :
    ∃ k, thread_sleep_return S.kern = some k ∧ P_wakeup S sem = P { S with kern := k } sem := by
  unfold P_wakeup at h ⊢
  rcases Option.eq_none_or_eq_some (thread_sleep_return S.kern) with hs | ⟨k, hs⟩
  · simp [hs, SynchRet.state] at h
  · exact ⟨k, hs, by simp only [hs]⟩

theorem V_ret {S S' : Synch} {sem : Addr} (h : V S sem = .ret S') :
    0 < wrap32 ((S.sems sem).count + 1) ∧
    S' = { S with
      sems := Function.update S.sems sem ⟨(S.sems sem).name, wrap32 ((S.sems sem).count + 1)⟩,
      kern := thread_wakeup S.kern sem } := by
  unfold V at h
  simp only [Function.update_same] at h
  split at h
  · rename_i hpos
    cases h
    exact ⟨hpos, rfl⟩
  · cases h

theorem lock_create_some {S S' : Synch} {name : String} {o : create_oracle} {lock : Addr}
    (h : lock_create S name o = (S', some lock)) :
    S' = { S with locks := Function.update S.locks lock ⟨name, none⟩ } := by
  unfold lock_create at h
  rcases Option.eq_none_or_eq_some o.obj with ho | ⟨x, ho⟩
  · simp [ho] at h
  · simp only [ho] at h
    split at h
    · simp at h
    · simp only [Prod.mk.injEq, Option.some.injEq] at h
      obtain ⟨rfl, rfl⟩ := h
      rfl

theorem lock_acquire_ret {S S' : Synch} {lock : Addr} (h : lock_acquire S lock = .ret S') :
    (S.locks lock).holding_thread = none ∧
    S' = { S with
      locks := Function.update S.locks lock ⟨(S.locks lock).name, S.kern.curthread⟩ } := by
  unfold lock_acquire at h
  split at h
  · split at h <;> cases h
  · rename_i hn
    cases h
    exact ⟨not_not.mp hn, rfl⟩

theorem lock_acquire_blocked {S S' : Synch} {lock : Addr}
    (h : lock_acquire S lock = .blocked S') :
    (S.locks lock).holding_thread ≠ none ∧
    ∃ k, thread_sleep S.kern lock = some k ∧ S' = { S with kern := k } := by
  unfold lock_acquire at h
  split at h
  · rename_i hn
    rcases Option.eq_none_or_eq_some (thread_sleep S.kern lock) with hs | ⟨k, hs⟩
    · simp [hs] at h
    · simp only [hs] at h
      cases h
      exact ⟨hn, k, hs, rfl⟩
  · cases h

theorem lock_acquire_wakeup_some {S S' : Synch} {lock : Addr}
    (h : (lock_acquire_wakeup S lock).state = some S') :
    ∃ k, thread_sleep_return S.kern = some k ∧
      lock_acquire_wakeup S lock = lock_acquire { S with kern := k } lock := by
  unfold lock_acquire_wakeup at h ⊢
  rcases Option.eq_none_or_eq_some (thread_sleep_return S.kern) with hs | ⟨k, hs⟩
  · simp [hs, SynchRet.state] at h
  · exact ⟨k, hs, by simp only [hs]⟩

theorem lock_release_ret {S S' : Synch} {lock : Addr} (h : lock_release S lock = .ret S') :
    S.kern.curthread = (S.locks lock).holding_thread ∧
    S' = { S with
      locks := Function.update S.locks lock ⟨(S.locks lock).name, none⟩,
      kern := thread_wakeup S.kern lock } := by
  unfold lock_release at h
  split at h
  · rename_i hh
    cases h
    exact ⟨hh, rfl⟩
  · cases h

theorem cv_wait_blocked {S S' : Synch} {cv lock : Addr} (h : cv_wait S cv lock = .blocked S') :
    S.kern.curthread = (S.locks lock).holding_thread ∧
    ∃ k, thread_sleep (thread_wakeup S.kern lock) cv = some k ∧
      S' = { S with
        locks := Function.update S.locks lock ⟨(S.locks lock).name, none⟩,
        kern := k } := by
  unfold cv_wait at h
  split at h
  · rename_i hh
    have hrel : lock_release S lock = .ret { S with
        locks := Function.update S.locks lock ⟨(S.locks lock).name, none⟩,
        kern := thread_wakeup S.kern lock } := by
      unfold lock_release
      rw [if_pos hh]
    rw [hrel] at h
    simp only at h
    rcases Option.eq_none_or_eq_some (thread_sleep (thread_wakeup S.kern lock) cv) with
      hs | ⟨k, hs⟩
    · simp [hs] at h
    · simp only [hs] at h
      cases h
      exact ⟨hh, k, hs, rfl⟩
  · cases h

theorem cv_wait_wakeup_eq (S : Synch) (lock : Addr) :
    cv_wait_wakeup S lock = lock_acquire_wakeup S lock := rfl

theorem cv_signal_ret {S S' : Synch} {cv lock : Addr} (h : cv_signal S cv lock = .ret S') :
    S.kern.curthread = (S.locks lock).holding_thread ∧
    S' = { S with kern := thread_single_wakeup S.kern cv } := by
  unfold cv_signal at h
  split at h
  · rename_i hh
    cases h
    exact ⟨hh, rfl⟩
  · cases h

theorem cv_broadcast_ret {S S' : Synch} {cv lock : Addr} (h : cv_broadcast S cv lock = .ret S') :
    S.kern.curthread = (S.locks lock).holding_thread ∧
    S' = { S with kern := thread_wakeup S.kern cv } := by
  unfold cv_broadcast at h
  split at h
  · rename_i hh
    cases h
    exact ⟨hh, rfl⟩
  · cases h

/-! ## Semaphores: the count -/

/-- What a step does to the count of the semaphore at `sem`: a creation there leaves a
count that is not negative; a `P` that returns found it positive and took one off; a
`V` added one (as the processor adds) and left it positive; nothing else changes the
semaphore. -/
theorem SynchStep.sems_effect {E : Extern} {S S' : Synch} {ev : synch_event}
    (h : SynchStep E S ev S') (sem : Addr) :
    (ev = .sem_create sem ∧ 0 ≤ (S'.sems sem).count) ∨
    (ev = .P sem ∧ 0 < (S.sems sem).count ∧
      (S'.sems sem).count = (S.sems sem).count - 1) ∨
    (ev = .V sem ∧ (S'.sems sem).count = wrap32 ((S.sems sem).count + 1) ∧
      0 < (S'.sems sem).count) ∨
    (ev ≠ .sem_create sem ∧ ev ≠ .P sem ∧ ev ≠ .V sem ∧ S'.sems sem = S.sems sem) := by
  have hP : ∀ (S0 S1 : Synch) (sem0 : Addr), S0.sems = S.sems → P S0 sem0 = .ret S1 →
      (synch_event.P sem0 = .P sem ∧ 0 < (S.sems sem).count ∧
        (S1.sems sem).count = (S.sems sem).count - 1) ∨
      (synch_event.P sem0 ≠ .sem_create sem ∧ synch_event.P sem0 ≠ .P sem ∧
        synch_event.P sem0 ≠ .V sem ∧ S1.sems sem = S.sems sem) := by
    intro S0 S1 sem0 hs h1
    obtain ⟨hpos, rfl⟩ := P_ret h1
    by_cases he : sem0 = sem
    · subst he
      left
      rw [← hs]
      exact ⟨rfl, hpos, by simp⟩
    · right
      refine ⟨by simp, by simp [he], by simp, ?_⟩
      simp only [hs]
      exact Function.update_noteq (Ne.symm he) _ _
  have hL : ∀ (S0 S1 : Synch) (lock : Addr), S0.sems = S.sems →
      (lock_acquire S0 lock).state = some S1 → S1.sems = S.sems := by
    intro S0 S1 lock hs h1
    unfold lock_acquire at h1
    split at h1
    · rcases Option.eq_none_or_eq_some (thread_sleep S0.kern lock) with hsl | ⟨k, hsl⟩
      · simp [hsl, SynchRet.state] at h1
      · simp only [hsl, SynchRet.state, Option.some.injEq] at h1
        subst h1
        exact hs
    · simp only [SynchRet.state, Option.some.injEq] at h1
      subst h1
      exact hs
  have hLw : ∀ (S1 : Synch) (lock : Addr),
      (lock_acquire_wakeup S lock).state = some S1 → S1.sems = S.sems := by
    intro S1 lock h1
    obtain ⟨k, -, he⟩ := lock_acquire_wakeup_some h1
    rw [he] at h1
    exact hL { S with kern := k } S1 lock rfl h1
  have htau : ∀ S1 : Synch, S1.sems = S.sems →
      (synch_event.tau ≠ .sem_create sem ∧ synch_event.tau ≠ .P sem ∧
        synch_event.tau ≠ .V sem ∧ S1.sems sem = S.sems sem) :=
    fun S1 hs => ⟨by simp, by simp, by simp, by rw [hs]⟩
  cases h with
  | kernel hk => exact Or.inr (Or.inr (Or.inr (htau _ rfl)))
  | sem_create namearg initial_count o sem0 h1 =>
    obtain ⟨h0, rfl⟩ := sem_create_some h1
    by_cases he : sem0 = sem
    · subst he
      exact Or.inl ⟨rfl, by simpa using h0⟩
    · refine Or.inr (Or.inr (Or.inr ⟨by simp [he], by simp, by simp, ?_⟩))
      exact Function.update_noteq (Ne.symm he) _ _
  | P_returns sem0 h1 =>
    rcases hP S _ sem0 rfl h1 with h2 | h2
    · exact Or.inr (Or.inl h2)
    · exact Or.inr (Or.inr (Or.inr h2))
  | P_blocks sem0 h1 =>
    obtain ⟨-, k, -, rfl⟩ := P_blocked h1
    exact Or.inr (Or.inr (Or.inr (htau _ rfl)))
  | P_wakeup_returns sem0 h1 =>
    obtain ⟨k, -, he⟩ := P_wakeup_some (by rw [h1]; rfl)
    rw [he] at h1
    rcases hP { S with kern := k } _ sem0 rfl h1 with h2 | h2
    · exact Or.inr (Or.inl h2)
    · exact Or.inr (Or.inr (Or.inr h2))
  | P_wakeup_blocks sem0 h1 =>
    obtain ⟨k, -, he⟩ := P_wakeup_some (by rw [h1]; rfl)
    rw [he] at h1
    obtain ⟨-, k', -, rfl⟩ := P_blocked h1
    exact Or.inr (Or.inr (Or.inr (htau _ rfl)))
  | V sem0 h1 =>
    obtain ⟨hpos, rfl⟩ := V_ret h1
    by_cases he : sem0 = sem
    · subst he
      exact Or.inr (Or.inr (Or.inl ⟨rfl, by simp, by simpa using hpos⟩))
    · refine Or.inr (Or.inr (Or.inr ⟨by simp, by simp, by simp [he], ?_⟩))
      exact Function.update_noteq (Ne.symm he) _ _
  | lock_create name o lock h1 =>
    rw [lock_create_some h1]
    exact Or.inr (Or.inr (Or.inr ⟨by simp, by simp, by simp, rfl⟩))
  | lock_acquire_returns lock h1 =>
    have := hL S _ lock rfl (by rw [h1]; rfl)
    exact Or.inr (Or.inr (Or.inr ⟨by simp, by simp, by simp, by rw [this]⟩))
  | lock_acquire_blocks lock h1 =>
    exact Or.inr (Or.inr (Or.inr (htau _ (hL S _ lock rfl (by rw [h1]; rfl)))))
  | lock_acquire_wakeup_returns lock h1 =>
    have := hLw _ lock (by rw [h1]; rfl)
    exact Or.inr (Or.inr (Or.inr ⟨by simp, by simp, by simp, by rw [this]⟩))
  | lock_acquire_wakeup_blocks lock h1 =>
    exact Or.inr (Or.inr (Or.inr (htau _ (hLw _ lock (by rw [h1]; rfl)))))
  | lock_release lock h1 =>
    obtain ⟨-, rfl⟩ := lock_release_ret h1
    exact Or.inr (Or.inr (Or.inr ⟨by simp, by simp, by simp, rfl⟩))
  | cv_wait cv lock h1 =>
    obtain ⟨-, k, -, rfl⟩ := cv_wait_blocked h1
    exact Or.inr (Or.inr (Or.inr ⟨by simp, by simp, by simp, rfl⟩))
  | cv_wait_wakeup_returns lock h1 =>
    have := hLw _ lock (by rw [← cv_wait_wakeup_eq, h1]; rfl)
    exact Or.inr (Or.inr (Or.inr ⟨by simp, by simp, by simp, by rw [this]⟩))
  | cv_wait_wakeup_blocks lock h1 =>
    exact Or.inr (Or.inr (Or.inr (htau _ (hLw _ lock (by rw [← cv_wait_wakeup_eq, h1]; rfl)))))
  | cv_signal cv lock h1 =>
    obtain ⟨-, rfl⟩ := cv_signal_ret h1
    exact Or.inr (Or.inr (Or.inr (htau _ rfl)))
  | cv_broadcast cv lock h1 =>
    obtain ⟨-, rfl⟩ := cv_broadcast_ret h1
    exact Or.inr (Or.inr (Or.inr (htau _ rfl)))

/-- A count that is not negative stays so over every run. -/
theorem SynchRun.count_nonneg {E : Extern} {S S' : Synch} {evs : List synch_event}
    (h : SynchRun E S evs S') (sem : Addr) (h0 : 0 ≤ (S.sems sem).count) :
    0 ≤ (S'.sems sem).count := by
  induction h with
  | nil => exact h0
  | cons hstep _ ih =>
    apply ih
    rcases hstep.sems_effect sem with ⟨-, h1⟩ | ⟨-, h1, h2⟩ | ⟨-, -, h2⟩ | ⟨-, -, -, h2⟩
    · exact h1
    · omega
    · omega
    · rw [h2]
      exact h0

/-- Over a run in which the semaphore at `sem` is not created anew, a count in the
range of a non-negative `int` stays there and changes by the calls seen: one up for
each `V`, one down for each `P` that returned. -/
theorem SynchRun.count_balance {E : Extern} {S S' : Synch} {evs : List synch_event}
    (h : SynchRun E S evs S') (sem : Addr) (h0 : 0 ≤ (S.sems sem).count)
    (h1 : (S.sems sem).count < 2 ^ 31) (hnew : ∀ ev ∈ evs, ev ≠ .sem_create sem) :
    (S'.sems sem).count =
      (S.sems sem).count + evs.count (.V sem) - evs.count (.P sem) ∧
    (S'.sems sem).count < 2 ^ 31 := by
  induction h with
  | nil => simpa using h1
  | @cons S S1 S2 ev evs hstep _ ih =>
    have hnew' : ∀ e ∈ evs, e ≠ .sem_create sem := fun e he => hnew e (List.mem_cons_of_mem _ he)
    have hev : ev ≠ .sem_create sem := hnew ev (List.mem_cons_self _ _)
    rcases hstep.sems_effect sem with ⟨hc, -⟩ | ⟨rfl, hp, he⟩ | ⟨rfl, he, hp⟩ | ⟨-, hnp, hnv, he⟩
    · exact absurd hc hev
    · obtain ⟨i1, i2⟩ := ih (by omega) (by omega) hnew'
      refine ⟨?_, i2⟩
      rw [i1, he]
      simp [List.count_cons]
      omega
    · rw [he] at hp
      obtain ⟨w1, w2⟩ := wrap32_succ h0 h1 hp
      rw [w1] at he
      obtain ⟨i1, i2⟩ := ih (by omega) (by omega) hnew'
      refine ⟨?_, i2⟩
      rw [i1, he]
      simp [List.count_cons]
      omega
    · obtain ⟨i1, i2⟩ := ih (by rw [he]; exact h0) (by rw [he]; exact h1) hnew'
      refine ⟨?_, i2⟩
      rw [i1, he]
      have c1 : (ev :: evs).count (.V sem) = evs.count (.V sem) := by
        simp [List.count_cons, hnv]
      have c2 : (ev :: evs).count (.P sem) = evs.count (.P sem) := by
        simp [List.count_cons, hnp]
      rw [c1, c2]

/-- A run on the semaphore of `ex_sem`: a `P` that sleeps, a `V`, the dispatch of the
woken thread, the return of its `P`. -/
theorem ex_sem_run :
    SynchRun exE ex_sem [.tau, .V 700, .tau, .P 700] ex_sem_taken :=
  SynchRun.cons (SynchStep.P_blocks 700 (rfl : P ex_sem 700 = .blocked ex_sem_waiting))
    (SynchRun.cons (SynchStep.V 700 (rfl : V ex_sem_waiting 700 = .ret ex_sem_posted))
      (SynchRun.cons
        (@SynchStep.kernel exE ex_sem_posted _
          (Step.dispatch (rfl : ex_sem_posted.kern.curthread = none)))
        (SynchRun.cons
          (SynchStep.P_wakeup_returns 700
            (rfl : P_wakeup ex_sem_dispatched 700 = .ret ex_sem_taken))
          (SynchRun.nil _))))

/-- C13: a semaphore is created only with an initial count that is not negative
(`sem_create` fails its assertion otherwise), and from its creation on, over every run
of the system (any calls of `P`, `V` and everything else, in any order), its count is
never negative.  A `P` that returns found the count positive and took one off; a `P`
that finds it `0` sleeps and leaves it; a `V` that returns added one and left it
positive. -/
theorem sem_count_never_negative (E : Extern) (S0 S1 S2 : Synch) (namearg : String)
    (initial_count : Int) (o : create_oracle) (sem : Addr) (evs : List synch_event)
    (hcreate : sem_create S0 namearg initial_count o = some (S1, some sem))
    (hrun : SynchRun E S1 evs S2) :
    0 ≤ initial_count ∧ (S1.sems sem).count = initial_count ∧ 0 ≤ (S2.sems sem).count ∧
    (∀ S S', P S sem = .ret S' →
      0 < (S.sems sem).count ∧ (S'.sems sem).count = (S.sems sem).count - 1) ∧
    (∀ S S', P S sem = .blocked S' → (S.sems sem).count = 0 ∧ S'.sems = S.sems) ∧
    (∀ S S', V S sem = .ret S' →
      (S'.sems sem).count = wrap32 ((S.sems sem).count + 1) ∧ 0 < (S'.sems sem).count) := by
  obtain ⟨h0, rfl⟩ := sem_create_some hcreate
  have hc : (({ S0 with sems := Function.update S0.sems sem ⟨namearg, initial_count⟩ } :
      Synch).sems sem).count = initial_count := by simp
  refine ⟨h0, hc, hrun.count_nonneg sem (by rw [hc]; exact h0), ?_, ?_, ?_⟩
  · intro S S' h
    obtain ⟨hpos, rfl⟩ := P_ret h
    exact ⟨hpos, by simp⟩
  · intro S S' h
    obtain ⟨hz, k, -, rfl⟩ := P_blocked h
    exact ⟨hz, rfl⟩
  · intro S S' h
    obtain ⟨hpos, rfl⟩ := V_ret h
    exact ⟨by simp, by simpa using hpos⟩

theorem sem_count_never_negative_witness :
    0 ≤ (ex_sem_taken.sems 700).count ∧ (ex_sem_taken.sems 700).count = 0 :=
  ⟨(sem_count_never_negative exE ex_synch ex_sem ex_sem_taken "sem" 0 ⟨some 700, true⟩ 700
      [.tau, .V 700, .tau, .P 700] rfl ex_sem_run).2.2.1, by decide⟩

/-- C14: from the creation of a semaphore with an initial count in the range of `int`
on, over every run in which it is not created anew, its count is the initial count
plus the number of calls of `V` minus the number of calls of `P` that have returned.
(A `V` that would overflow the count does not return: its assertion fails.) -/
theorem sem_count_balance (E : Extern) (S0 S1 S2 : Synch) (namearg : String)
    (initial_count : Int) (o : create_oracle) (sem : Addr) (evs : List synch_event)
    (hcreate : sem_create S0 namearg initial_count o = some (S1, some sem))
    (hint : initial_count < 2 ^ 31) (hrun : SynchRun E S1 evs S2)
    (hnew : ∀ ev ∈ evs, ev ≠ .sem_create sem) :
    (S2.sems sem).count = initial_count + evs.count (.V sem) - evs.count (.P sem) := by
  obtain ⟨h0, rfl⟩ := sem_create_some hcreate
  have hc : (({ S0 with sems := Function.update S0.sems sem ⟨namearg, initial_count⟩ } :
      Synch).sems sem).count = initial_count := by simp
  have h := (hrun.count_balance sem (by rw [hc]; exact h0) (by rw [hc]; exact hint) hnew).1
  rw [hc] at h
  exact h

theorem sem_count_balance_witness :
    (ex_sem_taken.sems 700).count = 0 + (1 : Nat) - (1 : Nat) :=
  sem_count_balance exE ex_synch ex_sem ex_sem_taken "sem" 0 ⟨some 700, true⟩ 700
    [.tau, .V 700, .tau, .P 700] rfl (by decide) ex_sem_run (by decide)

/-! ## Locks -/

/-- The first half of `thread_sleep(addr)` by the thread `t`: it goes through, `t` joins
the sleepers with its sleep address set, and the head of the run queue is the next
thread. -/
theorem thread_sleep_effect (s : Kernel) (t addr : Addr) (hcur : s.curthread = some t) :
    ∃ s', thread_sleep s addr = some s' ∧ s'.sleepers = s.sleepers ++ [t] ∧
      (s'.mem t).t_sleepaddr = some addr ∧ (∀ a, a ≠ t → s'.mem a = s.mem a) ∧
      s'.curthread = s.runqueue.head? ∧ s'.runqueue = s.runqueue.tail ∧
      s'.zombies = s.zombies ∧ s'.thread_array = s.thread_array ∧
      s'.numthreads = s.numthreads := by
  obtain ⟨s', hs'⟩ := mi_switch_isSome
    (s.setThread t { s.mem t with t_sleepaddr := some addr }) .S_SLEEP (by decide)
  have hcur1 : (s.setThread t { s.mem t with t_sleepaddr := some addr }).curthread = some t :=
    hcur
  obtain ⟨hm, hta, hn, -, -, -, hz, hc, hrq, hsl⟩ := mi_switch_some hcur1 hs'
  simp only [reduceCtorEq, if_false, if_true, setThread_runqueue, setThread_sleepers,
    setThread_zombies] at hz hc hrq hsl
  refine ⟨s', ?_, hsl, ?_, ?_, hc, hrq, hz, hta, hn⟩
  · unfold thread_sleep
    simp only [hcur]
    exact hs'
  · rw [hm]
    simp
  · intro a ha
    rw [hm]
    exact setThread_mem_other s t a _ ha

/-- What a step does to the lock at `lock`: a creation there leaves it without holder; a
`lock_acquire` that returns (at once or after sleeps, also the one in `cv_wait`) found
it without holder and made the calling thread the holder; a `lock_release` (also the
one in `cv_wait`) was made by the holder and leaves it without holder; nothing else
changes the lock. -/
theorem SynchStep.locks_effect {E : Extern} {S S' : Synch} {ev : synch_event}
    (h : SynchStep E S ev S') (lock : Addr) :
    (ev = .lock_create lock ∧ (S'.locks lock).holding_thread = none) ∨
    (ev = .lock_acquire lock ∧ (S.locks lock).holding_thread = none ∧
      (S'.locks lock).holding_thread = S.kern.curthread ∧
      S'.kern.curthread = S.kern.curthread) ∨
    (ev = .lock_release lock ∧ S.kern.curthread = (S.locks lock).holding_thread ∧
      (S'.locks lock).holding_thread = none) ∨
    (ev ≠ .lock_create lock ∧ ev ≠ .lock_acquire lock ∧ ev ≠ .lock_release lock ∧
      S'.locks lock = S.locks lock) := by
  have hA : ∀ (S0 S1 : Synch) (lock0 : Addr), S0.locks = S.locks →
      S0.kern.curthread = S.kern.curthread → lock_acquire S0 lock0 = .ret S1 →
      (synch_event.lock_acquire lock0 = .lock_acquire lock ∧
        (S.locks lock).holding_thread = none ∧
        (S1.locks lock).holding_thread = S.kern.curthread ∧
        S1.kern.curthread = S.kern.curthread) ∨
      (synch_event.lock_acquire lock0 ≠ .lock_create lock ∧
        synch_event.lock_acquire lock0 ≠ .lock_acquire lock ∧
        synch_event.lock_acquire lock0 ≠ .lock_release lock ∧
        S1.locks lock = S.locks lock) := by
    intro S0 S1 lock0 hl hc h1
    obtain ⟨hfree, rfl⟩ := lock_acquire_ret h1
    by_cases he : lock0 = lock
    · subst he
      left
      rw [← hl, ← hc]
      exact ⟨rfl, hfree, by simp, rfl⟩
    · right
      refine ⟨by simp, by simp [he], by simp, ?_⟩
      simp only [hl]
      exact Function.update_noteq (Ne.symm he) _ _
  have hAb : ∀ (S0 S1 : Synch) (lock0 : Addr), S0.locks = S.locks →
      lock_acquire S0 lock0 = .blocked S1 → S1.locks = S.locks := by
    intro S0 S1 lock0 hl h1
    obtain ⟨-, k, -, rfl⟩ := lock_acquire_blocked h1
    exact hl
  have hP : ∀ (S0 S1 : Synch) (sem : Addr), S0.locks = S.locks →
      (P S0 sem).state = some S1 → S1.locks = S.locks := by
    intro S0 S1 sem hl h1
    unfold P at h1
    split at h1
    · rcases Option.eq_none_or_eq_some (thread_sleep S0.kern sem) with hsl | ⟨k, hsl⟩
      · simp [hsl, SynchRet.state] at h1
      · simp only [hsl, SynchRet.state, Option.some.injEq] at h1
        subst h1
        exact hl
    · split at h1
      · simp only [SynchRet.state, Option.some.injEq] at h1
        subst h1
        exact hl
      · simp [SynchRet.state] at h1
  have hPw : ∀ (S1 : Synch) (sem : Addr),
      (P_wakeup S sem).state = some S1 → S1.locks = S.locks := by
    intro S1 sem h1
    obtain ⟨k, -, he⟩ := P_wakeup_some h1
    rw [he] at h1
    exact hP { S with kern := k } S1 sem rfl h1
  have hne : ∀ (e : synch_event) (S1 : Synch), e ≠ .lock_create lock →
      e ≠ .lock_acquire lock → e ≠ .lock_release lock → S1.locks = S.locks →
      (e ≠ .lock_create lock ∧ e ≠ .lock_acquire lock ∧ e ≠ .lock_release lock ∧
        S1.locks lock = S.locks lock) :=
    fun e S1 h1 h2 h3 hl => ⟨h1, h2, h3, by rw [hl]⟩
  have hwake : ∀ (S1 : Synch) (lock0 : Addr), lock_acquire_wakeup S lock0 = .ret S1 →
      (synch_event.lock_acquire lock0 = .lock_acquire lock ∧
        (S.locks lock).holding_thread = none ∧
        (S1.locks lock).holding_thread = S.kern.curthread ∧
        S1.kern.curthread = S.kern.curthread) ∨
      (synch_event.lock_acquire lock0 ≠ .lock_create lock ∧
        synch_event.lock_acquire lock0 ≠ .lock_acquire lock ∧
        synch_event.lock_acquire lock0 ≠ .lock_release lock ∧
        S1.locks lock = S.locks lock) := by
    intro S1 lock0 h1
    obtain ⟨k, hk, he⟩ := lock_acquire_wakeup_some (by rw [h1]; rfl)
    rw [he] at h1
    exact hA { S with kern := k } S1 lock0 rfl (thread_sleep_return_effect hk).1 h1
  have hwakeb : ∀ (S1 : Synch) (lock0 : Addr), lock_acquire_wakeup S lock0 = .blocked S1 →
      S1.locks = S.locks := by
    intro S1 lock0 h1
    obtain ⟨k, hk, he⟩ := lock_acquire_wakeup_some (by rw [h1]; rfl)
    rw [he] at h1
    exact hAb { S with kern := k } S1 lock0 rfl h1
  cases h with
  | kernel hk => exact Or.inr (Or.inr (Or.inr (hne _ _ (by simp) (by simp) (by simp) rfl)))
  | sem_create namearg initial_count o sem h1 =>
    obtain ⟨-, rfl⟩ := sem_create_some h1
    exact Or.inr (Or.inr (Or.inr (hne _ _ (by simp) (by simp) (by simp) rfl)))
  | P_returns sem h1 =>
    exact Or.inr (Or.inr (Or.inr (hne _ _ (by simp) (by simp) (by simp)
      (hP S _ sem rfl (by rw [h1]; rfl)))))
  | P_blocks sem h1 =>
    exact Or.inr (Or.inr (Or.inr (hne _ _ (by simp) (by simp) (by simp)
      (hP S _ sem rfl (by rw [h1]; rfl)))))
  | P_wakeup_returns sem h1 =>
    exact Or.inr (Or.inr (Or.inr (hne _ _ (by simp) (by simp) (by simp)
      (hPw _ sem (by rw [h1]; rfl)))))
  | P_wakeup_blocks sem h1 =>
    exact Or.inr (Or.inr (Or.inr (hne _ _ (by simp) (by simp) (by simp)
      (hPw _ sem (by rw [h1]; rfl)))))
  | V sem h1 =>
    obtain ⟨-, rfl⟩ := V_ret h1
    exact Or.inr (Or.inr (Or.inr (hne _ _ (by simp) (by simp) (by simp) rfl)))
  | lock_create name o lock0 h1 =>
    rw [lock_create_some h1]
    by_cases he : lock0 = lock
    · subst he
      exact Or.inl ⟨rfl, by simp⟩
    · refine Or.inr (Or.inr (Or.inr ⟨by simp [he], by simp, by simp, ?_⟩))
      exact Function.update_noteq (Ne.symm he) _ _
  | lock_acquire_returns lock0 h1 =>
    rcases hA S _ lock0 rfl rfl h1 with h2 | h2
    · exact Or.inr (Or.inl h2)
    · exact Or.inr (Or.inr (Or.inr h2))
  | lock_acquire_blocks lock0 h1 =>
    exact Or.inr (Or.inr (Or.inr (hne _ _ (by simp) (by simp) (by simp)
      (hAb S _ lock0 rfl h1))))
  | lock_acquire_wakeup_returns lock0 h1 =>
    rcases hwake _ lock0 h1 with h2 | h2
    · exact Or.inr (Or.inl h2)
    · exact Or.inr (Or.inr (Or.inr h2))
  | lock_acquire_wakeup_blocks lock0 h1 =>
    exact Or.inr (Or.inr (Or.inr (hne _ _ (by simp) (by simp) (by simp)
      (hwakeb _ lock0 h1))))
  | lock_release lock0 h1 =>
    obtain ⟨hh, rfl⟩ := lock_release_ret h1
    by_cases he : lock0 = lock
    · subst he
      exact Or.inr (Or.inr (Or.inl ⟨rfl, hh, by simp⟩))
    · refine Or.inr (Or.inr (Or.inr ⟨by simp, by simp, by simp [he], ?_⟩))
      exact Function.update_noteq (Ne.symm he) _ _
  | cv_wait cv lock0 h1 =>
    obtain ⟨hh, k, -, rfl⟩ := cv_wait_blocked h1
    by_cases he : lock0 = lock
    · subst he
      exact Or.inr (Or.inr (Or.inl ⟨rfl, hh, by simp⟩))
    · refine Or.inr (Or.inr (Or.inr ⟨by simp, by simp, by simp [he], ?_⟩))
      exact Function.update_noteq (Ne.symm he) _ _
  | cv_wait_wakeup_returns lock0 h1 =>
    rcases hwake _ lock0 h1 with h2 | h2
    · exact Or.inr (Or.inl h2)
    · exact Or.inr (Or.inr (Or.inr h2))
  | cv_wait_wakeup_blocks lock0 h1 =>
    exact Or.inr (Or.inr (Or.inr (hne _ _ (by simp) (by simp) (by simp)
      (hwakeb _ lock0 h1))))
  | cv_signal cv lock0 h1 =>
    obtain ⟨-, rfl⟩ := cv_signal_ret h1
    exact Or.inr (Or.inr (Or.inr (hne _ _ (by simp) (by simp) (by simp) rfl)))
  | cv_broadcast cv lock0 h1 =>
    obtain ⟨-, rfl⟩ := cv_broadcast_ret h1
    exact Or.inr (Or.inr (Or.inr (hne _ _ (by simp) (by simp) (by simp) rfl)))

/-- Over a run without a `lock_release` of the lock (and in which it is not created
anew) the holder stays the holder, and no `lock_acquire` of the lock returns. -/
theorem SynchRun.holder_kept {E : Extern} {S S' : Synch} {evs : List synch_event}
    (h : SynchRun E S evs S') (lock t : Addr)
    (hh : (S.locks lock).holding_thread = some t)
    (hno : ∀ ev ∈ evs, ev ≠ .lock_release lock ∧ ev ≠ .lock_create lock) :
    (S'.locks lock).holding_thread = some t ∧ ∀ ev ∈ evs, ev ≠ .lock_acquire lock := by
  induction h with
  | nil => exact ⟨hh, fun _ he => by cases he⟩
  | @cons S S1 S2 ev evs hstep _ ih =>
    have hno' : ∀ e ∈ evs, e ≠ .lock_release lock ∧ e ≠ .lock_create lock :=
      fun e he => hno e (List.mem_cons_of_mem _ he)
    obtain ⟨hr, hc⟩ := hno ev (List.mem_cons_self _ _)
    rcases hstep.locks_effect lock with ⟨h1, -⟩ | ⟨-, h1, -⟩ | ⟨h1, -⟩ | ⟨-, hna, -, h1⟩
    · exact absurd h1 hc
    · rw [hh] at h1
      cases h1
    · exact absurd h1 hr
    · obtain ⟨i1, i2⟩ := ih (by rw [h1]; exact hh) hno'
      refine ⟨i1, ?_⟩
      intro e he
      rcases List.mem_cons.mp he with rfl | he
      · exact hna
      · exact i2 e he

theorem ex_lock_reachable : Reachable exE ex_lock.kern := ex_forked_reachable

/-- C15: `lock_acquire` by the thread `t` makes `t` the holder exactly when the lock has
no holder, and then returns at once, changing nothing else; when the lock has a
holder it leaves the lock as it is and puts `t` to sleep on the address of the lock.
In every step of the system in which a `lock_acquire` of the lock returns (at once,
after sleeps, or inside `cv_wait`) the lock had no holder before and the current thread
is the holder after; a `lock_release` of the lock (also the one inside `cv_wait`) is
only ever made by the holder.  Hence a thread that holds the lock remains the holder
over every run that contains no `lock_release` of this lock (and does not create the
lock anew), no `lock_acquire` of the lock returns in such a run, and the
`lock_release` that ends it is made by that thread. -/
theorem lock_acquire_holder (E : Extern) (S : Synch) (lock t : Addr)
    (hcur : S.kern.curthread = some t) :
    ((S.locks lock).holding_thread = none →
      ∃ S', lock_acquire S lock = .ret S' ∧ (S'.locks lock).holding_thread = some t ∧
        S'.kern = S.kern ∧ S'.sems = S.sems ∧ ∀ l, l ≠ lock → S'.locks l = S.locks l) ∧
    (∀ h, (S.locks lock).holding_thread = some h →
      ∃ S', lock_acquire S lock = .blocked S' ∧ S'.locks = S.locks ∧
        S'.kern.sleepers = S.kern.sleepers ++ [t] ∧
        (S'.kern.mem t).t_sleepaddr = some lock) ∧
    (∀ S1 S2, SynchStep E S1 (.lock_acquire lock) S2 →
      (S1.locks lock).holding_thread = none ∧
      (S2.locks lock).holding_thread = S2.kern.curthread) ∧
    (∀ S1 S2, SynchStep E S1 (.lock_release lock) S2 →
      S1.kern.curthread = (S1.locks lock).holding_thread) ∧
    (∀ S1 S2 evs, SynchRun E S1 evs S2 → (S1.locks lock).holding_thread = some t →
      (∀ ev ∈ evs, ev ≠ .lock_release lock ∧ ev ≠ .lock_create lock) →
      (S2.locks lock).holding_thread = some t ∧ (∀ ev ∈ evs, ev ≠ .lock_acquire lock) ∧
      ∀ S3, SynchStep E S2 (.lock_release lock) S3 → S2.kern.curthread = some t) := by
  have hrel : ∀ S1 S2, SynchStep E S1 (.lock_release lock) S2 →
      S1.kern.curthread = (S1.locks lock).holding_thread := by
    intro S1 S2 hstep
    rcases hstep.locks_effect lock with ⟨h1, -⟩ | ⟨h1, -⟩ | ⟨-, h1, -⟩ | ⟨-, -, h1, -⟩
    · cases h1
    · cases h1
    · exact h1
    · exact absurd rfl h1
  refine ⟨?_, ?_, ?_, hrel, ?_⟩
  · intro hfree
    refine ⟨{ S with
        locks := Function.update S.locks lock ⟨(S.locks lock).name, S.kern.curthread⟩ },
      by unfold lock_acquire; rw [if_neg (by simp [hfree])], ?_, rfl, rfl, ?_⟩
    · simp [hcur]
    · intro l hl
      exact Function.update_noteq hl _ _
  · intro h hheld
    obtain ⟨k, hk, hsl, hm, -⟩ := thread_sleep_effect S.kern t lock hcur
    refine ⟨{ S with kern := k }, ?_, rfl, hsl, hm⟩
    unfold lock_acquire
    rw [if_pos (by simp [hheld])]
    simp only [hk]
  · intro S1 S2 hstep
    rcases hstep.locks_effect lock with ⟨h1, -⟩ | ⟨-, h1, h2, h3⟩ | ⟨h1, -⟩ | ⟨-, h1, -⟩
    · cases h1
    · exact ⟨h1, by rw [h2, h3]⟩
    · cases h1
    · exact absurd rfl h1
  · intro S1 S2 evs hrun hh hno
    obtain ⟨h1, h2⟩ := hrun.holder_kept lock t hh hno
    exact ⟨h1, h2, fun S3 hstep => (hrel S2 S3 hstep).trans h1⟩

/-- A run on the held lock of `ex_lock_held`: the holder yields and the other thread
calls `lock_acquire`, which puts it to sleep. -/
theorem ex_lock_run : SynchRun exE ex_lock_held [.tau, .tau] ex_lock_contended :=
  SynchRun.cons
    (@SynchStep.kernel exE ex_lock_held ex_lock_other.kern
      (Step.thread_yield (rfl : thread_yield ex_lock_held.kern = some ex_lock_other.kern)))
    (SynchRun.cons
      (SynchStep.lock_acquire_blocks 800
        (rfl : lock_acquire ex_lock_other 800 = .blocked ex_lock_contended))
      (SynchRun.nil _))

theorem lock_acquire_holder_witness :
    (∃ S', lock_acquire ex_lock 800 = .ret S' ∧ (S'.locks 800).holding_thread = some 100) ∧
    (∃ S', lock_acquire ex_lock_other 800 = .blocked S' ∧
      S'.kern.sleepers = ex_lock_other.kern.sleepers ++ [101] ∧
      (S'.kern.mem 101).t_sleepaddr = some 800) ∧
    (ex_lock_contended.locks 800).holding_thread = some 100 := by
  obtain ⟨S', h1, h2, -⟩ := (lock_acquire_holder exE ex_lock 800 100 rfl).1 (by decide)
  obtain ⟨S'', g1, -, g2, g3⟩ :=
    (lock_acquire_holder exE ex_lock_other 800 101 rfl).2.1 100 (by decide)
  exact ⟨⟨S', h1, h2⟩, ⟨S'', g1, g2, g3⟩,
    ((lock_acquire_holder exE ex_lock 800 100 rfl).2.2.2.2 ex_lock_held ex_lock_contended
      [.tau, .tau] ex_lock_run (by decide) (by decide)).1⟩

/-- C16: `lock_release` by a thread `t` that is not the holder of the lock fails its
assertion, in the state it was called in (the holder is as it was); by the holder it
returns, the lock has no holder, and every thread that slept on the address of the lock
is at the tail of the run queue (in the order it slept), the other sleepers still
asleep; nothing else changes. -/
theorem lock_release_by_holder (S : Synch) (lock t : Addr)
    (hcur : S.kern.curthread = some t) :
    ((S.locks lock).holding_thread ≠ some t → lock_release S lock = .panic S) ∧
    ((S.locks lock).holding_thread = some t →
      ∃ S', lock_release S lock = .ret S' ∧ (S'.locks lock).holding_thread = none ∧
        (∀ l, l ≠ lock → S'.locks l = S.locks l) ∧ S'.sems = S.sems ∧
        S'.kern = thread_wakeup S.kern lock ∧
        S'.kern.sleepers = S.kern.sleepers.filter
          (fun x => !decide ((S.kern.mem x).t_sleepaddr = some lock)) ∧
        S'.kern.runqueue = S.kern.runqueue ++ S.kern.sleepers.filter
          (fun x => decide ((S.kern.mem x).t_sleepaddr = some lock)) ∧
        S'.kern.curthread = some t ∧ S'.kern.mem = S.kern.mem) := by
  refine ⟨?_, ?_⟩
  · intro hne
    unfold lock_release
    rw [if_neg]
    rw [hcur]
    exact fun h => hne h.symm
  · intro hh
    refine ⟨{ S with
        locks := Function.update S.locks lock ⟨(S.locks lock).name, none⟩,
        kern := thread_wakeup S.kern lock },
      by unfold lock_release; rw [if_pos (by rw [hcur, hh])], by simp, ?_, rfl, rfl,
      ?_, ?_, hcur, rfl⟩
    · intro l hl
      exact Function.update_noteq hl _ _
    · show (thread_wakeup S.kern lock).sleepers = _
      unfold thread_wakeup
      rw [wakeup_loop_eq]
    · show (thread_wakeup S.kern lock).runqueue = _
      unfold thread_wakeup
      rw [wakeup_loop_eq]

theorem lock_release_by_holder_witness :
    lock_release ex_lock_other 800 = .panic ex_lock_other ∧
    ∃ S', lock_release ex_lock_contended 800 = .ret S' ∧
      (S'.locks 800).holding_thread = none ∧ S'.kern.runqueue = [101] ∧
      S'.kern.sleepers = [] := by
  refine ⟨(lock_release_by_holder ex_lock_other 800 101 rfl).1 (by decide), ?_⟩
  obtain ⟨S', h1, h2, -, -, -, h3, h4, -⟩ :=
    (lock_release_by_holder ex_lock_contended 800 100 rfl).2 (by decide)
  refine ⟨S', h1, h2, ?_, ?_⟩
  · rw [h4]
    decide
  · rw [h3]
    decide

/-! ## Runs and the thread system -/

/-- The return from `thread_sleep` leaves the registry alone. -/
theorem thread_sleep_return_thread_array {s k : Kernel} (h : thread_sleep_return s = some k) :
    k.thread_array = s.thread_array := by
  unfold thread_sleep_return mi_switch_return at h
  rcases Option.eq_none_or_eq_some (exorcise s) with hx | ⟨s1, hx⟩
  · simp [hx] at h
  · simp only [hx] at h
    have hs1 : s1 = { s with zombies := [] } := by
      unfold exorcise at hx
      split at hx
      · cases hx
        rfl
      · cases hx
    subst hs1
    rcases Option.eq_none_or_eq_some s.curthread with hcur | ⟨cur, hcur⟩
    · simp [hcur] at h
    · simp only [hcur, Option.some.injEq] at h
      subst h
      rfl

/-- What a step with the synchronisation primitives does to the thread system is made
up of steps of the thread system. -/
theorem SynchStep.kern_steps {E : Extern} {S S' : Synch} {ev : synch_event}
    (h : SynchStep E S ev S') : Relation.ReflTransGen (Step E) S.kern S'.kern := by
  have hP : ∀ (S0 S1 : Synch) (sem : Addr), (P S0 sem).state = some S1 →
      Relation.ReflTransGen (Step E) S0.kern S1.kern := by
    intro S0 S1 sem h1
    unfold P at h1
    split at h1
    · rcases Option.eq_none_or_eq_some (thread_sleep S0.kern sem) with hsl | ⟨k, hsl⟩
      · simp [hsl, SynchRet.state] at h1
      · simp only [hsl, SynchRet.state, Option.some.injEq] at h1
        subst h1
        exact Relation.ReflTransGen.single (Step.thread_sleep sem hsl)
    · split at h1
      · simp only [SynchRet.state, Option.some.injEq] at h1
        subst h1
        exact Relation.ReflTransGen.refl
      · simp [SynchRet.state] at h1
  have hL : ∀ (S0 S1 : Synch) (lock : Addr), (lock_acquire S0 lock).state = some S1 →
      Relation.ReflTransGen (Step E) S0.kern S1.kern := by
    intro S0 S1 lock h1
    unfold lock_acquire at h1
    split at h1
    · rcases Option.eq_none_or_eq_some (thread_sleep S0.kern lock) with hsl | ⟨k, hsl⟩
      · simp [hsl, SynchRet.state] at h1
      · simp only [hsl, SynchRet.state, Option.some.injEq] at h1
        subst h1
        exact Relation.ReflTransGen.single (Step.thread_sleep lock hsl)
    · simp only [SynchRet.state, Option.some.injEq] at h1
      subst h1
      exact Relation.ReflTransGen.refl
  have hPw : ∀ (S1 : Synch) (sem : Addr), (P_wakeup S sem).state = some S1 →
      Relation.ReflTransGen (Step E) S.kern S1.kern := by
    intro S1 sem h1
    obtain ⟨k, hk, he⟩ := P_wakeup_some h1
    rw [he] at h1
    exact Relation.ReflTransGen.head (Step.thread_sleep_return hk)
      (hP { S with kern := k } S1 sem h1)
  have hLw : ∀ (S1 : Synch) (lock : Addr), (lock_acquire_wakeup S lock).state = some S1 →
      Relation.ReflTransGen (Step E) S.kern S1.kern := by
    intro S1 lock h1
    obtain ⟨k, hk, he⟩ := lock_acquire_wakeup_some h1
    rw [he] at h1
    exact Relation.ReflTransGen.head (Step.thread_sleep_return hk)
      (hL { S with kern := k } S1 lock h1)
  cases h with
  | kernel hk => exact Relation.ReflTransGen.single hk
  | sem_create namearg initial_count o sem h1 =>
    obtain ⟨-, rfl⟩ := sem_create_some h1
    exact Relation.ReflTransGen.refl
  | P_returns sem h1 => exact hP S _ sem (by rw [h1]; rfl)
  | P_blocks sem h1 => exact hP S _ sem (by rw [h1]; rfl)
  | P_wakeup_returns sem h1 => exact hPw _ sem (by rw [h1]; rfl)
  | P_wakeup_blocks sem h1 => exact hPw _ sem (by rw [h1]; rfl)
  | V sem h1 =>
    obtain ⟨-, rfl⟩ := V_ret h1
    exact Relation.ReflTransGen.single (Step.thread_wakeup sem)
  | lock_create name o lock h1 =>
    rw [lock_create_some h1]
  | lock_acquire_returns lock h1 => exact hL S _ lock (by rw [h1]; rfl)
  | lock_acquire_blocks lock h1 => exact hL S _ lock (by rw [h1]; rfl)
  | lock_acquire_wakeup_returns lock h1 => exact hLw _ lock (by rw [h1]; rfl)
  | lock_acquire_wakeup_blocks lock h1 => exact hLw _ lock (by rw [h1]; rfl)
  | lock_release lock h1 =>
    obtain ⟨-, rfl⟩ := lock_release_ret h1
    exact Relation.ReflTransGen.single (Step.thread_wakeup lock)
  | cv_wait cv lock h1 =>
    obtain ⟨-, k, hk, rfl⟩ := cv_wait_blocked h1
    exact Relation.ReflTransGen.head (Step.thread_wakeup lock)
      (Relation.ReflTransGen.single (Step.thread_sleep cv hk))
  | cv_wait_wakeup_returns lock h1 =>
    exact hLw _ lock (by rw [← cv_wait_wakeup_eq, h1]; rfl)
  | cv_wait_wakeup_blocks lock h1 =>
    exact hLw _ lock (by rw [← cv_wait_wakeup_eq, h1]; rfl)
  | cv_signal cv lock h1 =>
    obtain ⟨-, rfl⟩ := cv_signal_ret h1
    exact Relation.ReflTransGen.single (Step.thread_single_wakeup cv)
  | cv_broadcast cv lock h1 =>
    obtain ⟨-, rfl⟩ := cv_broadcast_ret h1
    exact Relation.ReflTransGen.single (Step.thread_wakeup cv)

/-- A run from a state whose thread system is in a reachable state ends in such a
state. -/
theorem SynchRun.reachable {E : Extern} {S S' : Synch} {evs : List synch_event}
    (h : SynchRun E S evs S') (hr : Reachable E S.kern) : Reachable E S'.kern := by
  induction h with
  | nil => exact hr
  | cons hstep _ ih => exact ih (hr.steps hstep.kern_steps).1

/-! ## Condition variables -/

/-- A `lock_acquire` that returns after a sleep has made the thread that was switched
back in the holder. -/
theorem lock_acquire_wakeup_ret {S S' : Synch} {lock : Addr}
    (h : lock_acquire_wakeup S lock = .ret S') :
    (S'.locks lock).holding_thread = S.kern.curthread ∧
    S'.kern.curthread = S.kern.curthread := by
  obtain ⟨k, hk, he⟩ := lock_acquire_wakeup_some (by rw [h]; rfl)
  rw [he] at h
  obtain ⟨-, rfl⟩ := lock_acquire_ret h
  have hc := (thread_sleep_return_effect hk).1
  exact ⟨by simp [hc], hc⟩

/-- C17: `cv_wait(cv, lock)` by a thread `t` that does not hold `lock` fails its
assertion, in the state it was called in.  Called by the holder, it releases the lock
(which wakes the threads that slept on the lock) and puts `t` to sleep on `cv`.  And
whenever the rest of `cv_wait` returns, be it right after the wakeup or after further
sleeps on the lock, the calling thread is the holder of `lock`.  In a reachable state
the rest of `cv_wait` does return when the lock has no holder, and it goes to sleep on
the lock when it has one. -/
theorem cv_wait_holds_lock_on_return (E : Extern) (S : Synch) (cv lock t : Addr)
    (hcur : S.kern.curthread = some t) :
    ((S.locks lock).holding_thread ≠ some t → cv_wait S cv lock = .panic S) ∧
    ((S.locks lock).holding_thread = some t →
      ∃ S', cv_wait S cv lock = .blocked S' ∧ (S'.locks lock).holding_thread = none ∧
        (∀ l, l ≠ lock → S'.locks l = S.locks l) ∧ S'.sems = S.sems ∧
        S'.kern.sleepers = S.kern.sleepers.filter
          (fun x => !decide ((S.kern.mem x).t_sleepaddr = some lock)) ++ [t] ∧
        (S'.kern.mem t).t_sleepaddr = some cv) ∧
    (∀ S1 S2, cv_wait_wakeup S1 lock = .ret S2 →
      (S2.locks lock).holding_thread = S1.kern.curthread ∧
      S2.kern.curthread = S1.kern.curthread) ∧
    (∀ S1 S2, lock_acquire_wakeup S1 lock = .ret S2 →
      (S2.locks lock).holding_thread = S1.kern.curthread ∧
      S2.kern.curthread = S1.kern.curthread) ∧
    (∀ S1, Reachable E S1.kern → S1.kern.curthread = some t →
      ((S1.locks lock).holding_thread = none →
        ∃ S2, cv_wait_wakeup S1 lock = .ret S2 ∧ (S2.locks lock).holding_thread = some t) ∧
      (∀ h, (S1.locks lock).holding_thread = some h →
        ∃ S2, cv_wait_wakeup S1 lock = .blocked S2 ∧ S2.locks = S1.locks ∧
          t ∈ S2.kern.sleepers ∧ (S2.kern.mem t).t_sleepaddr = some lock)) := by
  refine ⟨?_, ?_, ?_, ?_, ?_⟩
  · intro hne
    unfold cv_wait
    rw [if_neg]
    rw [hcur]
    exact fun h => hne h.symm
  · intro hh
    have hcur1 : (thread_wakeup S.kern lock).curthread = some t := hcur
    obtain ⟨k, hk, hsl, hm, -⟩ := thread_sleep_effect (thread_wakeup S.kern lock) t cv hcur1
    have hrel : lock_release S lock = .ret { S with
        locks := Function.update S.locks lock ⟨(S.locks lock).name, none⟩,
        kern := thread_wakeup S.kern lock } := by
      unfold lock_release
      rw [if_pos (by rw [hcur, hh])]
    refine ⟨{ S with
        locks := Function.update S.locks lock ⟨(S.locks lock).name, none⟩,
        kern := k }, ?_, by simp, ?_, rfl, ?_, hm⟩
    · unfold cv_wait
      rw [if_pos (by rw [hcur, hh]), hrel]
      simp only [hk]
    · intro l hl
      exact Function.update_noteq hl _ _
    · show k.sleepers = _
      rw [hsl]
      unfold thread_wakeup
      rw [wakeup_loop_eq]
  · intro S1 S2 h
    exact lock_acquire_wakeup_ret h
  · intro S1 S2 h
    exact lock_acquire_wakeup_ret h
  · intro S1 hr hc1
    obtain ⟨k, hk⟩ := hr.thread_sleep_return_some hc1
    have hck : k.curthread = some t := (thread_sleep_return_effect hk).1.trans hc1
    refine ⟨?_, ?_⟩
    · intro hfree
      refine ⟨{ S1 with
          kern := k,
          locks := Function.update S1.locks lock ⟨(S1.locks lock).name, k.curthread⟩ }, ?_, ?_⟩
      · unfold cv_wait_wakeup lock_acquire
        simp only [hk]
        rw [if_neg (by simp [hfree])]
      · simp [hck]
    · intro h hheld
      obtain ⟨k', hk', hsl, hm, -⟩ := thread_sleep_effect k t lock hck
      refine ⟨{ S1 with kern := k' }, ?_, rfl, ?_, hm⟩
      · unfold cv_wait_wakeup lock_acquire
        simp only [hk]
        rw [if_pos (by simp [hheld])]
        simp only [hk']
      · show t ∈ k'.sleepers
        rw [hsl]
        simp

/-- A run with a condition variable: the thread at 100 takes the lock and waits on the
condition variable at 900; the thread at 101 takes the lock, signals, releases the lock
and yields, so that the thread at 100 is switched back in. -/
theorem ex_cv_run :
    SynchRun exE ex_lock
      [.lock_acquire 800, .lock_release 800, .lock_acquire 800, .tau, .lock_release 800, .tau]
      ex_cv_back :=
  SynchRun.cons
    (SynchStep.lock_acquire_returns 800 (rfl : lock_acquire ex_lock 800 = .ret ex_lock_held))
    (SynchRun.cons
      (SynchStep.cv_wait 900 800 (rfl : cv_wait ex_lock_held 900 800 = .blocked ex_cv_waiting))
      (SynchRun.cons
        (SynchStep.lock_acquire_returns 800
          (rfl : lock_acquire ex_cv_waiting 800 = .ret ex_cv_other_holds))
        (SynchRun.cons
          (SynchStep.cv_signal 900 800
            (rfl : cv_signal ex_cv_other_holds 900 800 = .ret ex_cv_signalled))
          (SynchRun.cons
            (SynchStep.lock_release 800
              (rfl : lock_release ex_cv_signalled 800 = .ret ex_cv_released))
            (SynchRun.cons
              (@SynchStep.kernel exE ex_cv_released ex_cv_back.kern
                (Step.thread_yield
                  (rfl : thread_yield ex_cv_released.kern = some ex_cv_back.kern)))
              (SynchRun.nil _))))))

theorem ex_cv_back_reachable : Reachable exE ex_cv_back.kern :=
  ex_cv_run.reachable ex_lock_reachable

theorem cv_wait_holds_lock_on_return_witness :
    (∃ S', cv_wait ex_lock_held 900 800 = .blocked S' ∧
      (S'.locks 800).holding_thread = none ∧ (S'.kern.mem 100).t_sleepaddr = some 900) ∧
    cv_wait ex_lock_other 900 800 = .panic ex_lock_other ∧
    (∃ S2, cv_wait_wakeup ex_cv_back 800 = .ret S2 ∧
      (S2.locks 800).holding_thread = some 100) := by
  obtain ⟨S', h1, h2, -, -, -, h3⟩ :=
    (cv_wait_holds_lock_on_return exE ex_lock_held 900 800 100 rfl).2.1 (by decide)
  exact ⟨⟨S', h1, h2, h3⟩,
    (cv_wait_holds_lock_on_return exE ex_lock_other 900 800 101 rfl).1 (by decide),
    ((cv_wait_holds_lock_on_return exE ex_lock_held 900 800 100 rfl).2.2.2.2
      ex_cv_back ex_cv_back_reachable rfl).1 (by decide)⟩

/-! ## Waking one thread -/

/-- The loop of `thread_single_wakeup` finds the first sleeper on the address. -/
theorem single_wakeup_loop_first (mem : Addr → thread) (addr t : Addr)
    (pre post : List Addr) (ht : (mem t).t_sleepaddr = some addr)
    (hpre : ∀ x ∈ pre, (mem x).t_sleepaddr ≠ some addr) :
    single_wakeup_loop mem addr (pre ++ t :: post) = some (t, pre ++ post) := by
  induction pre with
  | nil => simp [single_wakeup_loop, ht]
  | cons x xs ih =>
    have hx : (mem x).t_sleepaddr ≠ some addr := hpre x (List.mem_cons_self _ _)
    have hxs : ∀ y ∈ xs, (mem y).t_sleepaddr ≠ some addr :=
      fun y hy => hpre y (List.mem_cons_of_mem _ hy)
    simp [single_wakeup_loop, hx, ih hxs]

/-- C19: `thread_single_wakeup(addr)` wakes at most one thread.  If no sleeper has the
sleep address `addr`, the state is unchanged.  Otherwise the first sleeper on `addr` is
taken out of the sleepers and put at the tail of the run queue, all other sleepers
stay, in their order, and nothing else changes.  `cv_signal` by the holder of the lock
is this wakeup on `cv` and nothing more: no lock and no semaphore changes; by a
thread that is not the holder it fails its assertion. -/
theorem thread_single_wakeup_wakes_first (S : Synch) (cv lock : Addr) :
    ((∀ x ∈ S.kern.sleepers, (S.kern.mem x).t_sleepaddr ≠ some cv) →
      thread_single_wakeup S.kern cv = S.kern) ∧
    (∀ t pre post, S.kern.sleepers = pre ++ t :: post →
      (S.kern.mem t).t_sleepaddr = some cv →
      (∀ x ∈ pre, (S.kern.mem x).t_sleepaddr ≠ some cv) →
      (thread_single_wakeup S.kern cv).sleepers = pre ++ post ∧
      (thread_single_wakeup S.kern cv).runqueue = S.kern.runqueue ++ [t]) ∧
    ((thread_single_wakeup S.kern cv).mem = S.kern.mem ∧
      (thread_single_wakeup S.kern cv).curthread = S.kern.curthread ∧
      (thread_single_wakeup S.kern cv).zombies = S.kern.zombies ∧
      (thread_single_wakeup S.kern cv).thread_array = S.kern.thread_array ∧
      (thread_single_wakeup S.kern cv).numthreads = S.kern.numthreads) ∧
    (S.kern.curthread = (S.locks lock).holding_thread →
      cv_signal S cv lock = .ret { S with kern := thread_single_wakeup S.kern cv }) ∧
    (S.kern.curthread ≠ (S.locks lock).holding_thread → cv_signal S cv lock = .panic S) := by
  obtain ⟨f1, f2, -, f4, f5, f6⟩ := thread_single_wakeup_frame S.kern cv
  refine ⟨?_, ?_, ⟨f1, f4, f6, f2, f5⟩, ?_, ?_⟩
  · intro hno
    unfold thread_single_wakeup
    rw [single_wakeup_loop_none.mpr hno]
  · intro t pre post hl ht hpre
    unfold thread_single_wakeup
    rw [hl, single_wakeup_loop_first S.kern.mem cv t pre post ht hpre]
    exact ⟨rfl, rfl⟩
  · intro hh
    unfold cv_signal
    rw [if_pos hh]
  · intro hh
    unfold cv_signal
    rw [if_neg hh]

theorem thread_single_wakeup_wakes_first_witness :
    (thread_single_wakeup ex_sleepers 900).sleepers = [] ++ [102, 103, 104] ∧
    (thread_single_wakeup ex_sleepers 900).runqueue = ex_sleepers.runqueue ++ [101] ∧
    thread_single_wakeup ex_sleepers 905 = ex_sleepers :=
  ⟨((thread_single_wakeup_wakes_first { ex_synch with kern := ex_sleepers } 900 800).2.1
      101 [] [102, 103, 104] rfl (by decide) (by decide)).1,
   ((thread_single_wakeup_wakes_first { ex_synch with kern := ex_sleepers } 900 800).2.1
      101 [] [102, 103, 104] rfl (by decide) (by decide)).2,
   (thread_single_wakeup_wakes_first { ex_synch with kern := ex_sleepers } 905 800).1
      (by decide)⟩

/-! ## Destroying a primitive -/

theorem thread_hassleepers_iff (s : Kernel) (addr : Addr) :
    thread_hassleepers s addr = true ↔
      ∃ t ∈ s.sleepers, (s.mem t).t_sleepaddr = some addr := by
  unfold thread_hassleepers
  simp [List.any_eq_true]

/-- C20: `sem_destroy` fails its assertion exactly when some thread sleeps on the
address of the semaphore, `lock_destroy` exactly when the lock has a holder or some
thread sleeps on the address of the lock, `cv_destroy` exactly when some thread sleeps
on the address of the condition variable; in every other case the call returns. -/
theorem destroy_in_use_is_fatal (S : Synch) (a : Addr) :
    (sem_destroy S a = .panic S ↔
      ∃ t ∈ S.kern.sleepers, (S.kern.mem t).t_sleepaddr = some a) ∧
    (sem_destroy S a = .ret S ↔
      ¬ ∃ t ∈ S.kern.sleepers, (S.kern.mem t).t_sleepaddr = some a) ∧
    (lock_destroy S a = .panic S ↔
      (S.locks a).holding_thread ≠ none ∨
        ∃ t ∈ S.kern.sleepers, (S.kern.mem t).t_sleepaddr = some a) ∧
    (lock_destroy S a = .ret S ↔
      ¬ ((S.locks a).holding_thread ≠ none ∨
        ∃ t ∈ S.kern.sleepers, (S.kern.mem t).t_sleepaddr = some a)) ∧
    (cv_destroy S a = .panic S ↔
      ∃ t ∈ S.kern.sleepers, (S.kern.mem t).t_sleepaddr = some a) ∧
    (cv_destroy S a = .ret S ↔
      ¬ ∃ t ∈ S.kern.sleepers, (S.kern.mem t).t_sleepaddr = some a) := by
  have hs := thread_hassleepers_iff S.kern a
  by_cases hsl : thread_hassleepers S.kern a = true
  · have hex := hs.mp hsl
    refine ⟨?_, ?_, ?_, ?_, ?_, ?_⟩
    · simp [sem_destroy, hsl, hex]
    · simp [sem_destroy, hsl, hex]
    · by_cases hh : (S.locks a).holding_thread = none <;> simp [lock_destroy, hsl, hex, hh]
    · by_cases hh : (S.locks a).holding_thread = none <;> simp [lock_destroy, hsl, hex, hh]
    · simp [cv_destroy, hsl, hex]
    · simp [cv_destroy, hsl, hex]
  · have hex : ¬ ∃ t ∈ S.kern.sleepers, (S.kern.mem t).t_sleepaddr = some a :=
      fun h => hsl (hs.mpr h)
    refine ⟨?_, ?_, ?_, ?_, ?_, ?_⟩
    · simp [sem_destroy, hsl, hex]
    · simp [sem_destroy, hsl, hex]
    · by_cases hh : (S.locks a).holding_thread = none <;> simp [lock_destroy, hsl, hex, hh]
    · by_cases hh : (S.locks a).holding_thread = none <;> simp [lock_destroy, hsl, hex, hh]
    · simp [cv_destroy, hsl, hex]
    · simp [cv_destroy, hsl, hex]

theorem destroy_in_use_is_fatal_witness :
    sem_destroy ex_sem_waiting 700 = .panic ex_sem_waiting ∧
    sem_destroy ex_sem_taken 700 = .ret ex_sem_taken ∧
    lock_destroy ex_lock_held 800 = .panic ex_lock_held ∧
    lock_destroy ex_lock 800 = .ret ex_lock ∧
    cv_destroy ex_cv_waiting 900 = .panic ex_cv_waiting ∧
    cv_destroy ex_lock_held 900 = .ret ex_lock_held :=
  ⟨(destroy_in_use_is_fatal ex_sem_waiting 700).1.mpr ⟨100, by decide, by decide⟩,
   (destroy_in_use_is_fatal ex_sem_taken 700).2.1.mpr (by decide),
   (destroy_in_use_is_fatal ex_lock_held 800).2.2.1.mpr (Or.inl (by decide)),
   (destroy_in_use_is_fatal ex_lock 800).2.2.2.1.mpr (by decide),
   (destroy_in_use_is_fatal ex_cv_waiting 900).2.2.2.2.1.mpr ⟨100, by decide, by decide⟩,
   (destroy_in_use_is_fatal ex_lock_held 900).2.2.2.2.2.mpr (by decide)⟩

/-! ## The system call dispatcher -/

theorem syscall_return_regs (tf : trapframe) (retval err : Int) :
    (err ≠ 0 → ((syscall_return tf retval err).tf_v0 : Int) = err % 2 ^ 32 ∧
      (syscall_return tf retval err).tf_a3 = 1) ∧
    (err = 0 → ((syscall_return tf retval err).tf_v0 : Int) = retval % 2 ^ 32 ∧
      (syscall_return tf retval err).tf_a3 = 0) ∧
    (syscall_return tf retval err).tf_epc = (tf.tf_epc + 4) % 2 ^ 32 ∧
    (syscall_return tf retval err).tf_a0 = tf.tf_a0 ∧
    (syscall_return tf retval err).tf_a1 = tf.tf_a1 ∧
    (syscall_return tf retval err).tf_a2 = tf.tf_a2 ∧
    (syscall_return tf retval err).tf_others = tf.tf_others := by
  unfold syscall_return
  by_cases he : err = 0
  · simp [he]
    omega
  · simp [he]
    omega

theorem syscall_switch_unknown (C : syscall_consts) (K : syscalls) (tf : trapframe)
    (h : unknown_callno C (wrap32 tf.tf_v0) = true) :
    syscall_switch C K tf = some (0, C.ENOSYS) := by
  simp only [unknown_callno, Bool.and_eq_true, bne_iff_ne, ne_eq] at h
  obtain ⟨⟨⟨⟨⟨⟨⟨⟨⟨h1, h2⟩, h3⟩, h4⟩, h5⟩, h6⟩, h7⟩, h8⟩, h9⟩, h10⟩ := h
  unfold syscall_switch
  simp only [h1, h2, h3, h4, h5, h6, h7, h8, h9, h10, if_false]

/-- The case labels of the `switch` of `mips_syscall` differ from one another, so that a
call number selects the case of its own label. -/
theorem syscall_case_labels {C : syscall_consts}
    (hcases : [C.SYS_reboot, C.SYS_write, C.SYS_read, C.SYS___time, C.SYS_sleep, C.SYS_fork,
      C.SYS_getpid, C.SYS_waitpid, C.SYS__exit, C.SYS_execv].Nodup)
    {i j : Nat} (hi : i < 10) (hj : j < 10) (hij : i ≠ j) :
    [C.SYS_reboot, C.SYS_write, C.SYS_read, C.SYS___time, C.SYS_sleep, C.SYS_fork,
      C.SYS_getpid, C.SYS_waitpid, C.SYS__exit, C.SYS_execv].get ⟨i, hi⟩ ≠
    [C.SYS_reboot, C.SYS_write, C.SYS_read, C.SYS___time, C.SYS_sleep, C.SYS_fork,
      C.SYS_getpid, C.SYS_waitpid, C.SYS__exit, C.SYS_execv].get ⟨j, hj⟩ := by
  intro e
  have := (List.Nodup.get_inj_iff hcases).mp e
  exact hij (by simpa using this)

/-- C22: `mips_syscall` on any trap frame, the case labels being different call numbers.
Whatever result `retval` and error `err` the dispatched call leaves, the tail of
`mips_syscall` sets `v0 = err` and `a3 = 1` if `err` is nonzero, and `v0 = retval` and
`a3 = 0` otherwise (as 32-bit words), advances `epc` by 4 in both cases and leaves the
argument registers and the other words alone.  And the result and the error it encodes
are those of the call selected by the call number in `v0`, applied to the argument
registers: `sys_reboot` and `sys_sleep` give the error, with result 0; `sys_write` gives
the error and, when that is 0, the count stored through its last argument, else the
result is `-1`; `sys_read` gives the error, with result 1 on success and `-1`
otherwise; `sys_time` gives the result, with error `EFAULT` when that is `-1`;
`sys_fork`, `sys_waitpid` and a `sys_execv` that returns give the result and the error
stored through `err` (0 if none is stored); `sys_getpid` gives the result; `sys__exit`
and a successful `sys_execv` do not come back; and a call number without a case gives
the error `ENOSYS` with result 0. -/
theorem mips_syscall_encodes_outcome (C : syscall_consts) (K : syscalls) (tf : trapframe)
    (hcases : [C.SYS_reboot, C.SYS_write, C.SYS_read, C.SYS___time, C.SYS_sleep, C.SYS_fork,
      C.SYS_getpid, C.SYS_waitpid, C.SYS__exit, C.SYS_execv].Nodup) :
    (∀ retval err : Int,
      (err ≠ 0 → ((syscall_return tf retval err).tf_v0 : Int) = err % 2 ^ 32 ∧
        (syscall_return tf retval err).tf_a3 = 1) ∧
      (err = 0 → ((syscall_return tf retval err).tf_v0 : Int) = retval % 2 ^ 32 ∧
        (syscall_return tf retval err).tf_a3 = 0) ∧
      (syscall_return tf retval err).tf_epc = (tf.tf_epc + 4) % 2 ^ 32 ∧
      (syscall_return tf retval err).tf_a0 = tf.tf_a0 ∧
      (syscall_return tf retval err).tf_a1 = tf.tf_a1 ∧
      (syscall_return tf retval err).tf_a2 = tf.tf_a2 ∧
      (syscall_return tf retval err).tf_others = tf.tf_others) ∧
    (wrap32 tf.tf_v0 = C.SYS_reboot →
      mips_syscall C K tf = some (syscall_return tf 0 (K.sys_reboot tf.tf_a0))) ∧
    (wrap32 tf.tf_v0 = C.SYS_write →
      ((K.sys_write tf.tf_a0 tf.tf_a1 tf.tf_a2).1 ≠ 0 →
        mips_syscall C K tf =
          some (syscall_return tf (-1) (K.sys_write tf.tf_a0 tf.tf_a1 tf.tf_a2).1)) ∧
      ((K.sys_write tf.tf_a0 tf.tf_a1 tf.tf_a2).1 = 0 →
        mips_syscall C K tf =
          some (syscall_return tf ((K.sys_write tf.tf_a0 tf.tf_a1 tf.tf_a2).2.getD 0) 0))) ∧
    (wrap32 tf.tf_v0 = C.SYS_read →
      (K.sys_read tf.tf_a0 tf.tf_a1 tf.tf_a2 = 0 →
        mips_syscall C K tf = some (syscall_return tf 1 0)) ∧
      (K.sys_read tf.tf_a0 tf.tf_a1 tf.tf_a2 ≠ 0 →
        mips_syscall C K tf =
          some (syscall_return tf (-1) (K.sys_read tf.tf_a0 tf.tf_a1 tf.tf_a2)))) ∧
    (wrap32 tf.tf_v0 = C.SYS___time →
      (K.sys_time tf.tf_a0 tf.tf_a1 = -1 →
        mips_syscall C K tf = some (syscall_return tf (-1) C.EFAULT)) ∧
      (K.sys_time tf.tf_a0 tf.tf_a1 ≠ -1 →
        mips_syscall C K tf = some (syscall_return tf (K.sys_time tf.tf_a0 tf.tf_a1) 0))) ∧
    (wrap32 tf.tf_v0 = C.SYS_sleep →
      mips_syscall C K tf = some (syscall_return tf 0 (K.sys_sleep tf.tf_a0))) ∧
    (wrap32 tf.tf_v0 = C.SYS_fork →
      mips_syscall C K tf =
        some (syscall_return tf (K.sys_fork tf).1 ((K.sys_fork tf).2.getD 0))) ∧
    (wrap32 tf.tf_v0 = C.SYS_getpid →
      mips_syscall C K tf = some (syscall_return tf K.sys_getpid 0)) ∧
    (wrap32 tf.tf_v0 = C.SYS_waitpid →
      mips_syscall C K tf =
        some (syscall_return tf (K.sys_waitpid tf.tf_a0 tf.tf_a1 tf.tf_a2).1
          ((K.sys_waitpid tf.tf_a0 tf.tf_a1 tf.tf_a2).2.getD 0))) ∧
    (wrap32 tf.tf_v0 = C.SYS__exit → mips_syscall C K tf = none) ∧
    (wrap32 tf.tf_v0 = C.SYS_execv →
      mips_syscall C K tf =
        (K.sys_execv tf.tf_a0 tf.tf_a1).map (fun r => syscall_return tf r.1 (r.2.getD 0))) ∧
    (unknown_callno C (wrap32 tf.tf_v0) = true →
      mips_syscall C K tf = some (syscall_return tf 0 C.ENOSYS)) := by
  have hne : ∀ (i j : Nat) (hi : i < 10) (hj : j < 10), i ≠ j → _ ≠ _ :=
    fun i j hi hj hij => syscall_case_labels hcases hi hj hij
  have h10 : C.SYS_write ≠ C.SYS_reboot :=
    hne 1 0 (by decide) (by decide) (by decide)
  have h20 : C.SYS_read ≠ C.SYS_reboot :=
    hne 2 0 (by decide) (by decide) (by decide)
  have h21 : C.SYS_read ≠ C.SYS_write :=
    hne 2 1 (by decide) (by decide) (by decide)
  have h30 : C.SYS___time ≠ C.SYS_reboot :=
    hne 3 0 (by decide) (by decide) (by decide)
  have h31 : C.SYS___time ≠ C.SYS_write :=
    hne 3 1 (by decide) (by decide) (by decide)
  have h32 : C.SYS___time ≠ C.SYS_read :=
    hne 3 2 (by decide) (by decide) (by decide)
  have h40 : C.SYS_sleep ≠ C.SYS_reboot :=
    hne 4 0 (by decide) (by decide) (by decide)
  have h41 : C.SYS_sleep ≠ C.SYS_write :=
    hne 4 1 (by decide) (by decide) (by decide)
  have h42 : C.SYS_sleep ≠ C.SYS_read :=
    hne 4 2 (by decide) (by decide) (by decide)
  have h43 : C.SYS_sleep ≠ C.SYS___time :=
    hne 4 3 (by decide) (by decide) (by decide)
  have h50 : C.SYS_fork ≠ C.SYS_reboot :=
    hne 5 0 (by decide) (by decide) (by decide)
  have h51 : C.SYS_fork ≠ C.SYS_write :=
    hne 5 1 (by decide) (by decide) (by decide)
  have h52 : C.SYS_fork ≠ C.SYS_read :=
    hne 5 2 (by decide) (by decide) (by decide)
  have h53 : C.SYS_fork ≠ C.SYS___time :=
    hne 5 3 (by decide) (by decide) (by decide)
  have h54 : C.SYS_fork ≠ C.SYS_sleep :=
    hne 5 4 (by decide) (by decide) (by decide)
  have h60 : C.SYS_getpid ≠ C.SYS_reboot :=
    hne 6 0 (by decide) (by decide) (by decide)
  have h61 : C.SYS_getpid ≠ C.SYS_write :=
    hne 6 1 (by decide) (by decide) (by decide)
  have h62 : C.SYS_getpid ≠ C.SYS_read :=
    hne 6 2 (by decide) (by decide) (by decide)
  have h63 : C.SYS_getpid ≠ C.SYS___time :=
    hne 6 3 (by decide) (by decide) (by decide)
  have h64 : C.SYS_getpid ≠ C.SYS_sleep :=
    hne 6 4 (by decide) (by decide) (by decide)
  have h65 : C.SYS_getpid ≠ C.SYS_fork :=
    hne 6 5 (by decide) (by decide) (by decide)
  have h70 : C.SYS_waitpid ≠ C.SYS_reboot :=
    hne 7 0 (by decide) (by decide) (by decide)
  have h71 : C.SYS_waitpid ≠ C.SYS_write :=
    hne 7 1 (by decide) (by decide) (by decide)
  have h72 : C.SYS_waitpid ≠ C.SYS_read :=
    hne 7 2 (by decide) (by decide) (by decide)
  have h73 : C.SYS_waitpid ≠ C.SYS___time :=
    hne 7 3 (by decide) (by decide) (by decide)
  have h74 : C.SYS_waitpid ≠ C.SYS_sleep :=
    hne 7 4 (by decide) (by decide) (by decide)
  have h75 : C.SYS_waitpid ≠ C.SYS_fork :=
    hne 7 5 (by decide) (by decide) (by decide)
  have h76 : C.SYS_waitpid ≠ C.SYS_getpid :=
    hne 7 6 (by decide) (by decide) (by decide)
  have h80 : C.SYS__exit ≠ C.SYS_reboot :=
    hne 8 0 (by decide) (by decide) (by decide)
  have h81 : C.SYS__exit ≠ C.SYS_write :=
    hne 8 1 (by decide) (by decide) (by decide)
  have h82 : C.SYS__exit ≠ C.SYS_read :=
    hne 8 2 (by decide) (by decide) (by decide)
  have h83 : C.SYS__exit ≠ C.SYS___time :=
    hne 8 3 (by decide) (by decide) (by decide)
  have h84 : C.SYS__exit ≠ C.SYS_sleep :=
    hne 8 4 (by decide) (by decide) (by decide)
  have h85 : C.SYS__exit ≠ C.SYS_fork :=
    hne 8 5 (by decide) (by decide) (by decide)
  have h86 : C.SYS__exit ≠ C.SYS_getpid :=
    hne 8 6 (by decide) (by decide) (by decide)
  have h87 : C.SYS__exit ≠ C.SYS_waitpid :=
    hne 8 7 (by decide) (by decide) (by decide)
  have h90 : C.SYS_execv ≠ C.SYS_reboot :=
    hne 9 0 (by decide) (by decide) (by decide)
  have h91 : C.SYS_execv ≠ C.SYS_write :=
    hne 9 1 (by decide) (by decide) (by decide)
  have h92 : C.SYS_execv ≠ C.SYS_read :=
    hne 9 2 (by decide) (by decide) (by decide)
  have h93 : C.SYS_execv ≠ C.SYS___time :=
    hne 9 3 (by decide) (by decide) (by decide)
  have h94 : C.SYS_execv ≠ C.SYS_sleep :=
    hne 9 4 (by decide) (by decide) (by decide)
  have h95 : C.SYS_execv ≠ C.SYS_fork :=
    hne 9 5 (by decide) (by decide) (by decide)
  have h96 : C.SYS_execv ≠ C.SYS_getpid :=
    hne 9 6 (by decide) (by decide) (by decide)
  have h97 : C.SYS_execv ≠ C.SYS_waitpid :=
    hne 9 7 (by decide) (by decide) (by decide)
  have h98 : C.SYS_execv ≠ C.SYS__exit :=
    hne 9 8 (by decide) (by decide) (by decide)
  refine ⟨fun retval err => syscall_return_regs tf retval err, ?_, ?_, ?_, ?_, ?_, ?_, ?_, ?_,
    ?_, ?_, ?_⟩
  · intro h
    simp [mips_syscall, syscall_switch, h]
  · intro h
    constructor
    · intro he
      simp [mips_syscall, syscall_switch, h, h10, he]
    · intro he
      simp [mips_syscall, syscall_switch, h, h10, he]
  · intro h
    constructor
    · intro he
      simp [mips_syscall, syscall_switch, h, h20, h21, he]
    · intro he
      simp [mips_syscall, syscall_switch, h, h20, h21, he]
  · intro h
    constructor
    · intro he
      simp [mips_syscall, syscall_switch, h, h30, h31, h32, he]
    · intro he
      simp [mips_syscall, syscall_switch, h, h30, h31, h32, he]
  · intro h
    simp [mips_syscall, syscall_switch, h, h40, h41, h42, h43]
  · intro h
    simp [mips_syscall, syscall_switch, h, h50, h51, h52, h53, h54]
  · intro h
    simp [mips_syscall, syscall_switch, h, h60, h61, h62, h63, h64, h65]
  · intro h
    simp [mips_syscall, syscall_switch, h, h70, h71, h72, h73, h74, h75, h76]
  · intro h
    simp [mips_syscall, syscall_switch, h, h80, h81, h82, h83, h84, h85, h86, h87]
  · intro h
    simp only [mips_syscall, syscall_switch, h, h90, h91, h92, h93, h94, h95, h96, h97, h98,
      if_false, if_true, Option.map_map]
    rfl
  · intro hu
    unfold mips_syscall
    rw [syscall_switch_unknown C K tf hu]
    rfl

theorem mips_syscall_encodes_outcome_witness :
    (mips_syscall ex_consts ex_calls { ex_tf with tf_v0 := 5 } =
        some (syscall_return { ex_tf with tf_v0 := 5 } (-1) 9) ∧
      ((syscall_return { ex_tf with tf_v0 := 5 } (-1) 9).tf_v0 : Int) = 9 % 2 ^ 32 ∧
      (syscall_return { ex_tf with tf_v0 := 5 } (-1) 9).tf_a3 = 1 ∧
      (syscall_return { ex_tf with tf_v0 := 5 } (-1) 9).tf_epc = (4096 + 4) % 2 ^ 32) ∧
    (mips_syscall ex_consts ex_calls { ex_tf with tf_v0 := 6, tf_a2 := 12 } =
        some (syscall_return { ex_tf with tf_v0 := 6, tf_a2 := 12 } 12 0) ∧
      ((syscall_return { ex_tf with tf_v0 := 6, tf_a2 := 12 } 12 0).tf_v0 : Int) = 12 % 2 ^ 32 ∧
      (syscall_return { ex_tf with tf_v0 := 6, tf_a2 := 12 } 12 0).tf_a3 = 0) :=
  ⟨⟨((mips_syscall_encodes_outcome ex_consts ex_calls { ex_tf with tf_v0 := 5 }
        (by decide)).2.2.2.1 (by decide)).2 (by decide),
      (((mips_syscall_encodes_outcome ex_consts ex_calls { ex_tf with tf_v0 := 5 }
        (by decide)).1 (-1) 9).1 (by decide)).1,
      (((mips_syscall_encodes_outcome ex_consts ex_calls { ex_tf with tf_v0 := 5 }
        (by decide)).1 (-1) 9).1 (by decide)).2,
      ((mips_syscall_encodes_outcome ex_consts ex_calls { ex_tf with tf_v0 := 5 }
        (by decide)).1 (-1) 9).2.2.1⟩,
    ((mips_syscall_encodes_outcome ex_consts ex_calls { ex_tf with tf_v0 := 6, tf_a2 := 12 }
        (by decide)).2.2.1 (by decide)).2 (by decide),
      (((mips_syscall_encodes_outcome ex_consts ex_calls { ex_tf with tf_v0 := 6, tf_a2 := 12 }
        (by decide)).1 12 0).2.1 (by decide)).1,
      (((mips_syscall_encodes_outcome ex_consts ex_calls { ex_tf with tf_v0 := 6, tf_a2 := 12 }
        (by decide)).1 12 0).2.1 (by decide)).2⟩

/-- The dispatcher on the examples: a `fork` in the boot state returns the child's pid 2
in `v0` with `a3 = 0`; a failing `read` returns its error 9 in `v0` with `a3 = 1`; the
unknown call number 77 returns `ENOSYS` with `a3 = 1`; `epc` moves from 4096 to 4100
each time, and wraps around at the top of the address range. -/
theorem mips_syscall_examples :
    (mips_syscall ex_consts ex_calls { ex_tf with tf_v0 := 2 }).map
        (fun t => (t.tf_v0, t.tf_a3, t.tf_epc)) = some (2, 0, 4100) ∧
    (mips_syscall ex_consts ex_calls { ex_tf with tf_v0 := 5 }).map
        (fun t => (t.tf_v0, t.tf_a3, t.tf_epc)) = some (9, 1, 4100) ∧
    (mips_syscall ex_consts ex_calls { ex_tf with tf_v0 := 77 }).map
        (fun t => (t.tf_v0, t.tf_a3, t.tf_epc)) = some (1, 1, 4100) ∧
    (mips_syscall ex_consts ex_calls { ex_tf with tf_v0 := 11, tf_epc := 2 ^ 32 - 4 }).map
        (fun t => (t.tf_v0, t.tf_a3, t.tf_epc)) = some (1, 0, 0) ∧
    mips_syscall ex_consts ex_calls { ex_tf with tf_v0 := 0 } = none := by
  decide

/-! ## Padding to a multiple of four -/

/-- The loop from a multiple of 4 that is not above the least multiple of 4 that covers
`num`: with enough fuel it returns that multiple, and `counter` stays in range. -/
theorem next_multiple_of_4_loop_spec (num : Int) (hmax : num ≤ 2 ^ 31 - 4) :
    ∀ (fuel : Nat) (counter : Int), 0 ≤ counter → counter % 4 = 0 →
      counter ≤ 4 * ((num + 3) / 4) → (4 * ((num + 3) / 4) - counter) / 4 + 1 ≤ (fuel : Int) →
      next_multiple_of_4_loop num fuel counter = some (4 * ((num + 3) / 4)) := by
  intro fuel
  induction fuel with
  | zero =>
    intro counter h0 h4 hle hf
    exfalso
    norm_num at hf
    omega
  | succ n ih =>
    intro counter h0 h4 hle hf
    unfold next_multiple_of_4_loop
    norm_num at hmax
    by_cases hc : num ≤ counter
    · rw [if_pos hc]
      congr 1
      omega
    · rw [if_neg hc]
      have hw : wrap32 (counter + 4) = counter + 4 := by
        apply wrap32_of_int <;> norm_num <;> omega
      rw [hw]
      apply ih
      · omega
      · omega
      · omega
      · push_cast at hf
        omega

/-- C30: for an `int` `num <= INT_MAX - 3`, `next_multiple_of_4(num)` returns (given
`max num 0 / 4 + 2` or more loop tests) a multiple of 4 that is `>= num`, and `counter`
never leaves the range of `int`.  For `0 <= num` the result is the least multiple of 4
that is `>= num`, it exceeds `num` by less than 4, and the two padding assertions of
`sys_execv` and `runprogram_with_args` hold, the padded length being the result; for
`num <= 0` the result is 0. -/
theorem next_multiple_of_4_least (num : Int) (fuel : Nat) (hmax : num ≤ 2 ^ 31 - 1 - 3)
    (hfuel : max num 0 / 4 + 2 ≤ (fuel : Int)) :
    ∃ r, next_multiple_of_4 num fuel = some r ∧ r % 4 = 0 ∧ num ≤ r ∧
      (0 ≤ num → r - num < 4 ∧ 0 ≤ r - num ∧ (∀ m : Int, m % 4 = 0 → num ≤ m → r ≤ m) ∧
        arg_total_len num fuel = some r) ∧
      (num ≤ 0 → r = 0) := by
  norm_num at hmax
  rcases le_or_lt num 0 with hneg | hpos
  · refine ⟨0, ?_, rfl, hneg, ?_, fun _ => rfl⟩
    · obtain ⟨n, rfl⟩ : ∃ n, fuel = n + 1 := ⟨fuel - 1, by omega⟩
      unfold next_multiple_of_4 next_multiple_of_4_loop
      rw [if_pos hneg]
    · intro h0
      have hz : num = 0 := le_antisymm hneg h0
      subst hz
      obtain ⟨n, rfl⟩ : ∃ n, fuel = n + 1 := ⟨fuel - 1, by omega⟩
      refine ⟨by decide, by decide, fun m _ hm => hm, ?_⟩
      unfold arg_total_len next_multiple_of_4 next_multiple_of_4_loop
      rfl
  · have hm0 : max num 0 = num := max_eq_left (le_of_lt hpos)
    rw [hm0] at hfuel
    have hret : next_multiple_of_4 num fuel = some (4 * ((num + 3) / 4)) := by
      unfold next_multiple_of_4
      apply next_multiple_of_4_loop_spec num (by norm_num; omega) fuel 0 (le_refl 0)
        (by norm_num) (by omega)
      omega
    refine ⟨4 * ((num + 3) / 4), hret, by omega, by omega, ?_, fun h => by omega⟩
    intro _
    refine ⟨by omega, by omega, fun m hm hle => by omega, ?_⟩
    unfold arg_total_len
    rw [hret]
    simp only []
    rw [if_pos (by omega), if_pos (by omega)]
    congr 1
    omega

theorem next_multiple_of_4_least_witness :
    ∃ r, next_multiple_of_4 6 3 = some r ∧ r % 4 = 0 ∧ (6 : Int) ≤ r ∧
      ((0 : Int) ≤ 6 → r - 6 < 4 ∧ 0 ≤ r - 6 ∧ (∀ m : Int, m % 4 = 0 → 6 ≤ m → r ≤ m) ∧
        arg_total_len 6 3 = some r) ∧
      ((6 : Int) ≤ 0 → r = 0) :=
  next_multiple_of_4_least 6 3 (by decide) (by decide)

/-- Beyond `INT_MAX - 3` the loop does not return: the counter reaches `INT_MAX - 3`
without covering `num`, the next `counter += 4` leaves the range of `int`, and in two's
complement the counter starts over from `INT_MIN`. -/
theorem next_multiple_of_4_no_return (num : Int) (hnum : 2 ^ 31 - 1 - 3 < num) :
    ∀ (fuel : Nat) (counter : Int), counter % 4 = 0 → -(2 ^ 31) ≤ counter →
      counter < 2 ^ 31 → next_multiple_of_4_loop num fuel counter = none := by
  intro fuel
  induction fuel with
  | zero =>
    intro counter _ _ _
    rfl
  | succ n ih =>
    intro counter h4 hlo hhi
    norm_num at hnum hlo hhi
    unfold next_multiple_of_4_loop
    rw [if_neg (by omega)]
    apply ih
    · unfold wrap32
      norm_num
      omega
    · unfold wrap32
      norm_num
      omega
    · unfold wrap32
      norm_num
      omega

/-! ## Program arguments on the user stack -/

theorem lens_from_self (arglens : List Int) (n : Nat) : lens_from arglens n n = 0 := by
  unfold lens_from
  rw [List.drop_eq_nil_of_le]
  · rfl
  · simp

theorem lens_from_succ (arglens : List Int) {n i : Nat} {d : Int} (hi : i ≤ n)
    (hd : arglens[n]? = some d) : lens_from arglens (n + 1) i = lens_from arglens n i + d := by
  unfold lens_from
  have hn : n < arglens.length := by
    rcases Nat.lt_or_ge n arglens.length with h | h
    · exact h
    · rw [List.getElem?_eq_none h] at hd
      cases hd
  have htake : arglens.take (n + 1) = arglens.take n ++ [d] := by
    rw [List.take_succ, hd]
    rfl
  rw [htake, List.drop_append_of_le_length]
  · simp
  · rw [List.length_take]
    omega

theorem sub_emod_sub (a b c : Int) : ((a - b) % 2 ^ 32 - c) % 2 ^ 32 = (a - (c + b)) % 2 ^ 32 := by
  norm_num
  omega

theorem argv_loop_spec (arglens : List Int) :
    ∀ (n : Nat), n ≤ arglens.length → ∀ (sp : Int) (argv : Nat → Int),
      ∃ argv', argv_loop arglens n sp argv = some argv' ∧
        (∀ i, i < n → argv' i = (sp - lens_from arglens n i) % 2 ^ 32) ∧
        ∀ i, n ≤ i → argv' i = argv i := by
  intro n
  induction n with
  | zero =>
    intro _ sp argv
    exact ⟨argv, rfl, fun i hi => absurd hi (Nat.not_lt_zero i), fun _ _ => rfl⟩
  | succ n ih =>
    intro hn sp argv
    have hd : arglens[n]? = some arglens[n] := List.getElem?_eq_getElem (by omega)
    obtain ⟨argv', h1, h2, h3⟩ := ih (by omega) ((sp - arglens[n]) % 2 ^ 32)
      (Function.update argv n ((sp - arglens[n]) % 2 ^ 32))
    refine ⟨argv', ?_, ?_, ?_⟩
    · rw [argv_loop, hd]
      exact h1
    · intro i hi
      rcases Nat.lt_or_ge i n with hlt | hge
      · rw [h2 i hlt, lens_from_succ arglens (Nat.le_of_lt hlt) hd, sub_emod_sub]
      · have hin : i = n := by omega
        subst hin
        rw [h3 i (le_refl i), Function.update_same, lens_from_succ arglens (le_refl i) hd,
          lens_from_self, zero_add]
    · intro i hi
      rw [h3 i (by omega), Function.update_noteq (by omega)]

theorem emod_emod_32 (a : Int) : a % 2 ^ 32 % 2 ^ 32 = a % 2 ^ 32 :=
  Int.emod_emod_of_dvd a (dvd_refl _)

theorem copy_args_loop_spec (ok : Int → Bool) (hok : ∀ a, ok a = true) (arglens : List Int) :
    ∀ (n : Nat), n ≤ arglens.length → ∀ (sp : Int) (out : List copyout_call),
      sp % 2 ^ 32 = sp →
      copy_args_loop ok arglens n sp out =
        some ((sp - lens_from arglens n 0) % 2 ^ 32,
          out ++ (List.range n).reverse.map (fun i =>
            (⟨.arg i, (sp - lens_from arglens n i) % 2 ^ 32, arglens.getD i 0⟩ :
              copyout_call))) := by
  intro n
  induction n with
  | zero =>
    intro _ sp out hsp
    rw [copy_args_loop, lens_from_self, sub_zero, hsp]
    simp
  | succ n ih =>
    intro hn sp out hsp
    have hd : arglens[n]? = some arglens[n] := List.getElem?_eq_getElem (by omega)
    rw [copy_args_loop, hd]
    simp only [hok, if_true]
    rw [ih (by omega) _ _ (emod_emod_32 _), lens_from_succ arglens (Nat.zero_le n) hd,
      sub_emod_sub, List.range_succ, List.reverse_append, List.reverse_singleton,
      List.singleton_append, List.map_cons, List.append_assoc, List.singleton_append,
      lens_from_succ arglens (le_refl n) hd, lens_from_self, zero_add]
    congr 3
    refine congrArg₂ List.cons ?_ (List.map_congr_left ?_)
    · simp [hd]
    · intro i hi
      have hlt : i < n := by
        simpa using hi
      rw [lens_from_succ arglens (Nat.le_of_lt hlt) hd, sub_emod_sub]

theorem copy_argv_loop_spec (ok : Int → Bool) (hok : ∀ a, ok a = true) (argv : Nat → Int) :
    ∀ (n : Nat) (sp : Int) (out : List copyout_call), sp % 2 ^ 32 = sp →
      copy_argv_loop ok argv n sp out =
        some ((sp - 4 * n) % 2 ^ 32,
          out ++ (List.range n).reverse.map (fun i =>
            (⟨.ptr (argv i), (sp - 4 * ((n : Int) - i)) % 2 ^ 32, 4⟩ : copyout_call))) := by
  intro n
  induction n with
  | zero =>
    intro sp out hsp
    rw [copy_argv_loop]
    simp only [Nat.cast_zero, mul_zero, sub_zero, hsp, List.range_zero, List.reverse_nil,
      List.map_nil, List.append_nil]
  | succ n ih =>
    intro sp out hsp
    have hstep : copy_argv_loop ok argv (n + 1) sp out =
        copy_argv_loop ok argv n ((sp - 4) % 2 ^ 32)
          (out ++ [⟨.ptr (argv n), (sp - 4) % 2 ^ 32, 4⟩]) := by
      rw [copy_argv_loop]
      simp only [hok, if_true]
      split <;> rfl
    rw [hstep, ih _ _ (emod_emod_32 _), List.range_succ, List.reverse_append,
      List.reverse_singleton, List.singleton_append, List.map_cons, List.append_assoc,
      List.singleton_append]
    have e1 : ((sp - 4) % 2 ^ 32 - 4 * (n : Int)) % 2 ^ 32 =
        (sp - 4 * ((n + 1 : Nat) : Int)) % 2 ^ 32 := by
      rw [sub_emod_sub]
      push_cast
      ring_nf
    rw [e1]
    congr 3
    refine congrArg₂ List.cons ?_ (List.map_congr_left ?_)
    · congr 2
      push_cast
      ring_nf
    · intro i _
      congr 1
      rw [sub_emod_sub]
      push_cast
      ring_nf

theorem lens_from_length (arglens : List Int) (i : Nat) :
    lens_from arglens arglens.length i = (arglens.drop i).sum := by
  unfold lens_from
  rw [List.take_length]

theorem sum_emod_four (l : List Int) (h : ∀ x ∈ l, x % 4 = 0) : l.sum % 4 = 0 := by
  induction l with
  | nil => rfl
  | cons a t ih =>
    have ha := h a (List.mem_cons_self a t)
    have ht := ih (fun x hx => h x (List.mem_cons_of_mem a hx))
    rw [List.sum_cons]
    omega

/-- C29: the user stack built by `sys_execv` (and `runprogram_with_args`), when every
`copyout` succeeds.  `argv[i]` is the address to which the padded string of argument
`i` is copied: the initial stack pointer minus the padded lengths of the arguments
`i .. argc-1` (in 32-bit unsigned arithmetic); `argv[argc]` is `NULL`; the `argc + 1`
entries of `argv` are then copied to consecutive words below the strings, entry `i` to
the final stack pointer plus `4 * i`; these are all the copies made; and the final stack
pointer is a multiple of 4 when the initial one and the padded lengths are. -/
theorem sys_execv_stack_layout (ok : Int → Bool) (junk : Nat → Int) (arglens : List Int)
    (stackptr : Int) (hok : ∀ a, ok a = true) (h0 : 0 ≤ stackptr) (h32 : stackptr < 2 ^ 32) :
    ∃ r, execv_stack ok junk arglens stackptr = some r ∧
      (∀ i, i < arglens.length →
        r.argv i = (stackptr - (arglens.drop i).sum) % 2 ^ 32 ∧
        (⟨.arg i, r.argv i, arglens.getD i 0⟩ : copyout_call) ∈ r.copied) ∧
      r.argv arglens.length = 0 ∧
      r.stackptr = (stackptr - arglens.sum - 4 * (arglens.length + 1)) % 2 ^ 32 ∧
      (∀ i, i ≤ arglens.length →
        (⟨.ptr (r.argv i), (r.stackptr + 4 * i) % 2 ^ 32, 4⟩ : copyout_call) ∈ r.copied) ∧
      r.copied =
        (List.range arglens.length).reverse.map (fun i =>
          (⟨.arg i, (stackptr - (arglens.drop i).sum) % 2 ^ 32, arglens.getD i 0⟩ :
            copyout_call)) ++
        (List.range (arglens.length + 1)).reverse.map (fun i =>
          (⟨.ptr (r.argv i),
            (stackptr - arglens.sum - 4 * ((arglens.length : Int) + 1 - i)) % 2 ^ 32, 4⟩ :
            copyout_call)) ∧
      ((∀ l ∈ arglens, l % 4 = 0) → stackptr % 4 = 0 → r.stackptr % 4 = 0) := by
  have hsp : stackptr % 2 ^ 32 = stackptr := Int.emod_eq_of_lt h0 h32
  obtain ⟨argv, ha, hlow, hhigh⟩ := argv_loop_spec arglens arglens.length (le_refl _) stackptr
    (Function.update junk arglens.length 0)
  have hb := copy_args_loop_spec ok hok arglens arglens.length (le_refl _) stackptr [] hsp
  have hc := copy_argv_loop_spec ok hok argv (arglens.length + 1)
    ((stackptr - lens_from arglens arglens.length 0) % 2 ^ 32)
    ([] ++ (List.range arglens.length).reverse.map (fun i =>
      (⟨.arg i, (stackptr - lens_from arglens arglens.length i) % 2 ^ 32,
        arglens.getD i 0⟩ : copyout_call))) (emod_emod_32 _)
  have hsum0 : lens_from arglens arglens.length 0 = arglens.sum := by
    rw [lens_from_length, List.drop_zero]
  have hstrings : (List.range arglens.length).reverse.map (fun i =>
      (⟨.arg i, (stackptr - lens_from arglens arglens.length i) % 2 ^ 32,
        arglens.getD i 0⟩ : copyout_call)) =
      (List.range arglens.length).reverse.map (fun i =>
      (⟨.arg i, (stackptr - (arglens.drop i).sum) % 2 ^ 32, arglens.getD i 0⟩ :
        copyout_call)) :=
    List.map_congr_left (fun i _ => by rw [lens_from_length])
  have hslots : (List.range (arglens.length + 1)).reverse.map (fun i =>
      (⟨.ptr (argv i), ((stackptr - lens_from arglens arglens.length 0) % 2 ^ 32 -
        4 * (((arglens.length + 1 : Nat) : Int) - i)) % 2 ^ 32, 4⟩ : copyout_call)) =
      (List.range (arglens.length + 1)).reverse.map (fun i =>
      (⟨.ptr (argv i),
        (stackptr - arglens.sum - 4 * ((arglens.length : Int) + 1 - i)) % 2 ^ 32, 4⟩ :
        copyout_call)) :=
    List.map_congr_left (fun i _ => by
      rw [hsum0, sub_emod_sub]
      push_cast
      congr 2
      ring)
  have hfinal : ((stackptr - lens_from arglens arglens.length 0) % 2 ^ 32 -
      4 * ((arglens.length + 1 : Nat) : Int)) % 2 ^ 32 =
      (stackptr - arglens.sum - 4 * ((arglens.length : Int) + 1)) % 2 ^ 32 := by
    rw [hsum0, sub_emod_sub]
    push_cast
    congr 1
    ring
  rw [hstrings, hslots, hfinal, List.nil_append] at hc
  rw [hstrings, List.nil_append] at hb
  have hexec : ∃ r, execv_stack ok junk arglens stackptr = some r ∧ r.argv = argv ∧
      r.stackptr = (stackptr - arglens.sum - 4 * ((arglens.length : Int) + 1)) % 2 ^ 32 ∧
      r.copied =
        (List.range arglens.length).reverse.map (fun i =>
          (⟨.arg i, (stackptr - (arglens.drop i).sum) % 2 ^ 32, arglens.getD i 0⟩ :
            copyout_call)) ++
        (List.range (arglens.length + 1)).reverse.map (fun i =>
          (⟨.ptr (argv i),
            (stackptr - arglens.sum - 4 * ((arglens.length : Int) + 1 - i)) % 2 ^ 32, 4⟩ :
            copyout_call)) := by
    unfold execv_stack
    simp only [ha, hb, hc]
    exact ⟨_, rfl, rfl, rfl, rfl⟩
  obtain ⟨r, hr, hargv, hrsp, hcopied⟩ := hexec
  refine ⟨r, hr, ?_, ?_, hrsp, ?_, ?_, ?_⟩
  · intro i hi
    have hai : r.argv i = (stackptr - (arglens.drop i).sum) % 2 ^ 32 := by
      rw [hargv, hlow i hi, lens_from_length]
    refine ⟨hai, ?_⟩
    rw [hcopied]
    apply List.mem_append_left
    rw [List.mem_map]
    exact ⟨i, by simpa using hi, by rw [hai]⟩
  · rw [hargv, hhigh _ (le_refl _), Function.update_same]
  · intro i hi
    rw [hcopied]
    apply List.mem_append_right
    rw [List.mem_map]
    refine ⟨i, by simp; omega, ?_⟩
    rw [hargv, hrsp, Int.emod_add_emod]
    congr 2
    ring
  · rw [hcopied, hargv]
  · intro h4 hs
    rw [hrsp]
    have hsum := sum_emod_four arglens h4
    rw [Int.emod_emod_of_dvd _ (by norm_num : (4 : Int) ∣ 2 ^ 32)]
    omega

theorem sys_execv_stack_layout_witness :
    ∃ r, execv_stack (fun _ => true) (fun _ => 7) [8, 4] 2147483648 = some r ∧
      r.argv 0 = 2147483636 ∧ r.argv 1 = 2147483644 ∧ r.argv 2 = 0 ∧
      r.stackptr = 2147483624 ∧ r.stackptr % 4 = 0 ∧
      r.copied = [⟨.arg 1, 2147483644, 4⟩, ⟨.arg 0, 2147483636, 8⟩, ⟨.ptr 0, 2147483632, 4⟩,
        ⟨.ptr 2147483644, 2147483628, 4⟩, ⟨.ptr 2147483636, 2147483624, 4⟩] := by
  obtain ⟨r, hr, h1, h2, h3, -, h5, h6⟩ :=
    sys_execv_stack_layout (fun _ => true) (fun _ => 7) [8, 4] 2147483648 (fun _ => rfl)
      (by decide) (by decide)
  have ha0 := (h1 0 (by decide)).1
  have ha1 := (h1 1 (by decide)).1
  have ha2 : r.argv 2 = 0 := h2
  refine ⟨r, hr, ?_, ?_, ha2, ?_, h6 (by decide) (by decide), ?_⟩
  · rw [ha0]
    decide
  · rw [ha1]
    decide
  · rw [h3]
    decide
  · rw [h5]
    simp only [List.length_cons, List.length_nil, List.range_succ, List.range_zero,
      List.nil_append, List.cons_append, List.reverse_cons, List.reverse_nil, List.map_cons,
      List.map_nil, ha0, ha1, ha2]
    decide

/-! ## Pids in creation order -/

theorem remove_thread_from_array_nextpid (s : Kernel) (pid : Int) :
    (remove_thread_from_array s pid).1.nextpid = s.nextpid := by
  unfold remove_thread_from_array
  split <;> rfl

theorem thread_fork_atomic_nextpid (s : Kernel) (newguy : Addr) (o : fork_oracle) :
    (thread_fork_atomic s newguy o).1.nextpid = s.nextpid := by
  unfold thread_fork_atomic add_thread_to_array
  by_cases hok : o.array_ok = true
  · simp only [hok, if_true, ne_eq, not_true_eq_false, if_false]
    split
    · rw [remove_thread_from_array_nextpid]
    split
    · rw [remove_thread_from_array_nextpid]
    split
    · rw [remove_thread_from_array_nextpid]
    split
    · rw [remove_thread_from_array_nextpid]
    · rfl
  · simp [hok]

/-- A `thread_create` that gets its structure and name hands out the pid `nextpid` and
moves `nextpid` on by one, also when it then fails to get a record list and returns
`NULL`; one that does not get them leaves the state as it is. -/
theorem thread_create_pid {s s1 : Kernel} {name : String} {o : fork_oracle}
    {r : Option Addr} (h : thread_create s name o = some (s1, r)) :
    (o.thread_ok = true → o.name_ok = true →
      (s1.mem o.newguy).pid = s.nextpid ∧ s1.nextpid = wrap32 (s.nextpid + 1)) ∧
    (¬ (o.thread_ok = true ∧ o.name_ok = true) → s1 = s) := by
  unfold thread_create at h
  by_cases h1 : o.thread_ok = true
  · by_cases h2 : o.name_ok = true
    · simp only [h1, h2, Bool.not_true, Bool.false_eq_true, if_false] at h
      refine ⟨fun _ _ => ?_, fun hn => absurd ⟨h1, h2⟩ hn⟩
      split at h
      · cases h
      · split at h <;>
          · simp only [Option.some.injEq, Prod.mk.injEq] at h
            obtain ⟨rfl, -⟩ := h
            simp [Kernel.setThread]
    · refine ⟨fun _ hb => absurd hb h2, fun _ => ?_⟩
      simp only [Bool.not_eq_true] at h2
      simp [h1, h2] at h
      exact h.1.symm
  · refine ⟨fun ha => absurd ha h1, fun _ => ?_⟩
    simp only [Bool.not_eq_true] at h1
    simp [h1] at h
    exact h.1.symm

/-- A `thread_fork` whose `thread_create` hands out a pid leaves `nextpid` incremented
(as a 32-bit `pid_t`) and the pid in the new thread structure, whatever becomes of the
fork afterwards (no stack, no room in the registry or the scheduler): a pid handed out
is not taken back. -/
theorem thread_fork_pid {E : Extern} {s s' : Kernel} {name : String} {data1 data2 : Addr}
    {func : entry_func} {o : fork_oracle} {rv : Int} {r : Option Addr}
    (h : thread_fork E s name data1 data2 func o = some (s', rv, r)) :
    (o.thread_ok = true → o.name_ok = true →
      (s'.mem o.newguy).pid = s.nextpid ∧ s'.nextpid = wrap32 (s.nextpid + 1)) ∧
    (¬ (o.thread_ok = true ∧ o.name_ok = true) → s' = s) := by
  unfold thread_fork at h
  rcases Option.eq_none_or_eq_some (thread_create s name o) with hc | ⟨⟨s1, rc⟩, hc⟩
  · simp [hc] at h
  obtain ⟨hp, hq⟩ := thread_create_pid hc
  have hrc : rc = none ∨ rc = some o.newguy := by
    rcases thread_create_effect hc with ⟨-, hr⟩ | ⟨t, -, -, -, -, hr⟩
    · exact Or.inl hr
    · rcases hr with ⟨hr, -⟩ | ⟨hr, -⟩
      · exact Or.inr hr
      · exact Or.inl hr
  rcases hrc with rfl | rfl
  · simp only [hc, Option.some.injEq, Prod.mk.injEq] at h
    obtain ⟨rfl, -, -⟩ := h
    exact ⟨hp, hq⟩
  · simp only [hc] at h
    have hok : o.thread_ok = true ∧ o.name_ok = true := by
      by_contra hn
      have hs := hq hn
      subst hs
      unfold thread_create at hc
      by_cases h1 : o.thread_ok = true
      · have h2 : o.name_ok = false := by
          simpa [h1] using hn
        simp [h1, h2] at hc
      · simp only [Bool.not_eq_true] at h1
        simp [h1] at hc
    obtain ⟨hpid, hnext⟩ := hp hok.1 hok.2
    refine ⟨fun _ _ => ?_, fun hn => absurd hok hn⟩
    split at h
    · simp only [Option.some.injEq, Prod.mk.injEq] at h
      obtain ⟨rfl, -, -⟩ := h
      exact ⟨hpid, hnext⟩
    · rcases Option.eq_none_or_eq_some s1.curthread with hcur | ⟨cur, hcur⟩
      · simp [hcur] at h
      · simp only [hcur, Option.some.injEq] at h
        have hm := congrArg (fun x => x.1.mem o.newguy) h
        have hn := congrArg (fun x => x.1.nextpid) h
        simp only [thread_fork_atomic_mem, thread_fork_atomic_nextpid] at hm hn
        rw [← hm, ← hn]
        simp [Kernel.setThread, hpid, hnext]

/-- Over any number of steps from a state that satisfies the invariant, the invariant
holds and pids and records are monotone. -/
theorem Inv.run_steps {E : Extern} {s s' : Kernel} (hI : Inv s)
    (h : Relation.ReflTransGen (Step E) s s') : Inv s' ∧ Mono s s' := by
  induction h with
  | refl => exact ⟨hI, Mono.refl _⟩
  | tail _ hstep ih => exact ⟨Inv_step ih.1 hstep, ih.2.trans (Mono_step ih.1 hstep)⟩

/-- After `thread_bootstrap` the first thread is current with pid 1, and the next pid
is 2. -/
theorem thread_bootstrap_pid {s : Kernel} {mem : Addr → thread} {tfmem : Addr → trapframe}
    {usermem : Addr → Int} {o : fork_oracle}
    (h : thread_bootstrap mem tfmem usermem o = some s) :
    ∃ me, s.curthread = some me ∧ (s.mem me).pid = 1 ∧ s.nextpid = 2 := by
  unfold thread_bootstrap at h
  dsimp only at h
  split at h
  · rename_i s1 me hc
    simp only [Option.some.injEq] at h
    subst h
    have hme : me = o.newguy := by
      rcases thread_create_effect hc with ⟨-, hr⟩ | ⟨t, -, -, -, -, hr⟩
      · cases hr
      · rcases hr with ⟨hr, -⟩ | ⟨hr, -⟩
        · exact (Option.some.inj hr)
        · cases hr
    subst hme
    have hok : o.thread_ok = true ∧ o.name_ok = true := by
      by_contra hn
      have hs := (thread_create_pid hc).2 hn
      subst hs
      unfold thread_create at hc
      by_cases h1 : o.thread_ok = true
      · have h2 : o.name_ok = false := by
          simpa [h1] using hn
        simp [h1, h2] at hc
      · simp only [Bool.not_eq_true] at h1
        simp [h1] at hc
    obtain ⟨hpid, hnext⟩ := (thread_create_pid hc).1 hok.1 hok.2
    refine ⟨o.newguy, rfl, ?_, ?_⟩
    · unfold add_thread_to_array
      split <;> exact hpid
    · have hw : wrap32 ((1 : Int) + 1) = 2 := by decide
      unfold add_thread_to_array
      split <;> simpa [hw] using hnext
  · cases h

/-- In every reachable state at least the pid 1 has been handed out. -/
theorem Reachable.two_le_nextpid {E : Extern} {s : Kernel} (hr : Reachable E s) :
    2 ≤ s.nextpid := by
  induction hr with
  | boot mem tfmem usermem o hok hb =>
    obtain ⟨me, -, -, hn⟩ := thread_bootstrap_pid hb
    omega
  | step hr hstep ih =>
    have := (Mono_step hr.inv hstep).nextpid_le
    omega

/-- C21 (amended): pids in creation order, while the pid counter is below the largest
`pid_t`.  `thread_bootstrap` gives the first thread the pid 1.
Take a `thread_fork` in a reachable state `s` (or in `s` with another trap frame stored
on the kernel heap, as `sys_fork` calls it) whose `thread_create` gets as far as handing
out a pid, and a second such `thread_fork` in any state `s2` that the thread system
reaches afterwards, the counter being below `2^31 - 1` at both calls.  The first pid is
the value of `nextpid` in `s`, the second the
value in `s2`; `nextpid` is one higher after each of the two calls, whether the call
succeeds or fails later on; the first pid is above 1 and strictly below the second; and
the second is above the pid of every thread registered in `s2`. -/
theorem thread_create_pids_strictly_increase (E : Extern) (s sa s2 sb : Kernel)
    (m m' : Addr → trapframe) (name name' : String) (data1 data2 data1' data2' : Addr)
    (func func' : entry_func) (o o' : fork_oracle) (rv rv' : Int) (r r' : Option Addr)
    (hr : Reachable E s) (hfresh : o.newguy ∉ s.thread_array)
    (hroom : s.nextpid < 2 ^ 31 - 1)
    (hfork : thread_fork E { s with tfmem := m } name data1 data2 func o = some (sa, rv, r))
    (hpid : o.thread_ok = true ∧ o.name_ok = true)
    (hlater : Relation.ReflTransGen (Step E) sa s2) (hroom' : s2.nextpid < 2 ^ 31 - 1)
    (hfork' : thread_fork E { s2 with tfmem := m' } name' data1' data2' func' o' =
      some (sb, rv', r'))
    (hpid' : o'.thread_ok = true ∧ o'.name_ok = true) :
    (∀ mem tfmem usermem ob s0, thread_bootstrap mem tfmem usermem ob = some s0 →
      ∃ me, s0.curthread = some me ∧ (s0.mem me).pid = 1 ∧ s0.nextpid = 2) ∧
    (sa.mem o.newguy).pid = s.nextpid ∧ sa.nextpid = s.nextpid + 1 ∧
    (sb.mem o'.newguy).pid = s2.nextpid ∧ sb.nextpid = s2.nextpid + 1 ∧
    1 < (sa.mem o.newguy).pid ∧ (sa.mem o.newguy).pid < (sb.mem o'.newguy).pid ∧
    ∀ a ∈ s2.thread_array, (s2.mem a).pid < (sb.mem o'.newguy).pid := by
  obtain ⟨h1, h2⟩ := (thread_fork_pid hfork).1 hpid.1 hpid.2
  obtain ⟨h3, h4⟩ := (thread_fork_pid hfork').1 hpid'.1 hpid'.2
  have hIa : Inv sa := Inv_thread_fork (Inv_tfmem hr.inv m) hfresh hfork hroom
  obtain ⟨hI2, hmono⟩ := hIa.run_steps hlater
  have hle := hmono.nextpid_le
  have h2le := hr.two_le_nextpid
  have e1 : (sa.mem o.newguy).pid = s.nextpid := h1
  have e2 : sa.nextpid = s.nextpid + 1 := h2.trans (wrap32_nextpid hr.inv.nextpid_pos hroom)
  have e3 : (sb.mem o'.newguy).pid = s2.nextpid := h3
  have e4 : sb.nextpid = s2.nextpid + 1 := h4.trans (wrap32_nextpid hI2.nextpid_pos hroom')
  refine ⟨fun mem tfmem usermem ob s0 hb => thread_bootstrap_pid hb, e1, e2, e3, e4, ?_, ?_, ?_⟩
  · omega
  · omega
  · intro a ha
    have := (hI2.pid_bound a ha).2
    omega

theorem thread_create_pids_strictly_increase_witness :
    (∀ mem tfmem usermem ob s0, thread_bootstrap mem tfmem usermem ob = some s0 →
      ∃ me, s0.curthread = some me ∧ (s0.mem me).pid = 1 ∧ s0.nextpid = 2) ∧
    (ex_fork_failed.mem 101).pid = ex_s0.nextpid ∧ ex_fork_failed.nextpid = ex_s0.nextpid + 1 ∧
    (ex_fork_third.mem 103).pid = ex_fork_again.nextpid ∧
    ex_fork_third.nextpid = ex_fork_again.nextpid + 1 ∧
    1 < (ex_fork_failed.mem 101).pid ∧
    (ex_fork_failed.mem 101).pid < (ex_fork_third.mem 103).pid ∧
    ∀ a ∈ ex_fork_again.thread_array, (ex_fork_again.mem a).pid < (ex_fork_third.mem 103).pid :=
  thread_create_pids_strictly_increase exE ex_s0 ex_fork_failed ex_fork_again ex_fork_third
    (fun _ => ex_tf) (fun _ => ex_tf) "worker" "worker" 0 0 0 0 (.other 0) (.other 0)
    (no_stack_oracle 101) (ok_oracle 103) exE.ENOMEM 0 none (some 103)
    ex_s0_reachable (by decide) (by decide) rfl ⟨rfl, rfl⟩
    (Relation.ReflTransGen.single
      (Step.thread_fork "worker" 0 0 (.other 0) (ok_oracle 102) 0 (some 102) (by decide)
        (by decide)
        (rfl : thread_fork exE ex_fork_failed "worker" 0 0 (.other 0) (ok_oracle 102) =
          some (ex_fork_again, 0, some 102)) (by decide)))
    (by decide) rfl ⟨rfl, rfl⟩

/-- The pids of the example: the boot thread has pid 1; the fork that fails for lack of
a stack uses up pid 2 and registers nothing; the next fork gets pid 3. -/
theorem thread_create_pids_example :
    (ex_s0.mem 100).pid = 1 ∧ ex_s0.nextpid = 2 ∧
    (thread_fork exE ex_s0 "worker" 0 0 (.other 0) (no_stack_oracle 101)).map
      (fun p => (p.2.1, p.2.2)) = some (12, none) ∧
    ex_fork_failed.thread_array = [100] ∧ ex_fork_failed.nextpid = 3 ∧
    ex_fork_again.thread_array = [100, 102] ∧ (ex_fork_again.mem 102).pid = 3 ∧
    ex_fork_again.nextpid = 4 := by
  decide

/-! ## Reclaiming the zombies -/

/-- C26: in every reachable state, hence whenever `exorcise` runs after a thread is
switched back in, no zombie is the current thread, none is in the run queue or
asleep, and each has given up its address space and its working directory; so every
assertion of `exorcise` and of `thread_destroy` holds, `exorcise` (and with it the
second half of `mi_switch`) goes through and leaves the zombie list empty, and the
thread that executes stays current and is not among the threads destroyed. -/
theorem exorcise_spares_running_thread (E : Extern) (s : Kernel) (hr : Reachable E s) :
    (∀ z ∈ s.zombies, some z ≠ s.curthread ∧ z ∉ s.runqueue ∧ z ∉ s.sleepers ∧
      (s.mem z).t_vmspace = none ∧ (s.mem z).t_cwd = none ∧ destroy_ok s z = true) ∧
    (∃ s', exorcise s = some s' ∧ mi_switch_return s = some s' ∧ s'.zombies = [] ∧
      s'.curthread = s.curthread ∧ s'.runqueue = s.runqueue ∧ s'.sleepers = s.sleepers ∧
      s'.mem = s.mem ∧ s'.thread_array = s.thread_array ∧ s'.numthreads = s.numthreads) ∧
    (∀ cur, s.curthread = some cur → cur ∉ s.zombies) := by
  have hB := hr.buried
  have hne : ∀ z ∈ s.zombies, some z ≠ s.curthread := by
    intro z hz he
    apply (hB z hz).1
    unfold live
    rw [← he]
    simp
  refine ⟨?_, ⟨{ s with zombies := [] }, hr.exorcise_some, hr.exorcise_some, rfl, rfl, rfl, rfl,
    rfl, rfl, rfl⟩, ?_⟩
  · intro z hz
    obtain ⟨h1, h2, h3⟩ := hB z hz
    refine ⟨hne z hz, ?_, ?_, h2, h3, ?_⟩
    · intro hq
      apply h1
      unfold live
      simp [hq]
    · intro hq
      apply h1
      unfold live
      simp [hq]
    · simp [destroy_ok, hne z hz, h2, h3]
  · intro cur hcur hz
    exact hne cur hz hcur.symm

theorem exorcise_spares_running_thread_witness :
    (∀ z ∈ ex_parent.zombies, some z ≠ ex_parent.curthread ∧ z ∉ ex_parent.runqueue ∧
      z ∉ ex_parent.sleepers ∧ (ex_parent.mem z).t_vmspace = none ∧
      (ex_parent.mem z).t_cwd = none ∧ destroy_ok ex_parent z = true) ∧
    (∃ s', exorcise ex_parent = some s' ∧ mi_switch_return ex_parent = some s' ∧
      s'.zombies = [] ∧ s'.curthread = ex_parent.curthread ∧
      s'.runqueue = ex_parent.runqueue ∧ s'.sleepers = ex_parent.sleepers ∧
      s'.mem = ex_parent.mem ∧ s'.thread_array = ex_parent.thread_array ∧
      s'.numthreads = ex_parent.numthreads) ∧
    (∀ cur, ex_parent.curthread = some cur → cur ∉ ex_parent.zombies) :=
  exorcise_spares_running_thread exE ex_parent ex_parent_reachable

/-- The example behind the witness: after the child's exit the parent (at 100) runs and
the child (at 101) is the one zombie; `exorcise` empties the list.  Were the current
thread itself on the list, the assertion `z != curthread` would fail. -/
theorem exorcise_example :
    ex_parent.zombies = [101] ∧ ex_parent.curthread = some 100 ∧
    (exorcise ex_parent).map (fun s => s.zombies) = some [] ∧
    (exorcise { ex_parent with zombies := [100] }).isNone = true := by
  decide

/-! ## Wait: a copy-out that fails -/

/-- A pid that is spent for a thread stays so in the runs of `Step`: whatever the thread
system does meanwhile, a wait for it by that thread fails with `EINVAL` at once. -/
theorem Spent_wait_fails {E : Extern} {s1 s2 : Kernel} {cur : Addr} {pid : Int}
    (hr1 : Reachable E s1) (hsp : Spent s1 cur pid)
    (hlater : Relation.ReflTransGen (Step E) s1 s2) (hcur2 : s2.curthread = some cur)
    (status : Addr) : sys_waitpid E s2 pid status 0 = .ret s2 (-1) (some E.EINVAL) := by
  obtain ⟨hr2, hmono⟩ := hr1.steps hlater
  obtain ⟨-, hnoreg, hnorec⟩ := hsp.mono hmono
  have hreg2 : cur ∈ s2.thread_array := hr2.inv.live_reg cur (by simp [live, hcur2])
  obtain ⟨codes2, hcodes2⟩ := hr2.inv.reg_codes cur hreg2
  exact sys_waitpid_no_such_child status hcur2 (get_thread_loop_none.mpr hnoreg) hcodes2
    (hnorec codes2 hcodes2)

/-- A wait for a pid for which the caller's list holds no record does not return the
pid: it fails with `EINVAL` or puts the caller to sleep. -/
theorem sys_waitpid_without_record {E : Extern} {s : Kernel} {cur : Addr} {pid : Int}
    {l : List exitted_thread} (status : Addr) (options : Int) (hcur : s.curthread = some cur)
    (hpos : 0 < pid) (hcodes : (s.mem cur).child_exit_codes = some l)
    (hno : find_exit_code pid l 0 = none) :
    (sys_waitpid E s pid status options).retval ≠ some pid ∧
    ((∃ s1, sys_waitpid E s pid status options = .blocked s1) ∨
      (sys_waitpid E s pid status options).retval = some (-1) ∨
      sys_waitpid E s pid status options = .panic) := by
  have hne : ¬ pid ≤ 0 := by omega
  have hm : (-1 : Int) ≠ pid := by omega
  unfold sys_waitpid
  simp only [hcur, hne, if_false, hcodes, hno]
  split_ifs
  · exact ⟨by simp [SysRet.retval, hm], Or.inr (Or.inl rfl)⟩
  · exact ⟨by simp [SysRet.retval, hm], Or.inr (Or.inl rfl)⟩
  · rcases Option.eq_none_or_eq_some (get_thread_from_array s pid) with hg | ⟨c, hg⟩
    · simp only [hg]
      exact ⟨by simp [SysRet.retval, hm], Or.inr (Or.inl rfl)⟩
    · simp only [hg]
      rcases Option.eq_none_or_eq_some (thread_sleep s c) with hsl | ⟨s1, hsl⟩
      · simp only [hsl]
        exact ⟨by simp [SysRet.retval], Or.inr (Or.inr trivial)⟩
      · simp only [hsl]
        exact ⟨by simp [SysRet.retval], Or.inl ⟨s1, rfl⟩⟩

/-- C28: in a reachable state let the caller's list hold a record `e` for a positive
pid, and let the copy-out to `status` fail.  Then `sys_waitpid`, on its fast path as
well as in its part after the wakeup, returns `-1` with the error of the copy-out; user
memory is unchanged, yet the record `e` is gone from the caller's list (before: `pre`,
`e`, `post`; after: `pre`, `post`, with no record for that pid), so that the scan of a
later `sys_waitpid` for that pid over this list finds nothing, and a wait of the caller
for that pid in the state left behind, with any status address, does not return the
pid: the exit code can no longer be obtained. -/
theorem sys_waitpid_copyout_failure_drops_record (E : Extern) (s : Kernel) (cur : Addr)
    (status : Addr) (codes : List exitted_thread) (e : exitted_thread) (r : SysRet)
    (hr : Reachable E s) (hcur : s.curthread = some cur) (hpos : 0 < e.pid)
    (hcodes : (s.mem cur).child_exit_codes = some codes) (he : e ∈ codes)
    (hfail : E.copyout_err status ≠ 0)
    (hcall : r = sys_waitpid E s e.pid status 0 ∨ r = sys_waitpid_wakeup E s e.pid status) :
    ∃ s1 pre post, r = .ret s1 (-1) (some (E.copyout_err status)) ∧
      codes = pre ++ e :: post ∧ (s1.mem cur).child_exit_codes = some (pre ++ post) ∧
      (∀ x ∈ pre ++ post, x.pid ≠ e.pid) ∧
      s1.usermem = s.usermem ∧ s1.curthread = some cur ∧
      find_exit_code e.pid (pre ++ post) 0 = none ∧
      ∀ status' : Addr, (sys_waitpid E s1 e.pid status' 0).retval ≠ some e.pid := by
  obtain ⟨hnone, pre, post, hl, hpre, hpost⟩ := hr.record_first hcur hcodes he
  subst hl
  have hno : ∀ x ∈ pre ++ post, x.pid ≠ e.pid := by
    intro x hx
    rcases List.mem_append.mp hx with h | h
    · exact hpre x h
    · exact hpost x h
  have hscan : find_exit_code e.pid (pre ++ post) 0 = none := find_exit_code_none.mpr hno
  rcases hcall with hcall | hcall
  · have hcopy : copyout E (s.setThread cur
        { s.mem cur with child_exit_codes := some (pre ++ post) }) e.exitcode status =
        (E.copyout_err status, s.setThread cur
          { s.mem cur with child_exit_codes := some (pre ++ post) }) := by
      unfold copyout
      rw [if_neg hfail]
    have hret : sys_waitpid E s e.pid status 0 =
        .ret (s.setThread cur { s.mem cur with child_exit_codes := some (pre ++ post) }) (-1)
          (some (E.copyout_err status)) := by
      rw [sys_waitpid_found status hcur hpos (fun c hc => by rw [hnone] at hc; cases hc)
        hcodes hpre rfl, hcopy, if_pos hfail]
    refine ⟨_, pre, post, hcall.trans hret, rfl, by simp, hno, rfl, hcur, hscan, ?_⟩
    intro status'
    exact (sys_waitpid_without_record status' 0
      (show (s.setThread cur _).curthread = some cur from hcur) hpos (by simp) hscan).1
  · obtain ⟨s0, hs0⟩ := hr.thread_sleep_return_some hcur
    obtain ⟨hc0, hu0, hm0⟩ := thread_sleep_return_effect hs0
    have hcur0 : s0.curthread = some cur := hc0.trans hcur
    have hcodes0 : (s0.mem cur).child_exit_codes = some (pre ++ e :: post) :=
      (hm0 cur).trans hcodes
    have hf : find_exit_code e.pid (pre ++ e :: post) 0 = some (pre.length, e) := by
      simpa using @find_exit_code_first e.pid pre post e 0 hpre rfl
    have hret : sys_waitpid_wakeup E s e.pid status =
        .ret (s0.setThread cur { s0.mem cur with child_exit_codes := some (pre ++ post) }) (-1)
          (some (E.copyout_err status)) := by
      simp [sys_waitpid_wakeup, hs0, hcur0, hcodes0, hf, copyout, hfail, eraseIdx_append_cons]
    refine ⟨_, pre, post, hcall.trans hret, rfl, by simp, hno, hu0, hcur0, hscan, ?_⟩
    intro status'
    exact (sys_waitpid_without_record status' 0
      (show (s0.setThread cur _).curthread = some cur from hcur0) hpos (by simp) hscan).1

theorem ex_fault_s0_reachable : Reachable ex_fault ex_s0 :=
  Reachable.boot (fun _ => blank_thread) (fun _ => ex_tf) (fun _ => 0) (ok_oracle 100) rfl rfl

theorem ex_fault_parent_reachable : Reachable ex_fault ex_fault_parent :=
  Reachable.step
    (Reachable.step
      (Reachable.step
        ex_fault_s0_reachable
        (Step.sys_fork ex_tf (ok_fork 101) (by decide) (by decide) rfl (by decide)))
      (Step.thread_yield rfl))
    (Step.thread_exit_with_code 7 rfl)

theorem ex_fault_child_exited_reachable : Reachable ex_fault ex_fault_child_exited :=
  Reachable.step
    (Reachable.step
      (Reachable.step
        ex_fault_s0_reachable
        (Step.sys_fork ex_tf (ok_fork 101) (by decide) (by decide) rfl (by decide)))
      (Step.sys_waitpid 2 7 0 rfl))
    (Step.thread_exit_with_code 3 rfl)

theorem ex_fault_two_4_reachable : Reachable ex_fault ex_fault_two_4 :=
  Reachable.step
    (Reachable.step
      (Reachable.step
        (Reachable.step ex_fault_s0_reachable
          (Step.sys_fork ex_tf (ok_fork 101) (by decide) (by decide)
            (rfl : (sys_fork ex_fault ex_s0 ex_tf (ok_fork 101)).state = some ex_fault_two_1)
            (by decide)))
        (Step.sys_fork ex_tf (ok_fork 102) (by decide) (by decide)
          (rfl : (sys_fork ex_fault ex_fault_two_1 ex_tf (ok_fork 102)).state =
            some ex_fault_two_2) (by decide)))
      (Step.thread_yield (rfl : thread_yield ex_fault_two_2 = some ex_fault_two_3)))
    (Step.thread_exit_with_code 7
      (rfl : thread_exit_with_code ex_fault_two_3 7 = some ex_fault_two_4))

theorem ex_fault_two_reachable : Reachable ex_fault ex_fault_two :=
  Reachable.step ex_fault_two_4_reachable
    (Step.thread_exit_with_code 9
      (rfl : thread_exit_with_code ex_fault_two_4 9 = some ex_fault_two))

theorem ex_fault_woken_reachable : Reachable ex_fault ex_fault_woken :=
  Reachable.step
    (Reachable.step
      (Reachable.step ex_fault_two_4_reachable
        (Step.thread_yield (rfl : thread_yield ex_fault_two_4 = some ex_fault_wait_1)))
      (Step.sys_waitpid 3 7 0
        (rfl : (sys_waitpid ex_fault ex_fault_wait_1 3 7 0).state = some ex_fault_wait_2)))
    (Step.thread_exit_with_code 9
      (rfl : thread_exit_with_code ex_fault_wait_2 9 = some ex_fault_woken))

theorem sys_waitpid_copyout_failure_drops_record_witness :
    (∃ s1 pre post, sys_waitpid ex_fault ex_fault_two 3 7 0 = .ret s1 (-1) (some 6) ∧
      [(⟨2, 7⟩ : exitted_thread), ⟨3, 9⟩] = pre ++ ⟨3, 9⟩ :: post ∧
      (s1.mem 100).child_exit_codes = some (pre ++ post) ∧
      (∀ x ∈ pre ++ post, x.pid ≠ 3) ∧
      s1.usermem = ex_fault_two.usermem ∧ s1.curthread = some 100 ∧
      find_exit_code 3 (pre ++ post) 0 = none ∧
      ∀ status' : Addr, (sys_waitpid ex_fault s1 3 status' 0).retval ≠ some 3) ∧
    (∃ s1 pre post, sys_waitpid_wakeup ex_fault ex_fault_woken 3 7 = .ret s1 (-1) (some 6) ∧
      [(⟨2, 7⟩ : exitted_thread), ⟨3, 9⟩] = pre ++ ⟨3, 9⟩ :: post ∧
      (s1.mem 100).child_exit_codes = some (pre ++ post) ∧
      (∀ x ∈ pre ++ post, x.pid ≠ 3) ∧
      s1.usermem = ex_fault_woken.usermem ∧ s1.curthread = some 100 ∧
      find_exit_code 3 (pre ++ post) 0 = none ∧
      ∀ status' : Addr, (sys_waitpid ex_fault s1 3 status' 0).retval ≠ some 3) :=
  ⟨sys_waitpid_copyout_failure_drops_record ex_fault ex_fault_two 100 7 [⟨2, 7⟩, ⟨3, 9⟩] ⟨3, 9⟩ _
      ex_fault_two_reachable rfl (by decide) rfl (by simp) (by decide) (Or.inl rfl),
   sys_waitpid_copyout_failure_drops_record ex_fault ex_fault_woken 100 7 [⟨2, 7⟩, ⟨3, 9⟩]
      ⟨3, 9⟩ _ ex_fault_woken_reachable rfl (by decide) rfl (by simp) (by decide) (Or.inr rfl)⟩

/-- The two paths evaluated: the parent of `ex_fault_parent` (fast path) and the woken parent
of `ex_fault_child_exited` wait for pid 2 with a status address the copy-out rejects; both
get `-1` with error 6, their record list is empty afterwards, the word at the status
address is untouched, and a second wait with a good address fails with `EINVAL`. -/
theorem sys_waitpid_copyout_failure_examples :
    (sys_waitpid ex_fault ex_fault_parent 2 7 0).retval = some (-1) ∧
    (sys_waitpid ex_fault ex_fault_parent 2 7 0).err = some 6 ∧
    ((sys_waitpid ex_fault ex_fault_parent 2 7 0).state.map
      (fun s1 => ((s1.mem 100).child_exit_codes, s1.usermem 7,
        (sys_waitpid ex_fault s1 2 8 0).err))) = some (some [], 0, some 22) ∧
    (sys_waitpid_wakeup ex_fault ex_fault_child_exited 2 7).retval = some (-1) ∧
    (sys_waitpid_wakeup ex_fault ex_fault_child_exited 2 7).err = some 6 ∧
    ((sys_waitpid_wakeup ex_fault ex_fault_child_exited 2 7).state.map
      (fun s1 => ((s1.mem 100).child_exit_codes, s1.usermem 7,
        (sys_waitpid ex_fault s1 2 8 0).err))) = some (some [], 0, some 22) := by
  decide

/-! ## Sleepers and zombies -/

theorem Inv.cur_not_sleeper {s : Kernel} (hI : Inv s) {cur : Addr}
    (hcur : s.curthread = some cur) : cur ∉ s.sleepers := by
  have hnd : (cur :: (s.runqueue ++ s.sleepers)).Nodup := by
    have h := hI.live_nodup
    unfold live at h
    rw [hcur] at h
    exact h
  intro h
  exact (List.nodup_cons.mp hnd).1 (List.mem_append_right _ h)

theorem Buried.cur_not_zombie {s : Kernel} (hB : Buried s) {cur : Addr}
    (hcur : s.curthread = some cur) : cur ∉ s.zombies := by
  intro h
  exact (hB cur h).1 (by simp [live, hcur])

/-- A step that keeps the zombies, adds no sleeper, keeps the sleep addresses of the
sleepers, unregisters no zombie and gives no zombie a record list. -/
theorem Queued_frame {s s' : Kernel} (hQ : Queued s) (hz : s'.zombies = s.zombies)
    (hsl : ∀ a ∈ s'.sleepers, a ∈ s.sleepers)
    (hta : ∀ z ∈ s.zombies, z ∈ s.thread_array → z ∈ s'.thread_array)
    (htok : ∀ a ∈ s.sleepers, (s'.mem a).t_sleepaddr = (s.mem a).t_sleepaddr)
    (hcodes : ∀ z ∈ s.zombies, (s.mem z).child_exit_codes = none →
      (s'.mem z).child_exit_codes = none) : Queued s' := by
  refine ⟨by rw [hz]; exact hQ.zombies_nodup, ?_, ?_⟩
  · intro a ha
    rw [htok a (hsl a ha)]
    exact hQ.sleep_token a (hsl a ha)
  · intro z hzm
    rw [hz] at hzm
    rcases hQ.zombie_codes z hzm with h | h
    · exact Or.inl (hta z hzm h)
    · exact Or.inr (hcodes z hzm h)

/-- A store through a pointer that is neither asleep nor a zombie. -/
theorem Queued_setThread {s : Kernel} (hQ : Queued s) {cur : Addr} (hns : cur ∉ s.sleepers)
    (hnz : cur ∉ s.zombies) (t : thread) : Queued (s.setThread cur t) := by
  refine Queued_frame hQ rfl (fun a h => h) (fun z _ h => h) ?_ ?_
  · intro a ha
    rw [setThread_mem_other s cur a t (fun h => hns (h ▸ ha))]
  · intro z hz h
    rw [setThread_mem_other s cur z t (fun h => hnz (h ▸ hz))]
    exact h

theorem Queued_setThread_cur {s : Kernel} (hI : Inv s) (hB : Buried s) (hQ : Queued s)
    {cur : Addr} (hcur : s.curthread = some cur) (t : thread) : Queued (s.setThread cur t) :=
  Queued_setThread hQ (hI.cur_not_sleeper hcur) (hB.cur_not_zombie hcur) t

theorem Queued_thread_yield {s s' : Kernel} (hQ : Queued s)
    (h : mi_switch s .S_READY = some s') : Queued s' := by
  rcases Option.eq_none_or_eq_some s.curthread with hcur | ⟨cur, hcur⟩
  · rw [mi_switch_none hcur] at h
    cases h
    exact hQ
  · obtain ⟨hm, hta, -, -, -, -, hz, -, -, hsl⟩ := mi_switch_some hcur h
    simp only [reduceCtorEq, if_false] at hz hsl
    exact Queued_frame hQ hz (fun a ha => hsl ▸ ha) (fun z _ hr => hta ▸ hr)
      (fun a _ => by rw [hm]) (fun z _ hc => by rw [hm]; exact hc)

theorem Queued_thread_sleep {s s' : Kernel} {addr : Addr} (hB : Buried s)
    (hQ : Queued s) (h : thread_sleep s addr = some s') : Queued s' := by
  rcases Option.eq_none_or_eq_some s.curthread with hcur | ⟨cur, hcur⟩
  · simp [thread_sleep, hcur] at h
  · obtain ⟨s2, hs2, hsl, htok, hmem, -, -, hz, hta, -⟩ := thread_sleep_effect s cur addr hcur
    rw [hs2] at h
    cases h
    have hnz := hB.cur_not_zombie hcur
    refine ⟨by rw [hz]; exact hQ.zombies_nodup, ?_, ?_⟩
    · intro a ha
      rw [hsl] at ha
      rcases List.mem_append.mp ha with ha | ha
      · by_cases hac : a = cur
        · subst hac
          exact ⟨addr, htok⟩
        · rw [hmem a hac]
          exact hQ.sleep_token a ha
      · rw [List.mem_singleton.mp ha]
        exact ⟨addr, htok⟩
    · intro z hzm
      rw [hz] at hzm
      have hne : z ≠ cur := fun he => hnz (he ▸ hzm)
      rw [hta, hmem z hne]
      exact hQ.zombie_codes z hzm

theorem exorcise_eq {s s' : Kernel} (h : exorcise s = some s') :
    s' = { s with zombies := [] } := by
  unfold exorcise at h
  split at h
  · cases h
    rfl
  · cases h

theorem Queued_exorcise {s s' : Kernel} (hQ : Queued s) (h : exorcise s = some s') :
    Queued s' := by
  rw [exorcise_eq h]
  exact ⟨List.nodup_nil, hQ.sleep_token, fun z hz => by cases hz⟩

theorem Queued_thread_sleep_return {s s' : Kernel} (hI : Inv s) (hQ : Queued s)
    (h : thread_sleep_return s = some s') : Queued s' := by
  unfold thread_sleep_return mi_switch_return at h
  rcases Option.eq_none_or_eq_some (exorcise s) with hx | ⟨s1, hx⟩
  · simp [hx] at h
  · simp only [hx] at h
    rcases Option.eq_none_or_eq_some s1.curthread with hcur | ⟨cur, hcur⟩
    · simp [hcur] at h
    · simp only [hcur, Option.some.injEq] at h
      subst h
      have hs1 := exorcise_eq hx
      refine Queued_setThread (Queued_exorcise hQ hx) ?_ ?_ _
      · exact (Inv_exorcise hI hx).cur_not_sleeper hcur
      · rw [hs1]
        simp

theorem Queued_copyout {E : Extern} {s : Kernel} (hQ : Queued s) (val : Int) (dst : Addr) :
    Queued (copyout E s val dst).2 := by
  unfold copyout
  split
  · exact ⟨hQ.zombies_nodup, hQ.sleep_token, hQ.zombie_codes⟩
  · exact hQ

theorem Queued_sys_waitpid {E : Extern} {s s' : Kernel} {pid : Int} {status : Addr}
    {options : Int} (hI : Inv s) (hB : Buried s) (hQ : Queued s)
    (h : (sys_waitpid E s pid status options).state = some s') : Queued s' := by
  unfold sys_waitpid at h
  rcases Option.eq_none_or_eq_some s.curthread with hcur | ⟨cur, hcur⟩
  · simp [hcur, SysRet.state] at h
  simp only [hcur] at h
  split at h
  · simp only [SysRet.state, Option.some.injEq] at h
    subst h
    exact hQ
  split at h
  · simp only [SysRet.state, Option.some.injEq] at h
    subst h
    exact hQ
  split at h
  · simp only [SysRet.state, Option.some.injEq] at h
    subst h
    exact hQ
  rcases Option.eq_none_or_eq_some (s.mem cur).child_exit_codes with hc | ⟨codes, hc⟩
  · simp [hc, SysRet.state] at h
  simp only [hc] at h
  rcases Option.eq_none_or_eq_some (find_exit_code pid codes 0) with hf | ⟨⟨i, e⟩, hf⟩
  · simp only [hf] at h
    rcases Option.eq_none_or_eq_some (get_thread_from_array s pid) with hch | ⟨c, hch⟩
    · simp only [hch, SysRet.state, Option.some.injEq] at h
      subst h
      exact hQ
    · simp only [hch] at h
      rcases Option.eq_none_or_eq_some (thread_sleep s c) with hsl | ⟨s1, hsl⟩
      · simp [hsl, SysRet.state] at h
      · simp only [hsl, SysRet.state, Option.some.injEq] at h
        subst h
        exact Queued_thread_sleep hB hQ hsl
  · simp only [hf] at h
    have hm := @Queued_copyout E _ (Queued_setThread_cur hI hB hQ hcur
      { s.mem cur with child_exit_codes := some (codes.eraseIdx i) }) e.exitcode status
    split at h <;>
      · simp only [SysRet.state, Option.some.injEq] at h
        subst h
        exact hm

theorem Queued_sys_waitpid_wakeup {E : Extern} {s s' : Kernel} {pid : Int} {status : Addr}
    (hI : Inv s) (hQ : Queued s)
    (h : (sys_waitpid_wakeup E s pid status).state = some s') : Queued s' := by
  unfold sys_waitpid_wakeup at h
  rcases Option.eq_none_or_eq_some (thread_sleep_return s) with hr | ⟨s0, hr⟩
  · simp [hr, SysRet.state] at h
  simp only [hr] at h
  rcases Option.eq_none_or_eq_some s0.curthread with hcur | ⟨cur, hcur⟩
  · simp [hcur, SysRet.state] at h
  simp only [hcur] at h
  rcases Option.eq_none_or_eq_some (s0.mem cur).child_exit_codes with hc | ⟨codes, hc⟩
  · simp [hc, SysRet.state] at h
  simp only [hc] at h
  rcases Option.eq_none_or_eq_some (find_exit_code pid codes 0) with hf | ⟨⟨i, e⟩, hf⟩
  · simp [hf, SysRet.state] at h
  · simp only [hf] at h
    have hcur1 : (copyout E s0 e.exitcode status).2.curthread = some cur := by
      unfold copyout
      split <;> exact hcur
    have hI0 := Inv_thread_sleep_return hI hr
    have hB0 : Buried s0 := Buried_thread_sleep_return hr
    have hm := Queued_setThread_cur (Inv_copyout hI0 E e.exitcode status)
      (@Buried_copyout E _ hB0 e.exitcode status)
      (@Queued_copyout E _ (Queued_thread_sleep_return hI hQ hr) e.exitcode status) hcur1
      { (copyout E s0 e.exitcode status).2.mem cur with
        child_exit_codes := some (codes.eraseIdx i) }
    split at h <;>
      · simp only [SysRet.state, Option.some.injEq] at h
        subst h
        exact hm

theorem Queued_thread_fork {E : Extern} {s s' : Kernel} {name : String} {data1 data2 : Addr}
    {func : entry_func} {o : fork_oracle} {rv : Int} {r : Option Addr} (hI : Inv s)
    (hQ : Queued s) (hfresh : o.newguy ∉ s.thread_array) (hz : o.newguy ∉ s.zombies)
    (h : thread_fork E s name data1 data2 func o = some (s', rv, r)) : Queued s' := by
  obtain ⟨hm, hsl, hzom, -, -, -, hcase⟩ := thread_fork_effect hI.pid_ne_nextpid hfresh h
  have hns : o.newguy ∉ s.sleepers := by
    intro hmem
    apply hfresh
    apply hI.live_reg
    unfold live
    simp [hmem]
  refine Queued_frame hQ hzom (fun a ha => hsl ▸ ha) ?_ ?_ ?_
  · intro z _ hreg
    rcases hcase with ⟨-, hta, -⟩ | ⟨-, -, hta, -⟩
    · rw [hta]
      exact hreg
    · rw [hta]
      exact List.mem_append_left _ hreg
  · intro a ha
    rw [hm a (fun he => hns (he ▸ ha))]
  · intro z hzm hc
    rw [hm z (fun he => hz (he ▸ hzm))]
    exact hc

theorem Queued_sys_fork {E : Extern} {s s' : Kernel} {tf : trapframe} {o : sys_fork_oracle}
    (hI : Inv s) (hQ : Queued s) (hfresh : o.fork.newguy ∉ s.thread_array)
    (hz : o.fork.newguy ∉ s.zombies)
    (h : (sys_fork E s tf o).state = some s') : Queued s' := by
  unfold sys_fork at h
  split at h
  · simp only [SysRet.state, Option.some.injEq] at h
    subst h
    exact hQ
  rcases Option.eq_none_or_eq_some o.tf_child with htf | ⟨tf_child, htf⟩
  · simp only [htf, SysRet.state, Option.some.injEq] at h
    subst h
    exact hQ
  simp only [htf] at h
  have hI1 := Inv_tfmem hI (Function.update s.tfmem tf_child tf)
  have hQ1 : Queued { s with tfmem := Function.update s.tfmem tf_child tf } :=
    ⟨hQ.zombies_nodup, hQ.sleep_token, hQ.zombie_codes⟩
  generalize hs1 : ({ s with tfmem := Function.update s.tfmem tf_child tf } : Kernel) = s1
    at h hI1 hQ1
  have hfresh1 : o.fork.newguy ∉ s1.thread_array := by rw [← hs1]; exact hfresh
  have hz1 : o.fork.newguy ∉ s1.zombies := by rw [← hs1]; exact hz
  rcases Option.eq_none_or_eq_some o.addr_alloc with hal | ⟨x, hal⟩
  · simp only [hal, SysRet.state, Option.some.injEq] at h
    subst h
    exact hQ1
  simp only [hal] at h
  rcases Option.eq_none_or_eq_some s.curthread with hcur | ⟨cur, hcur⟩
  · simp [hcur, SysRet.state] at h
  simp only [hcur] at h
  rcases Option.eq_none_or_eq_some o.as_copy_ret with hac | ⟨addr_child, hac⟩
  · simp only [hac, SysRet.state, Option.some.injEq] at h
    subst h
    exact hQ1
  simp only [hac] at h
  rcases Option.eq_none_or_eq_some (thread_fork E s1 "User Thread Fork" tf_child addr_child
      .md_forkentry o.fork) with hf | ⟨⟨s2, rv, r⟩, hf⟩
  · simp [hf, SysRet.state] at h
  · have hQ2 := Queued_thread_fork hI1 hQ1 hfresh1 hz1 hf
    simp only [hf] at h
    split at h <;>
      · simp only [SysRet.state, Option.some.injEq] at h
        subst h
        exact hQ2

theorem Queued_thread_exit_with_code {s s' : Kernel} {k : Int} (hI : Inv s) (hB : Buried s)
    (hQ : Queued s) (h : thread_exit_with_code s k = some s') : Queued s' := by
  obtain ⟨cur, s1, hcur, hh, -, hsw⟩ := thread_exit_with_code_some h
  have hcurreg : cur ∈ s.thread_array := hI.live_reg cur (by simp [live, hcur])
  have hnz : cur ∉ s.zombies := hB.cur_not_zombie hcur
  have hnd : (s.zombies ++ [cur]).Nodup := by
    rw [List.nodup_append]
    refine ⟨hQ.zombies_nodup, List.nodup_singleton cur, ?_⟩
    intro a ha hb
    rw [List.mem_singleton] at hb
    exact hnz (hb ▸ ha)
  rcases exit_handoff_cases hh with rfl | ⟨parent, codes, -, hget, -, rfl⟩
  · have hcur2 : (exit_cleanup_state s1 cur).curthread = some cur := hcur
    obtain ⟨hm, hta, -, -, -, -, hz, -, -, hsl⟩ := mi_switch_some hcur2 hsw
    simp only [reduceCtorEq, if_false, if_true] at hz hsl
    have hz' : s'.zombies = s1.zombies ++ [cur] := hz
    have hsl' : s'.sleepers = s1.sleepers := hsl
    have hta' : s'.thread_array = s1.thread_array := hta
    refine ⟨by rw [hz']; exact hnd, ?_, ?_⟩
    · intro a ha
      rw [hsl'] at ha
      rw [hm, (exit_cleanup_state_pid s1 cur a).2.2]
      exact hQ.sleep_token a ha
    · intro z hzm
      rw [hz'] at hzm
      rw [hta', hm, exit_cleanup_state_codes]
      rcases List.mem_append.mp hzm with hzm | hzm
      · exact hQ.zombie_codes z hzm
      · rw [List.mem_singleton.mp hzm]
        exact Or.inl hcurreg
  · obtain ⟨hwm, hwta, -, hwcur, -, hwz⟩ :=
      thread_single_wakeup_frame (handoff_state s cur parent codes k) cur
    have hcur2 : (exit_cleanup_state
        (thread_single_wakeup (handoff_state s cur parent codes k) cur) cur).curthread
          = some cur := by
      simp only [exit_cleanup_state, setThread_curthread, hwcur]
      exact hcur
    obtain ⟨hm, hta, -, -, -, -, hz, -, -, hsl⟩ := mi_switch_some hcur2 hsw
    simp only [reduceCtorEq, if_false, if_true] at hz hsl
    obtain ⟨hpreg, hppid⟩ := get_thread_loop_some hget
    have hne : parent ≠ cur := by
      rintro rfl
      have := hI.ppid_lt parent hcurreg
      omega
    obtain ⟨-, e2, e3, e4, -, e6⟩ := exit_before_switch s cur parent codes k hne
    have hz' : s'.zombies = s.zombies ++ [cur] := by
      rw [hz]
      simp only [exit_cleanup_state, setThread_zombies, hwz]
      rfl
    obtain ⟨pre, post, hreg, hrem⟩ := hI.remove_thread_of_mem hcurreg
    have hta' : s'.thread_array = pre ++ post := by
      rw [hta]
      simp only [exit_cleanup_state, setThread_thread_array, hwta]
      exact hrem
    have hsub : ∀ a ∈ s'.sleepers, a ∈ s.sleepers := by
      intro a ha
      rw [hsl] at ha
      rcases e6 with ⟨-, hs, -⟩ | ⟨t, p1, p2, hl, -, -, hs, -⟩
      · rw [hs] at ha
        exact ha
      · rw [hs] at ha
        rw [hl]
        rcases List.mem_append.mp ha with ha | ha
        · exact List.mem_append_left _ ha
        · exact List.mem_append_right _ (List.mem_cons_of_mem _ ha)
    refine ⟨by rw [hz']; exact hnd, ?_, ?_⟩
    · intro a ha
      rw [hm, e4 a]
      exact hQ.sleep_token a (hsub a ha)
    · intro z hzm
      rw [hz'] at hzm
      rcases List.mem_append.mp hzm with hzm | hzm
      · have hzc : z ≠ cur := fun he => hnz (he ▸ hzm)
        by_cases hzr : z ∈ s.thread_array
        · left
          rw [hta']
          rw [hreg] at hzr
          rcases List.mem_append.mp hzr with h1 | h1
          · exact List.mem_append_left _ h1
          · rcases List.mem_cons.mp h1 with h1 | h1
            · exact absurd h1 hzc
            · exact List.mem_append_right _ h1
        · right
          have hzp : z ≠ parent := fun he => hzr (he ▸ hpreg)
          rw [hm, e3 z hzp hzc]
          rcases hQ.zombie_codes z hzm with h1 | h1
          · exact absurd h1 hzr
          · exact h1
      · rw [List.mem_singleton.mp hzm]
        right
        rw [hm]
        exact e2

theorem Queued_thread_bootstrap {s : Kernel} {mem : Addr → thread} {tfmem : Addr → trapframe}
    {usermem : Addr → Int} {o : fork_oracle}
    (h : thread_bootstrap mem tfmem usermem o = some s) : Queued s := by
  have hz : s.zombies = [] ∧ s.sleepers = [] := by
    unfold thread_bootstrap at h
    dsimp only at h
    split at h
    · rename_i s1 me hc
      simp only [Option.some.injEq] at h
      subst h
      rcases thread_create_effect hc with ⟨rfl, -⟩ | ⟨t, rfl, -⟩
      · simp [add_thread_to_array]
        split <;> exact ⟨rfl, rfl⟩
      · simp [add_thread_to_array, Kernel.setThread]
        split <;> exact ⟨rfl, rfl⟩
    · cases h
  refine ⟨by rw [hz.1]; exact List.nodup_nil, ?_, ?_⟩
  · intro a ha
    rw [hz.2] at ha
    cases ha
  · intro z hzm
    rw [hz.1] at hzm
    cases hzm

/-- Every step keeps the zombies apart, the sleepers with a sleep address, and the
record lists of unregistered zombies gone. -/
theorem Queued_step {E : Extern} {s s' : Kernel} (hI : Inv s) (hB : Buried s) (hQ : Queued s)
    (h : Step E s s') : Queued s' := by
  cases h with
  | thread_fork name data1 data2 func o rv r hfresh hz h =>
    exact Queued_thread_fork hI hQ hfresh hz h
  | sys_fork tf o hfresh hz h => exact Queued_sys_fork hI hQ hfresh hz h
  | sys_waitpid pid status options h => exact Queued_sys_waitpid hI hB hQ h
  | sys_waitpid_wakeup pid status h => exact Queued_sys_waitpid_wakeup hI hQ h
  | thread_exit_with_code exitcode h => exact Queued_thread_exit_with_code hI hB hQ h
  | thread_yield h => exact Queued_thread_yield hQ h
  | mi_switch_return h => exact Queued_exorcise hQ h
  | thread_sleep addr h => exact Queued_thread_sleep hB hQ h
  | thread_sleep_return h => exact Queued_thread_sleep_return hI hQ h
  | thread_wakeup addr =>
    refine Queued_frame hQ rfl ?_ (fun _ _ hr => hr) (fun _ _ => rfl) (fun _ _ hc => hc)
    intro a ha
    simp only [thread_wakeup, wakeup_loop_eq] at ha
    exact (List.mem_filter.mp ha).1
  | thread_single_wakeup addr =>
    obtain ⟨hm, hta, -, -, -, hz⟩ := thread_single_wakeup_frame s addr
    refine Queued_frame hQ hz ?_ (fun _ _ hr => hta ▸ hr) (fun _ _ => by rw [hm])
      (fun _ _ hc => by rw [hm]; exact hc)
    intro a ha
    rcases thread_single_wakeup_effect s addr with ⟨-, he⟩ | ⟨t, pre, post, hl, -, -, hs, -⟩
    · rw [he] at ha
      exact ha
    · rw [hs] at ha
      rw [hl]
      rcases List.mem_append.mp ha with ha | ha
      · exact List.mem_append_left _ ha
      · exact List.mem_append_right _ (List.mem_cons_of_mem _ ha)
  | dispatch hcur =>
    refine Queued_frame hQ ?_ ?_ ?_ ?_ ?_
    · unfold scheduler
      split <;> rfl
    · intro a ha
      unfold scheduler at ha
      split at ha <;> exact ha
    · intro z _ hr
      unfold scheduler
      split <;> exact hr
    · intro a _
      unfold scheduler
      split <;> rfl
    · intro z _ hc
      unfold scheduler
      split <;> exact hc
  | md_forkentry tf addrspace tf' h =>
    unfold md_forkentry at h
    rcases Option.eq_none_or_eq_some s.curthread with hcur | ⟨cur, hcur⟩
    · simp [hcur] at h
    · simp only [hcur, Option.some.injEq, Prod.mk.injEq] at h
      obtain ⟨rfl, -⟩ := h
      exact Queued_setThread_cur hI hB hQ hcur _
  | set_vmspace cur v hcur => exact Queued_setThread_cur hI hB hQ hcur _
  | set_cwd cur v hcur => exact Queued_setThread_cur hI hB hQ hcur _
  | user_store m => exact ⟨hQ.zombies_nodup, hQ.sleep_token, hQ.zombie_codes⟩

/-- In every reachable state no zombie is listed twice, every sleeper has a sleep
address, and a zombie that is no longer registered has no record list. -/
theorem Reachable.queued {E : Extern} {s : Kernel} (h : Reachable E s) : Queued s := by
  induction h with
  | boot mem tfmem usermem o hok hb => exact Queued_thread_bootstrap hb
  | step hr hstep ih => exact Queued_step hr.inv hr.buried ih hstep

/-! ## One record per child -/

theorem ex_family_reachable : Reachable exE ex_family :=
  Reachable.step
    (Reachable.step
      (Reachable.step
        (Reachable.step
          (Reachable.step
            (Reachable.step
              (Reachable.step ex_s0_reachable
                (Step.thread_fork "worker" 0 0 (.other 0) (ok_oracle 101) 0 (some 101)
                  (by decide) (by decide)
                  (rfl : thread_fork exE ex_s0 "worker" 0 0 (.other 0) (ok_oracle 101) =
                    some (ex_chain_forked, 0, some 101)) (by decide)))
              (Step.thread_fork "worker" 0 0 (.other 0) (ok_oracle 102) 0 (some 102)
                (by decide) (by decide)
                (rfl : thread_fork exE ex_chain_forked "worker" 0 0 (.other 0) (ok_oracle 102) =
                  some (ex_family_2, 0, some 102)) (by decide)))
            (Step.thread_fork "worker" 0 0 (.other 0) (ok_oracle 103) 0 (some 103)
              (by decide) (by decide)
              (rfl : thread_fork exE ex_family_2 "worker" 0 0 (.other 0) (ok_oracle 103) =
                some (ex_family_3, 0, some 103)) (by decide)))
          (Step.thread_fork "worker" 0 0 (.other 0) (ok_oracle 104) 0 (some 104)
            (by decide) (by decide)
            (rfl : thread_fork exE ex_family_3 "worker" 0 0 (.other 0) (ok_oracle 104) =
              some (ex_family_4, 0, some 104)) (by decide)))
        (Step.thread_sleep 700 (rfl : thread_sleep ex_family_4 700 = some ex_family_asleep)))
      (Step.thread_exit_with_code 7
        (rfl : thread_exit_with_code ex_family_asleep 7 = some ex_family_5)))
    (Step.thread_exit_with_code 9 (rfl : thread_exit_with_code ex_family_5 9 = some ex_family))

/-- C23 (amended): in every reachable state (so before the pid counter has wrapped) the
record list of every thread (registered, current,
runnable, asleep or zombie) names each pid at most once: the pids of its records are
pairwise different, so a pid occurs at most once among them and two records of the list
with the same pid are one and the same. -/
theorem child_exit_codes_one_record_per_pid (E : Extern) (s : Kernel) (a : Addr)
    (l : List exitted_thread) (hr : Reachable E s)
    (ha : a ∈ s.thread_array ∨ s.curthread = some a ∨ a ∈ s.runqueue ∨ a ∈ s.sleepers ∨
      a ∈ s.zombies)
    (hl : (s.mem a).child_exit_codes = some l) :
    (l.map (fun e => e.pid)).Nodup ∧
    (∀ pid, (l.map (fun e => e.pid)).count pid ≤ 1) ∧
    (∀ i j : Fin l.length, (l.get i).pid = (l.get j).pid → i = j) := by
  have hI := hr.inv
  have hreg : a ∈ s.thread_array := by
    rcases ha with h | h | h | h | h
    · exact h
    · exact hI.live_reg a (by simp [live, h])
    · exact hI.live_reg a (by simp [live, h])
    · exact hI.live_reg a (by simp [live, h])
    · rcases hr.queued.zombie_codes a h with h1 | h1
      · exact h1
      · rw [h1] at hl
        cases hl
  have hnd := hI.rec_nodup a hreg l hl
  refine ⟨hnd, fun pid => List.nodup_iff_count_le_one.mp hnd pid, ?_⟩
  intro i j hij
  have hi : (l.map (fun e => e.pid)).get ⟨i.1, by simp⟩ = (l.get i).pid := by simp
  have hj : (l.map (fun e => e.pid)).get ⟨j.1, by simp⟩ = (l.get j).pid := by simp
  have := (List.Nodup.get_inj_iff hnd).mp (hi.trans (hij.trans hj.symm))
  exact Fin.ext (by simpa using this)

theorem child_exit_codes_one_record_per_pid_witness :
    (([⟨2, 7⟩, ⟨3, 9⟩] : List exitted_thread).map (fun e => e.pid)).Nodup ∧
    (∀ pid, (([⟨2, 7⟩, ⟨3, 9⟩] : List exitted_thread).map (fun e => e.pid)).count pid ≤ 1) ∧
    (∀ i j : Fin ([⟨2, 7⟩, ⟨3, 9⟩] : List exitted_thread).length,
      (([⟨2, 7⟩, ⟨3, 9⟩] : List exitted_thread).get i).pid =
        (([⟨2, 7⟩, ⟨3, 9⟩] : List exitted_thread).get j).pid → i = j) :=
  child_exit_codes_one_record_per_pid exE ex_family 100 [⟨2, 7⟩, ⟨3, 9⟩] ex_family_reachable
    (Or.inr (Or.inr (Or.inr (Or.inl (by decide))))) rfl

/-! ## A thread is on one list at most -/

/-- C24: in every reachable state the run queue, the sleepers and the zombies together
list no thread twice, and the current thread is on none of the three lists. -/
theorem thread_on_one_list (E : Extern) (s : Kernel) (hr : Reachable E s) :
    (s.runqueue ++ s.sleepers ++ s.zombies).Nodup ∧
    ∀ cur, s.curthread = some cur →
      cur ∉ s.runqueue ∧ cur ∉ s.sleepers ∧ cur ∉ s.zombies := by
  have hnd := hr.inv.live_nodup
  have hB := hr.buried
  unfold live at hnd
  constructor
  · rw [List.nodup_append]
    refine ⟨List.Nodup.of_append_right hnd, hr.queued.zombies_nodup, ?_⟩
    intro a ha hz
    apply (hB a hz).1
    unfold live
    exact List.mem_append_right _ ha
  · intro cur hcur
    rw [hcur] at hnd
    have hc : (cur :: (s.runqueue ++ s.sleepers)).Nodup := hnd
    have hnot := (List.nodup_cons.mp hc).1
    exact ⟨fun h => hnot (List.mem_append_left _ h), fun h => hnot (List.mem_append_right _ h),
      hB.cur_not_zombie hcur⟩

theorem thread_on_one_list_witness :
    ex_family.curthread = some 103 ∧ ex_family.runqueue = [104] ∧
    ex_family.sleepers = [100] ∧ ex_family.zombies = [101, 102] ∧
    (ex_family.runqueue ++ ex_family.sleepers ++ ex_family.zombies).Nodup ∧
    ∀ cur, ex_family.curthread = some cur →
      cur ∉ ex_family.runqueue ∧ cur ∉ ex_family.sleepers ∧ cur ∉ ex_family.zombies :=
  ⟨by decide, by decide, by decide, by decide,
    thread_on_one_list exE ex_family ex_family_reachable⟩

/-! ## Sleep addresses -/

theorem ex_cv_signalled_reachable : Reachable exE ex_cv_signalled.kern :=
  SynchRun.reachable
    (SynchRun.cons
      (SynchStep.lock_acquire_returns 800 (rfl : lock_acquire ex_lock 800 = .ret ex_lock_held))
      (SynchRun.cons
        (SynchStep.cv_wait 900 800 (rfl : cv_wait ex_lock_held 900 800 = .blocked ex_cv_waiting))
        (SynchRun.cons
          (SynchStep.lock_acquire_returns 800
            (rfl : lock_acquire ex_cv_waiting 800 = .ret ex_cv_other_holds))
          (SynchRun.cons
            (SynchStep.cv_signal 900 800
              (rfl : cv_signal ex_cv_other_holds 900 800 = .ret ex_cv_signalled))
            (SynchRun.nil _)))))
    ex_lock_reachable

/-- C25 (as stated, refuted): a thread that has been woken keeps its sleep address.  In
the reachable state `ex_cv_signalled` the thread at 100, which slept in `cv_wait` on the
condition variable at 900, has been moved to the run queue by `cv_signal` while the thread at 101 runs: it
is not in the sleep set, and its `t_sleepaddr` is still 900.  Likewise the parent of
`ex_child_exited`, switched back in but not yet back from `thread_sleep`, is the
current thread with the sleep address 101. -/
theorem sleep_address_kept_after_wakeup :
    Reachable exE ex_cv_signalled.kern ∧
    ex_cv_signalled.kern.curthread = some 101 ∧ ex_cv_signalled.kern.runqueue = [100] ∧
    ex_cv_signalled.kern.sleepers = [] ∧
    (ex_cv_signalled.kern.mem 100).t_sleepaddr = some 900 ∧
    ¬ ((ex_cv_signalled.kern.mem 100).t_sleepaddr ≠ none ↔
        100 ∈ ex_cv_signalled.kern.sleepers) ∧
    Reachable exE ex_child_exited ∧ ex_child_exited.curthread = some 100 ∧
    ex_child_exited.sleepers = [] ∧ (ex_child_exited.mem 100).t_sleepaddr = some 101 :=
  ⟨ex_cv_signalled_reachable, by decide, by decide, by decide, by decide, by decide,
    ex_child_exited_reachable, by decide, by decide, by decide⟩

/-- C25 (amended): in every reachable state every thread in the sleep set has a sleep
address.  `thread_sleep(addr)` by the current thread records `addr` in it and puts the
thread in the sleep set; when the thread is switched back in, the rest of
`thread_sleep` clears the address.  `thread_wakeup` and `thread_single_wakeup` move
threads out of the sleep set without writing to any thread structure, so that a woken
thread keeps its sleep address until it has returned from `thread_sleep`. -/
theorem sleepers_have_sleep_address (E : Extern) (s : Kernel) (hr : Reachable E s) :
    (∀ a ∈ s.sleepers, ∃ addr, (s.mem a).t_sleepaddr = some addr) ∧
    (∀ cur addr, s.curthread = some cur →
      ∃ s', thread_sleep s addr = some s' ∧ s'.sleepers = s.sleepers ++ [cur] ∧
        (s'.mem cur).t_sleepaddr = some addr) ∧
    (∀ cur, s.curthread = some cur →
      ∃ s', thread_sleep_return s = some s' ∧ s'.curthread = some cur ∧
        (s'.mem cur).t_sleepaddr = none ∧ s'.sleepers = s.sleepers) ∧
    (∀ addr, (thread_wakeup s addr).mem = s.mem ∧
      (thread_single_wakeup s addr).mem = s.mem ∧
      (∀ a ∈ s.sleepers, (s.mem a).t_sleepaddr = some addr →
        a ∉ (thread_wakeup s addr).sleepers ∧ a ∈ (thread_wakeup s addr).runqueue ∧
        ((thread_wakeup s addr).mem a).t_sleepaddr = some addr)) := by
  refine ⟨hr.queued.sleep_token, ?_, ?_, ?_⟩
  · intro cur addr hcur
    obtain ⟨s', h1, h2, h3, -⟩ := thread_sleep_effect s cur addr hcur
    exact ⟨s', h1, h2, h3⟩
  · intro cur hcur
    refine ⟨({ s with zombies := [] } : Kernel).setThread cur
      { s.mem cur with t_sleepaddr := none }, ?_, hcur, by simp, rfl⟩
    unfold thread_sleep_return mi_switch_return
    rw [hr.exorcise_some]
    simp [hcur]
  · intro addr
    refine ⟨rfl, (thread_single_wakeup_frame s addr).1, ?_⟩
    intro a ha htok
    simp only [thread_wakeup, wakeup_loop_eq]
    refine ⟨?_, ?_, htok⟩
    · intro hmem
      have := (List.mem_filter.mp hmem).2
      simp [htok] at this
    · apply List.mem_append_right
      exact List.mem_filter.mpr ⟨ha, by simp [htok]⟩

theorem sleepers_have_sleep_address_witness :
    (∀ a ∈ ex_blocked.sleepers, ∃ addr, (ex_blocked.mem a).t_sleepaddr = some addr) ∧
    (∀ cur addr, ex_blocked.curthread = some cur →
      ∃ s', thread_sleep ex_blocked addr = some s' ∧
        s'.sleepers = ex_blocked.sleepers ++ [cur] ∧
        (s'.mem cur).t_sleepaddr = some addr) ∧
    (∀ cur, ex_blocked.curthread = some cur →
      ∃ s', thread_sleep_return ex_blocked = some s' ∧ s'.curthread = some cur ∧
        (s'.mem cur).t_sleepaddr = none ∧ s'.sleepers = ex_blocked.sleepers) ∧
    (∀ addr, (thread_wakeup ex_blocked addr).mem = ex_blocked.mem ∧
      (thread_single_wakeup ex_blocked addr).mem = ex_blocked.mem ∧
      (∀ a ∈ ex_blocked.sleepers, (ex_blocked.mem a).t_sleepaddr = some addr →
        a ∉ (thread_wakeup ex_blocked addr).sleepers ∧
        a ∈ (thread_wakeup ex_blocked addr).runqueue ∧
        ((thread_wakeup ex_blocked addr).mem a).t_sleepaddr = some addr)) :=
  sleepers_have_sleep_address exE ex_blocked ex_blocked_reachable

/-! ## Room reserved by `thread_fork` -/

/-- A link of the chain is two steps: the fork, which reserves, and the exit. -/
theorem fork_and_exit_reachable {E : Extern} {a : Addr} {p p' : Kernel × reserved}
    (hp : ReservedReachable E p) (hfresh : a ∉ p.1.thread_array) (hz : a ∉ p.1.zombies)
    (hroom : p.1.nextpid < 2 ^ 31 - 1)
    (h : fork_and_exit E a p = some p') : ReservedReachable E p' := by
  unfold fork_and_exit at h
  rcases Option.eq_none_or_eq_some
    (thread_fork E p.1 "worker" 0 0 (.other 0) (ok_oracle a)) with hf | ⟨⟨s1, rv, r⟩, hf⟩
  · simp [hf] at h
  · simp only [hf] at h
    rcases Option.eq_none_or_eq_some (thread_exit_with_code s1 0) with he | ⟨s2, he⟩
    · simp [he] at h
    · simp only [he, Option.map_some', Option.some.injEq] at h
      subst h
      have h1 : ReservedReachable E (s1, thread_fork_reserve p.1 (ok_oracle a) p.2) :=
        ReservedReachable.step hp
          (ReservedStep.thread_fork "worker" 0 0 (.other 0) (ok_oracle a) rv r hfresh hz hf
            hroom)
      refine ReservedReachable.step h1 (ReservedStep.other (Step.thread_exit_with_code 0 he) ?_)
      obtain ⟨cur, s3, hcur, hh, -, hsw⟩ := thread_exit_with_code_some he
      have hn1 : s3.nextpid = s1.nextpid := by
        rcases exit_handoff_cases hh with rfl | ⟨parent, codes, -, -, -, rfl⟩
        · rfl
        · rw [(thread_single_wakeup_frame _ cur).2.2.1]
          rfl
      have hcur3 : s3.curthread = some cur := (exit_handoff_space hcur hh).1
      have hcur2 : (exit_cleanup_state s3 cur).curthread = some cur := hcur3
      obtain ⟨-, -, -, hnp, -⟩ := mi_switch_some hcur2 hsw
      rw [hnp]
      exact hn1

theorem ex_chain_0_reachable : ReservedReachable exE ex_chain_0 :=
  ReservedReachable.step
    (ReservedReachable.step
      (ReservedReachable.boot (fun _ => blank_thread) (fun _ => ex_tf) (fun _ => 0)
        (ok_oracle 100) rfl (rfl : _ = some ex_s0))
      (ReservedStep.thread_fork "worker" 0 0 (.other 0) (ok_oracle 101) 0 (some 101)
        (by decide) (by decide)
        (rfl : thread_fork exE ex_s0 "worker" 0 0 (.other 0) (ok_oracle 101) =
          some (ex_chain_forked, 0, some 101)) (by decide)))
    (ReservedStep.other
      (Step.thread_sleep 700 (rfl : thread_sleep ex_chain_forked 700 = some ex_chain_0.1)) rfl)

theorem ex_chain_3_reachable : ReservedReachable exE ex_chain_3 :=
  fork_and_exit_reachable
    (fork_and_exit_reachable
      (fork_and_exit_reachable ex_chain_0_reachable (by decide) (by decide) (by decide)
        (rfl : fork_and_exit exE 102 ex_chain_0 = some ex_chain_1))
      (by decide) (by decide) (by decide)
      (rfl : fork_and_exit exE 103 ex_chain_1 = some ex_chain_2))
    (by decide) (by decide) (by decide)
    (rfl : fork_and_exit exE 104 ex_chain_2 = some ex_chain_3)

/-- C27 (the code at the failing input): zombies outnumber the room `thread_fork`
reserved.  The boot thread forks a worker and sleeps; each worker, started afresh (so without `exorcise`),
forks the next one and exits before it is preempted.  There are never more than three
live threads, so `thread_fork` never reserves more than three entries; after three
exits the zombie list holds three threads, and the exit of the fourth worker finds no
room reserved for the `array_add(zombies, cur)` of `mi_switch`: the list grows to four
entries. -/
theorem zombies_outgrow_reserved_room :
    ReservedReachable exE ex_chain_3 ∧
    ex_chain_3.2 = ⟨3, 3, 3⟩ ∧ ex_chain_3.1.numthreads = 2 ∧
    ex_chain_3.1.curthread = some 104 ∧ ex_chain_3.1.zombies = [101, 102, 103] ∧
    has_room ex_chain_3.2.zombies ex_chain_3.1.zombies.length = false ∧
    (thread_exit_with_code ex_chain_3.1 0).map (fun s => s.zombies) =
      some [101, 102, 103, 104] :=
  ⟨ex_chain_3_reachable, by decide, by decide, by decide, by decide, by decide, by decide⟩

theorem ReservedReachable.kernel_reachable {E : Extern} {p : Kernel × reserved}
    (h : ReservedReachable E p) : Reachable E p.1 := by
  induction h with
  | boot mem tfmem usermem o hok hb => exact Reachable.boot mem tfmem usermem o hok hb
  | step _ hstep ih =>
    cases hstep with
    | thread_fork name data1 data2 func o rv r hfresh hz hf hroom =>
      exact Reachable.step ih
        (Step.thread_fork name data1 data2 func o rv r hfresh hz hf hroom)
    | sys_fork tf o hfresh hz hf hroom =>
      exact Reachable.step ih (Step.sys_fork tf o hfresh hz hf hroom)
    | other hs _ => exact Reachable.step ih hs

/-- With every allocation granted, `thread_fork` by a current thread succeeds. -/
theorem thread_fork_ok (E : Extern) (s : Kernel) (name : String) (data1 data2 : Addr)
    (func : entry_func) (a cur : Addr) (hcur : s.curthread = some cur) :
    ∃ s', thread_fork E s name data1 data2 func (ok_oracle a) = some (s', 0, some a) := by
  obtain ⟨s2, h⟩ := thread_fork_reaches_atomic E s name data1 data2 func (ok_oracle a) cur hcur
    rfl rfl rfl rfl
  rw [h]
  refine ⟨(thread_fork_atomic s2 a (ok_oracle a)).1, ?_⟩
  simp [thread_fork_atomic, add_thread_to_array, ok_oracle]

/-- The lists after an exit in a reachable state, when nobody sleeps on the exiting
thread: it has become a zombie, the head of the run queue runs, and the sleepers and
all sleep addresses are as before. -/
theorem thread_exit_lists {E : Extern} {s : Kernel} {cur : Addr} (k : Int)
    (hr : Reachable E s) (hcur : s.curthread = some cur)
    (hno : ∀ x ∈ s.sleepers, (s.mem x).t_sleepaddr ≠ some cur) :
    ∃ s', thread_exit_with_code s k = some s' ∧ s'.zombies = s.zombies ++ [cur] ∧
      s'.curthread = s.runqueue.head? ∧ s'.runqueue = s.runqueue.tail ∧
      s'.sleepers = s.sleepers ∧ s'.numthreads = s.numthreads - 1 ∧
      s'.nextpid = s.nextpid ∧ ∀ a, (s'.mem a).t_sleepaddr = (s.mem a).t_sleepaddr := by
  rcases Option.eq_none_or_eq_some (get_thread_from_array s (s.mem cur).ppid) with
    hnp | ⟨parent, hp⟩
  · have hc := thread_exit_cleanup_eq hcur (exit_handoff_no_parent s cur k hnp)
      (hr.numthreads_pos hcur)
    obtain ⟨s', hs'⟩ := mi_switch_isSome (exit_cleanup_state s cur) .S_ZOMB (by decide)
    have hcur1 : (exit_cleanup_state s cur).curthread = some cur := hcur
    obtain ⟨hm, -, hn, hnp', -, -, hz, hc', hrq, hsl⟩ := mi_switch_some hcur1 hs'
    simp only [reduceCtorEq, if_false, if_true] at hz hc' hrq hsl
    refine ⟨s', by rw [thread_exit_with_code, hc]; exact hs', hz, hc', hrq, hsl, hn, hnp', ?_⟩
    intro a
    rw [hm]
    exact (exit_cleanup_state_pid s cur a).2.2
  · obtain ⟨codes, s', -, hne, -, -, hsw, hex⟩ := thread_exit_with_parent k hr hcur hp
    obtain ⟨-, -, -, e4, e5, e6⟩ := exit_before_switch s cur parent codes k hne
    obtain ⟨-, -, hwnp, -, hwn, hwz⟩ :=
      thread_single_wakeup_frame (handoff_state s cur parent codes k) cur
    have hcur2 := e5.trans hcur
    obtain ⟨hm, -, hn, hnp', -, -, hz, hc', hrq, hsl⟩ := mi_switch_some hcur2 hsw
    simp only [reduceCtorEq, if_false, if_true] at hz hc' hrq hsl
    rcases e6 with ⟨-, hs, hq⟩ | ⟨t, pre, post, hl, ht, -⟩
    · refine ⟨s', hex, ?_, ?_, ?_, ?_, ?_, ?_, ?_⟩
      · rw [hz]
        simp only [exit_cleanup_state, setThread_zombies, hwz]
        rfl
      · rw [hc', hq]
      · rw [hrq, hq]
      · rw [hsl, hs]
      · rw [hn]
        simp only [exit_cleanup_state, hwn]
        rfl
      · rw [hnp']
        simp only [exit_cleanup_state, setThread_nextpid, hwnp]
        rfl
      · intro a
        rw [hm]
        exact e4 a
    · exact absurd ht (hno t (by rw [hl]; simp))

theorem exists_fresh_addr (l : List Addr) : ∃ a, a ∉ l := by
  have h : ∀ l : List Addr, ∃ b, ∀ x ∈ l, x < b := by
    intro l
    induction l with
    | nil => exact ⟨0, fun x hx => by cases hx⟩
    | cons y t ih =>
      obtain ⟨b, hb⟩ := ih
      refine ⟨max b (y + 1), ?_⟩
      intro x hx
      rcases List.mem_cons.mp hx with rfl | hx
      · exact lt_of_lt_of_le (Nat.lt_succ_self _) (le_max_right _ _)
      · exact lt_of_lt_of_le (hb x hx) (le_max_left _ _)
  obtain ⟨b, hb⟩ := h l
  exact ⟨b, fun hmem => lt_irrefl b (hb b hmem)⟩

theorem array_preallocate_le {max nguys b : Int} (h1 : max ≤ b) (h2 : nguys ≤ b) :
    array_preallocate max nguys ≤ b := by
  unfold array_preallocate
  split <;> assumption

theorem le_array_preallocate (max nguys : Int) :
    max ≤ array_preallocate max nguys ∧ nguys ≤ array_preallocate max nguys := by
  unfold array_preallocate
  split <;> constructor <;> omega

theorem thread_sleep_nextpid {s s' : Kernel} {addr : Addr} (h : thread_sleep s addr = some s') :
    s'.nextpid = s.nextpid := by
  unfold thread_sleep at h
  rcases Option.eq_none_or_eq_some s.curthread with hcur | ⟨cur, hcur⟩
  · simp [hcur] at h
  · simp only [hcur] at h
    have hcur1 : (s.setThread cur { s.mem cur with t_sleepaddr := some addr }).curthread
        = some cur := hcur
    exact (mi_switch_some hcur1 h).2.2.2.1

/-- One link of the chain, from any reachable state in which the current thread is the
only one that can run, two threads are live, and nobody sleeps on the current thread:
the thread forks another at a new address and exits.  The new thread is current, the
same holds of it, at most three entries are reserved, and there is one zombie more. -/
theorem chain_link {E : Extern} {s : Kernel} {c : reserved} {cur : Addr}
    (hp : ReservedReachable E (s, c)) (hcur : s.curthread = some cur)
    (hrq : s.runqueue = []) (hn : s.numthreads = 2)
    (hc : c.sleepers ≤ 3 ∧ c.zombies ≤ 3 ∧ c.runqueue ≤ 3)
    (hno : ∀ x ∈ s.sleepers, (s.mem x).t_sleepaddr ≠ some cur)
    (hroom : s.nextpid < 2 ^ 31 - 1) :
    ∃ s' c' cur', ReservedReachable E (s', c') ∧ s'.curthread = some cur' ∧
      s'.runqueue = [] ∧ s'.numthreads = 2 ∧
      (c'.sleepers ≤ 3 ∧ c'.zombies ≤ 3 ∧ c'.runqueue ≤ 3) ∧
      (∀ x ∈ s'.sleepers, (s'.mem x).t_sleepaddr ≠ some cur') ∧
      s'.zombies.length = s.zombies.length + 1 ∧ s'.nextpid = s.nextpid + 1 := by
  have hr : Reachable E s := hp.kernel_reachable
  obtain ⟨a, ha⟩ := exists_fresh_addr
    (s.thread_array ++ s.zombies ++ s.sleepers.filterMap (fun x => (s.mem x).t_sleepaddr))
  have hfresh : a ∉ s.thread_array := fun h => ha (by simp [h])
  have hz : a ∉ s.zombies := fun h => ha (by simp [h])
  have htok : ∀ x ∈ s.sleepers, (s.mem x).t_sleepaddr ≠ some a := by
    intro x hx he
    apply ha
    apply List.mem_append_right
    exact List.mem_filterMap.mpr ⟨x, hx, he⟩
  have hns : a ∉ s.sleepers := by
    intro h
    apply hfresh
    apply hr.inv.live_reg
    unfold live
    simp [h]
  obtain ⟨s1, hf⟩ := thread_fork_ok E s "worker" 0 0 (.other 0) a cur hcur
  obtain ⟨hm1, hsl1, hz1, hcur1, -, -, hcase⟩ :=
    thread_fork_room hr.inv.pid_ne_nextpid hfresh hf
      (wrap32_nextpid hr.inv.nextpid_pos hroom)
  have hp1 : ReservedReachable E (s1, thread_fork_reserve s (ok_oracle a) c) :=
    ReservedReachable.step hp
      (ReservedStep.thread_fork "worker" 0 0 (.other 0) (ok_oracle a) 0 (some a) hfresh hz hf
        hroom)
  rcases hcase with ⟨hnone, -⟩ | ⟨-, -, -, hrq1, hn1, hnp1, -⟩
  · cases hnone
  have hno1 : ∀ x ∈ s1.sleepers, (s1.mem x).t_sleepaddr ≠ some cur := by
    intro x hx
    rw [hsl1] at hx
    have hxa : x ≠ (ok_oracle a).newguy := by
      rintro rfl
      exact hns hx
    rw [hm1 x hxa]
    exact hno x hx
  obtain ⟨s2, hex, hz2, hcur2, hrq2, hsl2, hn2, hnp2, htok2⟩ :=
    thread_exit_lists 0 hp1.kernel_reachable (hcur1.trans hcur) hno1
  have hp2 : ReservedReachable E (s2, thread_fork_reserve s (ok_oracle a) c) :=
    ReservedReachable.step hp1 (ReservedStep.other (Step.thread_exit_with_code 0 hex) hnp2)
  refine ⟨s2, thread_fork_reserve s (ok_oracle a) c, a, hp2, ?_, ?_, ?_, ?_, ?_, ?_,
    by rw [hnp2, hnp1]⟩
  · rw [hcur2, hrq1, hrq]
    rfl
  · rw [hrq2, hrq1, hrq]
    rfl
  · rw [hn2, hn1, hn]
    rfl
  · simp only [thread_fork_reserve, thread_fork_preallocate, ok_oracle, hn, Bool.and_self,
      if_true, ne_eq, not_true_eq_false, if_false, Bool.true_eq_false]
    exact ⟨array_preallocate_le hc.1 (by norm_num), array_preallocate_le hc.2.1 (by norm_num),
      array_preallocate_le hc.2.2 (by norm_num)⟩
  · intro x hx
    rw [hsl2, hsl1] at hx
    have hxa : x ≠ (ok_oracle a).newguy := by
      rintro rfl
      exact hns hx
    rw [htok2 x, hm1 x hxa]
    exact htok x hx
  · rw [hz2, hz1, List.length_append]
    rfl

/-- The start of the chain in any environment: after boot the first thread forks a
worker and goes to sleep on an address that is no thread's. -/
theorem chain_start (E : Extern) :
    ∃ s c cur, ReservedReachable E (s, c) ∧ s.curthread = some cur ∧
      s.runqueue = [] ∧ s.numthreads = 2 ∧
      (c.sleepers ≤ 3 ∧ c.zombies ≤ 3 ∧ c.runqueue ≤ 3) ∧
      (∀ x ∈ s.sleepers, (s.mem x).t_sleepaddr ≠ some cur) ∧ s.zombies.length = 0 ∧
      s.nextpid = 3 := by
  have hp0 : ReservedReachable E (ex_s0, ⟨0, 0, 0⟩) :=
    ReservedReachable.boot (fun _ => blank_thread) (fun _ => ex_tf) (fun _ => 0)
      (ok_oracle 100) rfl rfl
  have hr0 : Reachable E ex_s0 := hp0.kernel_reachable
  have hcur0 : ex_s0.curthread = some 100 := rfl
  obtain ⟨s1, hf⟩ := thread_fork_ok E ex_s0 "worker" 0 0 (.other 0) 101 100 hcur0
  have hfresh : (ok_oracle 101).newguy ∉ ex_s0.thread_array := by decide
  have hz : (ok_oracle 101).newguy ∉ ex_s0.zombies := by decide
  have hroom0 : ex_s0.nextpid < 2 ^ 31 - 1 := by decide
  obtain ⟨hm1, hsl1, hz1, hcur1, -, -, hcase⟩ :=
    thread_fork_room hr0.inv.pid_ne_nextpid hfresh hf
      (wrap32_nextpid hr0.inv.nextpid_pos hroom0)
  have hp1 : ReservedReachable E (s1, thread_fork_reserve ex_s0 (ok_oracle 101) ⟨0, 0, 0⟩) :=
    ReservedReachable.step hp0
      (ReservedStep.thread_fork "worker" 0 0 (.other 0) (ok_oracle 101) 0 (some 101) hfresh hz hf
        hroom0)
  rcases hcase with ⟨hnone, -⟩ | ⟨-, -, -, hrq1, hn1, hnp1, -⟩
  · cases hnone
  obtain ⟨s2, hs2, hsl2, htok2, hm2, hcur2, hrq2, hz2, -, hn2⟩ :=
    thread_sleep_effect s1 100 700 (hcur1.trans hcur0)
  have hp2 : ReservedReachable E (s2, thread_fork_reserve ex_s0 (ok_oracle 101) ⟨0, 0, 0⟩) :=
    ReservedReachable.step hp1
      (ReservedStep.other (Step.thread_sleep 700 hs2) (thread_sleep_nextpid hs2))
  refine ⟨s2, _, 101, hp2, ?_, ?_, ?_, by decide, ?_, ?_, ?_⟩
  · rw [hcur2, hrq1]
    rfl
  · rw [hrq2, hrq1]
    rfl
  · rw [hn2, hn1]
    rfl
  · intro x hx
    rw [hsl2, hsl1] at hx
    have hx100 : x = 100 := by simpa [ex_s0] using hx
    subst hx100
    rw [htok2]
    decide
  · rw [hz2, hz1]
    rfl
  · rw [thread_sleep_nextpid hs2, hnp1]
    rfl

/-- The zombie list is not bounded by what `thread_fork` reserves: for every `n` within
the range of the pid counter (each zombie has used up a pid) the thread system reaches a
state with `n` zombies and a current thread (which can exit and become the next zombie)
in which `thread_fork` has reserved at most three entries in each list. -/
theorem zombies_unbounded (E : Extern) (n : Nat) (hpids : (n : Int) + 3 ≤ 2 ^ 31 - 1) :
    ∃ s c cur, ReservedReachable E (s, c) ∧ s.curthread = some cur ∧
      s.runqueue = [] ∧ s.numthreads = 2 ∧
      (c.sleepers ≤ 3 ∧ c.zombies ≤ 3 ∧ c.runqueue ≤ 3) ∧
      (∀ x ∈ s.sleepers, (s.mem x).t_sleepaddr ≠ some cur) ∧ s.zombies.length = n ∧
      s.nextpid = n + 3 := by
  induction n with
  | zero => simpa using chain_start E
  | succ n ih =>
    obtain ⟨s, c, cur, hp, hcur, hrq, hn, hc, hno, hlen, hnext⟩ :=
      ih (by push_cast at hpids; omega)
    obtain ⟨s', c', cur', hp', hcur', hrq', hn', hc', hno', hlen', hnext'⟩ :=
      chain_link hp hcur hrq hn hc hno (by rw [hnext]; push_cast at hpids; omega)
    refine ⟨s', c', cur', hp', hcur', hrq', hn', hc', hno', by rw [hlen', hlen], ?_⟩
    rw [hnext', hnext]
    push_cast
    ring

/-- What a reservation of `thread_fork` for `n + 1` entries does to the room reserved:
each of the three numbers stays or becomes at least `n + 1`, and none shrinks. -/
theorem thread_fork_preallocate_cases (n : Int) (o : fork_oracle) (c : reserved) :
    (c.sleepers ≤ (thread_fork_preallocate n o c).sleepers ∧
      ((thread_fork_preallocate n o c).sleepers = c.sleepers ∨
        n + 1 ≤ (thread_fork_preallocate n o c).sleepers)) ∧
    (c.zombies ≤ (thread_fork_preallocate n o c).zombies ∧
      ((thread_fork_preallocate n o c).zombies = c.zombies ∨
        n + 1 ≤ (thread_fork_preallocate n o c).zombies)) ∧
    (c.runqueue ≤ (thread_fork_preallocate n o c).runqueue ∧
      ((thread_fork_preallocate n o c).runqueue = c.runqueue ∨
        n + 1 ≤ (thread_fork_preallocate n o c).runqueue)) ∧
    (o.array_ok = true → o.sleepers_err = 0 → o.zombies_err = 0 → o.scheduler_err = 0 →
      n + 1 ≤ (thread_fork_preallocate n o c).sleepers ∧
      n + 1 ≤ (thread_fork_preallocate n o c).zombies ∧
      n + 1 ≤ (thread_fork_preallocate n o c).runqueue) := by
  have hs := le_array_preallocate c.sleepers (n + 1)
  have hz := le_array_preallocate c.zombies (n + 1)
  have hq := le_array_preallocate c.runqueue (n + 1)
  by_cases h0 : o.array_ok = true
  · by_cases h1 : o.sleepers_err = 0
    · by_cases h2 : o.zombies_err = 0
      · by_cases h3 : o.scheduler_err = 0
        · have hv : thread_fork_preallocate n o c =
              ⟨array_preallocate c.sleepers (n + 1), array_preallocate c.zombies (n + 1),
                array_preallocate c.runqueue (n + 1)⟩ := by
            simp [thread_fork_preallocate, h0, h1, h2, h3]
          rw [hv]
          exact ⟨⟨hs.1, Or.inr hs.2⟩, ⟨hz.1, Or.inr hz.2⟩, ⟨hq.1, Or.inr hq.2⟩,
            fun _ _ _ _ => ⟨hs.2, hz.2, hq.2⟩⟩
        · have hv : thread_fork_preallocate n o c =
              ⟨array_preallocate c.sleepers (n + 1), array_preallocate c.zombies (n + 1),
                c.runqueue⟩ := by
            simp [thread_fork_preallocate, h0, h1, h2, h3]
          rw [hv]
          exact ⟨⟨hs.1, Or.inr hs.2⟩, ⟨hz.1, Or.inr hz.2⟩, ⟨le_refl _, Or.inl rfl⟩,
            fun _ _ _ h => absurd h h3⟩
      · have hv : thread_fork_preallocate n o c =
            ⟨array_preallocate c.sleepers (n + 1), c.zombies, c.runqueue⟩ := by
          simp [thread_fork_preallocate, h0, h1, h2]
        rw [hv]
        exact ⟨⟨hs.1, Or.inr hs.2⟩, ⟨le_refl _, Or.inl rfl⟩, ⟨le_refl _, Or.inl rfl⟩,
          fun _ _ h _ => absurd h h2⟩
    · have hv : thread_fork_preallocate n o c = c := by
        simp [thread_fork_preallocate, h0, h1]
      rw [hv]
      exact ⟨⟨le_refl _, Or.inl rfl⟩, ⟨le_refl _, Or.inl rfl⟩, ⟨le_refl _, Or.inl rfl⟩,
        fun _ h _ _ => absurd h h1⟩
  · have h0' : o.array_ok = false := by simpa using h0
    have hv : thread_fork_preallocate n o c = c := by
      simp [thread_fork_preallocate, h0']
    rw [hv]
    exact ⟨⟨le_refl _, Or.inl rfl⟩, ⟨le_refl _, Or.inl rfl⟩, ⟨le_refl _, Or.inl rfl⟩,
      fun h _ _ _ => absurd h h0⟩

/-- A `thread_create` that returns a thread was granted all three allocations. -/
theorem thread_create_some_oracle {s s1 : Kernel} {name : String} {o : fork_oracle} {x : Addr}
    (h : thread_create s name o = some (s1, some x)) :
    o.thread_ok = true ∧ o.name_ok = true ∧ o.codes_ok = true := by
  unfold thread_create at h
  split at h
  · simp at h
  · rename_i h1
    split at h
    · simp at h
    · rename_i h2
      by_cases h3 : o.codes_ok = true
      · exact ⟨by simpa using h1, by simpa using h2, h3⟩
      · exfalso
        simp only [h3, if_false] at h
        split at h <;> simp at h

/-- A `thread_fork` that stores a thread through `ret` was granted everything. -/
theorem thread_fork_some_oracle {E : Extern} {s s' : Kernel} {name : String}
    {data1 data2 : Addr} {func : entry_func} {o : fork_oracle} {rv : Int} {x : Addr}
    (h : thread_fork E s name data1 data2 func o = some (s', rv, some x)) :
    (o.thread_ok && o.name_ok && o.codes_ok && o.stack_ok) = true ∧ o.array_ok = true ∧
    o.sleepers_err = 0 ∧ o.zombies_err = 0 ∧ o.scheduler_err = 0 ∧ o.runnable_err = 0 := by
  unfold thread_fork at h
  rcases Option.eq_none_or_eq_some (thread_create s name o) with hc | ⟨⟨s1, rc⟩, hc⟩
  · simp [hc] at h
  rcases Option.eq_none_or_eq_some rc with rfl | ⟨newguy, rfl⟩
  · simp [hc] at h
  obtain ⟨h1, h2, h3⟩ := thread_create_some_oracle hc
  simp only [hc] at h
  split at h
  · simp at h
  · rename_i h4
    have h4' : o.stack_ok = true := by simpa using h4
    refine ⟨by simp [h1, h2, h3, h4'], ?_⟩
    rcases Option.eq_none_or_eq_some s1.curthread with hcur | ⟨cur, hcur⟩
    · simp [hcur] at h
    · simp only [hcur, Option.some.injEq] at h
      by_contra hn
      have hfail : o.array_ok = false ∨ o.sleepers_err ≠ 0 ∨ o.zombies_err ≠ 0 ∨
          o.scheduler_err ≠ 0 ∨ o.runnable_err ≠ 0 := by
        by_cases a0 : o.array_ok = true
        · by_cases a1 : o.sleepers_err = 0
          · by_cases a2 : o.zombies_err = 0
            · by_cases a3 : o.scheduler_err = 0
              · by_cases a4 : o.runnable_err = 0
                · exact absurd ⟨a0, a1, a2, a3, a4⟩ hn
                · exact Or.inr (Or.inr (Or.inr (Or.inr a4)))
              · exact Or.inr (Or.inr (Or.inr (Or.inl a3)))
            · exact Or.inr (Or.inr (Or.inl a2))
          · exact Or.inr (Or.inl a1)
        · exact Or.inl (by simpa using a0)
      have hx := congrArg (fun p => p.2.2) h
      simp only [] at hx
      rw [(thread_fork_atomic_fail _ newguy o hfail).2] at hx
      cases hx

/-- The ways `sys_fork` can go: it does not get to `thread_fork`, reserves nothing and
creates nothing; or it calls `thread_fork` in the state with the trap frame stored, and
what `thread_fork` reserves and leaves is what `sys_fork` reserves and leaves. -/
theorem sys_fork_cases {E : Extern} {s s' : Kernel} {tf : trapframe} {o : sys_fork_oracle}
    (h : (sys_fork E s tf o).state = some s') :
    ((∀ c, sys_fork_reserve E s o c = c) ∧ s'.numthreads = s.numthreads ∧
      s'.nextpid = s.nextpid) ∨
    ((∀ c, sys_fork_reserve E s o c = thread_fork_reserve s o.fork c) ∧
      ∃ m tfc ac rv r, thread_fork E { s with tfmem := m } "User Thread Fork" tfc ac
        .md_forkentry o.fork = some (s', rv, r)) := by
  unfold sys_fork at h
  by_cases hceil : thread_count s > E.MAX_THREADS
  · rw [if_pos hceil] at h
    simp only [SysRet.state, Option.some.injEq] at h
    subst h
    exact Or.inl ⟨fun c => by simp [sys_fork_reserve, hceil], rfl, rfl⟩
  rw [if_neg hceil] at h
  rcases Option.eq_none_or_eq_some o.tf_child with htf | ⟨tf_child, htf⟩
  · simp only [htf, SysRet.state, Option.some.injEq] at h
    subst h
    exact Or.inl ⟨fun c => by simp [sys_fork_reserve, hceil, htf], rfl, rfl⟩
  simp only [htf] at h
  generalize hs1 : ({ s with tfmem := Function.update s.tfmem tf_child tf } : Kernel) = s1 at h
  have hn1 : s1.numthreads = s.numthreads := by rw [← hs1]
  have hp1 : s1.nextpid = s.nextpid := by rw [← hs1]
  rcases Option.eq_none_or_eq_some o.addr_alloc with hal | ⟨x, hal⟩
  · simp only [hal, SysRet.state, Option.some.injEq] at h
    subst h
    exact Or.inl ⟨fun c => by simp [sys_fork_reserve, hceil, hal], hn1, hp1⟩
  simp only [hal] at h
  rcases Option.eq_none_or_eq_some s.curthread with hcur | ⟨cur, hcur⟩
  · simp [hcur, SysRet.state] at h
  simp only [hcur] at h
  rcases Option.eq_none_or_eq_some o.as_copy_ret with hac | ⟨addr_child, hac⟩
  · simp only [hac, SysRet.state, Option.some.injEq] at h
    subst h
    exact Or.inl ⟨fun c => by simp [sys_fork_reserve, hceil, hac], hn1, hp1⟩
  simp only [hac] at h
  rcases Option.eq_none_or_eq_some (thread_fork E s1 "User Thread Fork" tf_child addr_child
      .md_forkentry o.fork) with hf | ⟨⟨s2, rv, r⟩, hf⟩
  · simp [hf, SysRet.state] at h
  · right
    refine ⟨fun c => by simp [sys_fork_reserve, hceil, htf, hal, hac], ?_⟩
    simp only [hf] at h
    have hs : s2 = s' := by
      split at h <;>
        · simp only [SysRet.state, Option.some.injEq] at h
          exact h
    subst hs
    refine ⟨Function.update s.tfmem tf_child tf, tf_child, addr_child, rv, r, ?_⟩
    rw [hs1]
    exact hf

/-- What a `thread_fork` leaves of the count and of the room reserved: no reservation
has shrunk; and the count is as before, or it is one higher, a pid was handed out, and
each list has room reserved for that many entries. -/
theorem thread_fork_covers {E : Extern} {s s' : Kernel} {name : String} {data1 data2 : Addr}
    {func : entry_func} {o : fork_oracle} {rv : Int} {r : Option Addr}
    (hpids : ∀ x ∈ s.thread_array, (s.mem x).pid ≠ s.nextpid)
    (hfresh : o.newguy ∉ s.thread_array)
    (h : thread_fork E s name data1 data2 func o = some (s', rv, r)) (c : reserved) :
    (c.sleepers ≤ (thread_fork_reserve s o c).sleepers ∧
      c.zombies ≤ (thread_fork_reserve s o c).zombies ∧
      c.runqueue ≤ (thread_fork_reserve s o c).runqueue) ∧
    (s'.numthreads = s.numthreads ∨
     (s'.numthreads = s.numthreads + 1 ∧ s'.nextpid = wrap32 (s.nextpid + 1) ∧
      s.numthreads + 1 ≤ (thread_fork_reserve s o c).sleepers ∧
      s.numthreads + 1 ≤ (thread_fork_reserve s o c).zombies ∧
      s.numthreads + 1 ≤ (thread_fork_reserve s o c).runqueue)) := by
  obtain ⟨p1, p2, p3, p4⟩ := thread_fork_preallocate_cases s.numthreads o c
  constructor
  · unfold thread_fork_reserve
    split
    · exact ⟨p1.1, p2.1, p3.1⟩
    · exact ⟨le_refl _, le_refl _, le_refl _⟩
  · obtain ⟨-, -, -, -, -, -, hcase⟩ := thread_fork_effect hpids hfresh h
    rcases hcase with ⟨-, -, -, hn, -⟩ | ⟨hsome, -, -, -, hn, hnp, -⟩
    · exact Or.inl hn
    · right
      subst hsome
      obtain ⟨hflags, a0, a1, a2, a3, -⟩ := thread_fork_some_oracle h
      have hv : thread_fork_reserve s o c = thread_fork_preallocate s.numthreads o c := by
        unfold thread_fork_reserve
        rw [if_pos hflags]
      rw [hv]
      exact ⟨hn, hnp, p4 a0 a1 a2 a3⟩

/-- A step that creates no thread structure does not raise the count of live threads. -/
theorem Step_numthreads_le {E : Extern} {s s' : Kernel} (hI : Inv s) (h : Step E s s')
    (hnp : s'.nextpid = s.nextpid) : s'.numthreads ≤ s.numthreads := by
  cases h with
  | thread_fork name data1 data2 func o rv r hfresh hz h =>
    rcases (thread_fork_covers hI.pid_ne_nextpid hfresh h ⟨0, 0, 0⟩).2 with hn | ⟨-, hp, -⟩
    · exact le_of_eq hn
    · unfold wrap32 at hp
      omega
  | sys_fork tf o hfresh hz h =>
    rcases sys_fork_cases h with ⟨-, hn, -⟩ | ⟨-, m, tfc, ac, rv, r, hf⟩
    · exact le_of_eq hn
    · rcases (thread_fork_covers (Inv_tfmem hI m).pid_ne_nextpid hfresh hf ⟨0, 0, 0⟩).2 with
        hn | ⟨-, hp, -⟩
      · exact le_of_eq hn
      · have hp' : s'.nextpid = wrap32 (s.nextpid + 1) := hp
        unfold wrap32 at hp'
        omega
  | sys_waitpid pid status options h => exact le_of_eq (SameCount_sys_waitpid h).1
  | sys_waitpid_wakeup pid status h => exact le_of_eq (SameCount_sys_waitpid_wakeup h).1
  | thread_exit_with_code exitcode h =>
    obtain ⟨cur, s1, hcur, hh, -, hsw⟩ := thread_exit_with_code_some h
    obtain ⟨hcur1, hsame⟩ := exit_handoff_count hcur hh
    have hcur2 : (exit_cleanup_state s1 cur).curthread = some cur := hcur1
    have hn := (mi_switch_some hcur2 hsw).2.2.1
    have h1 : (exit_cleanup_state s1 cur).numthreads = s1.numthreads - 1 := rfl
    have h2 := hsame.1
    omega
  | thread_yield h => exact le_of_eq (SameCount_mi_switch (by decide) h).1
  | mi_switch_return h => exact le_of_eq (SameCount_exorcise h).1
  | thread_sleep addr h => exact le_of_eq (SameCount_thread_sleep h).1
  | thread_sleep_return h => exact le_of_eq (SameCount_thread_sleep_return h).1
  | thread_wakeup addr => exact le_refl _
  | thread_single_wakeup addr =>
    exact le_of_eq (thread_single_wakeup_frame s addr).2.2.2.2.1
  | dispatch hcur =>
    apply le_of_eq
    unfold scheduler
    split <;> rfl
  | md_forkentry tf addrspace tf' h =>
    unfold md_forkentry at h
    rcases Option.eq_none_or_eq_some s.curthread with hcur | ⟨cur, hcur⟩
    · simp [hcur] at h
    · simp only [hcur, Option.some.injEq, Prod.mk.injEq] at h
      obtain ⟨rfl, -⟩ := h
      exact le_refl _
  | set_vmspace cur v _ => exact le_refl _
  | set_cwd cur v _ => exact le_refl _
  | user_store m => exact le_refl _

theorem thread_bootstrap_numthreads {s : Kernel} {mem : Addr → thread}
    {tfmem : Addr → trapframe} {usermem : Addr → Int} {o : fork_oracle}
    (h : thread_bootstrap mem tfmem usermem o = some s) : s.numthreads = 1 := by
  unfold thread_bootstrap at h
  dsimp only at h
  split at h
  · simp only [Option.some.injEq] at h
    subst h
    rfl
  · cases h

/-- Every step keeps the live threads covered by the room reserved. -/
theorem Covered_step {E : Extern} {p p' : Kernel × reserved} (hI : Inv p.1) (hC : Covered p)
    (h : ReservedStep E p p') : Covered p' := by
  obtain ⟨c1, c2, c3⟩ := hC
  cases h with
  | thread_fork name data1 data2 func o rv r hfresh hz hf =>
    obtain ⟨⟨m1, m2, m3⟩, hcase⟩ := thread_fork_covers hI.pid_ne_nextpid hfresh hf _
    unfold Covered
    simp only [] at c1 c2 c3 ⊢
    rcases hcase with hn | ⟨hn, -, r1, r2, r3⟩
    · rw [hn]
      exact ⟨le_trans c1 (max_le_max m1 (le_refl _)), le_trans c2 (max_le_max m2 (le_refl _)),
        le_trans c3 (max_le_max m3 (le_refl _))⟩
    · rw [hn]
      exact ⟨le_trans r1 (le_max_left _ _), le_trans r2 (le_max_left _ _),
        le_trans r3 (le_max_left _ _)⟩
  | sys_fork tf o hfresh hz hf =>
    unfold Covered
    simp only [] at c1 c2 c3 hI ⊢
    rcases sys_fork_cases hf with ⟨hres, hn, -⟩ | ⟨hres, m, tfc, ac, rv, r, hf'⟩
    · rw [hres, hn]
      exact ⟨c1, c2, c3⟩
    · rw [hres]
      obtain ⟨⟨m1, m2, m3⟩, hcase⟩ :=
        thread_fork_covers (Inv_tfmem hI m).pid_ne_nextpid hfresh hf' _
      rcases hcase with hn | ⟨hn, -, r1, r2, r3⟩
      · rw [hn]
        exact ⟨le_trans c1 (max_le_max m1 (le_refl _)),
          le_trans c2 (max_le_max m2 (le_refl _)), le_trans c3 (max_le_max m3 (le_refl _))⟩
      · rw [hn]
        exact ⟨le_trans r1 (le_max_left _ _), le_trans r2 (le_max_left _ _),
          le_trans r3 (le_max_left _ _)⟩
  | other hs hnp =>
    have hle := Step_numthreads_le hI hs hnp
    exact ⟨le_trans hle c1, le_trans hle c2, le_trans hle c3⟩

/-- In every state of the thread system the room `thread_fork` has reserved in each
list is at least the number of live threads, as soon as it has reserved at all. -/
theorem ReservedReachable.covered {E : Extern} {p : Kernel × reserved}
    (h : ReservedReachable E p) : Covered p := by
  induction h with
  | boot mem tfmem usermem o hok hb =>
    have hn := thread_bootstrap_numthreads hb
    unfold Covered
    simp only []
    rw [hn]
    exact ⟨le_max_right _ _, le_max_right _ _, le_max_right _ _⟩
  | step hp hstep ih => exact Covered_step hp.kernel_reachable.inv ih hstep

/-- Sleepers and run queue are covered: once `thread_fork` has reserved room in the
sleepers array and in the run queue, it has reserved enough for all live threads: the current
thread, the run queue and the sleepers together are no more than the entries reserved
in either list.  So the current thread finds room among the sleepers and in the run
queue, and so do all sleepers in the run queue when they are woken. -/
theorem reserved_room_covers_live_threads (E : Extern) (s : Kernel) (c : reserved)
    (hp : ReservedReachable E (s, c)) :
    (0 < c.sleepers → ((live s).length : Int) ≤ c.sleepers ∧
      ∀ cur, s.curthread = some cur → has_room c.sleepers s.sleepers.length = true) ∧
    (0 < c.runqueue → ((live s).length : Int) ≤ c.runqueue ∧
      (∀ cur, s.curthread = some cur → has_room c.runqueue s.runqueue.length = true) ∧
      (s.sleepers ≠ [] → has_room c.runqueue s.runqueue.length = true)) := by
  obtain ⟨c1, -, c3⟩ := hp.covered
  have hC := hp.kernel_reachable.counted
  unfold Counted at hC
  simp only [] at c1 c3
  have hlen : (live s).length = s.curthread.toList.length + (s.runqueue.length + s.sleepers.length) := by
    unfold live
    simp
  constructor
  · intro hpos
    have hmax : max c.sleepers 1 = c.sleepers := max_eq_left (by omega)
    rw [hmax, hC] at c1
    refine ⟨c1, ?_⟩
    intro cur hcur
    rw [hlen, hcur] at c1
    simp only [Option.toList, List.length_cons, List.length_nil] at c1
    unfold has_room
    simp only [decide_eq_true_eq]
    push_cast at c1
    omega
  · intro hpos
    have hmax : max c.runqueue 1 = c.runqueue := max_eq_left (by omega)
    rw [hmax, hC] at c3
    refine ⟨c3, ?_, ?_⟩
    · intro cur hcur
      rw [hlen, hcur] at c3
      simp only [Option.toList, List.length_cons, List.length_nil] at c3
      unfold has_room
      simp only [decide_eq_true_eq]
      push_cast at c3
      omega
    · intro hne
      have hsl : 0 < s.sleepers.length := List.length_pos.mpr hne
      rw [hlen] at c3
      unfold has_room
      simp only [decide_eq_true_eq]
      push_cast at c3
      omega

/-! ## Calls of the kernel: who waits for whom -/

/-! ## What a step does to sleepers, registry and records -/

/-- A step that changes neither the registry nor the sleep set and writes to the
running thread's structure only, keeping pids. -/
theorem Moves_local {s s' : Kernel} (hta : s'.thread_array = s.thread_array)
    (hsl : s'.sleepers = s.sleepers)
    (hrq : ∀ x ∈ s.runqueue, x ∈ s'.runqueue ∨ s'.curthread = some x)
    (hpid : ∀ a, (s'.mem a).pid = (s.mem a).pid ∧ (s'.mem a).ppid = (s.mem a).ppid)
    (hmem : ∀ a, s.curthread ≠ some a → s'.mem a = s.mem a) : Moves s s' where
  ids := fun a _ => hpid a
  idle := fun a _ hna => ⟨by rw [hmem a hna], fun l hl => ⟨[], by rw [hmem a hna]; simpa using hl⟩⟩
  ready := hrq
  slept := fun x hx => Or.inl (hsl ▸ hx)
  woken := fun x hx => Or.inl (hsl.symm ▸ hx)
  registered := fun c hc => Or.inl (hta ▸ hc)
  unregistered := fun c hc => Or.inl (hta.symm ▸ hc)

theorem Moves_refl (s : Kernel) : Moves s s :=
  Moves_local rfl rfl (fun _ hx => Or.inl hx) (fun _ => ⟨rfl, rfl⟩) (fun _ _ => rfl)

theorem Moves_copyout {E : Extern} (s : Kernel) (val : Int) (dst : Addr) :
    Moves s (copyout E s val dst).2 := by
  unfold copyout
  split
  · exact Moves_local rfl rfl (fun _ hx => Or.inl hx) (fun _ => ⟨rfl, rfl⟩) (fun _ _ => rfl)
  · exact Moves_refl s

theorem wrap32_wrap32_succ (x : Int) : wrap32 (wrap32 x + 1) = wrap32 (x + 1) := by
  unfold wrap32
  omega

theorem Reachable.exec {E : Extern} {s : Kernel} (h : Reachable E s) : ExecReachable E s := by
  induction h with
  | boot mem tfmem usermem o hok hb => exact ExecReachable.boot mem tfmem usermem o hok hb
  | step _ hstep ih => exact ExecReachable.step ih (Exec.step hstep)

/-- A `thread_fork` under `lost_oracle` uses up a pid and fails. -/
theorem thread_fork_lost (E : Extern) (s : Kernel) (cur a : Addr)
    (hcur : s.curthread = some cur) (hrange : wrap32 s.nextpid = s.nextpid) :
    thread_fork E s "lost" 0 0 (.other 0) (lost_oracle a) =
      some (pids_lost s cur a 0, E.ENOMEM, none) := by
  have hname : ("lost" : String) ≠ "<boot/menu>" := by decide
  simp [thread_fork, thread_create, lost_oracle, ok_oracle, pids_lost, hcur, hname, hrange]

/-- The next `thread_fork` under `lost_oracle` uses up the next pid. -/
theorem thread_fork_lost_again (E : Extern) (s : Kernel) (cur a : Addr) (n : Nat)
    (hcur : s.curthread = some cur) (hne : a ≠ cur) :
    thread_fork E (pids_lost s cur a n) "lost" 0 0 (.other 0) (lost_oracle a) =
      some (pids_lost s cur a (n + 1), E.ENOMEM, none) := by
  have hname : ("lost" : String) ≠ "<boot/menu>" := by decide
  have hcur' : (pids_lost s cur a n).curthread = some cur := hcur
  simp only [thread_fork, thread_create, lost_oracle, ok_oracle, hcur', hname]
  simp [pids_lost, Kernel.setThread, Function.update_noteq hne.symm]
  rw [wrap32_wrap32_succ]
  have h1 : s.nextpid + (n : Int) + 1 = s.nextpid + ((n : Int) + 1) := by ring
  rw [h1]
  exact ⟨rfl, rfl⟩

/-- From a state with a running thread the thread system gets, by `thread_fork` calls
that fail after the pid has been handed out, into the same state with the pid counter
advanced by any number. -/
theorem ExecReachable.lose_pids {E : Extern} {s : Kernel} {cur a : Addr}
    (hr : ExecReachable E s) (hcur : s.curthread = some cur) (ha : a ∉ live s)
    (hz : a ∉ s.zombies) (hs : thread_hassleepers s a = false)
    (hrange : wrap32 s.nextpid = s.nextpid) (n : Nat) :
    ExecReachable E (pids_lost s cur a n) := by
  have hne : a ≠ cur := by
    rintro rfl
    exact ha (by simp [live, hcur])
  have hnsl : a ∉ s.sleepers := fun h => ha (by unfold live; simp [h])
  induction n with
  | zero =>
    exact ExecReachable.step hr
      (Exec.thread_fork "lost" 0 0 (.other 0) (lost_oracle a) E.ENOMEM none ha hz hs
        (thread_fork_lost E s cur a hcur hrange))
  | succ n ih =>
    refine ExecReachable.step ih
      (Exec.thread_fork "lost" 0 0 (.other 0) (lost_oracle a) E.ENOMEM none ha hz ?_
        (thread_fork_lost_again E s cur a n hcur hne))
    rw [Bool.eq_false_iff]
    intro hh
    obtain ⟨t, ht, he⟩ := (thread_hassleepers_iff _ a).mp hh
    have hts : t ∈ s.sleepers := ht
    have hta : t ≠ a := fun h => hnsl (h ▸ hts)
    have hmt : (pids_lost s cur a n).mem t = s.mem t := by
      simp [pids_lost, Kernel.setThread, Function.update_noteq hta]
    rw [hmt] at he
    have : thread_hassleepers s a = true := (thread_hassleepers_iff s a).mpr ⟨t, hts, he⟩
    rw [hs] at this
    cases this

/-! ## Example runs -/

theorem ex_pid_wrapped_reachable : ExecReachable exE ex_pid_wrapped :=
  ExecReachable.lose_pids ex_s0_reachable.exec rfl (by decide) (by decide) (by decide)
    (by decide) _

theorem ex_pid_reused_reachable : ExecReachable exE ex_pid_reused :=
  ExecReachable.step
    (ExecReachable.lose_pids ex_s0_reachable.exec rfl (by decide) (by decide) (by decide)
      (by decide) _)
    (Exec.thread_fork "worker" 0 0 (.other 0) (ok_oracle 101) 0 (some 101)
      (by decide) (by decide) (by decide)
      (rfl : thread_fork exE ex_pid_round "worker" 0 0 (.other 0) (ok_oracle 101) =
        some (ex_pid_reused, 0, some 101)))

theorem ex_record_twice_reachable : ExecReachable exE ex_record_twice :=
  ExecReachable.step
    (ExecReachable.step
      (ExecReachable.step
        (ExecReachable.lose_pids ex_parent_reachable.exec rfl (by decide) (by decide)
          (by decide) (by decide) _)
        (Exec.thread_fork "worker" 0 0 (.other 0) (ok_oracle 102) 0 (some 102)
          (by decide) (by decide) (by decide)
          (rfl : thread_fork exE ex_record_round "worker" 0 0 (.other 0) (ok_oracle 102) =
            some (ex_record_forked, 0, some 102))))
      (Exec.step
        (Step.thread_yield (rfl : thread_yield ex_record_forked = some ex_record_yielded))))
    (Exec.step (Step.thread_exit_with_code 9
      (rfl : thread_exit_with_code ex_record_yielded 9 = some ex_record_twice)))

/-! ## When a freed thread structure is handed out again -/

/-- C10 (as stated, refuted): a successful fork that returns a negative pid.  After
`2^31 - 2` pids have been handed out the pid counter has wrapped to `-2^31`; the next
`sys_fork` succeeds (it returns without an error, and the child is registered, runnable
and counted) and returns the pid `-2147483648` to the parent. -/
theorem sys_fork_returns_negative_pid :
    ExecReachable exE ex_pid_wrapped ∧ ex_pid_wrapped.nextpid = -2147483648 ∧
    ∃ s, sys_fork exE ex_pid_wrapped ex_tf (ok_fork 101) = .ret s (-2147483648) none ∧
      s.numthreads = ex_pid_wrapped.numthreads + 1 ∧ s.thread_array = [100, 101] ∧
      s.runqueue = [101] ∧ (s.mem 101).pid = -2147483648 :=
  ⟨ex_pid_wrapped_reachable, by decide, _, rfl, by decide, by decide, by decide, by decide⟩

/-- C21 (as stated, refuted): a pid is handed out twice.  After `2^32 - 1` pids have
been handed out the pid counter has come round to 1, the pid of the boot thread, which
is still running; the thread it forks then gets the pid 1 as well, so that two
registered threads have the same pid, and `get_thread_from_array` finds only the first
of them. -/
theorem thread_create_reuses_pid :
    ExecReachable exE ex_pid_reused ∧ ex_pid_round.nextpid = 1 ∧
    ex_pid_reused.thread_array = [100, 101] ∧ ex_pid_reused.curthread = some 100 ∧
    ex_pid_reused.runqueue = [101] ∧
    (ex_pid_reused.mem 100).pid = 1 ∧ (ex_pid_reused.mem 101).pid = 1 ∧
    get_thread_from_array ex_pid_reused 1 = some 100 :=
  ⟨ex_pid_reused_reachable, by decide, by decide, by decide, by decide, by decide, by decide,
    by decide⟩

/-- C23 (as stated, refuted): two records for one pid in one list.  The parent of
`ex_parent` holds the record of its child with pid 2, which exited with code 7, and does
not wait for it.  After `2^32` more pids have been handed out the pid counter has come
round to 2; the parent forks a child, which gets the pid 2 and exits with code 9: the
parent's list holds two records with the pid 2. -/
theorem child_exit_codes_two_records_for_pid :
    ExecReachable exE ex_record_twice ∧ ex_record_round.nextpid = 2 ∧
    (ex_record_forked.mem 102).pid = 2 ∧
    ex_record_twice.curthread = some 100 ∧ 100 ∈ ex_record_twice.thread_array ∧
    (ex_record_twice.mem 100).child_exit_codes = some [⟨2, 7⟩, ⟨2, 9⟩] :=
  ⟨ex_record_twice_reachable, by decide, by decide, by decide, by decide, by decide⟩

end OS161
